import Mathlib

/-!
ChickenOffsetFinder: a shallow embedding of the dump analyzer.

The definitions below follow `Src/DumpAnalyzer.cpp`.  Bytes and 64-bit
quantities are natural numbers; every place where the C++ code computes in
`std::uint64_t` / `std::size_t` arithmetic is reduced modulo `2 ^ 64`
explicitly.
-/

set_option autoImplicit false

namespace COF

/-! ## Machine arithmetic -/

/-- The modulus of `std::uint64_t` / `std::size_t` arithmetic. -/
def U64 : Nat := 2 ^ 64

/-- Addition of two `std::uint64_t` values. -/
def add64 (a b : Nat) : Nat := (a + b) % U64

/-- Subtraction of two `std::uint64_t` values (wraps around below zero). -/
def sub64 (a b : Nat) : Nat := (a + (U64 - b % U64)) % U64

/-! ## Byte patterns (`DumpAnalyzer::FindPattern`, buffer overload) -/

/-- Modelled from the spec: `DumpAnalyzer::PatternElem` is declared in
`DumpAnalyzer.h`, which is not among the sources; a pair `{ mask, value }` of
bytes, read in the code as `first` (the mask) and `second` (the value). -/
structure PatternElem where
  first : Nat
  second : Nat
deriving DecidableEq, Repr

/-- The inner loop of `FindPattern`: walks the pattern from `Pos` on and stops
with `false` at the first element whose masked buffer byte differs from the
value. -/
def IsMatched (Buffer : List Nat) : List PatternElem → Nat → Bool
  | [], _ => true
  | Elem :: Rest, Pos =>
    if (Buffer.getD Pos 0 &&& Elem.first) != Elem.second then false
    else IsMatched Buffer Rest (Pos + 1)

/-- The outer `for` loop of `FindPattern`; `Remaining` is the number of
iterations the loop still has to run. -/
def FindPatternLoop (Buffer : List Nat) (Pattern : List PatternElem) : Nat → Nat → Option Nat
  | 0, _ => none
  | Remaining + 1, Index =>
    if IsMatched Buffer Pattern Index then some Index
    else FindPatternLoop Buffer Pattern Remaining (Index + 1)

/-- `DumpAnalyzer::FindPattern(Buffer, Pattern)`: the loop runs for
`Index = 0 .. Buffer.size() - Pattern.size()` inclusive. -/
def FindPattern (Buffer : List Nat) (Pattern : List PatternElem) : Option Nat :=
  if Buffer.length < Pattern.length then none
  else FindPatternLoop Buffer Pattern (Buffer.length - Pattern.length + 1) 0

/-- The pattern `P` occurs in `B` at index `i`: it fits, and every element
matches by masked equality. -/
def PatternOccursAt (B : List Nat) (P : List PatternElem) (i : Nat) : Prop :=
  i + P.length ≤ B.length ∧
    ∀ k e, P[k]? = some e → (B.getD (i + k) 0 &&& e.first) = e.second

/-! ## Virtual offset translation -/

/-- `pmm::Region` (`Include/pmm.h`); the translation reads `AddressBegin` and
`AddressEnd` (inclusive). -/
structure Region where
  AddressBegin : Nat
  AddressEnd : Nat
  Protection : Nat := 0
  PrivateMemory : Bool := false
  InitiallyCommitted : Bool := false
deriving DecidableEq, Repr

/-- Modelled from the spec: `DumpAnalyzer::Metadata` is declared in
`DumpAnalyzer.h`, which is not among the sources; the three fields of
`MemoryDumper::Metadata` it is assigned from, and the `DumpSectionOffset` the
analysis stores in it. -/
structure Metadata where
  RegionsSectionSize : Nat := 0
  DumpSectionSize : Nat := 0
  BaseAddress : Nat := 0
  DumpSectionOffset : Nat := 0
deriving DecidableEq, Repr

/-- The body of the `for` loop of `TranslateVirtualOffsetToFileOffset`, with
the running `FileOffset` as accumulator. -/
def TranslateLoop (VirtualAddress : Nat) : List Region → Nat → Option Nat
  | [], _ => none
  | Region :: Rest, FileOffset =>
    let RegionSize := sub64 (add64 Region.AddressEnd 1) Region.AddressBegin
    if VirtualAddress ≥ Region.AddressBegin ∧ VirtualAddress ≤ Region.AddressEnd then
      let RegionOffset := sub64 VirtualAddress Region.AddressBegin
      some (add64 FileOffset RegionOffset)
    else TranslateLoop VirtualAddress Rest (add64 FileOffset RegionSize)

/-- `DumpAnalyzer::TranslateVirtualOffsetToFileOffset`. -/
def TranslateVirtualOffsetToFileOffset (InMetadata : Metadata) (InMemoryRegions : List Region)
    (VirtualOffset : Nat) : Option Nat :=
  let VirtualAddress := add64 InMetadata.BaseAddress VirtualOffset
  let DumpSectionOffset := InMetadata.DumpSectionOffset
  TranslateLoop VirtualAddress InMemoryRegions DumpSectionOffset

/-- The region covers the virtual address. -/
def Region.Covers (r : Region) (VA : Nat) : Prop :=
  r.AddressBegin ≤ VA ∧ VA ≤ r.AddressEnd

instance (r : Region) (VA : Nat) : Decidable (r.Covers VA) := by
  unfold Region.Covers; infer_instance

/-- The size `end - begin + 1` of a region, in 64-bit arithmetic. -/
def Region.Size64 (r : Region) : Nat :=
  add64 (sub64 r.AddressEnd r.AddressBegin) 1

/-! ## Pattern text (`DumpAnalyzer::ParsePattern`) -/

/-- `isspace` in the "C" locale, as used by `Stream >> Token`. -/
def isspace (c : Char) : Bool :=
  c = ' ' || c = '\t' || c = '\n' || c = '\r' || c.toNat = 11 || c.toNat = 12

/-- `isxdigit` in the "C" locale. -/
def isxdigit (c : Char) : Bool :=
  (48 ≤ c.toNat && c.toNat ≤ 57) || (65 ≤ c.toNat && c.toNat ≤ 70) ||
    (97 ≤ c.toNat && c.toNat ≤ 102)

/-- The value of a hexadecimal digit (0 for any other character). -/
def hexDigitValue (c : Char) : Nat :=
  if 48 ≤ c.toNat ∧ c.toNat ≤ 57 then c.toNat - 48
  else if 65 ≤ c.toNat ∧ c.toNat ≤ 70 then c.toNat - 55
  else if 97 ≤ c.toNat ∧ c.toNat ≤ 102 then c.toNat - 87
  else 0

/-- The largest `unsigned long` of the target platform (Windows, LLP64). -/
def ULONG_MAX : Nat := 2 ^ 32 - 1

/-- `std::stoul(Str, nullptr, 16)` of the C++ standard library: leading
white space, an optional sign and an optional `0x` prefix are skipped, then the
longest run of hexadecimal digits is converted.  `none` stands for the
exception the call raises (`std::invalid_argument` when there is no digit,
`std::out_of_range` when the number exceeds `ULONG_MAX`). -/
def stoul16 (Str : List Char) : Option Nat :=
  let S1 := Str.dropWhile isspace
  let Negative := S1.head? = some '-'
  let S2 := if S1.head? = some '-' ∨ S1.head? = some '+' then S1.tail else S1
  let S3 :=
    match S2 with
    | c0 :: c1 :: c2 :: Rest =>
      if c0 = '0' ∧ (c1 = 'x' ∨ c1 = 'X') ∧ isxdigit c2 = true then c2 :: Rest else S2
    | _ => S2
  let Digits := S3.takeWhile isxdigit
  if Digits = [] then none
  else
    let Value := Digits.foldl (fun Acc c => 16 * Acc + hexDigitValue c) 0
    if Value > ULONG_MAX then none
    else if Negative then some ((ULONG_MAX + 1 - Value) % (ULONG_MAX + 1))
    else some Value

/-- The extraction loop `while (Stream >> Token)`: `Current` is the token read
so far; white space ends a token and is otherwise skipped. -/
def TokensLoop : List Char → List Char → List (List Char)
  | [], Current => if Current = [] then [] else [Current]
  | c :: Rest, Current =>
    if isspace c then
      if Current = [] then TokensLoop Rest [] else Current :: TokensLoop Rest []
    else TokensLoop Rest (Current ++ [c])

/-- The white-space separated tokens of a pattern text, in order. -/
def Tokens (PatternStr : List Char) : List (List Char) :=
  TokensLoop PatternStr []

/-- The helper lambda `MakeNibble(Char, Shift)` of `ParsePattern`; both
results are cast to `std::uint8_t`. -/
def MakeNibble (Char : Char) (Shift : Nat) : Option (Nat × Nat) :=
  if Char = '?' then some (0x0, 0x0)
  else
    match stoul16 [Char] with
    | none => none
    | some Value =>
      let NibbleValue := Value % 256
      some ((0xF <<< Shift) % 256, (NibbleValue <<< Shift) % 256)

/-- The body of the `while` loop of `ParsePattern` for one token. -/
def ParseToken (Token : List Char) : Option PatternElem :=
  if Token = ['?'] ∨ Token = ['?', '?'] then some ⟨0x00, 0x00⟩
  else if Token.length = 2 ∧
      (isxdigit (Token.getD 0 ' ') = true ∨ Token.getD 0 ' ' = '?') ∧
      (isxdigit (Token.getD 1 ' ') = true ∨ Token.getD 1 ' ' = '?') then
    match MakeNibble (Token.getD 0 ' ') 4, MakeNibble (Token.getD 1 ' ') 0 with
    | some (MaskHigh, ValueHigh), some (MaskLow, ValueLow) =>
      some ⟨MaskHigh ||| MaskLow, ValueHigh ||| ValueLow⟩
    | _, _ => none
  else
    match stoul16 Token with
    | none => none
    | some Value => some ⟨0xFF, Value % 256⟩

/-- The `while` loop of `ParsePattern` over the tokens, with the vector
`Pattern` built so far (`push_back` appends). -/
def ParsePatternLoop : List (List Char) → List PatternElem → Option (List PatternElem)
  | [], Pattern => some Pattern
  | Token :: Rest, Pattern =>
    match ParseToken Token with
    | none => none
    | some Elem => ParsePatternLoop Rest (Pattern ++ [Elem])

/-- `DumpAnalyzer::ParsePattern`; `none` stands for an exception escaping from
`std::stoul`. -/
def ParsePattern (PatternStr : List Char) : Option (List PatternElem) :=
  ParsePatternLoop (Tokens PatternStr) []

/-- The mask nibble and value nibble the specification assigns to one
character of a two-character token: `?` gives `(0, 0)`, a hex digit gives
`(0xF, digit)`. -/
def NibbleOf (c : Char) : Nat × Nat :=
  if c = '?' then (0, 0) else (0xF, hexDigitValue c)

/-- The pattern element the specification assigns to a token: `?` and `??` are
byte wildcards, a two-character token is assembled from its two nibbles. -/
def TokenElement : List Char → PatternElem
  | [h, l] => ⟨16 * (NibbleOf h).1 + (NibbleOf l).1, 16 * (NibbleOf h).2 + (NibbleOf l).2⟩
  | _ => ⟨0, 0⟩

/-- The token forms the specification lists: `?`, or two characters each of
which is a hex digit or `?`. -/
def ListedToken (Token : List Char) : Prop :=
  Token = ['?'] ∨ (Token.length = 2 ∧ ∀ c ∈ Token, isxdigit c = true ∨ c = '?')

instance (Token : List Char) : Decidable (ListedToken Token) := by
  unfold ListedToken; infer_instance

/-! ## The dump file and `DumpAnalyzer::Read` -/

/-- Signed reading of a 64-bit pattern (`static_cast<std::int64_t>`). -/
def toInt64 (x : Nat) : Int :=
  if x % U64 < 2 ^ 63 then (x % U64 : Nat) else (x % U64 : Nat) - (U64 : Int)

/-- Unsigned reading of a 64-bit signed result (`static_cast<std::uint64_t>`);
signed sums wrap around like the machine addition does. -/
def wrap64 (i : Int) : Nat := (i % (U64 : Int)).toNat

/-- `enum class Mode` (`MemoryDumper.h`). -/
inductive Mode where
  | Regions
  | Sparse
deriving DecidableEq, Repr

/-- `ZydisRegister`: the registers the code names, and all the others by
their number. -/
inductive ZydisRegister where
  | NONE
  | RIP
  | RAX
  | RBX
  | RCX
  | RDX
  | RSP
  | EAX
  | EDX
  | other (Id : Nat)
deriving DecidableEq, Repr

/-- `ZydisMnemonic`: the mnemonics the code names, and all the others by
their number. -/
inductive ZydisMnemonic where
  | INVALID
  | CALL
  | LEA
  | MOV
  | NOP
  | RET
  | XOR
  | ROR
  | ROL
  | SHR
  | SHL
  | other (Id : Nat)
deriving DecidableEq, Repr

/-- `ZydisDecodedOperand`, by its `type` tag: a register (`reg.value`), an
immediate (`imm.is_signed`, `imm.value.u`, `imm.size`), a memory operand
(`mem.base`, `mem.index`, `mem.scale`, `mem.disp.value`, `mem.disp.size`), or
an operand of another type (unused, pointer). -/
inductive ZydisDecodedOperand where
  | REGISTER (value : ZydisRegister)
  | IMMEDIATE (is_signed : Bool) (value : Nat) (size : Nat)
  | MEMORY (base index : ZydisRegister) (scale : Nat) (disp_value : Int) (disp_size : Nat)
  | UNUSED
deriving DecidableEq, Repr

/-- The fields of `ZydisDecodedInstruction` the analyzer reads. -/
structure ZydisDecodedInstruction where
  mnemonic : ZydisMnemonic
  length : Nat
  operand_count : Nat
  operand_count_visible : Nat
  operand_width : Nat := 64
deriving DecidableEq, Repr

/-- The instruction decoder, an external service: `DecodeInstruction` is
`ZydisDecoderDecodeInstruction` on the bytes from the scan position to the end
of the buffer, `DecodeOperands` is `ZydisDecoderDecodeOperands` for the
instruction decoded from these bytes and the requested operand count.  `none`
is a failure status. -/
structure ZydisDecoder where
  DecodeInstruction : List Nat → Option ZydisDecodedInstruction
  DecodeOperands : List Nat → ZydisDecodedInstruction → Nat → Option (List ZydisDecodedOperand)

/-- Modelled from the spec: the class `DumpAnalyzer` is declared in
`DumpAnalyzer.h`, which is not among the sources; the members the matcher
library reads are the analysis mode, the metadata and region list of a regions
dump, the dump file (here its bytes) and the decoder. -/
structure DumpAnalyzer where
  AnalysisMode : Mode
  InMetadata : Metadata
  InMemoryRegions : List Region
  InFile : List Nat
  Decoder : ZydisDecoder

/-- `max_size()` of `std::vector<std::uint8_t>` on a 64-bit target. -/
def VectorMaxSize : Nat := 2 ^ 63 - 1

/-- `DumpAnalyzer::_Read`: a zero-initialised vector of `Size` bytes, filled
with the bytes of the file from `Offset` on as far as the file reaches.
`none` stands for the `std::length_error` the vector constructor raises when
`Size` exceeds `max_size()`; memory is otherwise taken to be sufficient. -/
def DumpAnalyzer._Read (A : DumpAnalyzer) (Offset Size : Nat) : Option (List Nat) :=
  if Size > VectorMaxSize then none
  else some ((List.range Size).map fun I => A.InFile.getD (Offset + I) 0)

/-- `DumpAnalyzer::Read`; `none` stands for an exception escaping from
`_Read`. -/
def DumpAnalyzer.Read (A : DumpAnalyzer) (Offset Size : Nat) : Option (List Nat) :=
  match A.AnalysisMode with
  | Mode.Regions =>
    match TranslateVirtualOffsetToFileOffset A.InMetadata A.InMemoryRegions Offset with
    | some FileOffset => A._Read FileOffset Size
    | none => some []
  | Mode.Sparse => A._Read Offset Size

/-- Modelled from the spec: `DumpAnalyzer::MatchRange` is declared in
`DumpAnalyzer.h`, which is not among the sources; the byte window
`{ offset, size }` of a match. -/
structure MatchRange where
  Offset : Nat
  Size : Nat
deriving DecidableEq, Repr

/-- Modelled from the spec: `DumpAnalyzer::Result<T>` is declared in
`DumpAnalyzer.h`, which is not among the sources; the code fills its `Range`
and its optional `Value`. -/
structure Result (α : Type) where
  Range : MatchRange
  Value : Option α
deriving DecidableEq, Repr

/-! ## Pattern search in a range -/

/-- `DumpAnalyzer::FindPattern(StartOffset, Size, IdaPattern)`.  The outer
`none` stands for an exception escaping from `ParsePattern` or `Read`. -/
def DumpAnalyzer.FindPatternInRange (A : DumpAnalyzer) (StartOffset Size : Nat)
    (IdaPattern : List Char) : Option (Option (Result Unit)) :=
  match ParsePattern IdaPattern with
  | none => none
  | some ParsedPattern =>
    let PatternSize := ParsedPattern.length
    let BufferSize := if PatternSize > Size then PatternSize else Size
    match A.Read StartOffset BufferSize with
    | none => none
    | some Buffer =>
      if Buffer = [] then some none
      else
        match FindPattern Buffer ParsedPattern with
        | some MatchOffset =>
          some (some ⟨⟨add64 StartOffset MatchOffset, PatternSize⟩, none⟩)
        | none => some none

/-- The `for` loop of `FindPatternSubsequence` over the patterns still to be
matched; `Total` is `IdaPatterns.size()`, the other arguments are the local
variables of the function. -/
def DumpAnalyzer.FindPatternSubsequenceLoop (A : DumpAnalyzer) (StartOffset Size Total : Nat) :
    List (List Char) → Nat → Nat → Nat → List MatchRange → Nat →
      Option (Option (Result (List MatchRange)))
  | [], _, _, _, _, _ => some none
  | IdaPattern :: Rest, PatternIndex, NextOffset, NextSize, MatchOffsets, OutRangeOffset =>
    match A.FindPatternInRange NextOffset NextSize IdaPattern with
    | none => none
    | some none => some none
    | some (some Pattern) =>
      let PatternOffset := Pattern.Range.Offset
      let PatternSize := Pattern.Range.Size
      let MatchOffsets := MatchOffsets ++ [⟨PatternOffset, PatternSize⟩]
      let NextOffset := add64 PatternOffset PatternSize
      let NextSize := sub64 Size (sub64 NextOffset StartOffset)
      let PatternIndex := PatternIndex + 1
      let OutRangeOffset := if PatternIndex = 1 then PatternOffset else OutRangeOffset
      if PatternIndex = Total then
        some (some ⟨⟨OutRangeOffset, sub64 (add64 PatternOffset PatternSize) OutRangeOffset⟩,
          some MatchOffsets⟩)
      else
        A.FindPatternSubsequenceLoop StartOffset Size Total Rest PatternIndex NextOffset NextSize
          MatchOffsets OutRangeOffset

/-- `DumpAnalyzer::FindPatternSubsequence`. -/
def DumpAnalyzer.FindPatternSubsequence (A : DumpAnalyzer) (StartOffset Size : Nat)
    (IdaPatterns : List (List Char)) : Option (Option (Result (List MatchRange))) :=
  A.FindPatternSubsequenceLoop StartOffset Size IdaPatterns.length IdaPatterns 0 StartOffset Size
    [] 0

/-- The matches `ms` answer the patterns one by one, in declared order: each
match is the earliest occurrence of its pattern in the (non-empty) window read
at the current search offset, and the next search starts at the end of the
match with the size `FindPatternSubsequence` computes for it. -/
def EarliestChain (A : DumpAnalyzer) (StartOffset Size : Nat) :
    List (List Char) → Nat → Nat → List MatchRange → Prop
  | [], _, _, [] => True
  | pat :: pats, off, size, m :: ms =>
    (∃ P i Buffer, ParsePattern pat = some P ∧
      A.Read off (max P.length size) = some Buffer ∧ Buffer ≠ [] ∧
      PatternOccursAt Buffer P i ∧
      (∀ j, j < i → ¬ PatternOccursAt Buffer P j) ∧
      m = ⟨add64 off i, P.length⟩) ∧
    EarliestChain A StartOffset Size pats (add64 m.Offset m.Size)
      (sub64 Size (sub64 (add64 m.Offset m.Size) StartOffset)) ms
  | _, _, _, _ => False

/-- The range from `Start` to the end of the last match. -/
def CoverageFrom (Start : Nat) (ms : List MatchRange) : MatchRange :=
  match ms.getLast? with
  | some l => ⟨Start, sub64 (add64 l.Offset l.Size) Start⟩
  | none => ⟨Start, 0⟩

/-- The coverage of a list of matches: from the start of the first match to
the end of the last one. -/
def Coverage (ms : List MatchRange) : MatchRange :=
  match ms.head? with
  | some f => CoverageFrom f.Offset ms
  | none => ⟨0, 0⟩

/-! ## Decoding scans -/

/-- The entries `Operands[0 .. Count - 1]` of the operand array, as the loops
read them; an entry the decoder did not fill counts as an unused operand. -/
def OperandArray (Operands : List ZydisDecodedOperand) (Count : Nat) : List ZydisDecodedOperand :=
  (List.range Count).map fun I => Operands.getD I ZydisDecodedOperand.UNUSED

/-- The decode loop that `ResolveRipRelativeOffset`, `FindRipRelativeReference`,
`ExtractDisplacement` and `ExtractImmediate` each spell out: while
`Offset < Buffer.size()`, decode at `Offset`; on a decode failure advance by
one byte; when the operands (all `operand_count` of them) cannot be decoded
skip the instruction; otherwise run the body `Pick` of the routine, which
either returns a result or lets the scan continue behind the instruction.
`Fuel` bounds the number of iterations; the outer `none` stands for a scan
that has not stopped within the bound. -/
def DecodeScanLoop {α : Type} (D : ZydisDecoder) (Buffer : List Nat)
    (Pick : Nat → ZydisDecodedInstruction → List ZydisDecodedOperand → Option α) :
    Nat → Nat → Option (Option α)
  | 0, _ => none
  | Fuel + 1, Offset =>
    if Offset < Buffer.length then
      match D.DecodeInstruction (Buffer.drop Offset) with
      | none => DecodeScanLoop D Buffer Pick Fuel (Offset + 1)
      | some Instruction =>
        match D.DecodeOperands (Buffer.drop Offset) Instruction Instruction.operand_count with
        | none => DecodeScanLoop D Buffer Pick Fuel (Offset + Instruction.length)
        | some Operands =>
          match Pick Offset Instruction Operands with
          | some Out => some (some Out)
          | none => DecodeScanLoop D Buffer Pick Fuel (Offset + Instruction.length)
    else some none

/-- A routine built on the decode loop: read the window, give up on an empty
buffer, scan from offset 0.  Every iteration advances by at least one byte
when decoded instructions are at least one byte long, so `Buffer.size() + 1`
iterations are enough.  The outer `none` also stands for an exception
escaping from `Read`. -/
def DumpAnalyzer.DecodeScan {α : Type} (A : DumpAnalyzer) (StartOffset Size : Nat)
    (Pick : Nat → ZydisDecodedInstruction → List ZydisDecodedOperand → Option α) :
    Option (Option α) :=
  match A.Read StartOffset Size with
  | none => none
  | some Buffer =>
    if Buffer = [] then some none
    else DecodeScanLoop A.Decoder Buffer Pick (Buffer.length + 1) 0

/-- The optional `Filter` argument (`std::function`, possibly empty). -/
abbrev InstructionFilter := Option (ZydisDecodedInstruction → List ZydisDecodedOperand → Bool)

/-- The test `Filter && !Filter(&Instruction, Operands)`. -/
def FilteredOut (Filter : InstructionFilter) (Instruction : ZydisDecodedInstruction)
    (Operands : List ZydisDecodedOperand) : Bool :=
  match Filter with
  | some F => !F Instruction Operands
  | none => false

/-- The operand loop of `ResolveRipRelativeOffset`: the first operand that is
a memory operand with base RIP and a displacement, or a signed immediate,
gives the resolved offset. -/
def ResolveOperandsLoop (InstructionEnd : Int) : List ZydisDecodedOperand → Option Nat
  | [] => none
  | Operand :: Rest =>
    match Operand with
    | ZydisDecodedOperand.MEMORY base _ _ disp_value disp_size =>
      if base = ZydisRegister.RIP ∧ disp_size > 0 then
        let Displacement := disp_value
        some (wrap64 (InstructionEnd + Displacement))
      else ResolveOperandsLoop InstructionEnd Rest
    | ZydisDecodedOperand.IMMEDIATE is_signed value _ =>
      if is_signed then
        let Immediate := toInt64 value
        some (wrap64 (InstructionEnd + Immediate))
      else ResolveOperandsLoop InstructionEnd Rest
    | _ => ResolveOperandsLoop InstructionEnd Rest

/-- The body of the scan of `ResolveRipRelativeOffset` for one decoded
instruction. -/
def ResolvePick (StartOffset : Nat) (Filter : InstructionFilter) (Offset : Nat)
    (Instruction : ZydisDecodedInstruction) (Operands : List ZydisDecodedOperand) :
    Option (Result Nat) :=
  if FilteredOut Filter Instruction Operands then none
  else
    let InstructionStart := add64 StartOffset Offset
    let InstructionEnd := toInt64 (add64 InstructionStart Instruction.length)
    match ResolveOperandsLoop InstructionEnd (OperandArray Operands Instruction.operand_count) with
    | some ResolvedOffset => some ⟨⟨InstructionStart, Instruction.length⟩, some ResolvedOffset⟩
    | none => none

/-- `DumpAnalyzer::ResolveRipRelativeOffset`. -/
def DumpAnalyzer.ResolveRipRelativeOffset (A : DumpAnalyzer) (StartOffset Size : Nat)
    (Filter : InstructionFilter) : Option (Option (Result Nat)) :=
  A.DecodeScan StartOffset Size (ResolvePick StartOffset Filter)

/-- The operand loop of `FindRipRelativeReference`: `ResolvedOffset` starts at
0 for every operand, is set for a RIP-relative memory operand or a signed
immediate, and is then compared with the target. -/
def ReferenceOperandsLoop (InstructionEnd : Int) (TargetOffset : Nat) :
    List ZydisDecodedOperand → Bool
  | [] => false
  | Operand :: Rest =>
    let ResolvedOffset :=
      match Operand with
      | ZydisDecodedOperand.MEMORY base _ _ disp_value disp_size =>
        if base = ZydisRegister.RIP ∧ disp_size > 0 then wrap64 (InstructionEnd + disp_value)
        else 0
      | ZydisDecodedOperand.IMMEDIATE is_signed value _ =>
        if is_signed then wrap64 (InstructionEnd + toInt64 value) else 0
      | _ => 0
    if ResolvedOffset = TargetOffset then true
    else ReferenceOperandsLoop InstructionEnd TargetOffset Rest

/-- The body of the scan of `FindRipRelativeReference` for one decoded
instruction. -/
def ReferencePick (StartOffset TargetOffset : Nat) (Filter : InstructionFilter) (Offset : Nat)
    (Instruction : ZydisDecodedInstruction) (Operands : List ZydisDecodedOperand) :
    Option (Result Nat) :=
  if FilteredOut Filter Instruction Operands then none
  else
    let InstructionStart := add64 StartOffset Offset
    let InstructionEnd := toInt64 (add64 InstructionStart Instruction.length)
    if ReferenceOperandsLoop InstructionEnd TargetOffset
        (OperandArray Operands Instruction.operand_count) then
      some ⟨⟨InstructionStart, Instruction.length⟩, some InstructionStart⟩
    else none

/-- `DumpAnalyzer::FindRipRelativeReference`. -/
def DumpAnalyzer.FindRipRelativeReference (A : DumpAnalyzer) (StartOffset Size TargetOffset : Nat)
    (Filter : InstructionFilter) : Option (Option (Result Nat)) :=
  A.DecodeScan StartOffset Size (ReferencePick StartOffset TargetOffset Filter)

/-- The operand loop of `ExtractDisplacement`: the first memory operand with a
displacement gives `static_cast<std::uint32_t>(mem.disp.value)`. -/
def DisplacementOperandsLoop : List ZydisDecodedOperand → Option Nat
  | [] => none
  | Operand :: Rest =>
    match Operand with
    | ZydisDecodedOperand.MEMORY _ _ _ disp_value disp_size =>
      if disp_size > 0 then some (disp_value % (2 ^ 32 : Int)).toNat
      else DisplacementOperandsLoop Rest
    | _ => DisplacementOperandsLoop Rest

/-- The body of the scan of `ExtractDisplacement` for one decoded
instruction. -/
def DisplacementPick (StartOffset : Nat) (Offset : Nat)
    (Instruction : ZydisDecodedInstruction) (Operands : List ZydisDecodedOperand) :
    Option (Result Nat) :=
  match DisplacementOperandsLoop (OperandArray Operands Instruction.operand_count) with
  | some Value => some ⟨⟨add64 StartOffset Offset, Instruction.length⟩, some Value⟩
  | none => none

/-- `DumpAnalyzer::ExtractDisplacement`. -/
def DumpAnalyzer.ExtractDisplacement (A : DumpAnalyzer) (StartOffset Size : Nat) :
    Option (Option (Result Nat)) :=
  A.DecodeScan StartOffset Size (DisplacementPick StartOffset)

/-- One entry of the forward decode of a window: the buffer offset of a
successfully decoded instruction, the instruction, and its operands when they
could be decoded. -/
structure DecodedAt where
  Offset : Nat
  Instruction : ZydisDecodedInstruction
  Operands : Option (List ZydisDecodedOperand)
deriving DecidableEq, Repr

/-- The forward decode of a buffer from `Offset` on: decode, step over a
decoded instruction by its length and over an undecodable byte by one.
`Requested` is the operand count handed to the operand decoder. -/
def ForwardDecodeLoop (D : ZydisDecoder) (Requested : ZydisDecodedInstruction → Nat)
    (Buffer : List Nat) : Nat → Nat → List DecodedAt
  | 0, _ => []
  | Fuel + 1, Offset =>
    if Offset < Buffer.length then
      match D.DecodeInstruction (Buffer.drop Offset) with
      | none => ForwardDecodeLoop D Requested Buffer Fuel (Offset + 1)
      | some Instruction =>
        ⟨Offset, Instruction, D.DecodeOperands (Buffer.drop Offset) Instruction
            (Requested Instruction)⟩ ::
          ForwardDecodeLoop D Requested Buffer Fuel (Offset + Instruction.length)
    else []

/-- The forward decode of a whole window. -/
def ForwardDecode (D : ZydisDecoder) (Requested : ZydisDecodedInstruction → Nat)
    (Buffer : List Nat) : List DecodedAt :=
  ForwardDecodeLoop D Requested Buffer (Buffer.length + 1) 0

/-- Every instruction the decoder returns is at least one byte long. -/
def ZydisDecoder.LengthsPositive (D : ZydisDecoder) : Prop :=
  ∀ Bytes Instruction, D.DecodeInstruction Bytes = some Instruction → 1 ≤ Instruction.length

/-- The signed displacement or immediate an operand contributes to a
RIP-relative target: the displacement of a memory operand with base RIP and a
non-zero displacement size, or the value of a signed immediate. -/
def RelativeValue : ZydisDecodedOperand → Option Int
  | ZydisDecodedOperand.MEMORY base _ _ disp_value disp_size =>
    if base = ZydisRegister.RIP ∧ disp_size > 0 then some disp_value else none
  | ZydisDecodedOperand.IMMEDIATE is_signed value _ =>
    if is_signed then some (toInt64 value) else none
  | _ => none

/-- The displacement of a memory operand with a non-zero displacement size. -/
def DisplacementValue : ZydisDecodedOperand → Option Int
  | ZydisDecodedOperand.MEMORY _ _ _ disp_value disp_size =>
    if disp_size > 0 then some disp_value else none
  | _ => none

/-- The operands of a stream entry that passed operand decoding and the
filter: the `operand_count` entries of the operand array. -/
def DecodedAt.Passing (x : DecodedAt) (Filter : InstructionFilter) :
    Option (List ZydisDecodedOperand) :=
  match x.Operands with
  | none => none
  | some Operands =>
    if FilteredOut Filter x.Instruction Operands then none
    else some (OperandArray Operands x.Instruction.operand_count)

/-- Sign extension of a 32-bit pattern. -/
def signExtend32 (x : Nat) : Int :=
  if x % 2 ^ 32 < 2 ^ 31 then (x % 2 ^ 32 : Nat) else (x % 2 ^ 32 : Nat) - (2 ^ 32 : Int)

/-- A decoder for the handful of encodings the scenarios of the specification
use (`mov rax, [rip+disp32]`, `mov rax, rbx`, `mov edx, imm32`, `nop`, `ret`);
it stands in for Zydis in the concrete examples. -/
def ScenarioDecodeInstruction : List Nat → Option ZydisDecodedInstruction
  | 0x48 :: 0x8B :: 0x05 :: _ :: _ :: _ :: _ :: _ => some ⟨ZydisMnemonic.MOV, 7, 2, 2, 64⟩
  | 0x48 :: 0x89 :: 0xD8 :: _ => some ⟨ZydisMnemonic.MOV, 3, 2, 2, 64⟩
  | 0xBA :: _ :: _ :: _ :: _ :: _ => some ⟨ZydisMnemonic.MOV, 5, 2, 2, 32⟩
  | 0x90 :: _ => some ⟨ZydisMnemonic.NOP, 1, 0, 0, 32⟩
  | 0xC3 :: _ => some ⟨ZydisMnemonic.RET, 1, 0, 0, 64⟩
  | _ => none

/-- The operands of the encodings of `ScenarioDecodeInstruction`. -/
def ScenarioDecodeOperands : List Nat → ZydisDecodedInstruction → Nat →
    Option (List ZydisDecodedOperand)
  | 0x48 :: 0x8B :: 0x05 :: b0 :: b1 :: b2 :: b3 :: _, _, Count =>
    some ([ZydisDecodedOperand.REGISTER ZydisRegister.RAX,
      ZydisDecodedOperand.MEMORY ZydisRegister.RIP ZydisRegister.NONE 0
        (signExtend32 (b0 + 256 * b1 + 65536 * b2 + 16777216 * b3)) 32].take Count)
  | 0x48 :: 0x89 :: 0xD8 :: _, _, Count =>
    some ([ZydisDecodedOperand.REGISTER ZydisRegister.RAX,
      ZydisDecodedOperand.REGISTER ZydisRegister.RBX].take Count)
  | 0xBA :: b0 :: b1 :: b2 :: b3 :: _, _, Count =>
    some ([ZydisDecodedOperand.REGISTER ZydisRegister.EDX,
      ZydisDecodedOperand.IMMEDIATE false (b0 + 256 * b1 + 65536 * b2 + 16777216 * b3) 32].take
        Count)
  | _, _, _ => some []

/-- The scenario decoder. -/
def ScenarioDecoder : ZydisDecoder :=
  ⟨ScenarioDecodeInstruction, ScenarioDecodeOperands⟩

/-- A sparse-mode analyzer over the given file bytes with the scenario
decoder. -/
def ScenarioAnalyzer (File : List Nat) : DumpAnalyzer :=
  ⟨Mode.Sparse, {}, [], File, ScenarioDecoder⟩

/-- A regions-mode analyzer with base address 0 and a single region starting
at virtual address `Begin`, whose bytes are the given file bytes. -/
def ScenarioRegionAnalyzer (Begin : Nat) (File : List Nat) : DumpAnalyzer :=
  ⟨Mode.Regions, {}, [⟨Begin, Begin + File.length - 1, 0, false, false⟩], File, ScenarioDecoder⟩

/-- The body of a scan applied to a stream entry: nothing when the operands
could not be decoded. -/
def DecodedAt.Pick {α : Type} (x : DecodedAt)
    (Pick : Nat → ZydisDecodedInstruction → List ZydisDecodedOperand → Option α) : Option α :=
  match x.Operands with
  | none => none
  | some Operands => Pick x.Offset x.Instruction Operands

/-- The operand count the four scalar routines hand to the operand decoder. -/
def AllOperands (Instruction : ZydisDecodedInstruction) : Nat := Instruction.operand_count

/-! ## Instruction templates and the instruction matchers -/

/-- Modelled from the spec: `DumpAnalyzer::MemoryOperand` is declared in
`DumpAnalyzer.h`, which is not among the sources; a memory template
`{ base?, index?, scale?, disp? }` in which an absent field is a wildcard. -/
structure MemoryOperand where
  Base : Option ZydisRegister := none
  Index : Option ZydisRegister := none
  Scale : Option Nat := none
  Disp : Option Int := none
deriving DecidableEq, Repr

/-- Modelled from the spec: `DumpAnalyzer::MatchOperand` is declared in
`DumpAnalyzer.h`, which is not among the sources; the matchers read its three
optional members `Reg`, `Imm` and `Mem`. -/
structure MatchOperand where
  Reg : Option ZydisRegister := none
  Imm : Option Nat := none
  Mem : Option MemoryOperand := none
deriving DecidableEq, Repr

/-- Modelled from the spec: `DumpAnalyzer::MatchInstruction` is declared in
`DumpAnalyzer.h`, which is not among the sources; an optional mnemonic (absent
is a wildcard) and a vector of optional operands (absent is a wildcard). -/
structure MatchInstruction where
  Mnemonic : Option ZydisMnemonic := none
  Operands : List (Option MatchOperand) := []
deriving DecidableEq, Repr

/-- What one round of the per-operand loop does: count the operand as
matched, leave the loop (`break`), or do neither (an operand that is not a
register, an immediate or a memory operand). -/
inductive OperandStep where
  | Matched
  | Break
  | Ignored
deriving DecidableEq, Repr

/-- The test `Field && Decoded != *Field` on an optional template field. -/
def FieldDiffers {α : Type} [DecidableEq α] (Field : Option α) (Decoded : α) : Bool :=
  match Field with
  | some Value => decide (Decoded ≠ Value)
  | none => false

/-- The checks on a memory operand, the same in both matchers. -/
def MemoryOperandStep (base index : ZydisRegister) (scale : Nat) (disp_value : Int)
    (MI : MatchOperand) : OperandStep :=
  match MI.Mem with
  | none => OperandStep.Break
  | some Mem =>
    if MI.Reg.isSome ∨ MI.Imm.isSome then OperandStep.Break
    else if FieldDiffers Mem.Base base then OperandStep.Break
    else if FieldDiffers Mem.Index index then OperandStep.Break
    else if FieldDiffers Mem.Scale scale then OperandStep.Break
    else if FieldDiffers Mem.Disp disp_value then OperandStep.Break
    else OperandStep.Matched

/-- One round of the per-operand loop of `FindInstructionSequence`. -/
def SequenceOperandStep (Operand : ZydisDecodedOperand) (MIOperand : Option MatchOperand) :
    OperandStep :=
  match MIOperand with
  | none => OperandStep.Matched
  | some MI =>
    match Operand with
    | ZydisDecodedOperand.REGISTER value =>
      if MI.Reg.isNone ∨ MI.Imm.isSome ∨ MI.Mem.isSome ∨ FieldDiffers MI.Reg value then
        OperandStep.Break
      else OperandStep.Matched
    | ZydisDecodedOperand.IMMEDIATE is_signed value size =>
      match MI.Imm with
      | none => OperandStep.Break
      | some Imm =>
        if MI.Reg.isSome ∨ MI.Mem.isSome then OperandStep.Break
        else
          let ImmediateMatch : Bool :=
            if is_signed then
              if size = 8 then decide (value % 2 ^ 8 = Imm)
              else if size = 16 then decide (value % 2 ^ 16 = Imm)
              else if size = 32 then decide (value % 2 ^ 32 = Imm)
              else decide (value % 2 ^ 64 = Imm)
            else decide (value = Imm)
          if ImmediateMatch then OperandStep.Matched else OperandStep.Break
    | ZydisDecodedOperand.MEMORY base index scale disp_value _ =>
      MemoryOperandStep base index scale disp_value MI
    | ZydisDecodedOperand.UNUSED => OperandStep.Ignored

/-- One round of the per-operand loop of `FindInstructionSubsequence`. -/
def SubsequenceOperandStep (Operand : ZydisDecodedOperand) (MIOperand : Option MatchOperand) :
    OperandStep :=
  match MIOperand with
  | none => OperandStep.Matched
  | some MI =>
    match Operand with
    | ZydisDecodedOperand.REGISTER value =>
      if MI.Reg.isNone ∨ MI.Imm.isSome ∨ MI.Mem.isSome then OperandStep.Break
      else if FieldDiffers MI.Reg value then OperandStep.Break
      else OperandStep.Matched
    | ZydisDecodedOperand.IMMEDIATE is_signed value size =>
      match MI.Imm with
      | none => OperandStep.Break
      | some Imm =>
        if MI.Reg.isSome ∨ MI.Mem.isSome then OperandStep.Break
        else if is_signed then
          if size = 8 then
            if value % 2 ^ 8 ≠ Imm then OperandStep.Break else OperandStep.Matched
          else if size = 16 then
            if value % 2 ^ 16 ≠ Imm then OperandStep.Break else OperandStep.Matched
          else if size = 32 then
            if value % 2 ^ 32 ≠ Imm then OperandStep.Break else OperandStep.Matched
          else if size = 64 then
            if value % 2 ^ 64 ≠ Imm then OperandStep.Break else OperandStep.Matched
          else OperandStep.Matched
        else if value ≠ Imm then OperandStep.Break
        else OperandStep.Matched
    | ZydisDecodedOperand.MEMORY base index scale disp_value _ =>
      MemoryOperandStep base index scale disp_value MI
    | ZydisDecodedOperand.UNUSED => OperandStep.Ignored

/-- The pairs `(Operands[I], MIInstruction.Operands[I])` for
`I = 0 .. Count - 1`. -/
def OperandPairs (Operands : List ZydisDecodedOperand) (MIOperands : List (Option MatchOperand))
    (Count : Nat) : List (ZydisDecodedOperand × Option MatchOperand) :=
  (List.range Count).map fun I =>
    (Operands.getD I ZydisDecodedOperand.UNUSED, MIOperands.getD I none)

/-- The per-operand loop: returns the counter `OperandsMatched`. -/
def OperandsMatchedLoop (Step : ZydisDecodedOperand → Option MatchOperand → OperandStep) :
    List (ZydisDecodedOperand × Option MatchOperand) → Nat → Nat
  | [], OperandsMatched => OperandsMatched
  | (Operand, MIOperand) :: Rest, OperandsMatched =>
    match Step Operand MIOperand with
    | OperandStep.Matched => OperandsMatchedLoop Step Rest (OperandsMatched + 1)
    | OperandStep.Break => OperandsMatched
    | OperandStep.Ignored => OperandsMatchedLoop Step Rest OperandsMatched

/-- The three checks of a matcher on a decoded instruction: mnemonic, visible
operand count, and every operand counted as matched. -/
def InstructionMatches (Step : ZydisDecodedOperand → Option MatchOperand → OperandStep)
    (Instruction : ZydisDecodedInstruction) (Operands : List ZydisDecodedOperand)
    (MIInstruction : MatchInstruction) : Bool :=
  if (match MIInstruction.Mnemonic with
      | some Mnemonic =>
        decide (Mnemonic = ZydisMnemonic.INVALID ∨ Mnemonic ≠ Instruction.mnemonic)
      | none => false) then false
  else if Instruction.operand_count_visible ≠ MIInstruction.Operands.length then false
  else
    decide (OperandsMatchedLoop Step
      (OperandPairs Operands MIInstruction.Operands Instruction.operand_count_visible) 0 =
        Instruction.operand_count_visible)

/-- The `while` loop of `FindInstructionSequence`; on every failure the
matcher is reset (`PatternIndex = 0`, `MatchOffsets.clear()`).  The outer
`none` stands for a scan that has not stopped within `Fuel` iterations. -/
def FindInstructionSequenceLoop (D : ZydisDecoder) (StartOffset : Nat) (Buffer : List Nat)
    (Pattern : List MatchInstruction) :
    Nat → Nat → Nat → List MatchRange → Nat → Option (Option (Result (List MatchRange)))
  | 0, _, _, _, _ => none
  | Fuel + 1, Offset, PatternIndex, MatchOffsets, OutRangeOffset =>
    if Offset < Buffer.length then
      match D.DecodeInstruction (Buffer.drop Offset) with
      | none =>
        FindInstructionSequenceLoop D StartOffset Buffer Pattern Fuel (Offset + 1) 0 []
          OutRangeOffset
      | some Instruction =>
        match D.DecodeOperands (Buffer.drop Offset) Instruction
            Instruction.operand_count_visible with
        | none =>
          FindInstructionSequenceLoop D StartOffset Buffer Pattern Fuel
            (Offset + Instruction.length) 0 [] OutRangeOffset
        | some Operands =>
          let InstructionOffset := add64 StartOffset Offset
          match Pattern[PatternIndex]? with
          | none => none
          | some MIInstruction =>
            if InstructionMatches SequenceOperandStep Instruction Operands MIInstruction then
              let MatchOffsets := MatchOffsets ++ [⟨InstructionOffset, Instruction.length⟩]
              let PatternIndex := PatternIndex + 1
              let OutRangeOffset :=
                if PatternIndex = 1 then InstructionOffset else OutRangeOffset
              if PatternIndex = Pattern.length then
                some (some ⟨⟨OutRangeOffset,
                  sub64 (add64 InstructionOffset Instruction.length) OutRangeOffset⟩,
                  some MatchOffsets⟩)
              else
                FindInstructionSequenceLoop D StartOffset Buffer Pattern Fuel
                  (Offset + Instruction.length) PatternIndex MatchOffsets OutRangeOffset
            else
              FindInstructionSequenceLoop D StartOffset Buffer Pattern Fuel
                (Offset + Instruction.length) 0 [] OutRangeOffset
    else some none

/-- `DumpAnalyzer::FindInstructionSequence`. -/
def DumpAnalyzer.FindInstructionSequence (A : DumpAnalyzer) (StartOffset Size : Nat)
    (Pattern : List MatchInstruction) : Option (Option (Result (List MatchRange))) :=
  if Pattern = [] then some none
  else
    match A.Read StartOffset Size with
    | none => none
    | some Buffer =>
      if Buffer = [] then some none
      else
        FindInstructionSequenceLoop A.Decoder StartOffset Buffer Pattern (Buffer.length + 1) 0 0
          [] 0

/-- The `while` loop of `FindInstructionSubsequence`; a failure only moves on
to the next instruction.  The outer `none` stands for a scan that has not
stopped within `Fuel` iterations. -/
def FindInstructionSubsequenceLoop (D : ZydisDecoder) (StartOffset : Nat) (Buffer : List Nat)
    (Pattern : List MatchInstruction) :
    Nat → Nat → Nat → List MatchRange → Nat → Option (Option (Result (List MatchRange)))
  | 0, _, _, _, _ => none
  | Fuel + 1, Offset, PatternIndex, MatchOffsets, OutRangeOffset =>
    if Offset < Buffer.length then
      match D.DecodeInstruction (Buffer.drop Offset) with
      | none =>
        FindInstructionSubsequenceLoop D StartOffset Buffer Pattern Fuel (Offset + 1)
          PatternIndex MatchOffsets OutRangeOffset
      | some Instruction =>
        match D.DecodeOperands (Buffer.drop Offset) Instruction
            Instruction.operand_count_visible with
        | none =>
          FindInstructionSubsequenceLoop D StartOffset Buffer Pattern Fuel
            (Offset + Instruction.length) PatternIndex MatchOffsets OutRangeOffset
        | some Operands =>
          let InstructionOffset := add64 StartOffset Offset
          match Pattern[PatternIndex]? with
          | none => none
          | some MIInstruction =>
            if InstructionMatches SubsequenceOperandStep Instruction Operands MIInstruction then
              let MatchOffsets := MatchOffsets ++ [⟨InstructionOffset, Instruction.length⟩]
              let PatternIndex := PatternIndex + 1
              let OutRangeOffset :=
                if PatternIndex = 1 then InstructionOffset else OutRangeOffset
              if PatternIndex = Pattern.length then
                some (some ⟨⟨OutRangeOffset,
                  sub64 (add64 InstructionOffset Instruction.length) OutRangeOffset⟩,
                  some MatchOffsets⟩)
              else
                FindInstructionSubsequenceLoop D StartOffset Buffer Pattern Fuel
                  (Offset + Instruction.length) PatternIndex MatchOffsets OutRangeOffset
            else
              FindInstructionSubsequenceLoop D StartOffset Buffer Pattern Fuel
                (Offset + Instruction.length) PatternIndex MatchOffsets OutRangeOffset
    else some none

/-- `DumpAnalyzer::FindInstructionSubsequence`. -/
def DumpAnalyzer.FindInstructionSubsequence (A : DumpAnalyzer) (StartOffset Size : Nat)
    (Pattern : List MatchInstruction) : Option (Option (Result (List MatchRange))) :=
  if Pattern = [] then some none
  else
    match A.Read StartOffset Size with
    | none => none
    | some Buffer =>
      if Buffer = [] then some none
      else
        FindInstructionSubsequenceLoop A.Decoder StartOffset Buffer Pattern (Buffer.length + 1) 0
          0 [] 0

/-- The operand count the two instruction matchers hand to the operand
decoder. -/
def VisibleOperands (Instruction : ZydisDecodedInstruction) : Nat :=
  Instruction.operand_count_visible

/-- A stream entry matches a template: its operands were decoded and the
three checks of the matcher pass. -/
def DecodedAt.Matches (Step : ZydisDecodedOperand → Option MatchOperand → OperandStep)
    (x : DecodedAt) (MIInstruction : MatchInstruction) : Bool :=
  match x.Operands with
  | none => false
  | some Operands => InstructionMatches Step x.Instruction Operands MIInstruction

/-- The match range reported for a stream entry. -/
def DecodedAt.Range (StartOffset : Nat) (x : DecodedAt) : MatchRange :=
  ⟨add64 StartOffset x.Offset, x.Instruction.length⟩

/-- The stream entries follow each other without a gap: each one starts at
the byte after the previous one. -/
def Contiguous (xs : List DecodedAt) : Prop :=
  List.Chain' (fun x y => y.Offset = x.Offset + x.Instruction.length) xs

/-- The entries `xs` match the templates one by one, in order, under the
per-operand rule `Step`. -/
def MatchesInOrder (Step : ZydisDecodedOperand → Option MatchOperand → OperandStep)
    (xs : List DecodedAt) (Pattern : List MatchInstruction) : Prop :=
  List.Forall₂ (fun x MI => x.Matches Step MI = true) xs Pattern

/-- What `FindInstructionSequence` reports on success: the matched
instructions `XS` are a run of consecutive entries of the forward decode of
the window, they match the templates one by one and follow each other without
a gap; the value lists their ranges, one per template, each starting where the
previous one ends (in 64-bit arithmetic, and exactly so for a window that fits
into 64 bits), and the coverage runs from the start of the first to the end of
the last. -/
def SequenceOutcome (A : DumpAnalyzer) (Start Size : Nat) (Pattern : List MatchInstruction)
    (out : Result (List MatchRange)) : Prop :=
  ∃ Buffer XS pre post,
    A.Read Start Size = some Buffer ∧
    ForwardDecode A.Decoder VisibleOperands Buffer = pre ++ XS ++ post ∧
    MatchesInOrder SequenceOperandStep XS Pattern ∧
    Contiguous XS ∧
    out.Value = some (XS.map (DecodedAt.Range Start)) ∧
    (XS.map (DecodedAt.Range Start)).length = Pattern.length ∧
    (∀ (k : Nat) (m n : MatchRange), (XS.map (DecodedAt.Range Start))[k]? = some m →
      (XS.map (DecodedAt.Range Start))[k + 1]? = some n → n.Offset = add64 m.Offset m.Size) ∧
    (Start + Size < U64 →
      ∀ (k : Nat) (m n : MatchRange), (XS.map (DecodedAt.Range Start))[k]? = some m →
        (XS.map (DecodedAt.Range Start))[k + 1]? = some n → n.Offset = m.Offset + m.Size) ∧
    out.Range = Coverage (XS.map (DecodedAt.Range Start))

/-- The pattern the sequence example searches: `mov ?, rbx` followed by any
instruction without visible operands. -/
def ExampleSequencePattern : List MatchInstruction :=
  [⟨some ZydisMnemonic.MOV, [none, some ⟨some ZydisRegister.RBX, none, none⟩]⟩, ⟨none, []⟩]

/-- Greedy matching of the templates against a stream: every template takes
the earliest entry after the previous match that matches it. -/
def GreedyMatch (Step : ZydisDecodedOperand → Option MatchOperand → OperandStep) :
    List DecodedAt → List MatchInstruction → Option (List DecodedAt)
  | _, [] => some []
  | [], _ :: _ => none
  | x :: S, t :: ts =>
    if x.Matches Step t then (GreedyMatch Step S ts).map (x :: ·)
    else GreedyMatch Step S (t :: ts)

/-- Entry `a` is entry `b`, or it ends before `b` starts. -/
def NotAfter (a b : DecodedAt) : Prop :=
  a = b ∨ a.Offset + a.Instruction.length ≤ b.Offset

/-- What `FindInstructionSubsequence` reports on success: the matched
instructions `g` are entries of the forward decode of the window, in stream
order, matching the templates one by one; the value lists their ranges and the
coverage runs from the start of the first to the end of the last; and against
every other order-preserving assignment `asg` of the templates to entries of
the stream, the `k`-th match starts no later and ends no later than the `k`-th
entry of `asg`. -/
def SubsequenceOutcome (A : DumpAnalyzer) (Start Size : Nat) (Pattern : List MatchInstruction)
    (out : Result (List MatchRange)) : Prop :=
  ∃ Buffer g,
    A.Read Start Size = some Buffer ∧
    List.Sublist g (ForwardDecode A.Decoder VisibleOperands Buffer) ∧
    MatchesInOrder SubsequenceOperandStep g Pattern ∧
    out = ⟨Coverage (g.map (DecodedAt.Range Start)), some (g.map (DecodedAt.Range Start))⟩ ∧
    ∀ asg, List.Sublist asg (ForwardDecode A.Decoder VisibleOperands Buffer) →
      MatchesInOrder SubsequenceOperandStep asg Pattern →
      ∀ (k : Nat) (a b : DecodedAt), g[k]? = some a → asg[k]? = some b →
        a.Offset ≤ b.Offset ∧
          a.Offset + a.Instruction.length ≤ b.Offset + b.Instruction.length

/-- The pattern the subsequence example searches: `nop` followed, possibly
after other instructions, by `ret`. -/
def ExampleSubsequencePattern : List MatchInstruction :=
  [⟨some ZydisMnemonic.NOP, []⟩, ⟨some ZydisMnemonic.RET, []⟩]

/-! ## Search configuration (`SearchCriteria.h`, `OffsetFinder.h`) -/

/-- `SearchCriteria::RegionType`. -/
inductive RegionType where
  | Unknown
  | Section
  | Function
deriving DecidableEq, Repr

/-- `SearchCriteria::AccessType`. -/
inductive AccessType where
  | Normal
  | XReference
deriving DecidableEq, Repr

/-- `SearchCriteria::SearchType`. -/
inductive SearchType where
  | Unknown
  | Immediate
  | Displacement
  | Reference
  | XReference
  | TslDecryptor32
  | TslDecryptor64
deriving DecidableEq, Repr

/-- `SearchCriteria::MatcherMode`. -/
inductive MatcherMode where
  | None
  | First
  | All
deriving DecidableEq, Repr

/-- `SearchCriteria::MatcherType`.  `InstructionSequence` is the value
`ValueExtractingHandler` (`SearchHandlers.h`) tests for; the enumeration of
`SearchCriteria.h` does not list it and no configuration text maps to it. -/
inductive MatcherType where
  | None
  | Pattern
  | PatternSubsequence
  | InstructionSubsequence
  | InstructionSequence
deriving DecidableEq, Repr

/-- `SearchCriteria::AnchorType`. -/
inductive AnchorType where
  | None
  | String
  | Pattern
  | PatternSubsequence
  | InstructionSubsequence
deriving DecidableEq, Repr

/-- `TRange` (`OffsetFinder.h`). -/
structure TRange where
  Offset : Nat := 0
  Size : Nat := 0
  OffsetVariation : Nat := 0
  SizeVariation : Nat := 0
deriving DecidableEq, Repr

/-- `TMatcher` (`OffsetFinder.h`); `Type'` is its member `Type`. -/
structure TMatcher where
  Type' : MatcherType := MatcherType.None
  Pattern : List Char := []
  PatternSubsequence : List (List Char) := []
  InstructionSequence : List (List Char) := []
  InstructionSubsequence : List (List Char) := []
  Index : Nat := 0
  Offset : Nat := 0
deriving DecidableEq, Repr

/-- `TGroup` (`OffsetFinder.h`). -/
structure TGroup where
  ID : String
  Index : Option Nat := none
deriving DecidableEq, Repr

/-- `TNextRegion` (`OffsetFinder.h`). -/
structure TNextRegion where
  ID : String
deriving DecidableEq, Repr

/-- `TPrintGroup` (`OffsetFinder.h`). -/
structure TPrintGroup where
  ID : String := ""
  Index : Nat := 0
deriving DecidableEq, Repr

/-- `TPrint` (`OffsetFinder.h`). -/
structure TPrint where
  Name : String := ""
  Group : TPrintGroup := {}
deriving DecidableEq, Repr

/-- `TSearchFor` (`OffsetFinder.h`). -/
structure TSearchFor where
  SearchID : String := ""
  SearchType : SearchType := SearchType.Unknown
  MatcherMode : MatcherMode := MatcherMode.None
  Matchers : List TMatcher := []
  SearchRange : TRange := {}
  NextRegion : Option TNextRegion := none
  Print : Option TPrint := none
  Handled : Bool := false
  Group : Option TGroup := none
deriving DecidableEq, Repr

/-- `TAnchor` (`OffsetFinder.h`); `Type'` is its member `Type`. -/
structure TAnchor where
  Type' : AnchorType := AnchorType.None
  String : List Char := []
  Pattern : List Char := []
  PatternSubsequence : List (List Char) := []
  InstructionSubsequence : List (List Char) := []
  InstructionSequence : List (List Char) := []
  Index : Nat := 0
deriving DecidableEq, Repr

/-- `TSearchRegion` (`OffsetFinder.h`). -/
structure TSearchRegion where
  RegionID : String := ""
  RegionType : RegionType := RegionType.Unknown
  AccessType : AccessType := AccessType.Normal
  RegionRange : TRange := {}
  Anchors : List TAnchor := []
  SearchFor : List TSearchFor := []
deriving DecidableEq, Repr

/-! ## Search windows (`SearchHandlers::Detail::SetBoundaries`) -/

/-- `SearchHandlers::Detail::SetBoundaries`; all quantities are
`std::uint64_t` / `std::size_t`. -/
def SetBoundaries (Region : TSearchRegion) (ToFind : TSearchFor) : TRange :=
  let FunctionSize := Region.RegionRange.Size
  let FunctionSizeVariation := Region.RegionRange.SizeVariation
  let ToFindSize := ToFind.SearchRange.Size
  let ToFindSizeVariation := ToFind.SearchRange.SizeVariation
  let ToFindOffsetVariation := ToFind.SearchRange.OffsetVariation
  let OffsetLow := ToFind.SearchRange.Offset
  let SizeHigh := add64 (add64 ToFindOffsetVariation ToFindSize) ToFindSizeVariation
  let OffsetLow :=
    if OffsetLow ≥ ToFindOffsetVariation then sub64 OffsetLow ToFindOffsetVariation
    else OffsetLow
  let SizeHigh :=
    if ToFindSize ≤ ToFindSizeVariation then
      let Variation := if ToFindSizeVariation = 0 then FunctionSizeVariation else 0
      add64 FunctionSize Variation
    else SizeHigh
  let SizeHigh :=
    if add64 OffsetLow SizeHigh > add64 FunctionSize FunctionSizeVariation then
      sub64 (add64 FunctionSize FunctionSizeVariation) OffsetLow
    else SizeHigh
  ⟨OffsetLow, SizeHigh, 0, 0⟩

/-- The four members of a range are 64-bit values. -/
def TRange.Fits (R : TRange) : Prop :=
  R.Offset < U64 ∧ R.Size < U64 ∧ R.OffsetVariation < U64 ∧ R.SizeVariation < U64

/-! ## PE sections and the function table (`DumpAnalyzer::ExtractAndSaveFunctions`) -/

/-- Modelled from the spec: `DumpAnalyzer::PeSection` is declared in
`DumpAnalyzer.h`, which is not among the sources; its constructor and getters
in `DumpAnalyzer.cpp` give the members `Name`, `Offset` and `Size`. -/
structure PeSection where
  Name : String
  Offset : Nat
  Size : Nat
deriving DecidableEq, Repr

/-- `PeSections::GetSection`: the first section of that name. -/
def GetSection (Sections_ : List PeSection) (Name : String) : Option PeSection :=
  Sections_.find? fun Section => Section.Name = Name

/-- `std::set<std::uint64_t>::insert`, the set kept as an ascending list. -/
def SetInsert (Value : Nat) : List Nat → List Nat
  | [] => [Value]
  | Head :: Tail =>
    if Value < Head then Value :: Head :: Tail
    else if Value = Head then Head :: Tail
    else Head :: SetInsert Value Tail

/-- `InFile.gcount()` after `DumpAnalyzer::Read`: the number of bytes the
`read` in `_Read` extracted from the file, or, when `Read` returned without
touching the file (regions mode, no region covers the offset), the count
`Previous` the stream held before. -/
def DumpAnalyzer.ReadCount (A : DumpAnalyzer) (Offset Size Previous : Nat) : Nat :=
  match A.AnalysisMode with
  | Mode.Regions =>
    match TranslateVirtualOffsetToFileOffset A.InMetadata A.InMemoryRegions Offset with
    | some FileOffset => min Size (A.InFile.length - FileOffset)
    | none => Previous
  | Mode.Sparse => min Size (A.InFile.length - Offset)

/-- The `while` loop of `ExtractAndSaveFunctions`: the decoder sees the
`BytesRead - Offset` bytes from `Buffer.data() + Offset` on.  `Fuel` bounds
the number of iterations; `none` stands for a scan that has not stopped
within the bound. -/
def ExtractFunctionsLoop (D : ZydisDecoder) (TextSectionOffset TextSectionEnd : Nat)
    (Buffer : List Nat) (BytesRead : Nat) : Nat → Nat → List Nat → Option (List Nat)
  | 0, _, _ => none
  | Fuel + 1, Offset, InFunctionOffsets =>
    if Offset < BytesRead then
      match D.DecodeInstruction ((Buffer.drop Offset).take (BytesRead - Offset)) with
      | none =>
        ExtractFunctionsLoop D TextSectionOffset TextSectionEnd Buffer BytesRead Fuel (Offset + 1)
          InFunctionOffsets
      | some Instruction =>
        let InFunctionOffsets :=
          if Instruction.mnemonic = ZydisMnemonic.CALL ∧ Instruction.operand_count ≥ 1 then
            match D.DecodeOperands ((Buffer.drop Offset).take (BytesRead - Offset)) Instruction
                Instruction.operand_count with
            | some Operands =>
              match Operands.getD 0 ZydisDecodedOperand.UNUSED with
              | ZydisDecodedOperand.IMMEDIATE _ value _ =>
                let CallEnd := toInt64 (add64 (add64 TextSectionOffset Offset) Instruction.length)
                let Immediate := toInt64 value
                let FunctionOffset := wrap64 (CallEnd + Immediate)
                if FunctionOffset ≥ TextSectionEnd then InFunctionOffsets
                else SetInsert FunctionOffset InFunctionOffsets
              | _ => InFunctionOffsets
            | none => InFunctionOffsets
          else InFunctionOffsets
        ExtractFunctionsLoop D TextSectionOffset TextSectionEnd Buffer BytesRead Fuel
          (Offset + Instruction.length) InFunctionOffsets
    else some InFunctionOffsets

/-- `DumpAnalyzer::ExtractAndSaveFunctions`, as a function from the members
it reads (`InPeSections`, the stream count `GCount` left by the previous read,
the function set) to the function set it leaves.  `none` stands for an
exception escaping from `Read`, for a scan over more bytes than the buffer
holds (a stale `gcount()` with an empty buffer), and for a scan that does not
stop. -/
def DumpAnalyzer.ExtractAndSaveFunctions (A : DumpAnalyzer)
    (InPeSections : Option (List PeSection)) (GCount : Nat) (InFunctionOffsets : List Nat) :
    Option (List Nat) :=
  match InPeSections with
  | none => some InFunctionOffsets
  | some Sections_ =>
    match GetSection Sections_ ".text" with
    | none => some InFunctionOffsets
    | some TextSection =>
      let TextSectionSize := TextSection.Size
      let TextSectionOffset := TextSection.Offset
      let TextSectionEnd := add64 TextSectionOffset TextSectionSize
      match A.Read TextSectionOffset TextSectionSize with
      | none => none
      | some Buffer =>
        let BytesRead := A.ReadCount TextSectionOffset TextSectionSize GCount
        if BytesRead > Buffer.length then none
        else
          ExtractFunctionsLoop A.Decoder TextSectionOffset TextSectionEnd Buffer BytesRead
            (BytesRead + 1) 0 InFunctionOffsets

/-- The scenario decoder extended by `call rel32` (`E8`) and
`lea rax, [rip+disp32]` (`48 8D 05`); only the visible operands are given. -/
def DriverDecodeInstruction : List Nat → Option ZydisDecodedInstruction
  | 0xE8 :: _ :: _ :: _ :: _ :: _ => some ⟨ZydisMnemonic.CALL, 5, 1, 1, 64⟩
  | 0x48 :: 0x8D :: 0x05 :: _ :: _ :: _ :: _ :: _ => some ⟨ZydisMnemonic.LEA, 7, 2, 2, 64⟩
  | Bytes => ScenarioDecodeInstruction Bytes

/-- The operands of the encodings of `DriverDecodeInstruction`. -/
def DriverDecodeOperands : List Nat → ZydisDecodedInstruction → Nat →
    Option (List ZydisDecodedOperand)
  | 0xE8 :: b0 :: b1 :: b2 :: b3 :: _, _, Count =>
    some ([ZydisDecodedOperand.IMMEDIATE true
      (wrap64 (signExtend32 (b0 + 256 * b1 + 65536 * b2 + 16777216 * b3))) 32].take Count)
  | 0x48 :: 0x8D :: 0x05 :: b0 :: b1 :: b2 :: b3 :: _, _, Count =>
    some ([ZydisDecodedOperand.REGISTER ZydisRegister.RAX,
      ZydisDecodedOperand.MEMORY ZydisRegister.RIP ZydisRegister.NONE 0
        (signExtend32 (b0 + 256 * b1 + 65536 * b2 + 16777216 * b3)) 32].take Count)
  | Bytes, Instruction, Count => ScenarioDecodeOperands Bytes Instruction Count

/-- The extended scenario decoder. -/
def DriverDecoder : ZydisDecoder :=
  ⟨DriverDecodeInstruction, DriverDecodeOperands⟩

/-- A sparse-mode analyzer over the given file bytes with the extended
scenario decoder. -/
def DriverAnalyzer (File : List Nat) : DumpAnalyzer :=
  ⟨Mode.Sparse, {}, [], File, DriverDecoder⟩

/-! ## Instruction text (`AssemblyParser.cpp`, `Util.h`) -/

/-- The characters `Util::String::Trim` strips: blank and tab. -/
def IsBlank (c : Char) : Bool := c = ' ' || c = '\t'

/-- `Util::String::Trim`: the text between the first and the last character
that is neither a blank nor a tab (empty when there is none). -/
def Trim (String : List Char) : List Char :=
  ((String.dropWhile IsBlank).reverse.dropWhile IsBlank).reverse

/-- `std::toupper` in the "C" locale. -/
def toupper (c : Char) : Char :=
  if 97 ≤ c.toNat ∧ c.toNat ≤ 122 then Char.ofNat (c.toNat - 32) else c

/-- `Util::String::ToUpper`. -/
def ToUpper (String : List Char) : List Char := String.map toupper

/-- The pieces `std::getline(Iss, Item, Delim)` extracts one after the other
from the rest of the text; `Item` is the piece being read. -/
def SplitLoop (Delim : Char) : List Char → List Char → List (List Char)
  | [], Item => if Item = [] then [] else [Item]
  | c :: Rest, Item =>
    if c = Delim then Item :: SplitLoop Delim Rest []
    else SplitLoop Delim Rest (Item ++ [c])

/-- `Util::String::Split`: a text that ends with the delimiter (or is empty)
has no last empty piece, because `std::getline` fails at the end of input. -/
def Split (String : List Char) (Delim : Char) : List (List Char) :=
  SplitLoop Delim String []

/-- The name tables of the decoder library, an external service: the pairs
`(Value, ZydisRegisterGetString(Value))` and
`(Value, ZydisMnemonicGetString(Value))` for the values below
`ZYDIS_REGISTER_MAX_VALUE` and `ZYDIS_MNEMONIC_MAX_VALUE`, in ascending
order. -/
structure ZydisStrings where
  Registers : List (ZydisRegister × List Char)
  Mnemonics : List (ZydisMnemonic × List Char)

/-- `AssemblyParser::ParseMnemonic`: the map holds the upper-case name of
every mnemonic but `INVALID` (the first entry of a name wins), and is searched
for the upper-case text. -/
def ParseMnemonic (Z : ZydisStrings) (MnemonicString : List Char) : Option ZydisMnemonic :=
  let MnemonicMap :=
    (Z.Mnemonics.filter fun P => P.1 ≠ ZydisMnemonic.INVALID).map fun P => (ToUpper P.2, P.1)
  let Key := ToUpper MnemonicString
  (MnemonicMap.find? fun P => P.1 = Key).map fun P => P.2

/-- `AssemblyParser::ParseRegister`: the map holds the upper-case name of
every register but `NONE` (the first entry of a name wins), and is searched
for the upper-case text. -/
def ParseRegister (Z : ZydisStrings) (RegisterString : List Char) : Option ZydisRegister :=
  let RegisterMap :=
    (Z.Registers.filter fun P => P.1 ≠ ZydisRegister.NONE).map fun P => (ToUpper P.2, P.1)
  let Key := ToUpper RegisterString
  (RegisterMap.find? fun P => P.1 = Key).map fun P => P.2

/-- `AssemblyParser::IsRegister`. -/
def IsRegister (Z : ZydisStrings) (PotentialRegister : List Char) : Bool :=
  (ParseRegister Z PotentialRegister).isSome

/-- The value of a character as a digit of a base up to 16. -/
def DigitOf (c : Char) : Option Nat :=
  if 48 ≤ c.toNat ∧ c.toNat ≤ 57 then some (c.toNat - 48)
  else if 97 ≤ c.toNat ∧ c.toNat ≤ 102 then some (c.toNat - 87)
  else if 65 ≤ c.toNat ∧ c.toNat ≤ 70 then some (c.toNat - 55)
  else none

/-- The digits of base `Base` at the head of the text, accumulated into
`Value`. -/
def DigitsLoop (Base : Nat) : List Char → Nat → Nat
  | [], Value => Value
  | c :: Rest, Value =>
    match DigitOf c with
    | some Digit => if Digit < Base then DigitsLoop Base Rest (Value * Base + Digit) else Value
    | none => Value

/-- The number at the head of the text after the sign, as `strtoll` and
`strtoull` read it with base 0: `0x` or `0X` before a hexadecimal digit starts
a hexadecimal number, another leading `0` an octal one, a decimal digit a
decimal one; `none` when no digit can be converted. -/
def ParseMagnitude : List Char → Option Nat
  | '0' :: x :: h :: Rest =>
    if (x = 'x' ∨ x = 'X') ∧ ((DigitOf h).isSome) then some (DigitsLoop 16 (h :: Rest) 0)
    else some (DigitsLoop 8 (x :: h :: Rest) 0)
  | '0' :: Rest => some (DigitsLoop 8 Rest 0)
  | c :: Rest =>
    match DigitOf c with
    | some Digit => if Digit < 10 then some (DigitsLoop 10 (c :: Rest) 0) else none
    | none => none
  | [] => none

/-- The sign (`true` for `-`) and the magnitude `strtoll` and `strtoull` read
with base 0 after leading white space; `none` when nothing is converted. -/
def ParseSigned (String : List Char) : Option (Bool × Nat) :=
  match String.dropWhile isspace with
  | '-' :: Rest => (ParseMagnitude Rest).map fun Magnitude => (true, Magnitude)
  | '+' :: Rest => (ParseMagnitude Rest).map fun Magnitude => (false, Magnitude)
  | Rest => (ParseMagnitude Rest).map fun Magnitude => (false, Magnitude)

/-- `std::stoll(String, nullptr, 0)`; `none` stands for the exception
(`std::invalid_argument` when nothing is converted, `std::out_of_range` when
the value does not fit). -/
def stoll (String : List Char) : Option Int :=
  match ParseSigned String with
  | none => none
  | some (Negative, Magnitude) =>
    if Negative then
      if Magnitude ≤ 2 ^ 63 then some (-(Magnitude : Int)) else none
    else if Magnitude < 2 ^ 63 then some (Magnitude : Int) else none

/-- `std::stoull(String, nullptr, 0)`; a negative number is negated in 64-bit
arithmetic; `none` stands for the exception. -/
def stoull (String : List Char) : Option Nat :=
  match ParseSigned String with
  | none => none
  | some (Negative, Magnitude) =>
    if Magnitude < U64 then some (if Negative then sub64 0 Magnitude else Magnitude) else none

/-- The loop of `ParseMemoryOperand` that cuts the content at every `+` and
`-` into pairs of the sign before a piece and the piece; `Sign` and `Token`
are the sign and the piece being read. -/
def SignedTokensLoop : List Char → Char → List Char → List (Char × List Char)
  | [], Sign, Token => [(Sign, Token)]
  | c :: Rest, Sign, Token =>
    if c = '+' ∨ c = '-' then (Sign, Token) :: SignedTokensLoop Rest c []
    else SignedTokensLoop Rest Sign (Token ++ [c])

/-- A signed sum of two `std::int64_t` values (two's complement). -/
def addInt64 (a b : Int) : Int := toInt64 (wrap64 (a + b))

/-- The loop of `ParseMemoryOperand` over the signed pieces; `none` stands
for an exception escaping from `std::stoull` or `std::stoll`. -/
def ParseMemoryTokens (Z : ZydisStrings) :
    List (Char × List Char) → MemoryOperand → Option MemoryOperand
  | [], Op => some Op
  | (TokSign, Raw) :: Rest, Op =>
    let Tok := Trim Raw
    if Tok = [] ∨ Tok = ['?'] then ParseMemoryTokens Z Rest Op
    else if '*' ∈ Tok then
      let RegStr := Trim (Tok.takeWhile fun c => c ≠ '*')
      let ScaleStr := Trim ((Tok.dropWhile fun c => c ≠ '*').drop 1)
      let Op := if RegStr ≠ ['?'] then { Op with Index := ParseRegister Z RegStr } else Op
      if ScaleStr ≠ ['?'] then
        match stoull ScaleStr with
        | none => none
        | some Scale => ParseMemoryTokens Z Rest { Op with Scale := some (Scale % 256) }
      else ParseMemoryTokens Z Rest Op
    else if IsRegister Z Tok then
      let R := ParseRegister Z Tok
      if Op.Base.isNone then ParseMemoryTokens Z Rest { Op with Base := R }
      else ParseMemoryTokens Z Rest { Op with Index := R }
    else
      match stoll Tok with
      | none => none
      | some Val =>
        let Val := if TokSign = '-' then -Val else Val
        match Op.Disp with
        | some Disp => ParseMemoryTokens Z Rest { Op with Disp := some (addInt64 Disp Val) }
        | none => ParseMemoryTokens Z Rest { Op with Disp := some Val }

/-- The text is at least two characters long, starts with `[` and ends with
`]`. -/
def Bracketed (Trimmed : List Char) : Bool :=
  2 ≤ Trimmed.length && Trimmed.head? = some '[' && Trimmed.getLast? = some ']'

/-- `AssemblyParser::ParseMemoryOperand`; the outer `none` stands for an
exception escaping from the number conversions. -/
def ParseMemoryOperand (Z : ZydisStrings) (MemoryOperandString : List Char) :
    Option (Option MemoryOperand) :=
  let Trimmed := Trim MemoryOperandString
  if ¬ Bracketed Trimmed then some none
  else
    let Content := (Trimmed.drop 1).take (Trimmed.length - 2)
    let Tokens := SignedTokensLoop Content '+' []
    match ParseMemoryTokens Z Tokens {} with
    | none => none
    | some Op => some (some Op)

/-- The loop of `ParseInstruction` over the operand texts; `none` stands for
an exception escaping from a number conversion and for the access
`T.front()` to an empty text. -/
def ParseOperandsLoop (Z : ZydisStrings) :
    List (List Char) → List (Option MatchOperand) → Option (List (Option MatchOperand))
  | [], Operands => some Operands
  | Raw :: Rest, Operands =>
    let T := Trim Raw
    if T = ['?'] then ParseOperandsLoop Z Rest (Operands ++ [none])
    else if T = [] then none
    else if T.head? = some '[' ∧ T.getLast? = some ']' then
      match ParseMemoryOperand Z T with
      | none => none
      | some (some MemOp) => ParseOperandsLoop Z Rest (Operands ++ [some ⟨none, none, some MemOp⟩])
      | some none => ParseOperandsLoop Z Rest (Operands ++ [none])
    else if IsRegister Z T then
      match ParseRegister Z T with
      | some R => ParseOperandsLoop Z Rest (Operands ++ [some ⟨some R, none, none⟩])
      | none => none
    else
      match stoull T with
      | none => none
      | some Imm => ParseOperandsLoop Z Rest (Operands ++ [some ⟨none, some Imm, none⟩])

/-- `AssemblyParser::ParseInstruction`; the outer `none` stands for an
exception or an undefined access in the operand loop. -/
def ParseInstruction (Z : ZydisStrings) (InstructionString : List Char) :
    Option (Option MatchInstruction) :=
  match Split InstructionString ',' with
  | [] => some none
  | Part0 :: Parts =>
    let FirstToken := Trim Part0
    let MnStr :=
      if ' ' ∈ FirstToken then FirstToken.takeWhile fun c => c ≠ ' ' else FirstToken
    let Parts :=
      if ' ' ∈ FirstToken then ((FirstToken.dropWhile fun c => c ≠ ' ').drop 1) :: Parts
      else Parts
    let MnStr := Trim MnStr
    let Mnemonic : Option (Option ZydisMnemonic) :=
      if MnStr ≠ ['?'] then
        match ParseMnemonic Z MnStr with
        | none => none
        | some Mn => some (some Mn)
      else some none
    match Mnemonic with
    | none => some none
    | some Mnemonic =>
      match ParseOperandsLoop Z Parts [] with
      | none => none
      | some Operands => some (some ⟨Mnemonic, Operands⟩)

/-- The names of the registers and mnemonics the scenarios use. -/
def ScenarioStrings : ZydisStrings :=
  ⟨[(ZydisRegister.NONE, "none".toList), (ZydisRegister.RIP, "rip".toList),
    (ZydisRegister.RAX, "rax".toList), (ZydisRegister.RBX, "rbx".toList),
    (ZydisRegister.RCX, "rcx".toList), (ZydisRegister.RDX, "rdx".toList),
    (ZydisRegister.RSP, "rsp".toList), (ZydisRegister.EAX, "eax".toList),
    (ZydisRegister.EDX, "edx".toList)],
   [(ZydisMnemonic.INVALID, "invalid".toList), (ZydisMnemonic.CALL, "call".toList),
    (ZydisMnemonic.LEA, "lea".toList), (ZydisMnemonic.MOV, "mov".toList),
    (ZydisMnemonic.NOP, "nop".toList), (ZydisMnemonic.RET, "ret".toList),
    (ZydisMnemonic.XOR, "xor".toList), (ZydisMnemonic.ROR, "ror".toList),
    (ZydisMnemonic.ROL, "rol".toList), (ZydisMnemonic.SHR, "shr".toList),
    (ZydisMnemonic.SHL, "shl".toList)]⟩

/-- The text between the brackets of a bracketed operand text. -/
def BracketContent (Text : List Char) : List Char :=
  ((Trim Text).drop 1).take ((Trim Text).length - 2)

/-- The signed pieces of a memory operand text: the content cut at every `+`
and `-`, each piece with the sign before it (`+` for the first). -/
def SignedPieces (Text : List Char) : List (Char × List Char) :=
  SignedTokensLoop (BracketContent Text) '+' []

/-- The signed pieces written one after the other, each behind its sign. -/
def Rejoin (Pieces : List (Char × List Char)) : List Char :=
  Pieces.flatMap fun P => P.1 :: P.2

/-- The signed pieces of a memory operand text, trimmed. -/
def MemoryPieces (Text : List Char) : List (Char × List Char) :=
  (SignedPieces Text).map fun P => (P.1, Trim P.2)

/-- The four kinds of pieces of a memory operand text: `?` or nothing, a
`reg*scale` pair, a plain register, an integer. -/
inductive PieceKind where
  | Wildcard
  | Scaled
  | Register
  | Integer
deriving DecidableEq, Repr

/-- The kind of a trimmed piece. -/
def PieceKindOf (Z : ZydisStrings) (Tok : List Char) : PieceKind :=
  if Tok = [] ∨ Tok = ['?'] then PieceKind.Wildcard
  else if '*' ∈ Tok then PieceKind.Scaled
  else if IsRegister Z Tok then PieceKind.Register
  else PieceKind.Integer

/-- The register side of a `reg*scale` piece. -/
def ScaledRegister (Tok : List Char) : List Char :=
  Trim (Tok.takeWhile fun c => c ≠ '*')

/-- The scale side of a `reg*scale` piece. -/
def ScaledScale (Tok : List Char) : List Char :=
  Trim ((Tok.dropWhile fun c => c ≠ '*').drop 1)

/-- The values of the integer pieces, each with the sign before the piece. -/
def SignedIntegers (Z : ZydisStrings) (Pieces : List (Char × List Char)) : List Int :=
  Pieces.filterMap fun P =>
    if PieceKindOf Z P.2 = PieceKind.Integer then
      (stoll P.2).map fun Val => if P.1 = '-' then -Val else Val
    else none

/-- The registers of the plain register pieces, in order. -/
def PlainRegisters (Z : ZydisStrings) (Pieces : List (Char × List Char)) : List ZydisRegister :=
  Pieces.filterMap fun P =>
    if PieceKindOf Z P.2 = PieceKind.Register then ParseRegister Z P.2 else none

/-- The pieces that name a register, in order: a plain register piece
(marked `true`) and a `reg*scale` piece whose register side is not `?`
(marked `false`), each with the register its text denotes. -/
def RegisterPieces (Z : ZydisStrings) (Pieces : List (Char × List Char)) :
    List (Bool × Option ZydisRegister) :=
  Pieces.filterMap fun P =>
    if PieceKindOf Z P.2 = PieceKind.Register then some (true, ParseRegister Z P.2)
    else if PieceKindOf Z P.2 = PieceKind.Scaled ∧ ScaledRegister P.2 ≠ ['?'] then
      some (false, ParseRegister Z (ScaledRegister P.2))
    else none

/-- The scales of the `reg*scale` pieces whose scale side is not `?`, in
order, as 8-bit values. -/
def ScalePieces (Z : ZydisStrings) (Pieces : List (Char × List Char)) : List Nat :=
  Pieces.filterMap fun P =>
    if PieceKindOf Z P.2 = PieceKind.Scaled ∧ ScaledScale P.2 ≠ ['?'] then
      (stoull (ScaledScale P.2)).map fun Scale => Scale % 256
    else none

/-- Every number in the pieces can be converted. -/
def PiecesConvertible (Z : ZydisStrings) (Pieces : List (Char × List Char)) : Prop :=
  ∀ P ∈ Pieces,
    (PieceKindOf Z P.2 = PieceKind.Integer → (stoll P.2).isSome) ∧
    (PieceKindOf Z P.2 = PieceKind.Scaled → ScaledScale P.2 ≠ ['?'] →
      (stoull (ScaledScale P.2)).isSome)

/-- The displacement after the integer pieces `Values` have been added one by
one to the displacement `Disp` (absent at the start). -/
def DispFold : Option Int → List Int → Option Int
  | Disp, [] => Disp
  | some Disp, Val :: Values => DispFold (some (addInt64 Disp Val)) Values
  | none, Val :: Values => DispFold (some Val) Values

/-! ## Strings and immediates (`DumpAnalyzer::FindString`, `DumpAnalyzer::ExtractImmediate`) -/

/-- Modelled from the spec: `DumpAnalyzer::StringType` is declared in
`DumpAnalyzer.h`, which is not among the sources; `DumpAnalyzer.cpp` names its
values `ASCII` and `UTF16_LE`. -/
inductive StringType where
  | ASCII
  | UTF16_LE
deriving DecidableEq, Repr

/-- The inner loop of `FindString`: compares the pattern bytes from `Pos` on
and stops with `false` at the first difference. -/
def StringMatchesAt (Buffer : List Nat) : List Nat → Nat → Bool
  | [], _ => true
  | Byte :: Rest, Pos =>
    if Buffer.getD Pos 0 ≠ Byte then false else StringMatchesAt Buffer Rest (Pos + 1)

/-- The outer `for` loop of `FindString`; `Remaining` is the number of
iterations the loop still has to run.  `Out.Range.Size` is never assigned (the
statement `Out.Range.Size;` of the helper has no effect) and is given as 0. -/
def FindStringLoop (Buffer Pattern : List Nat) (RdataSectionOffset MaxMatches : Nat) :
    Nat → Nat → List Nat → Nat → Bool → Option (Result (List Nat))
  | 0, _, Matches, OutRangeOffset, _ =>
    if Matches ≠ [] then some ⟨⟨OutRangeOffset, 0⟩, some Matches⟩ else none
  | Remaining + 1, I, Matches, OutRangeOffset, FirstMatch =>
    if StringMatchesAt Buffer Pattern I then
      let MatchOffset := add64 RdataSectionOffset I
      let Matches := Matches ++ [MatchOffset]
      let OutRangeOffset := if FirstMatch then MatchOffset else OutRangeOffset
      if Matches.length ≥ MaxMatches then some ⟨⟨OutRangeOffset, 0⟩, some Matches⟩
      else
        FindStringLoop Buffer Pattern RdataSectionOffset MaxMatches Remaining (I + 1) Matches
          OutRangeOffset false
    else
      FindStringLoop Buffer Pattern RdataSectionOffset MaxMatches Remaining (I + 1) Matches
        OutRangeOffset FirstMatch

/-- `DumpAnalyzer::FindString<T>`; `InPeSections` is the member of that name.
The outer `none` stands for an exception escaping from `Read`. -/
def DumpAnalyzer.FindString (A : DumpAnalyzer) (InPeSections : Option (List PeSection))
    (T : StringType) (Str : List Char) (MaxMatches : Nat) :
    Option (Option (Result (List Nat))) :=
  match InPeSections with
  | none => some none
  | some Sections_ =>
    match GetSection Sections_ ".rdata" with
    | none => some none
    | some RdataSection =>
      let RdataSectionOffset := RdataSection.Offset
      let RdataSectionSize := RdataSection.Size
      match A.Read RdataSectionOffset RdataSectionSize with
      | none => none
      | some Buffer =>
        if Buffer = [] then some none
        else
          let Pattern : List Nat :=
            match T with
            | StringType.ASCII => Str.map fun C => C.toNat % 256
            | StringType.UTF16_LE => Str.flatMap fun C => [C.toNat % 256, 0x00]
          let PatternSize := Pattern.length
          some (FindStringLoop Buffer Pattern RdataSectionOffset MaxMatches
            (Buffer.length + 1 - PatternSize) 0 [] 0 true)

/-- The operand loop of `ExtractImmediate`: the first immediate operand gives
`imm.value.u`. -/
def ImmediateOperandsLoop : List ZydisDecodedOperand → Option Nat
  | [] => none
  | Operand :: Rest =>
    match Operand with
    | ZydisDecodedOperand.IMMEDIATE _ value _ => some value
    | _ => ImmediateOperandsLoop Rest

/-- The body of the scan of `ExtractImmediate` for one decoded instruction. -/
def ImmediatePick (StartOffset : Nat) (Offset : Nat)
    (Instruction : ZydisDecodedInstruction) (Operands : List ZydisDecodedOperand) :
    Option (Result Nat) :=
  match ImmediateOperandsLoop (OperandArray Operands Instruction.operand_count) with
  | some Value => some ⟨⟨add64 StartOffset Offset, Instruction.length⟩, some Value⟩
  | none => none

/-- `DumpAnalyzer::ExtractImmediate`. -/
def DumpAnalyzer.ExtractImmediate (A : DumpAnalyzer) (StartOffset Size : Nat) :
    Option (Option (Result Nat)) :=
  A.DecodeScan StartOffset Size (ImmediatePick StartOffset)

/-! ## Function regions (`OffsetFinder::SetFunctionBase`) -/

/-- The loop that parses a list of instruction texts with
`AssemblyParser::ParseInstruction`: the outer `none` stands for an exception,
`some none` for a text that does not parse. -/
def ParseInstructionsLoop (Z : ZydisStrings) :
    List (List Char) → List MatchInstruction → Option (Option (List MatchInstruction))
  | [], ParsedInstructions => some (some ParsedInstructions)
  | AsmText :: Rest, ParsedInstructions =>
    match ParseInstruction Z AsmText with
    | none => none
    | some none => some none
    | some (some Instruction) =>
      ParseInstructionsLoop Z Rest (ParsedInstructions ++ [Instruction])

/-- The first loop of `SetFunctionBase`: the offset of the chosen occurrence
of every `String` anchor (`StringRefOffsets`, here a list aligned with the
anchors).  The outer `none` stands for an exception and for the access to an
occurrence that was not found; `some none` for `return std::nullopt`. -/
def StringRefOffsetsLoop (A : DumpAnalyzer) (InPeSections : Option (List PeSection)) :
    List TAnchor → Option (Option (List (Option Nat)))
  | [] => some (some [])
  | Anchor :: Rest =>
    if Anchor.Type' = AnchorType.String then
      match A.FindString InPeSections StringType.UTF16_LE Anchor.String
          (add64 Anchor.Index 1) with
      | none => none
      | some none => some none
      | some (some StringMatches) =>
        match (StringMatches.Value.getD [])[Anchor.Index]? with
        | none => none
        | some StringRef =>
          match StringRefOffsetsLoop A InPeSections Rest with
          | none => none
          | some none => some none
          | some (some StringRefOffsets) => some (some (some StringRef :: StringRefOffsets))
    else
      match StringRefOffsetsLoop A InPeSections Rest with
      | none => none
      | some none => some none
      | some (some StringRefOffsets) => some (some (none :: StringRefOffsets))

/-- What the body of the anchor loop of `SetFunctionBase` does for one anchor:
record the offset of the anchor (`AnchorFound`), leave the loop (`break`), do
nothing (an anchor of no type), leave the function (`return std::nullopt`),
or raise an exception. -/
inductive AnchorStep where
  | Found (AnchorOffset : Nat)
  | Break
  | Skip
  | Return
  | Throw
deriving DecidableEq, Repr

/-- The filter `SetFunctionBase` hands to `FindRipRelativeReference`. -/
def LeaFilter (Instruction : ZydisDecodedInstruction) (_ : List ZydisDecodedOperand) : Bool :=
  Instruction.mnemonic = ZydisMnemonic.LEA ∧ Instruction.operand_count ≥ 2

/-- The outcome of a search, as the anchor loop uses it. -/
def AnchorStepOf {α : Type} : Option (Option (Result α)) → AnchorStep
  | none => AnchorStep.Throw
  | some none => AnchorStep.Break
  | some (some Found) => AnchorStep.Found Found.Range.Offset

/-- The body of the anchor loop of `SetFunctionBase` for the candidate
`FunctionBase`; `StringRef` is `StringRefOffsets[I]`. -/
def AnchorStepAt (Z : ZydisStrings) (A : DumpAnalyzer) (FunctionBase FunctionSize : Nat)
    (Anchor : TAnchor) (StringRef : Option Nat) : AnchorStep :=
  match Anchor.Type' with
  | AnchorType.String =>
    AnchorStepOf (A.FindRipRelativeReference FunctionBase FunctionSize (StringRef.getD 0)
      (some LeaFilter))
  | AnchorType.Pattern =>
    AnchorStepOf (A.FindPatternInRange FunctionBase FunctionSize Anchor.Pattern)
  | AnchorType.PatternSubsequence =>
    AnchorStepOf (A.FindPatternSubsequence FunctionBase FunctionSize Anchor.PatternSubsequence)
  | AnchorType.InstructionSubsequence =>
    match ParseInstructionsLoop Z Anchor.InstructionSubsequence [] with
    | none => AnchorStep.Throw
    | some none => AnchorStep.Return
    | some (some ParsedInstructions) =>
      AnchorStepOf (A.FindInstructionSubsequence FunctionBase FunctionSize ParsedInstructions)
  | AnchorType.None => AnchorStep.Skip

/-- The anchor loop of `SetFunctionBase` for one candidate: the offsets
`AnchorOffsets` collected when the loop is left.  The outer `none` stands for
an exception, `some none` for `return std::nullopt`. -/
def AnchorsLoop (Z : ZydisStrings) (A : DumpAnalyzer) (FunctionBase FunctionSize : Nat) :
    List (TAnchor × Option Nat) → List Nat → Option (Option (List Nat))
  | [], AnchorOffsets => some (some AnchorOffsets)
  | (Anchor, StringRef) :: Rest, AnchorOffsets =>
    match AnchorStepAt Z A FunctionBase FunctionSize Anchor StringRef with
    | AnchorStep.Found AnchorOffset =>
      AnchorsLoop Z A FunctionBase FunctionSize Rest (AnchorOffsets ++ [AnchorOffset])
    | AnchorStep.Break => some (some AnchorOffsets)
    | AnchorStep.Skip => AnchorsLoop Z A FunctionBase FunctionSize Rest AnchorOffsets
    | AnchorStep.Return => some none
    | AnchorStep.Throw => none

/-- The verification loop of `SetFunctionBase`: the counter `VerifiedAnchors`;
`Next` is `*NextIt`, absent when `NextIt` is the end of the set. -/
def VerifyLoop (FunctionBase : Nat) (Next : Option Nat) : List Nat → Nat → Nat
  | [], VerifiedAnchors => VerifiedAnchors
  | AnchorOffset :: Rest, VerifiedAnchors =>
    match Next with
    | some NextFunctionBase =>
      if AnchorOffset ≤ FunctionBase ∨ AnchorOffset ≥ NextFunctionBase then VerifiedAnchors
      else VerifyLoop FunctionBase Next Rest (VerifiedAnchors + 1)
    | none => VerifyLoop FunctionBase Next Rest VerifiedAnchors

/-- The loop of `SetFunctionBase` over the function set from the candidate at
the head of the list on: the value of `FoundFunctionBase` when the loop is
left (0 when every candidate was given up).  The outer `none` stands for an
exception, `some none` for `return std::nullopt`. -/
def CandidatesLoop (Z : ZydisStrings) (A : DumpAnalyzer) (FunctionSize : Nat)
    (Anchors : List (TAnchor × Option Nat)) : List Nat → Option (Option Nat)
  | [] => some (some 0)
  | FunctionBase :: Rest =>
    match AnchorsLoop Z A FunctionBase FunctionSize Anchors [] with
    | none => none
    | some none => some none
    | some (some AnchorOffsets) =>
      if AnchorOffsets.length ≠ Anchors.length then
        CandidatesLoop Z A FunctionSize Anchors Rest
      else if VerifyLoop FunctionBase Rest.head? AnchorOffsets 0 = AnchorOffsets.length then
        some (some FunctionBase)
      else CandidatesLoop Z A FunctionSize Anchors Rest

/-- `OffsetFinder::SetFunctionBase`, as a function of the analyzer, its PE
sections and its function set (in ascending order): the value returned and the
region as the call leaves it.  The outer `none` stands for an exception or an
undefined access. -/
def SetFunctionBase (Z : ZydisStrings) (A : DumpAnalyzer)
    (InPeSections : Option (List PeSection)) (FunctionBases : List Nat)
    (Function : TSearchRegion) : Option (Option Nat × TSearchRegion) :=
  if Function.Anchors = [] then some (none, Function)
  else
    let FunctionSize := add64 Function.RegionRange.Size Function.RegionRange.SizeVariation
    if FunctionSize = 0 then some (none, Function)
    else
      match StringRefOffsetsLoop A InPeSections Function.Anchors with
      | none => none
      | some none => some (none, Function)
      | some (some StringRefOffsets) =>
        match CandidatesLoop Z A FunctionSize (Function.Anchors.zip StringRefOffsets)
            FunctionBases with
        | none => none
        | some none => some (none, Function)
        | some (some FoundFunctionBase) =>
          if FoundFunctionBase ≠ 0 then
            some (some FoundFunctionBase,
              { Function with
                RegionRange := { Function.RegionRange with Offset := FoundFunctionBase } })
          else some (none, Function)

/-- The dump of the function-base scenario: regions mode with base address 0,
a region `0x1000 .. 0x1FFF` that holds `lea rax, [rip+0x3BD9]` at `0x1420`
(resolved target `0x1427 + 0x3BD9 = 0x5000`) and zero bytes otherwise, and a
region `0x5000 .. 0x500F` that holds `Hello` in UTF-16 LE at its start. -/
def FunctionBaseScenario : DumpAnalyzer :=
  ⟨Mode.Regions, {},
    [⟨0x1000, 0x1FFF, 0, false, false⟩, ⟨0x5000, 0x500F, 0, false, false⟩],
    List.replicate 0x420 0 ++ [0x48, 0x8D, 0x05, 0xD9, 0x3B, 0x00, 0x00] ++
      List.replicate 0xBD9 0 ++
      [0x48, 0x00, 0x65, 0x00, 0x6C, 0x00, 0x6C, 0x00, 0x6F, 0x00, 0, 0, 0, 0, 0, 0],
    DriverDecoder⟩

/-- The region of the function-base scenario: one `String` anchor `Hello` and
size `0x500`. -/
def FunctionBaseRegion : TSearchRegion :=
  { RegionID := "Function_Hello", RegionType := RegionType.Function,
    RegionRange := { Size := 0x500 },
    Anchors := [{ Type' := AnchorType.String, String := "Hello".toList }] }

/-- Every anchor is found for the candidate `FunctionBase` (at the offsets
`AnchorOffsets`, one per anchor), and every offset passes the boundary
verification: it lies strictly between the candidate and the next function
`Next`, which has to exist. -/
def CandidatePasses (Z : ZydisStrings) (A : DumpAnalyzer) (FunctionSize : Nat)
    (Anchors : List (TAnchor × Option Nat)) (FunctionBase : Nat) (Next : Option Nat)
    (AnchorOffsets : List Nat) : Prop :=
  List.Forall₂
    (fun Anchor AnchorOffset =>
      AnchorStepAt Z A FunctionBase FunctionSize Anchor.1 Anchor.2 =
        AnchorStep.Found AnchorOffset)
    Anchors AnchorOffsets ∧
  ∃ NextFunctionBase, Next = some NextFunctionBase ∧
    ∀ AnchorOffset ∈ AnchorOffsets, FunctionBase < AnchorOffset ∧ AnchorOffset < NextFunctionBase

/-- The candidate `FunctionBase` is given up: its anchor loop comes to an end
(no exception, no `return`) and it does not pass. -/
def CandidateGivenUp (Z : ZydisStrings) (A : DumpAnalyzer) (FunctionSize : Nat)
    (Anchors : List (TAnchor × Option Nat)) (FunctionBase : Nat) (Next : Option Nat) : Prop :=
  (∃ Collected, AnchorsLoop Z A FunctionBase FunctionSize Anchors [] = some (some Collected)) ∧
  ∀ AnchorOffsets, ¬ CandidatePasses Z A FunctionSize Anchors FunctionBase Next AnchorOffsets

/-- The PE sections of the function-base scenario. -/
def FunctionBaseSections : Option (List PeSection) :=
  some [⟨".text", 0x1000, 0x1000⟩, ⟨".rdata", 0x5000, 0x10⟩]

/-- A sparse dump of eight bytes with `0x90` at offset 5. -/
def ZeroBaseScenario : DumpAnalyzer :=
  ScenarioAnalyzer [0, 0, 0, 0, 0, 0x90, 0, 0]

/-- A function region of size 8 with one `Pattern` anchor `90`. -/
def ZeroBaseRegion : TSearchRegion :=
  { RegionID := "Function_Zero", RegionType := RegionType.Function,
    RegionRange := { Size := 8 },
    Anchors := [{ Type' := AnchorType.Pattern, Pattern := "90".toList }] }

/-! ## JSON values (`nlohmann::ordered_json`) -/

/-- The exceptions of `nlohmann::json` the configuration code can meet:
`type_error` (a value of the wrong kind) and `out_of_range` (`at` with a key
that is not there). -/
inductive Thrown where
  | type_error
  | out_of_range
deriving DecidableEq, Repr

/-- A value of `nlohmann::ordered_json`, an external library: null, boolean,
integer number, string, array, or object with its members in insertion order.
Floating-point numbers are left out. -/
inductive JSON where
  | null
  | boolean (Value : Bool)
  | number (Value : Int)
  | string (Value : String)
  | array (Items : List JSON)
  | object (Members : List (String × JSON))

/-- `is_null()`. -/
def JSON.is_null : JSON → Bool
  | JSON.null => true
  | _ => false

/-- The members of an object; no members for a value of another kind. -/
def JSON.members : JSON → List (String × JSON)
  | JSON.object Members => Members
  | _ => []

/-- The value of the first member with the given key. -/
def FindMember (Key : String) : List (String × JSON) → Option JSON
  | [] => none
  | (K, V) :: Rest => if K = Key then some V else FindMember Key Rest

/-- The value an object holds under `Key`, if any (`find`). -/
def JSON.find (J : JSON) (Key : String) : Option JSON :=
  FindMember Key J.members

/-- `contains(Key)`. -/
def JSON.contains (J : JSON) (Key : String) : Bool :=
  (J.find Key).isSome

/-- `at(Key)`: `type_error` for a value that is not an object, `out_of_range`
for a key that is not there. -/
def JSON.at (J : JSON) (Key : String) : Except Thrown JSON :=
  match J with
  | JSON.object Members =>
    match FindMember Key Members with
    | some V => Except.ok V
    | none => Except.error Thrown.out_of_range
  | _ => Except.error Thrown.type_error

/-- `get<std::string>()`. -/
def JSON.getString : JSON → Except Thrown String
  | JSON.string Value => Except.ok Value
  | _ => Except.error Thrown.type_error

/-- `get<std::uint64_t>()` and `get<std::size_t>()`: the number converted to
64 bits. -/
def JSON.getUnsigned : JSON → Except Thrown Nat
  | JSON.number Value => Except.ok (wrap64 Value)
  | _ => Except.error Thrown.type_error

/-- The element loop of `get<std::vector<std::string>>()`. -/
def GetStringsLoop : List JSON → Except Thrown (List String)
  | [] => Except.ok []
  | Item :: Rest =>
    match Item.getString with
    | Except.error E => Except.error E
    | Except.ok Value =>
      match GetStringsLoop Rest with
      | Except.error E => Except.error E
      | Except.ok Values => Except.ok (Value :: Values)

/-- `get<std::vector<std::string>>()`. -/
def JSON.getStrings : JSON → Except Thrown (List String)
  | JSON.array Items => GetStringsLoop Items
  | _ => Except.error Thrown.type_error

/-- The values a range-based `for` over a JSON value visits: the elements of
an array, the member values of an object, nothing for null, and the value
itself for a value of another kind. -/
def JSON.items : JSON → List JSON
  | JSON.null => []
  | JSON.array Items => Items
  | JSON.object Members => Members.map Prod.snd
  | J => [J]

/-- The JSON value once a range-based `for` by reference has left `Items` in
the places of the values it visited. -/
def JSON.withItems : JSON → List JSON → JSON
  | JSON.null, _ => JSON.null
  | JSON.array _, Items => JSON.array Items
  | JSON.object Members, Items =>
    JSON.object ((Members.zip Items).map fun M => (M.1.1, M.2))
  | J, Items => Items.headD J

/-- The members of an object after the member `Key` was given the value `V`:
the first member with this key is replaced in place, a new member goes to the
end. -/
def SetMember (Key : String) (V : JSON) : List (String × JSON) → List (String × JSON)
  | [] => [(Key, V)]
  | (K, Old) :: Rest => if K = Key then (K, V) :: Rest else (K, Old) :: SetMember Key V Rest

/-- The effect of `auto& X = J[Key];` followed by an update `f` of `X`:
`operator[]` turns null into an empty object, adds a null member under a key
that is not there, and raises `type_error` for any other kind of value. -/
def JSON.update (J : JSON) (Key : String) (f : JSON → Except Thrown JSON) : Except Thrown JSON :=
  match J with
  | JSON.null =>
    match f JSON.null with
    | Except.error E => Except.error E
    | Except.ok V => Except.ok (JSON.object [(Key, V)])
  | JSON.object Members =>
    match f ((FindMember Key Members).getD JSON.null) with
    | Except.error E => Except.error E
    | Except.ok V => Except.ok (JSON.object (SetMember Key V Members))
  | _ => Except.error Thrown.type_error

/-! ## The finder (`OffsetFinder.h`, `OffsetFinder.cpp`) -/

/-- Modelled from the spec: `DumpAnalyzer::TslDecryption<XorT>` is declared in
`DumpAnalyzer.h`, which is not among the sources; the members
`ExtractTslDecryptors` assigns (`PseudoCode` is `Pseudo.Code`), each
zero-initialised. -/
structure TslDecryption where
  IsX32 : Bool := false
  Xor1 : Nat := 0
  Xor2 : Nat := 0
  IsRotateRight : Bool := false
  Rotate : Nat := 0
  IsShiftRight : Bool := false
  Shift : Nat := 0
  PseudoCode : List Char := []
deriving DecidableEq, Repr

/-- The values the handlers store in the `std::any` member of `TFound`. -/
inductive FoundValue where
  | U64 (Value : Nat)
  | U32 (Value : Nat)
  | Decryption (Value : TslDecryption)
deriving DecidableEq, Repr

/-- `TFound` (`OffsetFinder.h`). -/
structure TFound where
  Match : TSearchFor
  Value : FoundValue
deriving DecidableEq, Repr

/-- The state of an `OffsetFinder` the search reads and writes: the analyzer
with its PE sections (`GetPeSections()`) and function set, the JSON
configuration, the regions built from it, the list of finds, and the
synchronisation flag.  `ChainID32` and `ChainID64` are the static counters of
the two instances of `DumpAnalyzer::ExtractTslDecryptors`, state of the
process that the handlers change through the analyzer. -/
structure OffsetFinder where
  Analyzer : DumpAnalyzer
  InPeSections : Option (List PeSection) := none
  InFunctions : List Nat := []
  JSON_SearchRegions : JSON := JSON.null
  SearchRegions : List TSearchRegion := []
  FoundList : List TFound := []
  ShouldSyncSearchConfig : Bool := false
  ChainID32 : Nat := 0
  ChainID64 : Nat := 0

/-- `OffsetFinder::AddFind`. -/
def OffsetFinder.AddFind (F : OffsetFinder) (FoundItem : TFound) : OffsetFinder :=
  { F with FoundList := F.FoundList ++ [FoundItem] }

/-- The assignments `Find["SearchRange"]["Offset"] = Range.Offset;` and
`Find["SearchRange"]["Size"] = Range.Size;`. -/
def WriteSearchRange (Range : TRange) (Find : JSON) : Except Thrown JSON :=
  match Find.update "SearchRange"
      (fun SearchRange => SearchRange.update "Offset" fun _ =>
        Except.ok (JSON.number Range.Offset)) with
  | Except.error E => Except.error E
  | Except.ok Find =>
    Find.update "SearchRange"
      (fun SearchRange => SearchRange.update "Size" fun _ =>
        Except.ok (JSON.number Range.Size))

/-- The two loops of `JSON_UpdateSearchRange` have one shape: go through the
items, skip those whose member `Key` differs from `ID`, run `Body` on the
first one that agrees, and stop. -/
def UpdateFirstLoop (Key ID : String) (Body : JSON → Except Thrown JSON) :
    List JSON → Except Thrown (List JSON)
  | [] => Except.ok []
  | Item :: Rest =>
    match Item.at Key with
    | Except.error E => Except.error E
    | Except.ok Member =>
      match Member.getString with
      | Except.error E => Except.error E
      | Except.ok ItemID =>
        if ID ≠ ItemID then
          match UpdateFirstLoop Key ID Body Rest with
          | Except.error E => Except.error E
          | Except.ok Rest => Except.ok (Item :: Rest)
        else
          match Body Item with
          | Except.error E => Except.error E
          | Except.ok Item => Except.ok (Item :: Rest)

/-- The body of the outer loop of `JSON_UpdateSearchRange` for the region
that agrees: `auto& SearchFor = RegionJson["SearchFor"];` and the inner
loop. -/
def UpdateRegionJson (Range : TRange) (ToFind : TSearchFor) (RegionJson : JSON) :
    Except Thrown JSON :=
  RegionJson.update "SearchFor" fun SearchFor =>
    match UpdateFirstLoop "SearchID" ToFind.SearchID (WriteSearchRange Range) SearchFor.items with
    | Except.error E => Except.error E
    | Except.ok Items => Except.ok (SearchFor.withItems Items)

/-- `OffsetFinder::JSON_UpdateSearchRange`: the JSON configuration after the
call. -/
def OffsetFinder.JSON_UpdateSearchRange (F : OffsetFinder) (Range : TRange)
    (Region : TSearchRegion) (ToFind : TSearchFor) : Except Thrown OffsetFinder :=
  if ¬ F.ShouldSyncSearchConfig then Except.ok F
  else
    match UpdateFirstLoop "RegionID" Region.RegionID (UpdateRegionJson Range ToFind)
        F.JSON_SearchRegions.items with
    | Except.error E => Except.error E
    | Except.ok Items =>
      Except.ok { F with JSON_SearchRegions := F.JSON_SearchRegions.withItems Items }

/-- Modelled from the spec: `OffsetFinder.h` declares `JSON_SyncSearchRange`,
which the handlers call, and no source defines a function of this name;
`OffsetFinder.cpp` defines `JSON_UpdateSearchRange` with the same parameters,
and the specification knows one write-back, so the call is taken to run that
function.  `none` stands for an exception. -/
def OffsetFinder.JSON_SyncSearchRange (F : OffsetFinder) (Range : TRange)
    (Region : TSearchRegion) (ToFind : TSearchFor) : Option OffsetFinder :=
  match F.JSON_UpdateSearchRange Range Region ToFind with
  | Except.error _ => none
  | Except.ok F => some F

/-! ## The value handlers (`SearchHandlers.h`, `SearchHandlers.cpp`) -/

/-- What the body of the matcher loop of `ValueExtractingHandler` does for one
matcher before it tests the counters: call `PostMatching` with the offset and
size of the match, nothing (no match, or a matcher of no type), leave the
handler (`return std::nullopt`), or raise an exception (also an access
outside the list of matches). -/
inductive MatcherStep where
  | Matched (MatchOffset MatchSize : Nat)
  | NoMatch
  | Return
  | Throw
deriving DecidableEq, Repr

/-- The item `(*Found->Value)[Index]` of a successful search, handed to
`PostMatching`. -/
def IndexedStep (Found : Option (Option (Result (List MatchRange)))) (Index : Nat) :
    MatcherStep :=
  match Found with
  | none => MatcherStep.Throw
  | some none => MatcherStep.NoMatch
  | some (some Found) =>
    match (Found.Value.getD [])[Index]? with
    | none => MatcherStep.Throw
    | some Range => MatcherStep.Matched Range.Offset Range.Size

/-- The search one matcher runs over the window of `Size` bytes at
`StartOffset`. -/
def MatcherStepAt (Z : ZydisStrings) (A : DumpAnalyzer) (StartOffset Size : Nat)
    (Matcher : TMatcher) : MatcherStep :=
  match Matcher.Type' with
  | MatcherType.Pattern =>
    match A.FindPatternInRange StartOffset Size Matcher.Pattern with
    | none => MatcherStep.Throw
    | some none => MatcherStep.NoMatch
    | some (some Found) => MatcherStep.Matched Found.Range.Offset Found.Range.Size
  | MatcherType.PatternSubsequence =>
    IndexedStep (A.FindPatternSubsequence StartOffset Size Matcher.PatternSubsequence)
      Matcher.Index
  | MatcherType.InstructionSequence =>
    match ParseInstructionsLoop Z Matcher.InstructionSequence [] with
    | none => MatcherStep.Throw
    | some none => MatcherStep.Return
    | some (some ParsedInstructions) =>
      if ParsedInstructions = [] then MatcherStep.Return
      else
        IndexedStep (A.FindInstructionSequence StartOffset Size ParsedInstructions)
          Matcher.Index
  | MatcherType.InstructionSubsequence =>
    match ParseInstructionsLoop Z Matcher.InstructionSubsequence [] with
    | none => MatcherStep.Throw
    | some none => MatcherStep.Return
    | some (some ParsedInstructions) =>
      if ParsedInstructions = [] then MatcherStep.Return
      else
        IndexedStep (A.FindInstructionSubsequence StartOffset Size ParsedInstructions)
          Matcher.Index
  | MatcherType.None => MatcherStep.NoMatch

/-- The local variables of `ValueExtractingHandler` the matcher loop
updates. -/
structure MatcherState where
  MatcherCoverageUpdating : List MatchRange := []
  InstructionOffsetsVerifying : List Nat := []
  InstructionOffset : Nat := 0
  SuccessfulMatches : Nat := 0
deriving DecidableEq, Repr

/-- The lambda `PostMatching`. -/
def PostMatching (S : MatcherState) (Matcher : TMatcher) (MatchOffset MatchSize : Nat) :
    MatcherState :=
  let InstructionOffset := add64 MatchOffset Matcher.Offset
  { MatcherCoverageUpdating := S.MatcherCoverageUpdating ++ [⟨MatchOffset, MatchSize⟩],
    InstructionOffset := InstructionOffset,
    InstructionOffsetsVerifying := S.InstructionOffsetsVerifying ++ [InstructionOffset],
    SuccessfulMatches := S.SuccessfulMatches + 1 }

/-- The matcher loop of `ValueExtractingHandler`.  The outer `none` stands for
an exception, `some none` for `return std::nullopt`. -/
def MatchersLoop (Z : ZydisStrings) (A : DumpAnalyzer) (StartOffset Size ToMatch : Nat) :
    List TMatcher → MatcherState → Option (Option MatcherState)
  | [], S => some (some S)
  | Matcher :: Rest, S =>
    match MatcherStepAt Z A StartOffset Size Matcher with
    | MatcherStep.Throw => none
    | MatcherStep.Return => some none
    | MatcherStep.NoMatch =>
      if ToMatch = S.SuccessfulMatches then some (some S)
      else MatchersLoop Z A StartOffset Size ToMatch Rest S
    | MatcherStep.Matched MatchOffset MatchSize =>
      let S := PostMatching S Matcher MatchOffset MatchSize
      if ToMatch = S.SuccessfulMatches then some (some S)
      else MatchersLoop Z A StartOffset Size ToMatch Rest S

/-- The loop of `ValueExtractingHandler` over the raw ranges: the lowest begin
and the highest end. -/
def CoverageLoop : List MatchRange → Nat → Nat → Nat × Nat
  | [], LowestOffset, HighestOffset => (LowestOffset, HighestOffset)
  | RawRange :: Rest, LowestOffset, HighestOffset =>
    let Offset := RawRange.Offset
    let OffsetPlusSize := add64 Offset RawRange.Size
    let LowestOffset := if Offset < LowestOffset then Offset else LowestOffset
    let HighestOffset := if OffsetPlusSize > HighestOffset then OffsetPlusSize else HighestOffset
    CoverageLoop Rest LowestOffset HighestOffset

/-- `SearchHandlers::Detail::ValueExtractingHandler`: the value returned and
`*MatcherCoverage` as the call leaves it.  The outer `none` stands for an
exception or an undefined access. -/
def ValueExtractingHandler {α : Type} (Z : ZydisStrings) (A : DumpAnalyzer)
    (Region : TSearchRegion) (ToFind : TSearchFor) (MatcherCoverage : TRange)
    (Extractor : Nat → Nat → Option (Option (Result α))) :
    Option (Option (Result α) × TRange) :=
  let Range := SetBoundaries Region ToFind
  let RegionRange := Region.RegionRange
  let NumMatchers := ToFind.Matchers.length
  if ToFind.MatcherMode ≠ MatcherMode.None ∧ NumMatchers = 0 then some (none, MatcherCoverage)
  else
    let ToMatch :=
      match ToFind.MatcherMode with
      | MatcherMode.First => 1
      | MatcherMode.All => NumMatchers
      | MatcherMode.None => 0
    match MatchersLoop Z A (add64 RegionRange.Offset Range.Offset) Range.Size ToMatch
        ToFind.Matchers {} with
    | none => none
    | some none => some (none, MatcherCoverage)
    | some (some S) =>
      if ToFind.MatcherMode ≠ MatcherMode.None then
        if S.SuccessfulMatches < ToMatch then some (none, MatcherCoverage)
        else if S.InstructionOffsetsVerifying.any (fun Offset => S.InstructionOffset ≠ Offset)
        then some (none, MatcherCoverage)
        else
          let Bounds := CoverageLoop S.MatcherCoverageUpdating (U64 - 1) 0
          let MatcherCoverage :=
            { MatcherCoverage with Offset := Bounds.1, Size := sub64 Bounds.2 Bounds.1 }
          match Extractor S.InstructionOffset Range.Size with
          | none => none
          | some Extracted => some (Extracted, MatcherCoverage)
      else
        match Extractor (add64 RegionRange.Offset Range.Offset) Range.Size with
        | none => none
        | some Extracted => some (Extracted, MatcherCoverage)

/-- The handlers take the region and the search target by reference; in the
call `Find(this->SearchRegions, ...)` of `Find(FilePath, ...)` both lie inside
the member `SearchRegions`, so they are given here by their positions. -/
def OffsetFinder.Target (F : OffsetFinder) (RegionIndex FindIndex : Nat) :
    Option (TSearchRegion × TSearchFor) :=
  match F.SearchRegions[RegionIndex]? with
  | none => none
  | some Region =>
    match Region.SearchFor[FindIndex]? with
    | none => none
    | some ToFind => some (Region, ToFind)

/-- A search handler: the value returned and the finder as the call leaves it;
`none` stands for an exception or an undefined access. -/
abbrev SearchHandler := OffsetFinder → Nat → Nat → Option (Bool × OffsetFinder)

/-- The body `ImmediateHandler`, `DisplacementHandler` and `ReferenceHandler`
share: run `ValueExtractingHandler` with the extractor of the handler, hand
the coverage relative to the region base to `JSON_SyncSearchRange`, and add
the find. -/
def ValueHandler {α : Type} (Z : ZydisStrings)
    (Extractor : DumpAnalyzer → Nat → Nat → Option (Option (Result α)))
    (Wrap : α → FoundValue) : SearchHandler :=
  fun F RegionIndex FindIndex =>
    match F.Target RegionIndex FindIndex with
    | none => none
    | some (Region, ToFind) =>
      match ValueExtractingHandler Z F.Analyzer Region ToFind {} (Extractor F.Analyzer) with
      | none => none
      | some (none, _) => some (false, F)
      | some (some Extracted, MatcherCoverage) =>
        match Extracted.Value with
        | none => none
        | some Value =>
          let OffsetFromFunctionBase := sub64 MatcherCoverage.Offset Region.RegionRange.Offset
          match F.JSON_SyncSearchRange
              { Offset := OffsetFromFunctionBase, Size := MatcherCoverage.Size } Region ToFind with
          | none => none
          | some F => some (true, F.AddFind ⟨ToFind, Wrap Value⟩)

/-- `SearchHandlers::ImmediateHandler`. -/
def ImmediateHandler (Z : ZydisStrings) : SearchHandler :=
  ValueHandler Z (fun A StartOffset Size => A.ExtractImmediate StartOffset Size) FoundValue.U64

/-- `SearchHandlers::DisplacementHandler`. -/
def DisplacementHandler (Z : ZydisStrings) : SearchHandler :=
  ValueHandler Z (fun A StartOffset Size => A.ExtractDisplacement StartOffset Size)
    FoundValue.U32

/-- `SearchHandlers::ReferenceHandler`. -/
def ReferenceHandler (Z : ZydisStrings) : SearchHandler :=
  ValueHandler Z (fun A StartOffset Size => A.ResolveRipRelativeOffset StartOffset Size none)
    FoundValue.U64

/-! ## The main loop (`OffsetFinder::Find`) -/

/-- `SearchHandlers::Detail::SetBase`, with the region at `RegionIndex` of the
member `SearchRegions`. -/
def SetBase (Z : ZydisStrings) (F : OffsetFinder) (RegionIndex : Nat) :
    Option (Bool × OffsetFinder) :=
  match F.SearchRegions[RegionIndex]? with
  | none => none
  | some Region =>
    match Region.RegionType with
    | RegionType.Function =>
      match SetFunctionBase Z F.Analyzer F.InPeSections F.InFunctions Region with
      | none => none
      | some (Found, Region) =>
        let F := { F with SearchRegions := F.SearchRegions.set RegionIndex Region }
        some (Found.isSome, F)
    | RegionType.Section =>
      match F.InPeSections with
      | none => some (false, F)
      | some Sections_ =>
        if Region.RegionID = "Section_Text" then
          match GetSection Sections_ ".text" with
          | none => some (false, F)
          | some Section =>
            let Region :=
              { Region with
                RegionRange :=
                  { Region.RegionRange with Offset := Section.Offset, Size := Section.Size } }
            some (true, { F with SearchRegions := F.SearchRegions.set RegionIndex Region })
        else some (true, F)
    | RegionType.Unknown => some (true, F)

/-- `SearchHandlers::RegionHandler`. -/
def RegionHandler (Z : ZydisStrings) (F : OffsetFinder) (RegionIndex : Nat) :
    Option (Bool × OffsetFinder) :=
  SetBase Z F RegionIndex

/-- The loop of `HandleExpectedFinds` from the target at `FindIndex` on;
`Remaining` is the number of targets still to visit.  `Handlers` is the member
`SearchHandlers`; a search type without a handler calls an empty
`std::function`, which raises an exception. -/
def HandleFindsLoop (Handlers : SearchType → Option SearchHandler) (RegionIndex : Nat) :
    Nat → Nat → OffsetFinder → Option OffsetFinder
  | 0, _, F => some F
  | Remaining + 1, FindIndex, F =>
    match F.Target RegionIndex FindIndex with
    | none => none
    | some (_, ToFind) =>
      match Handlers ToFind.SearchType with
      | none => none
      | some Handler =>
        match Handler F RegionIndex FindIndex with
        | none => none
        | some (_, F) => HandleFindsLoop Handlers RegionIndex Remaining (FindIndex + 1) F

/-- `OffsetFinder::HandleExpectedFinds` for the region at `RegionIndex` of the
member `SearchRegions`. -/
def OffsetFinder.HandleExpectedFinds (F : OffsetFinder)
    (Handlers : SearchType → Option SearchHandler) (RegionIndex : Nat) : Option OffsetFinder :=
  match F.SearchRegions[RegionIndex]? with
  | none => none
  | some Region => HandleFindsLoop Handlers RegionIndex Region.SearchFor.length 0 F

/-- The loop of `Find` from the region at `RegionIndex` on; `Remaining` is the
number of regions still to visit. -/
def FindLoop (Handlers : SearchType → Option SearchHandler)
    (RegionHandler : OffsetFinder → Nat → Option (Bool × OffsetFinder)) :
    Nat → Nat → OffsetFinder → Option OffsetFinder
  | 0, _, F => some F
  | Remaining + 1, RegionIndex, F =>
    match F.SearchRegions[RegionIndex]? with
    | none => none
    | some Region =>
      if Region.AccessType ≠ AccessType.Normal then
        FindLoop Handlers RegionHandler Remaining (RegionIndex + 1) F
      else
        match RegionHandler F RegionIndex with
        | none => none
        | some (false, F) => FindLoop Handlers RegionHandler Remaining (RegionIndex + 1) F
        | some (true, F) =>
          match F.HandleExpectedFinds Handlers RegionIndex with
          | none => none
          | some F => FindLoop Handlers RegionHandler Remaining (RegionIndex + 1) F

/-- `OffsetFinder::Find(Regions, ShouldSyncSearchConfig)` in the call
`Find(this->SearchRegions, ...)`: the loop over the regions, and after it the
assignment of the flag.  `none` stands for an exception. -/
def OffsetFinder.Find (F : OffsetFinder) (Handlers : SearchType → Option SearchHandler)
    (RegionHandler : OffsetFinder → Nat → Option (Bool × OffsetFinder))
    (ShouldSyncSearchConfig : Bool) : Option OffsetFinder :=
  match FindLoop Handlers RegionHandler F.SearchRegions.length 0 F with
  | none => none
  | some F => some { F with ShouldSyncSearchConfig := ShouldSyncSearchConfig }

/-- The matches behind a state of the matcher loop: the matchers that matched
so far, each with the offset and size of its match. -/
def MatcherState.Extends (S S0 : MatcherState) (Hits : List (TMatcher × Nat × Nat)) : Prop :=
  S.InstructionOffsetsVerifying =
      S0.InstructionOffsetsVerifying ++ Hits.map (fun H => add64 H.2.1 H.1.Offset) ∧
    S.MatcherCoverageUpdating =
      S0.MatcherCoverageUpdating ++ Hits.map (fun H => (⟨H.2.1, H.2.2⟩ : MatchRange)) ∧
    S.SuccessfulMatches = S0.SuccessfulMatches + Hits.length ∧
    S.InstructionOffset =
      ((Hits.getLast?).map fun H => add64 H.2.1 H.1.Offset).getD S0.InstructionOffset

/-- A region of six bytes at offset 0 and a target in mode `All` with two
`Pattern` matchers that both match at offset 0. -/
def AllModeRegion : TSearchRegion :=
  { RegionID := "Region", RegionRange := { Offset := 0, Size := 6 } }

/-- The target of `AllModeRegion`. -/
def AllModeTarget : TSearchFor :=
  { SearchID := "Target", SearchType := SearchType.Immediate, MatcherMode := MatcherMode.All,
    Matchers :=
      [{ Type' := MatcherType.Pattern, Pattern := "BA 78".toList },
       { Type' := MatcherType.Pattern, Pattern := "BA ? 56".toList }],
    SearchRange := { Offset := 0, Size := 6 } }

/-- The dump of the mode `All` example: `mov edx, 0x12345678; ret`. -/
def AllModeAnalyzer : DumpAnalyzer :=
  ScenarioAnalyzer [0xBA, 0x78, 0x56, 0x34, 0x12, 0xC3]

/-- The value at the end of a path of member keys and item positions. -/
def JSON.get? (J : JSON) : List (String ⊕ Nat) → Option JSON
  | [] => some J
  | Sum.inl Key :: Rest =>
    match J.find Key with
    | none => none
    | some V => V.get? Rest
  | Sum.inr Index :: Rest =>
    match J.items[Index]? with
    | none => none
    | some V => V.get? Rest

/-- The number a JSON value holds, if it is a number. -/
def JSON.number? : JSON → Option Int
  | JSON.number Value => some Value
  | _ => none

/-- The number at the end of a path. -/
def JSON.numberAt (J : JSON) (Path : List (String ⊕ Nat)) : Option Int :=
  (J.get? Path).bind JSON.number?

/-- The three value handlers, as the member `SearchHandlers`. -/
def ValueHandlers (Z : ZydisStrings) : SearchType → Option SearchHandler
  | SearchType.Immediate => some (ImmediateHandler Z)
  | SearchType.Displacement => some (DisplacementHandler Z)
  | SearchType.Reference => some (ReferenceHandler Z)
  | _ => none

/-- The dump of the synchronisation scenario: a regions dump with base address
0 whose only region starts at `0x3000` and holds `mov rax, rbx` (`48 89 D8`) at
`0x3090`, `mov edx, 0x12345678` at `0x3093`, `ret` (`C3`) at `0x30A5`, and
zero bytes otherwise. -/
def SyncAnalyzer : DumpAnalyzer :=
  ScenarioRegionAnalyzer 0x3000
    (List.replicate 0x90 0 ++ [0x48, 0x89, 0xD8, 0xBA, 0x78, 0x56, 0x34, 0x12] ++
      List.replicate 13 0 ++ [0xC3] ++ List.replicate 0x5A 0)

/-- The target of the synchronisation scenario: an immediate, located by the
pattern subsequence `48 89`, `C3`, with the given search range. -/
def SyncTarget (SearchRange : TRange) : TSearchFor :=
  { SearchID := "Target", SearchType := SearchType.Immediate, MatcherMode := MatcherMode.First,
    Matchers :=
      [{ Type' := MatcherType.PatternSubsequence,
         PatternSubsequence := ["48 89".toList, "C3".toList] }],
    SearchRange := SearchRange }

/-- The region of the synchronisation scenario, with base `0x3000`. -/
def SyncRegion (SearchRange : TRange) : TSearchRegion :=
  { RegionID := "Section_Text", RegionType := RegionType.Section,
    RegionRange := { Offset := 0x3000, Size := 0x100 },
    SearchFor := [SyncTarget SearchRange] }

/-- The JSON configuration of the synchronisation scenario. -/
def SyncConfig : JSON :=
  JSON.array
    [JSON.object
      [("RegionID", JSON.string "Section_Text"),
       ("RegionType", JSON.string "Section"),
       ("SearchFor", JSON.array
         [JSON.object
           [("SearchID", JSON.string "Target"),
            ("SearchType", JSON.string "Immediate"),
            ("MatcherMode", JSON.string "First"),
            ("Matchers", JSON.array
              [JSON.object
                [("Type", JSON.string "PatternSubsequence"),
                 ("Value", JSON.array [JSON.string "48 89", JSON.string "C3"])]]),
            ("SearchRange", JSON.object
              [("Offset", JSON.number 0x80), ("Size", JSON.number 0x30)])]])]]

/-- The finder of the synchronisation scenario, with the given value of the
synchronisation flag. -/
def SyncFinder (ShouldSyncSearchConfig : Bool) : OffsetFinder :=
  { Analyzer := SyncAnalyzer,
    InPeSections := some [⟨".text", 0x3000, 0x100⟩],
    JSON_SearchRegions := SyncConfig,
    SearchRegions := [SyncRegion { Offset := 0x80, Size := 0x30 }],
    ShouldSyncSearchConfig := ShouldSyncSearchConfig }

/-- The path of the search range of the target in `SyncConfig`. -/
def SyncRangePath : List (String ⊕ Nat) :=
  [Sum.inr 0, Sum.inl "SearchFor", Sum.inr 0, Sum.inl "SearchRange"]

/-- A handler that, run with the synchronisation flag off, leaves the flag
off and the JSON configuration as it was. -/
def KeepsConfig (Handler : OffsetFinder → Nat → Nat → Option (Bool × OffsetFinder)) : Prop :=
  ∀ F RegionIndex FindIndex Handled F', F.ShouldSyncSearchConfig = false →
    Handler F RegionIndex FindIndex = some (Handled, F') →
    F'.ShouldSyncSearchConfig = false ∧ F'.JSON_SearchRegions = F.JSON_SearchRegions

/-- `Item`, at position `Index`, is the first of `Items` whose member `Key` is
the string `ID`; the items before it have a string member `Key` that differs
from `ID`. -/
def FirstWith (Key ID : String) (Items : List JSON) (Index : Nat) (Item : JSON) : Prop :=
  Items[Index]? = some Item ∧ Item.find Key = some (JSON.string ID) ∧
    ∀ J, J < Index → ∀ Other, Items[J]? = some Other →
      ∃ OtherID, Other.find Key = some (JSON.string OtherID) ∧ OtherID ≠ ID

/-- `J'` is `J` but for the value of the member `Key`, which is `V'` in `J'`:
the other members are the same, in the same order, and when `J` has a member
`Key` the keys of `J'` are those of `J` in the same order. -/
def SameButMember (J J' : JSON) (Key : String) (V' : JSON) : Prop :=
  J'.find Key = some V' ∧
    (J'.members.filter fun M => M.1 ≠ Key) = (J.members.filter fun M => M.1 ≠ Key) ∧
    (J.contains Key = true → J'.members.map Prod.fst = J.members.map Prod.fst)

/-- The items of the JSON configuration of the synchronisation scenario. -/
def SyncConfigRegions : List JSON :=
  SyncConfig.items

/-- The JSON configuration of the synchronisation scenario once the range
`0x90`, 2 is written back. -/
def SyncConfigWritten : JSON :=
  JSON.array
    [JSON.object
      [("RegionID", JSON.string "Section_Text"),
       ("RegionType", JSON.string "Section"),
       ("SearchFor", JSON.array
         [JSON.object
           [("SearchID", JSON.string "Target"),
            ("SearchType", JSON.string "Immediate"),
            ("MatcherMode", JSON.string "First"),
            ("Matchers", JSON.array
              [JSON.object
                [("Type", JSON.string "PatternSubsequence"),
                 ("Value", JSON.array [JSON.string "48 89", JSON.string "C3"])]]),
            ("SearchRange", JSON.object
              [("Offset", JSON.number 0x90), ("Size", JSON.number 2)])]])]]

/-! ## Pseudocode post-processing (`CodeGeneration.h`) -/

/-- The position of the first occurrence of `Needle` in `Text`. -/
def FindIn (Needle : List Char) : List Char → Option Nat
  | [] => if Needle = [] then some 0 else none
  | C :: Text =>
    if Needle.isPrefixOf (C :: Text) then some 0 else (FindIn Needle Text).map (· + 1)

/-- `std::string::find(Needle, Pos)`; `none` is `npos`. -/
def StringFind (String Needle : List Char) (Pos : Nat) : Option Nat :=
  if Pos > String.length then none else (FindIn Needle (String.drop Pos)).map (· + Pos)

/-- The NUL character, at which a `%s` conversion stops. -/
def NUL : Char := Char.ofNat 0

/-- `c_str()` read by a `%s` conversion: the characters before the first NUL. -/
def CStr (String : List Char) : List Char :=
  String.takeWhile (· ≠ NUL)

/-- `std::to_string` and the `%d` conversion of a small non-negative number. -/
def Decimal (N : Nat) : List Char :=
  (Nat.repr N).toList

/-- `CodeGeneration::VarPrefix`. -/
def VarPrefix : List Char := "<V>".toList

/-- `CodeGeneration::ParamName`. -/
def ParamName : List Char := "<ParamName>".toList

/-- `CodeGeneration::FunctionName`. -/
def FunctionName : List Char := "<FunctioName>".toList

/-- The loop of `MakeFunctionBody` that walks forward to the matching `)`:
`Text` is the text from `Cur` on; the values of `Cur` and `Depth` when the loop
is left.  (`Depth` is an `int`; a nesting deeper than `INT_MAX` is left
out.) -/
def WalkParens : List Char → Nat → Nat → Nat × Nat
  | [], Cur, Depth => (Cur, Depth)
  | C :: Text, Cur, Depth =>
    if Depth > 0 then
      let Depth := if C = '(' then Depth + 1 else if C = ')' then Depth - 1 else Depth
      WalkParens Text (Cur + 1) Depth
    else (Cur, Depth)

/-- The scan of `MakeFunctionBody` for the rotate calls: `Occurrences` and
`UniqueMatches` when the loop is left.  `Fuel` bounds the number of
iterations; `I` grows in each. -/
def ScanLoop (RawPseudocode : List Char) :
    Nat → Nat → List (List Char) → List (List Char) → List (List Char) × List (List Char)
  | 0, _, Occurrences, UniqueMatches => (Occurrences, UniqueMatches)
  | Fuel + 1, I, Occurrences, UniqueMatches =>
    if I < RawPseudocode.length then
      match StringFind RawPseudocode "_rot".toList I with
      | none => (Occurrences, UniqueMatches)
      | some P =>
        if P + 4 ≥ RawPseudocode.length then (Occurrences, UniqueMatches)
        else
          let Dir := RawPseudocode.getD (P + 4) ' '
          if Dir ≠ 'r' ∧ Dir ≠ 'l' then
            ScanLoop RawPseudocode Fuel (P + 1) Occurrences UniqueMatches
          else
            let Cur := P + 5
            let Cur :=
              if Cur + 1 < RawPseudocode.length ∧ RawPseudocode.getD Cur ' ' = '6' ∧
                  RawPseudocode.getD (Cur + 1) ' ' = '4' then Cur + 2
              else Cur
            if Cur ≥ RawPseudocode.length ∨ RawPseudocode.getD Cur ' ' ≠ '(' then
              ScanLoop RawPseudocode Fuel (P + 1) Occurrences UniqueMatches
            else
              let Start := P
              let Walk := WalkParens (RawPseudocode.drop (Cur + 1)) (Cur + 1) 1
              let Cur := Walk.1
              let Depth := Walk.2
              if Depth ≠ 0 then (Occurrences, UniqueMatches)
              else
                let Match := (RawPseudocode.drop Start).take (Cur - Start)
                let Occurrences := Occurrences ++ [Match]
                let UniqueMatches :=
                  if Match ∈ UniqueMatches then UniqueMatches else UniqueMatches ++ [Match]
                ScanLoop RawPseudocode Fuel Cur Occurrences UniqueMatches
    else (Occurrences, UniqueMatches)

/-- The loop of `MakeFunctionBody` that builds the declarations, from the
variable number `I + 1` on. -/
def DeclarationLoop (RetWidth : List Char) : List (List Char) → Nat → List Char
  | [], _ => []
  | Match :: Rest, I =>
    "  ".toList ++ CStr RetWidth ++ " ".toList ++ VarPrefix ++ Decimal (I + 1) ++
      " = ".toList ++ CStr Match ++ ";\n".toList ++ DeclarationLoop RetWidth Rest (I + 1)

/-- `std::find` followed by `std::distance`: the position of the first element
equal to `Text`, the size of the list when there is none. -/
def IndexOf (Text : List Char) : List (List Char) → Nat
  | [] => 0
  | Other :: Rest => if Other = Text then 0 else IndexOf Text Rest + 1

/-- The loop of `MakeFunctionBody` that replaces each occurrence in turn. -/
def ReplaceLoop (UniqueMatches : List (List Char)) :
    List (List Char) → List Char → Nat → List Char
  | [], Body, _ => Body
  | Occ :: Rest, Body, SearchPos =>
    match StringFind Body Occ SearchPos with
    | none => Body
    | some Pos =>
      let Index := IndexOf Occ UniqueMatches
      let VarName := VarPrefix ++ Decimal (Index + 1)
      let Body := Body.take Pos ++ VarName ++ Body.drop (Pos + Occ.length)
      ReplaceLoop UniqueMatches Rest Body (Pos + VarName.length)

/-- `CodeGeneration::MakeFunctionBody`. -/
def MakeFunctionBody (RetWidth RawPseudocode : List Char) : List Char :=
  let Scan := ScanLoop RawPseudocode (RawPseudocode.length + 1) 0 [] []
  let Occurrences := Scan.1
  let UniqueMatches := Scan.2
  if Occurrences = [] then RawPseudocode
  else
    let DeclarationBlock := DeclarationLoop RetWidth UniqueMatches 0
    let Body := ReplaceLoop UniqueMatches Occurrences RawPseudocode 0
    CStr DeclarationBlock ++ "  return ".toList ++ CStr Body ++ ";".toList

/-- `CodeGeneration::AddFunctionScope`. -/
def AddFunctionScope (RetWidth ProcessedBody : List Char) : List Char :=
  CStr RetWidth ++ " ".toList ++ FunctionName ++ "(".toList ++ CStr RetWidth ++ " ".toList ++
    ParamName ++ ")\n\x7b\n".toList ++ CStr ProcessedBody ++ "\n\x7d".toList

/-- `CodeGeneration::MakeFunction<T>`; `X32` stands for `T = std::uint32_t`. -/
def MakeFunction (X32 : Bool) (RawPseudocode : List Char) : List Char :=
  let Width := if X32 then "std::uint32_t".toList else "std::uint64_t".toList
  let ProcessedBody := MakeFunctionBody Width RawPseudocode
  AddFunctionScope Width ProcessedBody

/-! ### What the post-processing computes -/

/-- The parentheses of `Text` are balanced when `Depth` of them are open at its
start: no `)` comes without an open `(`, and none stays open at the end. -/
def BalancedFrom : List Char → Nat → Bool
  | [], Depth => Depth = 0
  | C :: Text, Depth =>
    if C = '(' then BalancedFrom Text (Depth + 1)
    else if C = ')' then Depth > 0 && BalancedFrom Text (Depth - 1)
    else BalancedFrom Text Depth

/-- A text with balanced parentheses. -/
def Balanced (Text : List Char) : Prop :=
  BalancedFrom Text 0 = true

instance (Text : List Char) : Decidable (Balanced Text) := by
  unfold Balanced
  infer_instance

/-- The number of characters of `Text` up to and including the `)` that closes
the innermost of `Depth` open parentheses, if there is one. -/
def CloseLength : List Char → Nat → Option Nat
  | [], _ => none
  | C :: Text, Depth =>
    if C = '(' then (CloseLength Text (Depth + 1)).map (· + 1)
    else if C = ')' then
      if Depth ≤ 1 then some 1 else (CloseLength Text (Depth - 1)).map (· + 1)
    else (CloseLength Text Depth).map (· + 1)

/-- The length of the rotate call that `Text` starts with, if it starts with
one: `_rotr`, `_rotl`, `_rotr64` or `_rotl64`, an opening parenthesis, and the
text up to the matching closing parenthesis. -/
def CallLength (Text : List Char) : Option Nat :=
  if ['_', 'r', 'o', 't', 'r', '('].isPrefixOf Text ∨
      ['_', 'r', 'o', 't', 'l', '('].isPrefixOf Text then
    (CloseLength (Text.drop 6) 1).map (· + 6)
  else if ['_', 'r', 'o', 't', 'r', '6', '4', '('].isPrefixOf Text ∨
      ['_', 'r', 'o', 't', 'l', '6', '4', '('].isPrefixOf Text then
    (CloseLength (Text.drop 8) 1).map (· + 8)
  else none

/-- The top-level rotate calls of a text, from left to right: a call that
starts at the current position is taken and the scan goes on behind it
(`Skip` counts the characters of the call still to pass). -/
def TopLevelCallsFrom : List Char → Nat → List (List Char)
  | [], _ => []
  | _ :: Text, Skip + 1 => TopLevelCallsFrom Text Skip
  | C :: Text, 0 =>
    match CallLength (C :: Text) with
    | some N => (C :: Text).take N :: TopLevelCallsFrom Text (N - 1)
    | none => TopLevelCallsFrom Text 0

/-- The top-level rotate calls of a text. -/
def TopLevelCalls (Text : List Char) : List (List Char) :=
  TopLevelCallsFrom Text 0

/-- The text with every top-level rotate call replaced by `Local` of the call
and nothing else changed. -/
def ReplaceCallsFrom (Local : List Char → List Char) : List Char → Nat → List Char
  | [], _ => []
  | _ :: Text, Skip + 1 => ReplaceCallsFrom Local Text Skip
  | C :: Text, 0 =>
    match CallLength (C :: Text) with
    | some N => Local ((C :: Text).take N) ++ ReplaceCallsFrom Local Text (N - 1)
    | none => C :: ReplaceCallsFrom Local Text 0

/-- The distinct texts of a list in the order of their first appearance,
behind those already `Seen`. -/
def FirstAppearances : List (List Char) → List (List Char) → List (List Char)
  | [], Seen => Seen
  | Text :: Rest, Seen => FirstAppearances Rest (if Text ∈ Seen then Seen else Seen ++ [Text])

/-- The distinct top-level calls of a text in the order of their first
appearance. -/
def DistinctCalls (Text : List Char) : List (List Char) :=
  FirstAppearances (TopLevelCalls Text) []

/-- The local bound to a call: `<V>` and the number of the call among the
distinct calls, counted from 1. -/
def LocalOf (Distinct : List (List Char)) (Call : List Char) : List Char :=
  VarPrefix ++ Decimal (IndexOf Call Distinct + 1)

/-- One declaration line per call, numbered from `I + 1` on. -/
def Declarations (RetWidth : List Char) : List (List Char) → Nat → List Char
  | [], _ => []
  | Call :: Rest, I =>
    "  ".toList ++ RetWidth ++ " ".toList ++ VarPrefix ++ Decimal (I + 1) ++ " = ".toList ++
      Call ++ ";\n".toList ++ Declarations RetWidth Rest (I + 1)

/-- The body the specification describes: one declaration per distinct
top-level call, numbered in the order of first appearance, and the return
statement of the text with every top-level call replaced by its local. -/
def FactoredBody (RetWidth RawPseudocode : List Char) : List Char :=
  Declarations RetWidth (DistinctCalls RawPseudocode) 0 ++ "  return ".toList ++
    ReplaceCallsFrom (LocalOf (DistinctCalls RawPseudocode)) RawPseudocode 0 ++ ";".toList

/-- The pseudocode of the decryptor scenario: one rotate call. -/
def SingleCallPseudocode : List Char :=
  "(_rotr64(<ParamName> ^ 0x1111, 17) ^ 0x2222) >> 5".toList

/-- A pseudocode with three top-level calls, two of them equal. -/
def RepeatedCallPseudocode : List Char :=
  "_rotr64(a, 1) ^ _rotl64(b, 2) ^ _rotr64(a, 1)".toList

/-! ## Decryptor extraction (`DumpAnalyzer::ExtractTslDecryptors`) -/

/-- `find` on a `std::unordered_map`, kept as the list of its entries. -/
def MapFind {κ ν : Type} [DecidableEq κ] (Key : κ) : List (κ × ν) → Option ν
  | [] => none
  | (K, V) :: Rest => if K = Key then some V else MapFind Key Rest

/-- The assignment `Map[Key] = Value` on a `std::unordered_map`. -/
def MapSet {κ ν : Type} [DecidableEq κ] (Key : κ) (Value : ν) : List (κ × ν) → List (κ × ν)
  | [] => [(Key, Value)]
  | (K, V) :: Rest => if K = Key then (Key, Value) :: Rest else (K, V) :: MapSet Key Value Rest

/-- The `%llX` conversion: upper-case hexadecimal digits. -/
def HexUpper (N : Nat) : List Char :=
  (Nat.toDigits 16 N).map Char.toUpper

/-- The `%d` conversion applied to an unsigned argument: the low 32 bits of
the argument, read as an `int`. -/
def FormatInt (N : Nat) : List Char :=
  if N % 2 ^ 32 < 2 ^ 31 then Decimal (N % 2 ^ 32)
  else '-' :: Decimal (2 ^ 32 - N % 2 ^ 32)

/-- The number of bits of `XorT`: `std::uint32_t` in 32-bit mode,
`std::uint64_t` otherwise. -/
def XorBits (X32 : Bool) : Nat := if X32 then 32 else 64

/-- Modelled from the spec: `RegisterTracker<XorT>` is declared in
`DumpAnalyzer.h`, which is not among the sources; a register file that
carries, per register, an optional constant value. -/
structure RegisterTracker where
  Values : List (ZydisRegister × Nat) := []
deriving DecidableEq, Repr

/-- Modelled from the spec: `RegisterTracker::Store` (`DumpAnalyzer.h` is not
among the sources), `store(reg, imm)` on `mov reg, imm`. -/
def RegisterTracker.Store (T : RegisterTracker) (Register : ZydisRegister) (Value : Nat) :
    RegisterTracker :=
  ⟨MapSet Register Value T.Values⟩

/-- Modelled from the spec: `RegisterTracker::Propagate` (`DumpAnalyzer.h` is
not among the sources), `propagate(dst, src)` on `mov dst, src`: copies the
constant, if any. -/
def RegisterTracker.Propagate (T : RegisterTracker) (Dst Src : ZydisRegister) :
    RegisterTracker :=
  match MapFind Src T.Values with
  | some Value => ⟨MapSet Dst Value T.Values⟩
  | none => T

/-- Modelled from the spec: `RegisterTracker::ResolveOperand` (`DumpAnalyzer.h`
is not among the sources), the resolved operand: the value of an immediate (as
an `XorT`), the constant of a register that carries one, nothing otherwise. -/
def RegisterTracker.ResolveOperand (X32 : Bool) (T : RegisterTracker) :
    ZydisDecodedOperand → Option Nat
  | ZydisDecodedOperand.IMMEDIATE _ value _ => some (value % 2 ^ XorBits X32)
  | ZydisDecodedOperand.REGISTER value => MapFind value T.Values
  | _ => none

/-- The member read `Operand.reg.value`.  The members `reg`, `imm`, `mem` of a
decoded operand share their storage: for an operand that is not a register the
read gives what the bytes of the other member spell, which `Punned` tells. -/
def ZydisDecodedOperand.RegValue (Punned : ZydisDecodedOperand → ZydisRegister) :
    ZydisDecodedOperand → ZydisRegister
  | ZydisDecodedOperand.REGISTER value => value
  | Operand => Punned Operand

/-- The test `Operand.type == ZYDIS_OPERAND_TYPE_REGISTER`. -/
def ZydisDecodedOperand.OfRegisterType : ZydisDecodedOperand → Bool
  | ZydisDecodedOperand.REGISTER _ => true
  | _ => false

/-- The test `Operand.type == ZYDIS_OPERAND_TYPE_IMMEDIATE`. -/
def ZydisDecodedOperand.OfImmediateType : ZydisDecodedOperand → Bool
  | ZydisDecodedOperand.IMMEDIATE _ _ _ => true
  | _ => false

/-- The member read `Operand.imm.value.u` of an immediate operand. -/
def ZydisDecodedOperand.ImmValue : ZydisDecodedOperand → Nat
  | ZydisDecodedOperand.IMMEDIATE _ value _ => value
  | _ => 0

/-- `InstructionChecklist` (local to `ExtractTslDecryptors`). -/
structure InstructionChecklist where
  Xor1 : Bool := false
  Xor2 : Bool := false
  Xor3 : Bool := false
  Shift : Bool := false
  Rotate : Bool := false
deriving DecidableEq, Repr

/-- `InstructionChecklist::IsXorExtracted`. -/
def InstructionChecklist.IsXorExtracted (C : InstructionChecklist) : Bool :=
  C.Xor1 && C.Xor2 && C.Xor3

/-- `InstructionChecklist::IsAllExtracted`. -/
def InstructionChecklist.IsAllExtracted (C : InstructionChecklist) : Bool :=
  C.IsXorExtracted && C.Shift && C.Rotate

/-- `InstructionRange` (local to `ExtractTslDecryptors`). -/
structure InstructionRange where
  Offset : Nat := 0
  Size : Nat := 0
deriving DecidableEq, Repr

/-- `DecryptionChain` (local to `ExtractTslDecryptors`). -/
structure DecryptionChain where
  ID : Nat := 0
  Completed : Bool := false
  Extracted : TslDecryption := {}
  Checklist : InstructionChecklist := {}
  RegisterPseudocode : List (ZydisRegister × List Char) := []
  Ranges : List InstructionRange := []
deriving DecidableEq, Repr

/-- `DecryptionChain::GetPseudocode`. -/
def DecryptionChain.GetPseudocode (Chain : DecryptionChain) (Register : ZydisRegister) :
    Option (List Char) :=
  MapFind Register Chain.RegisterPseudocode

/-- The assignment `Chain.RegisterPseudocode[Register] = Code`. -/
def DecryptionChain.SetPseudocode (Chain : DecryptionChain) (Register : ZydisRegister)
    (Code : List Char) : DecryptionChain :=
  { Chain with RegisterPseudocode := MapSet Register Code Chain.RegisterPseudocode }

/-- The statement `Chain.Ranges.push_back(Range)`. -/
def DecryptionChain.PushRange (Chain : DecryptionChain) (Range : InstructionRange) :
    DecryptionChain :=
  { Chain with Ranges := Chain.Ranges ++ [Range] }

/-- The assignments `Chain.Extracted.IsX32 = X32Mode`. -/
def DecryptionChain.SetX32 (Chain : DecryptionChain) (X32 : Bool) : DecryptionChain :=
  { Chain with Extracted := { Chain.Extracted with IsX32 := X32 } }

/-- The assignments `Chain.Extracted.Xor1 = *Op1; Chain.Checklist.Xor1 = true;`. -/
def DecryptionChain.SetXor1 (Chain : DecryptionChain) (Op1 : Nat) : DecryptionChain :=
  { Chain with Extracted := { Chain.Extracted with Xor1 := Op1 },
               Checklist := { Chain.Checklist with Xor1 := true } }

/-- The assignments `Chain.Extracted.Xor2 = *Op1; Chain.Checklist.Xor2 = true;`. -/
def DecryptionChain.SetXor2 (Chain : DecryptionChain) (Op1 : Nat) : DecryptionChain :=
  { Chain with Extracted := { Chain.Extracted with Xor2 := Op1 },
               Checklist := { Chain.Checklist with Xor2 := true } }

/-- The assignment `Chain.Checklist.Xor3 = true`. -/
def DecryptionChain.SetXor3 (Chain : DecryptionChain) : DecryptionChain :=
  { Chain with Checklist := { Chain.Checklist with Xor3 := true } }

/-- The assignments `Chain.Extracted.IsRotateRight = Right;
Chain.Extracted.Rotate = static_cast<std::uint8_t>(*Op1);
Chain.Checklist.Rotate = true;`. -/
def DecryptionChain.SetRotate (Chain : DecryptionChain) (Right : Bool) (Op1 : Nat) :
    DecryptionChain :=
  { Chain with Extracted := { Chain.Extracted with IsRotateRight := Right, Rotate := Op1 % 256 },
               Checklist := { Chain.Checklist with Rotate := true } }

/-- The assignment `Chain.Checklist.Rotate = true`. -/
def DecryptionChain.CheckRotate (Chain : DecryptionChain) : DecryptionChain :=
  { Chain with Checklist := { Chain.Checklist with Rotate := true } }

/-- The assignments `Chain.Extracted.IsShiftRight = Right;
Chain.Extracted.Shift = static_cast<std::uint8_t>(*Op1);
Chain.Checklist.Shift = true;`. -/
def DecryptionChain.SetShift (Chain : DecryptionChain) (Right : Bool) (Op1 : Nat) :
    DecryptionChain :=
  { Chain with Extracted := { Chain.Extracted with IsShiftRight := Right, Shift := Op1 % 256 },
               Checklist := { Chain.Checklist with Shift := true } }

/-- The assignment `Chain.Checklist.Shift = true`. -/
def DecryptionChain.CheckShift (Chain : DecryptionChain) : DecryptionChain :=
  { Chain with Checklist := { Chain.Checklist with Shift := true } }

/-- The local state of `ExtractTslDecryptors` during the enumeration: the
vectors `Chains` and `CompletedChains`, the map `ChainMap`, the tracker, and
the counter `ChainID`, which is a `static std::uint8_t` of the lambda
`CreateChain` and so outlives the call. -/
structure ExtractState where
  Chains : List DecryptionChain := []
  CompletedChains : List DecryptionChain := []
  ChainMap : List (ZydisRegister × Nat) := []
  Tracker : RegisterTracker := {}
  ChainID : Nat := 0
deriving DecidableEq, Repr

/-- The element `Chains[ChainIndex]`. -/
def ExtractState.ChainAt (S : ExtractState) (ChainIndex : Nat) : DecryptionChain :=
  S.Chains.getD ChainIndex {}

/-- The state after the element `Chains[ChainIndex]` was given a new value. -/
def ExtractState.SetChain (S : ExtractState) (ChainIndex : Nat) (Chain : DecryptionChain) :
    ExtractState :=
  { S with Chains := S.Chains.set ChainIndex Chain }

/-- The lambda `BelongsToChain`. -/
def ExtractState.BelongsToChain (S : ExtractState) (Register : ZydisRegister) : Option Nat :=
  MapFind Register S.ChainMap

/-- The lambda `AddToChain`. -/
def ExtractState.AddToChain (S : ExtractState) (Register : ZydisRegister) (ChainIndex : Nat) :
    ExtractState :=
  { S with ChainMap := MapSet Register ChainIndex S.ChainMap }

/-- The lambda `CreateChain`: the new chain takes the value of the static
counter, which is then incremented as a `std::uint8_t`. -/
def ExtractState.CreateChain (S : ExtractState) (Register : ZydisRegister) :
    ExtractState × Nat :=
  ({ S with Chains := S.Chains ++ [{ ID := S.ChainID }],
            ChainMap := MapSet Register S.Chains.length S.ChainMap,
            ChainID := (S.ChainID + 1) % 256 },
   S.Chains.length)

/-- The lambda `CopyRanges` with the chain `Chains[DstIndex]` as destination.
`none` stands for the undefined behaviour of a non-empty vector appended to
itself inside a range-based loop over it. -/
def ExtractState.CopyRanges (S : ExtractState) (SrcChainOpt : Option Nat) (DstIndex : Nat) :
    Option ExtractState :=
  match SrcChainOpt with
  | none => some S
  | some SrcChainIndex =>
    if SrcChainIndex = DstIndex ∧ (S.ChainAt SrcChainIndex).Ranges ≠ [] then none
    else
      let DstChain := S.ChainAt DstIndex
      some (S.SetChain DstIndex
        { DstChain with Ranges := DstChain.Ranges ++ (S.ChainAt SrcChainIndex).Ranges })

/-- The name of the rotate intrinsic, `RotVar`. -/
def RotVar (X32 Right : Bool) : List Char :=
  if X32 then (if Right then "_rotr".toList else "_rotl".toList)
  else (if Right then "_rotr64".toList else "_rotl64".toList)

/-- The shift operator, `ShiftVar`. -/
def ShiftVar (Right : Bool) : List Char :=
  if Right then ">>".toList else "<<".toList

/-- The branch `MOV reg, imm` of `ExtractTslDecryptors`. -/
def MovImmediate (X32 : Bool) (S : ExtractState) (DstRegister : ZydisRegister)
    (DstChained : Option Nat) (Operand1 : ZydisDecodedOperand) (Range : InstructionRange) :
    ExtractState :=
  let S :=
    match DstChained with
    | none =>
      let Created := S.CreateChain DstRegister
      Created.1.SetChain Created.2 ((Created.1.ChainAt Created.2).PushRange Range)
    | some _ => S
  { S with Tracker := S.Tracker.Store DstRegister (Operand1.ImmValue % 2 ^ XorBits X32) }

/-- The branch `MOV reg, reg` of `ExtractTslDecryptors`. -/
def MovRegister (S : ExtractState) (DstRegister SrcRegister : ZydisRegister)
    (SrcChained : Option Nat) : ExtractState :=
  let S := { S with Tracker := S.Tracker.Propagate DstRegister SrcRegister }
  match SrcChained with
  | none => S
  | some ChainIndex =>
    let Chain := S.ChainAt ChainIndex
    let S := S.AddToChain DstRegister ChainIndex
    match Chain.GetPseudocode SrcRegister with
    | some Code => S.SetChain ChainIndex (Chain.SetPseudocode DstRegister Code)
    | none => S

/-- The branch `XOR` for a destination register that is in no chain.  The
second component tells whether the end of the loop body is reached (`false`
after a `continue`); `none` stands for undefined behaviour. -/
def XorNew (X32 : Bool) (S : ExtractState) (DstRegister SrcRegister : ZydisRegister)
    (SrcChained : Option Nat) (Operand1 : ZydisDecodedOperand) (Range : InstructionRange) :
    Option (ExtractState × Bool) :=
  let Created := S.CreateChain DstRegister
  let S := Created.1
  let ChainIndex := Created.2
  let Chain := (S.ChainAt ChainIndex).SetX32 X32
  match S.Tracker.ResolveOperand X32 Operand1 with
  | some Op1 =>
    let Chain := Chain.SetPseudocode DstRegister (ParamName ++ " ^ 0x".toList ++ HexUpper Op1)
    let Chain := (Chain.SetXor1 Op1).PushRange Range
    match (S.SetChain ChainIndex Chain).CopyRanges SrcChained ChainIndex with
    | none => none
    | some S => some (S, true)
  | none =>
    match Chain.GetPseudocode SrcRegister with
    | some Code =>
      some (S.SetChain ChainIndex
        (Chain.SetPseudocode DstRegister (ParamName ++ " ^ ".toList ++ CStr Code)), true)
    | none =>
      some (S.SetChain ChainIndex
        (Chain.SetPseudocode DstRegister (ParamName ++ " ^ ".toList ++ ParamName)), true)

/-- The branch `XOR` for a destination register of the chain `ChainIndex`. -/
def XorChained (X32 : Bool) (S : ExtractState) (ChainIndex : Nat)
    (DstRegister SrcRegister : ZydisRegister) (SrcChained : Option Nat)
    (Operand1 : ZydisDecodedOperand) (Range : InstructionRange) :
    Option (ExtractState × Bool) :=
  let Chain := S.ChainAt ChainIndex
  if Chain.Checklist.IsXorExtracted then some (S, false)
  else
    match Chain.GetPseudocode DstRegister with
    | none => some (S, true)
    | some DstCode =>
      match S.Tracker.ResolveOperand X32 Operand1 with
      | some Op1 =>
        let Chain := Chain.SetPseudocode DstRegister
          (CStr DstCode ++ " ^ 0x".toList ++ HexUpper Op1)
        let Chain := if Chain.Extracted.Xor1 ≠ 0 then Chain.SetXor2 Op1 else Chain.SetXor1 Op1
        match (S.SetChain ChainIndex Chain).CopyRanges SrcChained ChainIndex with
        | none => none
        | some S => some (S.SetChain ChainIndex ((S.ChainAt ChainIndex).PushRange Range), true)
      | none =>
        let Chain :=
          match Chain.GetPseudocode SrcRegister with
          | some SrcCode =>
            Chain.SetPseudocode DstRegister (CStr DstCode ++ " ^ ".toList ++ CStr SrcCode)
          | none => Chain.SetPseudocode DstRegister (CStr DstCode ++ " ^ ".toList ++ ParamName)
        some (S.SetChain ChainIndex (Chain.SetXor3.PushRange Range), true)

/-- The branch `ROR / ROL` for a destination register that is in no chain. -/
def RotateNew (X32 Right : Bool) (S : ExtractState) (DstRegister SrcRegister : ZydisRegister)
    (Operand1 : ZydisDecodedOperand) (Range : InstructionRange) : Option (ExtractState × Bool) :=
  let Created := S.CreateChain DstRegister
  let S := Created.1
  let ChainIndex := Created.2
  let Chain := (S.ChainAt ChainIndex).SetX32 X32
  match S.Tracker.ResolveOperand X32 Operand1 with
  | some Op1 =>
    let Chain := Chain.SetRotate Right Op1
    let Chain := Chain.SetPseudocode DstRegister
      (RotVar X32 Right ++ "(".toList ++ ParamName ++ ", ".toList ++ FormatInt Op1 ++ ")".toList)
    some (S.SetChain ChainIndex (Chain.PushRange Range), true)
  | none =>
    match Chain.GetPseudocode SrcRegister with
    | some Code =>
      some (S.SetChain ChainIndex (Chain.SetPseudocode DstRegister
        (RotVar X32 Right ++ "(".toList ++ ParamName ++ ", ".toList ++ CStr Code ++
          ")".toList)), true)
    | none =>
      some (S.SetChain ChainIndex (Chain.SetPseudocode DstRegister
        (RotVar X32 Right ++ "(".toList ++ ParamName ++ ", ".toList ++ ParamName ++
          ")".toList)), true)

/-- The branch `ROR / ROL` for a destination register of the chain
`ChainIndex`. -/
def RotateChained (X32 Right : Bool) (S : ExtractState) (ChainIndex : Nat)
    (DstRegister SrcRegister : ZydisRegister) (Operand1 : ZydisDecodedOperand)
    (Range : InstructionRange) : Option (ExtractState × Bool) :=
  let Chain := S.ChainAt ChainIndex
  if Chain.Checklist.Rotate then some (S, false)
  else
    match Chain.GetPseudocode DstRegister with
    | none => some (S, true)
    | some DstCode =>
      match S.Tracker.ResolveOperand X32 Operand1 with
      | some Op1 =>
        let Chain := Chain.SetRotate Right Op1
        let Chain := Chain.SetPseudocode DstRegister
          (RotVar X32 Right ++ "(".toList ++ CStr DstCode ++ ", ".toList ++ FormatInt Op1 ++
            ")".toList)
        some (S.SetChain ChainIndex (Chain.PushRange Range), true)
      | none =>
        let Chain :=
          match Chain.GetPseudocode SrcRegister with
          | some SrcCode =>
            Chain.SetPseudocode DstRegister
              (RotVar X32 Right ++ "(".toList ++ CStr DstCode ++ ", ".toList ++ CStr SrcCode ++
                ")".toList)
          | none =>
            Chain.SetPseudocode DstRegister
              (RotVar X32 Right ++ "(".toList ++ CStr DstCode ++ " ^ ".toList ++ ParamName ++
                ")".toList)
        some (S.SetChain ChainIndex Chain.CheckRotate, true)

/-- The branch `SHL / SHR` for a destination register that is in no chain. -/
def ShiftNew (X32 Right : Bool) (S : ExtractState) (DstRegister SrcRegister : ZydisRegister)
    (Operand1 : ZydisDecodedOperand) (Range : InstructionRange) : Option (ExtractState × Bool) :=
  let Created := S.CreateChain DstRegister
  let S := Created.1
  let ChainIndex := Created.2
  let Chain := (S.ChainAt ChainIndex).SetX32 X32
  match S.Tracker.ResolveOperand X32 Operand1 with
  | some Op1 =>
    let Chain := Chain.SetShift Right Op1
    let Chain := Chain.SetPseudocode DstRegister
      ("(".toList ++ ParamName ++ " ".toList ++ ShiftVar Right ++ " ".toList ++ FormatInt Op1 ++
        ")".toList)
    some (S.SetChain ChainIndex (Chain.PushRange Range), true)
  | none =>
    match Chain.GetPseudocode SrcRegister with
    | some Code =>
      some (S.SetChain ChainIndex (Chain.SetPseudocode DstRegister
        ("(".toList ++ ParamName ++ " ".toList ++ ShiftVar Right ++ " ".toList ++ CStr Code ++
          ")".toList)), true)
    | none =>
      some (S.SetChain ChainIndex (Chain.SetPseudocode DstRegister
        ("(".toList ++ ParamName ++ " ".toList ++ ShiftVar Right ++ " ".toList ++ ParamName ++
          ")".toList)), true)

/-- The branch `SHL / SHR` for a destination register of the chain
`ChainIndex`. -/
def ShiftChained (X32 Right : Bool) (S : ExtractState) (ChainIndex : Nat)
    (DstRegister SrcRegister : ZydisRegister) (Operand1 : ZydisDecodedOperand)
    (Range : InstructionRange) : Option (ExtractState × Bool) :=
  let Chain := S.ChainAt ChainIndex
  if Chain.Checklist.Shift then some (S, false)
  else
    match Chain.GetPseudocode DstRegister with
    | none => some (S, true)
    | some DstCode =>
      match S.Tracker.ResolveOperand X32 Operand1 with
      | some Op1 =>
        let Chain := Chain.SetShift Right Op1
        let Chain := Chain.SetPseudocode DstRegister
          ("(".toList ++ CStr DstCode ++ " ".toList ++ ShiftVar Right ++ " ".toList ++
            FormatInt Op1 ++ ")".toList)
        some (S.SetChain ChainIndex (Chain.PushRange Range), true)
      | none =>
        let Chain :=
          match Chain.GetPseudocode SrcRegister with
          | some SrcCode =>
            Chain.SetPseudocode DstRegister
              ("(".toList ++ CStr DstCode ++ " ".toList ++ ShiftVar Right ++ " ".toList ++
                CStr SrcCode ++ ")".toList)
          | none =>
            Chain.SetPseudocode DstRegister
              ("(".toList ++ CStr DstCode ++ " ".toList ++ ShiftVar Right ++ " ".toList ++
                ParamName ++ ")".toList)
        some (S.SetChain ChainIndex Chain.CheckShift, true)

/-- The test of a chain for completion, at the end of the loop body. -/
def DecryptionChain.ReadyToComplete (Chain : DecryptionChain) : Bool :=
  !Chain.Completed && Chain.Checklist.IsAllExtracted &&
    decide (Chain.Extracted.Xor1 ≠ 0) && decide (Chain.Extracted.Xor2 ≠ 0) &&
    decide (Chain.Extracted.Rotate > 0) && decide (Chain.Extracted.Shift > 0)

/-- The end of the loop body of `ExtractTslDecryptors`: when the destination
register was in a chain before the instruction and the chain has everything,
the function text is made and a copy of the chain is appended to
`CompletedChains`.  The read `Chain.RegisterPseudocode[DstRegister]` adds an
empty text for a register without one. -/
def ExtractState.Complete (X32 : Bool) (S : ExtractState) (DstChained : Option Nat)
    (DstRegister : ZydisRegister) : ExtractState :=
  match DstChained with
  | none => S
  | some ChainIndex =>
    let Chain := S.ChainAt ChainIndex
    if Chain.ReadyToComplete then
      let Code := (Chain.GetPseudocode DstRegister).getD []
      let Chain :=
        match Chain.GetPseudocode DstRegister with
        | some _ => Chain
        | none => Chain.SetPseudocode DstRegister []
      let Chain :=
        { Chain with Extracted := { Chain.Extracted with PseudoCode := MakeFunction X32 Code },
                     Completed := true }
      { S.SetChain ChainIndex Chain with CompletedChains := S.CompletedChains ++ [Chain] }
    else S

/-- The branches of the loop body of `ExtractTslDecryptors`, for an
instruction of the wanted width with at least two operands. -/
def ExtractBranches (X32 : Bool) (Mnemonic : ZydisMnemonic)
    (Operand0 Operand1 : ZydisDecodedOperand) (DstRegister SrcRegister : ZydisRegister)
    (DstChained SrcChained : Option Nat) (Range : InstructionRange) (S : ExtractState) :
    Option (ExtractState × Bool) :=
  if Mnemonic = ZydisMnemonic.MOV ∧ Operand0.OfRegisterType = true ∧
      Operand1.OfImmediateType = true then
    some (MovImmediate X32 S DstRegister DstChained Operand1 Range, true)
  else if Mnemonic = ZydisMnemonic.MOV ∧ Operand0.OfRegisterType = true ∧
      Operand1.OfRegisterType = true then
    some (MovRegister S DstRegister SrcRegister SrcChained, true)
  else if Mnemonic = ZydisMnemonic.XOR then
    match DstChained with
    | none => XorNew X32 S DstRegister SrcRegister SrcChained Operand1 Range
    | some ChainIndex =>
      XorChained X32 S ChainIndex DstRegister SrcRegister SrcChained Operand1 Range
  else if Mnemonic = ZydisMnemonic.ROR ∨ Mnemonic = ZydisMnemonic.ROL then
    match DstChained with
    | none =>
      RotateNew X32 (decide (Mnemonic = ZydisMnemonic.ROR)) S DstRegister SrcRegister Operand1
        Range
    | some ChainIndex =>
      RotateChained X32 (decide (Mnemonic = ZydisMnemonic.ROR)) S ChainIndex DstRegister
        SrcRegister Operand1 Range
  else if Mnemonic = ZydisMnemonic.SHL ∨ Mnemonic = ZydisMnemonic.SHR then
    match DstChained with
    | none =>
      ShiftNew X32 (decide (Mnemonic = ZydisMnemonic.SHR)) S DstRegister SrcRegister Operand1
        Range
    | some ChainIndex =>
      ShiftChained X32 (decide (Mnemonic = ZydisMnemonic.SHR)) S ChainIndex DstRegister
        SrcRegister Operand1 Range
  else some (S, true)

/-- The loop body of `ExtractTslDecryptors` for an instruction decoded with
its operands at `InstructionOffset`.  `none` stands for undefined
behaviour. -/
def ExtractStep (Punned : ZydisDecodedOperand → ZydisRegister) (X32 : Bool)
    (InstructionOffset : Nat) (Instruction : ZydisDecodedInstruction)
    (Operands : List ZydisDecodedOperand) (S : ExtractState) : Option ExtractState :=
  if Instruction.operand_width ≠ XorBits X32 ∨ Instruction.operand_count < 2 then some S
  else
    let Operand0 := Operands.getD 0 ZydisDecodedOperand.UNUSED
    let Operand1 := Operands.getD 1 ZydisDecodedOperand.UNUSED
    let DstRegister := Operand0.RegValue Punned
    let SrcRegister := Operand1.RegValue Punned
    let DstChained := S.BelongsToChain DstRegister
    let SrcChained := S.BelongsToChain SrcRegister
    match ExtractBranches X32 Instruction.mnemonic Operand0 Operand1 DstRegister SrcRegister
        DstChained SrcChained ⟨InstructionOffset, Instruction.length⟩ S with
    | none => none
    | some (S, false) => some S
    | some (S, true) => some (S.Complete X32 DstChained DstRegister)

/-- The `while` loop of `ExtractTslDecryptors`.  `Fuel` bounds the number of
iterations; `none` stands for a loop that has not ended within the bound, or
for undefined behaviour. -/
def ExtractLoop (D : ZydisDecoder) (Punned : ZydisDecodedOperand → ZydisRegister) (X32 : Bool)
    (StartOffset : Nat) (Buffer : List Nat) : Nat → Nat → ExtractState → Option ExtractState
  | 0, _, _ => none
  | Fuel + 1, Offset, S =>
    if Offset < Buffer.length then
      match D.DecodeInstruction (Buffer.drop Offset) with
      | none => ExtractLoop D Punned X32 StartOffset Buffer Fuel (Offset + 1) S
      | some Instruction =>
        match D.DecodeOperands (Buffer.drop Offset) Instruction Instruction.operand_count with
        | none =>
          ExtractLoop D Punned X32 StartOffset Buffer Fuel (Offset + Instruction.length) S
        | some Operands =>
          match ExtractStep Punned X32 (add64 StartOffset Offset) Instruction Operands S with
          | none => none
          | some S =>
            ExtractLoop D Punned X32 StartOffset Buffer Fuel (Offset + Instruction.length) S
    else some S

/-- The call `std::sort(CompletedChains.begin(), CompletedChains.end(), ...)`
with the comparison `A.ID < B.ID`.  `std::sort` leaves the order of chains
with equal `ID` open; this is the stable order. -/
def SortByID (CompletedChains : List DecryptionChain) : List DecryptionChain :=
  CompletedChains.insertionSort (fun A B => A.ID ≤ B.ID)

/-- The call `std::sort(InstructionRanges.begin(), InstructionRanges.end(), ...)`
with the comparison `A.Offset < B.Offset` (stable order for equal offsets). -/
def SortByOffset (InstructionRanges : List InstructionRange) : List InstructionRange :=
  InstructionRanges.insertionSort (fun A B => A.Offset ≤ B.Offset)

/-- The part of `ExtractTslDecryptors` behind the loop.  The outer `none`
stands for the undefined behaviour of `InstructionRanges[0]` on an empty
vector. -/
def FinishDecryptors (CompletedChains : List DecryptionChain) :
    Option (Option (Result (List TslDecryption))) :=
  if CompletedChains.length > 0 then
    let Sorted := SortByID CompletedChains
    let InstructionRanges := SortByOffset (Sorted.map (·.Ranges)).flatten
    let ExtractedDecryptors := Sorted.map (·.Extracted)
    match InstructionRanges.head?, InstructionRanges.getLast? with
    | some FirstRange, some LastRange =>
      some (some ⟨⟨FirstRange.Offset,
        sub64 (add64 LastRange.Offset LastRange.Size) FirstRange.Offset⟩,
        some ExtractedDecryptors⟩)
    | _, _ => none
  else some none

/-- `DumpAnalyzer::ExtractTslDecryptors<XorT>` (`X32` tells `XorT`), with the
value `ChainID` of the static counter on entry: the result and the value of
the counter on return.  `Buffer.size() + 1` iterations are enough when decoded
instructions are at least one byte long.  The outer `none` stands for an
exception escaping from `Read`, undefined behaviour, or a loop that does not
end. -/
def DumpAnalyzer.ExtractTslDecryptors (A : DumpAnalyzer)
    (Punned : ZydisDecodedOperand → ZydisRegister) (X32 : Bool) (ChainID : Nat)
    (StartOffset Size : Nat) : Option (Option (Result (List TslDecryption)) × Nat) :=
  match A.Read StartOffset Size with
  | none => none
  | some Buffer =>
    if Buffer = [] then some (none, ChainID)
    else
      match ExtractLoop A.Decoder Punned X32 StartOffset Buffer (Buffer.length + 1) 0
          { ChainID := ChainID } with
      | none => none
      | some S =>
        match FinishDecryptors S.CompletedChains with
        | none => none
        | some Out => some (Out, S.ChainID)

/-! ## A decoder for the decryptor scenarios -/

/-- The little-endian value of four bytes. -/
def Imm32 (b0 b1 b2 b3 : Nat) : Nat :=
  b0 + 256 * b1 + 65536 * b2 + 16777216 * b3

/-- The flags register, the hidden third operand of the arithmetic
instructions; the extractor does not read it, the number stands for it. -/
def RFLAGS : ZydisRegister := ZydisRegister.other 1000

/-- The instructions of the decryptor scenarios by their encodings:
`48 B8 iq` (`mov rax, imm64`), `48 35 id` (`xor rax, imm32`), `48 81 F1 id`
(`xor rcx, imm32`), `48 31 D8` (`xor rax, rbx`), `48 31 D9` (`xor rcx, rbx`),
`48 C1 C8 ib` (`ror rax, imm8`), `48 C1 C9 ib` (`ror rcx, imm8`),
`48 C1 E8 ib` (`shr rax, imm8`), `48 C1 E9 ib` (`shr rcx, imm8`). -/
def TslDecodeInstruction : List Nat → Option ZydisDecodedInstruction
  | 0x48 :: 0xB8 :: _ :: _ :: _ :: _ :: _ :: _ :: _ :: _ :: _ =>
    some ⟨ZydisMnemonic.MOV, 10, 2, 2, 64⟩
  | 0x48 :: 0x35 :: _ :: _ :: _ :: _ :: _ => some ⟨ZydisMnemonic.XOR, 6, 3, 2, 64⟩
  | 0x48 :: 0x81 :: 0xF1 :: _ :: _ :: _ :: _ :: _ => some ⟨ZydisMnemonic.XOR, 7, 3, 2, 64⟩
  | 0x48 :: 0x31 :: 0xD8 :: _ => some ⟨ZydisMnemonic.XOR, 3, 3, 2, 64⟩
  | 0x48 :: 0x31 :: 0xD9 :: _ => some ⟨ZydisMnemonic.XOR, 3, 3, 2, 64⟩
  | 0x48 :: 0xC1 :: 0xC8 :: _ :: _ => some ⟨ZydisMnemonic.ROR, 4, 3, 2, 64⟩
  | 0x48 :: 0xC1 :: 0xC9 :: _ :: _ => some ⟨ZydisMnemonic.ROR, 4, 3, 2, 64⟩
  | 0x48 :: 0xC1 :: 0xE8 :: _ :: _ => some ⟨ZydisMnemonic.SHR, 4, 3, 2, 64⟩
  | 0x48 :: 0xC1 :: 0xE9 :: _ :: _ => some ⟨ZydisMnemonic.SHR, 4, 3, 2, 64⟩
  | _ => none

/-- The operands of the encodings of `TslDecodeInstruction`; a 32-bit
immediate of `xor` is sign-extended to 64 bits. -/
def TslDecodeOperands : List Nat → ZydisDecodedInstruction → Nat →
    Option (List ZydisDecodedOperand)
  | 0x48 :: 0xB8 :: b0 :: b1 :: b2 :: b3 :: b4 :: b5 :: b6 :: b7 :: _, _, Count =>
    some ([ZydisDecodedOperand.REGISTER ZydisRegister.RAX,
      ZydisDecodedOperand.IMMEDIATE false
        (Imm32 b0 b1 b2 b3 + 4294967296 * Imm32 b4 b5 b6 b7) 64].take Count)
  | 0x48 :: 0x35 :: b0 :: b1 :: b2 :: b3 :: _, _, Count =>
    some ([ZydisDecodedOperand.REGISTER ZydisRegister.RAX,
      ZydisDecodedOperand.IMMEDIATE true (wrap64 (signExtend32 (Imm32 b0 b1 b2 b3))) 32,
      ZydisDecodedOperand.REGISTER RFLAGS].take Count)
  | 0x48 :: 0x81 :: 0xF1 :: b0 :: b1 :: b2 :: b3 :: _, _, Count =>
    some ([ZydisDecodedOperand.REGISTER ZydisRegister.RCX,
      ZydisDecodedOperand.IMMEDIATE true (wrap64 (signExtend32 (Imm32 b0 b1 b2 b3))) 32,
      ZydisDecodedOperand.REGISTER RFLAGS].take Count)
  | 0x48 :: 0x31 :: 0xD8 :: _, _, Count =>
    some ([ZydisDecodedOperand.REGISTER ZydisRegister.RAX,
      ZydisDecodedOperand.REGISTER ZydisRegister.RBX,
      ZydisDecodedOperand.REGISTER RFLAGS].take Count)
  | 0x48 :: 0x31 :: 0xD9 :: _, _, Count =>
    some ([ZydisDecodedOperand.REGISTER ZydisRegister.RCX,
      ZydisDecodedOperand.REGISTER ZydisRegister.RBX,
      ZydisDecodedOperand.REGISTER RFLAGS].take Count)
  | 0x48 :: 0xC1 :: 0xC8 :: b0 :: _, _, Count =>
    some ([ZydisDecodedOperand.REGISTER ZydisRegister.RAX,
      ZydisDecodedOperand.IMMEDIATE false b0 8,
      ZydisDecodedOperand.REGISTER RFLAGS].take Count)
  | 0x48 :: 0xC1 :: 0xC9 :: b0 :: _, _, Count =>
    some ([ZydisDecodedOperand.REGISTER ZydisRegister.RCX,
      ZydisDecodedOperand.IMMEDIATE false b0 8,
      ZydisDecodedOperand.REGISTER RFLAGS].take Count)
  | 0x48 :: 0xC1 :: 0xE8 :: b0 :: _, _, Count =>
    some ([ZydisDecodedOperand.REGISTER ZydisRegister.RAX,
      ZydisDecodedOperand.IMMEDIATE false b0 8,
      ZydisDecodedOperand.REGISTER RFLAGS].take Count)
  | 0x48 :: 0xC1 :: 0xE9 :: b0 :: _, _, Count =>
    some ([ZydisDecodedOperand.REGISTER ZydisRegister.RCX,
      ZydisDecodedOperand.IMMEDIATE false b0 8,
      ZydisDecodedOperand.REGISTER RFLAGS].take Count)
  | _, _, _ => some []

/-- The decoder of the decryptor scenarios. -/
def TslDecoder : ZydisDecoder :=
  ⟨TslDecodeInstruction, TslDecodeOperands⟩

/-- A sparse-mode analyzer over the given file bytes with the decoder of the
decryptor scenarios. -/
def TslAnalyzer (File : List Nat) : DumpAnalyzer :=
  ⟨Mode.Sparse, {}, [], File, TslDecoder⟩

/-- The reading of `reg.value` on an operand that is not a register, in the
decryptor scenarios: no register. -/
def TslPunned : ZydisDecodedOperand → ZydisRegister :=
  fun _ => ZydisRegister.NONE

/-- The bytes of scenario S6: `mov rax, 0x1122334455667788`;
`xor rax, 0x11111111`; `ror rax, 0x11`; `xor rax, 0x22222222`;
`shr rax, 0x05`. -/
def ScenarioS6 : List Nat :=
  [0x48, 0xB8, 0x88, 0x77, 0x66, 0x55, 0x44, 0x33, 0x22, 0x11,
   0x48, 0x35, 0x11, 0x11, 0x11, 0x11,
   0x48, 0xC1, 0xC8, 0x11,
   0x48, 0x35, 0x22, 0x22, 0x22, 0x22,
   0x48, 0xC1, 0xE8, 0x05]

/-- The bytes of `xor rax, imm2; ror rax, Rotate; xor rax, imm3; xor rax, rbx;
shr rax, Shift`, the immediates given by their bytes. -/
def ChainBytes (a0 a1 a2 a3 Rotate b0 b1 b2 b3 Shift : Nat) : List Nat :=
  [0x48, 0x35, a0, a1, a2, a3,
   0x48, 0xC1, 0xC8, Rotate,
   0x48, 0x35, b0, b1, b2, b3,
   0x48, 0x31, 0xD8,
   0x48, 0xC1, 0xE8, Shift]

/-- The loop body of `ExtractTslDecryptors` run over the entries of a forward
decode, in order: an entry without operands is passed over. -/
def ExtractStream (Punned : ZydisDecodedOperand → ZydisRegister) (X32 : Bool)
    (StartOffset : Nat) : List DecodedAt → ExtractState → Option ExtractState
  | [], S => some S
  | x :: Rest, S =>
    match x.Operands with
    | none => ExtractStream Punned X32 StartOffset Rest S
    | some Operands =>
      match ExtractStep Punned X32 (add64 StartOffset x.Offset) x.Instruction Operands S with
      | none => none
      | some S => ExtractStream Punned X32 StartOffset Rest S

/-- The decoded instruction sequence `xor rax, imm2; ror rax, Rotate;
xor rax, imm3; xor rax, rbx; shr rax, Shift` of 64-bit operand width, the
immediates of `xor` given by their 64-bit values. -/
def ChainStream (imm2 Rotate imm3 Shift : Nat) : List DecodedAt :=
  [⟨0, ⟨ZydisMnemonic.XOR, 6, 3, 2, 64⟩,
      some [ZydisDecodedOperand.REGISTER ZydisRegister.RAX,
        ZydisDecodedOperand.IMMEDIATE true imm2 32, ZydisDecodedOperand.REGISTER RFLAGS]⟩,
   ⟨6, ⟨ZydisMnemonic.ROR, 4, 3, 2, 64⟩,
      some [ZydisDecodedOperand.REGISTER ZydisRegister.RAX,
        ZydisDecodedOperand.IMMEDIATE false Rotate 8, ZydisDecodedOperand.REGISTER RFLAGS]⟩,
   ⟨10, ⟨ZydisMnemonic.XOR, 6, 3, 2, 64⟩,
      some [ZydisDecodedOperand.REGISTER ZydisRegister.RAX,
        ZydisDecodedOperand.IMMEDIATE true imm3 32, ZydisDecodedOperand.REGISTER RFLAGS]⟩,
   ⟨16, ⟨ZydisMnemonic.XOR, 3, 3, 2, 64⟩,
      some [ZydisDecodedOperand.REGISTER ZydisRegister.RAX,
        ZydisDecodedOperand.REGISTER ZydisRegister.RBX, ZydisDecodedOperand.REGISTER RFLAGS]⟩,
   ⟨19, ⟨ZydisMnemonic.SHR, 4, 3, 2, 64⟩,
      some [ZydisDecodedOperand.REGISTER ZydisRegister.RAX,
        ZydisDecodedOperand.IMMEDIATE false Shift 8, ZydisDecodedOperand.REGISTER RFLAGS]⟩]

/-- What the completion test and the width of the members guarantee of a
record: both xor constants are non-zero, and the rotate and shift counts, of
type `std::uint8_t`, are at least 1. -/
def TslDecryption.InRange (D : TslDecryption) : Prop :=
  D.Xor1 ≠ 0 ∧ D.Xor2 ≠ 0 ∧ 1 ≤ D.Rotate ∧ D.Rotate ≤ 255 ∧ 1 ≤ D.Shift ∧ D.Shift ≤ 255

instance (D : TslDecryption) : Decidable D.InRange := by
  unfold TslDecryption.InRange; infer_instance

/-- The rotate and shift counts of a chain are values of `std::uint8_t`. -/
def DecryptionChain.Bounded (Chain : DecryptionChain) : Prop :=
  Chain.Extracted.Rotate ≤ 255 ∧ Chain.Extracted.Shift ≤ 255

/-- The invariant of the enumeration: the counts of every chain are values of
`std::uint8_t`, and every completed chain holds a record in range. -/
def ExtractState.Inv (S : ExtractState) : Prop :=
  (∀ Chain ∈ S.Chains, Chain.Bounded) ∧ (∀ Chain ∈ S.CompletedChains, Chain.Extracted.InRange)

/-- The bytes of `ChainBytes` with the rotate count `0x80`. -/
def WideRotateBytes : List Nat :=
  ChainBytes 0x11 0x11 0x11 0x11 0x80 0x22 0x22 0x22 0x22 0x05

/-- The record the extractor returns for `WideRotateBytes`. -/
def WideRotateRecord : TslDecryption :=
  ⟨false, 0x11111111, 0x22222222, true, 128, true, 5,
    ("std::uint64_t <FunctioName>(std::uint64_t <ParamName>)\n\x7b\n" ++
     "  std::uint64_t <V>1 = _rotr64(<ParamName> ^ 0x11111111, 128);\n" ++
     "  return (<V>1 ^ 0x22222222 ^ <ParamName> >> 5);\n\x7d").toList⟩

/-- The bytes of two decryptor chains, one after the other: the chain of
`ChainBytes` on `rax` with the constants `0x11111111` and `0x22222222`, then
`xor rcx, 0x33333333; ror rcx, 0x07; xor rcx, 0x44444444; xor rcx, rbx;
shr rcx, 0x09`. -/
def TwoChainBytes : List Nat :=
  ChainBytes 0x11 0x11 0x11 0x11 0x11 0x22 0x22 0x22 0x22 0x05 ++
  [0x48, 0x81, 0xF1, 0x33, 0x33, 0x33, 0x33,
   0x48, 0xC1, 0xC9, 0x07,
   0x48, 0x81, 0xF1, 0x44, 0x44, 0x44, 0x44,
   0x48, 0x31, 0xD9,
   0x48, 0xC1, 0xE9, 0x09]

/-- The value of the static counter `ChainID` after `Calls` successive calls
of `ExtractTslDecryptors` on one window, from the value `ChainID` on. -/
def CounterAfterCalls (A : DumpAnalyzer) (Punned : ZydisDecodedOperand → ZydisRegister)
    (X32 : Bool) (StartOffset Size : Nat) : Nat → Nat → Option Nat
  | 0, ChainID => some ChainID
  | Calls + 1, ChainID =>
    match A.ExtractTslDecryptors Punned X32 ChainID StartOffset Size with
    | none => none
    | some Out => CounterAfterCalls A Punned X32 StartOffset Size Calls Out.2

/-- The first xor constants of the records of a result of
`ExtractTslDecryptors`, in the order of the records. -/
def FirstConstants (Out : Option (Option (Result (List TslDecryption)) × Nat)) :
    Option (Option (Option (List Nat))) :=
  Out.map fun Out => Out.1.map fun R => R.Value.map (List.map fun D => D.Xor1)

/-! ## The X-reference and decryptor handlers (`SearchHandlers.cpp`) -/

/-- The loop of `XReferenceHandler` over `Finder->GetSearchRegions()` from the
region at `Index` on: the first region with the identifier `NextID` and access
type `XReference` gets `Value` as its base and its targets are handled; the
Boolean is `XReferenceHandled`. -/
def XReferenceLoop (Handlers : SearchType → Option SearchHandler) (NextID : String)
    (Value : Nat) : Nat → Nat → OffsetFinder → Option (Bool × OffsetFinder)
  | 0, _, F => some (false, F)
  | Remaining + 1, Index, F =>
    match F.SearchRegions[Index]? with
    | none => none
    | some SearchRegion =>
      if SearchRegion.RegionID = NextID then
        if SearchRegion.AccessType ≠ AccessType.XReference then
          XReferenceLoop Handlers NextID Value Remaining (Index + 1) F
        else
          let SearchRegion :=
            { SearchRegion with RegionRange := { SearchRegion.RegionRange with Offset := Value } }
          let F := { F with SearchRegions := F.SearchRegions.set Index SearchRegion }
          match F.HandleExpectedFinds Handlers Index with
          | none => none
          | some F => some (true, F)
      else XReferenceLoop Handlers NextID Value Remaining (Index + 1) F

/-- `SearchHandlers::XReferenceHandler`; `Handlers` is the member
`SearchHandlers` of the finder, which `HandleExpectedFinds` consults.  The
region and the target are read again behind the loop, as the references see
what the loop has changed.  `none` also stands for the access through an
empty `NextRegion`. -/
def XReferenceHandler (Z : ZydisStrings) (Handlers : SearchType → Option SearchHandler) :
    SearchHandler :=
  fun F RegionIndex FindIndex =>
    match F.Target RegionIndex FindIndex with
    | none => none
    | some (Region, ToFind) =>
      match ValueExtractingHandler Z F.Analyzer Region ToFind {}
          (fun StartOffset Size => F.Analyzer.ResolveRipRelativeOffset StartOffset Size none) with
      | none => none
      | some (none, _) => some (false, F)
      | some (some Extracted, MatcherCoverage) =>
        match Extracted.Value, ToFind.NextRegion with
        | some Value, some NextRegion =>
          match XReferenceLoop Handlers NextRegion.ID Value F.SearchRegions.length 0 F with
          | none => none
          | some (XReferenceHandled, F) =>
            match F.Target RegionIndex FindIndex with
            | none => none
            | some (Region, ToFind) =>
              let OffsetFromFunctionBase :=
                sub64 MatcherCoverage.Offset Region.RegionRange.Offset
              match F.JSON_SyncSearchRange
                  { Offset := OffsetFromFunctionBase, Size := MatcherCoverage.Size }
                  Region ToFind with
              | none => none
              | some F => some (XReferenceHandled, F)
        | _, _ => none

/-- The test of the group loop of `TslDecryptorHandler32` for one target:
it carries the group identifier and has the search type of the target being
handled. -/
def IsGroupMember (GroupID : String) (Type' : SearchType) (Find : TSearchFor) : Bool :=
  match Find.Group with
  | some Group => decide (Group.ID = GroupID) && decide (Find.SearchType = Type')
  | none => false

/-- The vector `GroupedFinds` when the group loop of `TslDecryptorHandler32`
is left: copies of the members, in the order of the regions and targets, made
before the member is marked. -/
def GroupedFinds (GroupID : String) (Type' : SearchType) (Regions : List TSearchRegion) :
    List TSearchFor :=
  (Regions.map (·.SearchFor)).flatten.filter (IsGroupMember GroupID Type')

/-- The regions when the group loop of `TslDecryptorHandler32` is left: every
member has `Handled = true`. -/
def MarkGroup (GroupID : String) (Type' : SearchType) (Regions : List TSearchRegion) :
    List TSearchRegion :=
  Regions.map fun Region =>
    { Region with
      SearchFor := Region.SearchFor.map fun Find =>
        if IsGroupMember GroupID Type' Find then { Find with Handled := true } else Find }

/-- The loop of `TslDecryptorHandler32` over `GroupedFinds`: each member is
added with `Decryptors[*Find.Group->Index]`.  `none` stands for the undefined
behaviour of an empty `Index` or an index outside the vector. -/
def AddGroupedFinds (Decryptors : List TslDecryption) :
    List TSearchFor → OffsetFinder → Option OffsetFinder
  | [], F => some F
  | Find :: Rest, F =>
    match Find.Group with
    | none => none
    | some Group =>
      match Group.Index with
      | none => none
      | some Index =>
        match Decryptors[Index]? with
        | none => none
        | some Decryptor =>
          AddGroupedFinds Decryptors Rest (F.AddFind ⟨Find, FoundValue.Decryption Decryptor⟩)

/-- The assignment `ToFind.Handled = true` for the target at the given
position of the member `SearchRegions`. -/
def OffsetFinder.SetHandled (F : OffsetFinder) (RegionIndex FindIndex : Nat) : OffsetFinder :=
  match F.Target RegionIndex FindIndex with
  | none => F
  | some (Region, ToFind) =>
    { F with
      SearchRegions := F.SearchRegions.set RegionIndex
        { Region with SearchFor := Region.SearchFor.set FindIndex { ToFind with Handled := true } } }

/-- `SearchHandlers::TslDecryptorHandler32`.  `none` stands for an exception
or undefined behaviour (also the access `Decryptors[0]` to an empty vector and
the access through an empty `Value`). -/
def TslDecryptorHandler32 (Punned : ZydisDecodedOperand → ZydisRegister) : SearchHandler :=
  fun F RegionIndex FindIndex =>
    match F.Target RegionIndex FindIndex with
    | none => none
    | some (Region, ToFind) =>
      if ToFind.Handled then some (false, F)
      else
        let Range := SetBoundaries Region ToFind
        match F.Analyzer.ExtractTslDecryptors Punned true F.ChainID32
            (add64 Region.RegionRange.Offset Range.Offset) Range.Size with
        | none => none
        | some (DecryptorsOpt, ChainID) =>
          let F := { F with ChainID32 := ChainID }
          match DecryptorsOpt with
          | none => some (false, F)
          | some Extracted =>
            match Extracted.Value with
            | none => none
            | some Decryptors =>
              match ToFind.Group with
              | some Group =>
                let Grouped := GroupedFinds Group.ID ToFind.SearchType F.SearchRegions
                let F :=
                  { F with SearchRegions := MarkGroup Group.ID ToFind.SearchType F.SearchRegions }
                if Decryptors.length < Grouped.length then some (false, F)
                else if Decryptors.length > Grouped.length then some (false, F)
                else
                  match AddGroupedFinds Decryptors Grouped F with
                  | none => none
                  | some F => some (true, F)
              | none =>
                match Decryptors.head? with
                | none => none
                | some Decryptor =>
                  let OffsetFromFunctionBase :=
                    sub64 Extracted.Range.Offset Region.RegionRange.Offset
                  match F.JSON_SyncSearchRange
                      { Offset := OffsetFromFunctionBase, Size := Extracted.Range.Size }
                      Region ToFind with
                  | none => none
                  | some F =>
                    let F := F.AddFind ⟨ToFind, FoundValue.Decryption Decryptor⟩
                    some (true, F.SetHandled RegionIndex FindIndex)

/-- `SearchHandlers::TslDecryptorHandler64`. -/
def TslDecryptorHandler64 (Punned : ZydisDecodedOperand → ZydisRegister) : SearchHandler :=
  fun F RegionIndex FindIndex =>
    match F.Target RegionIndex FindIndex with
    | none => none
    | some (Region, ToFind) =>
      let Range := SetBoundaries Region ToFind
      match F.Analyzer.ExtractTslDecryptors Punned false F.ChainID64
          (add64 Region.RegionRange.Offset Range.Offset) Range.Size with
      | none => none
      | some (DecryptorsOpt, ChainID) =>
        let F := { F with ChainID64 := ChainID }
        match DecryptorsOpt with
        | none => some (false, F)
        | some Extracted =>
          match Extracted.Value with
          | none => none
          | some Decryptors =>
            match Decryptors.head? with
            | none => none
            | some Decryptor =>
              let OffsetFromFunctionBase :=
                sub64 Extracted.Range.Offset Region.RegionRange.Offset
              match F.JSON_SyncSearchRange
                  { Offset := OffsetFromFunctionBase, Size := Extracted.Range.Size }
                  Region ToFind with
              | none => none
              | some F => some (true, F.AddFind ⟨ToFind, FoundValue.Decryption Decryptor⟩)

/-- The handlers `HandleFind` (`Main.cpp`) registers with `UseSearchHandlers`.
`XReferenceHandler` runs `HandleExpectedFinds`, which consults the same
handlers: `Depth` bounds the nesting of these calls, and at depth 0 the
X-reference handler gives `none` (a nesting that does not end). -/
def DefaultHandlers (Z : ZydisStrings) (Punned : ZydisDecodedOperand → ZydisRegister) :
    Nat → SearchType → Option SearchHandler
  | _, SearchType.Unknown => none
  | _, SearchType.Immediate => some (ImmediateHandler Z)
  | _, SearchType.Displacement => some (DisplacementHandler Z)
  | _, SearchType.Reference => some (ReferenceHandler Z)
  | 0, SearchType.XReference => some fun _ _ _ => none
  | Depth + 1, SearchType.XReference =>
    some (XReferenceHandler Z (DefaultHandlers Z Punned Depth))
  | _, SearchType.TslDecryptor32 => some (TslDecryptorHandler32 Punned)
  | _, SearchType.TslDecryptor64 => some (TslDecryptorHandler64 Punned)

/-- The group index of a target (`*Find.Group->Index`), 0 when there is
none. -/
def GroupIndex (Find : TSearchFor) : Nat :=
  match Find.Group with
  | some Group => Group.Index.getD 0
  | none => 0

/-- The finding that pairs a target with the chain at its group index. -/
def PairWithChain (Decryptors : List TslDecryption) (Find : TSearchFor) : TFound :=
  ⟨Find, FoundValue.Decryption (Decryptors.getD (GroupIndex Find) {})⟩

/-- The first xor constant of a found decryptor. -/
def FoundValue.Xor1 : FoundValue → Option Nat
  | FoundValue.Decryption Value => some Value.Xor1
  | _ => none

/-- The 32-bit instructions of the decryptor scenarios by their encodings:
`35 id` (`xor eax, imm32`), `81 F2 id` (`xor edx, imm32`), `31 D0`
(`xor eax, edx`), `31 C2` (`xor edx, eax`), `C1 C8 ib` (`ror eax, imm8`),
`C1 CA ib` (`ror edx, imm8`), `C1 E8 ib` (`shr eax, imm8`), `C1 EA ib`
(`shr edx, imm8`). -/
def Tsl32DecodeInstruction : List Nat → Option ZydisDecodedInstruction
  | 0x35 :: _ :: _ :: _ :: _ :: _ => some ⟨ZydisMnemonic.XOR, 5, 3, 2, 32⟩
  | 0x81 :: 0xF2 :: _ :: _ :: _ :: _ :: _ => some ⟨ZydisMnemonic.XOR, 6, 3, 2, 32⟩
  | 0x31 :: 0xD0 :: _ => some ⟨ZydisMnemonic.XOR, 2, 3, 2, 32⟩
  | 0x31 :: 0xC2 :: _ => some ⟨ZydisMnemonic.XOR, 2, 3, 2, 32⟩
  | 0xC1 :: 0xC8 :: _ :: _ => some ⟨ZydisMnemonic.ROR, 3, 3, 2, 32⟩
  | 0xC1 :: 0xCA :: _ :: _ => some ⟨ZydisMnemonic.ROR, 3, 3, 2, 32⟩
  | 0xC1 :: 0xE8 :: _ :: _ => some ⟨ZydisMnemonic.SHR, 3, 3, 2, 32⟩
  | 0xC1 :: 0xEA :: _ :: _ => some ⟨ZydisMnemonic.SHR, 3, 3, 2, 32⟩
  | _ => none

/-- The operands of the encodings of `Tsl32DecodeInstruction`. -/
def Tsl32DecodeOperands : List Nat → ZydisDecodedInstruction → Nat →
    Option (List ZydisDecodedOperand)
  | 0x35 :: b0 :: b1 :: b2 :: b3 :: _, _, Count =>
    some ([ZydisDecodedOperand.REGISTER ZydisRegister.EAX,
      ZydisDecodedOperand.IMMEDIATE false (Imm32 b0 b1 b2 b3) 32,
      ZydisDecodedOperand.REGISTER RFLAGS].take Count)
  | 0x81 :: 0xF2 :: b0 :: b1 :: b2 :: b3 :: _, _, Count =>
    some ([ZydisDecodedOperand.REGISTER ZydisRegister.EDX,
      ZydisDecodedOperand.IMMEDIATE false (Imm32 b0 b1 b2 b3) 32,
      ZydisDecodedOperand.REGISTER RFLAGS].take Count)
  | 0x31 :: 0xD0 :: _, _, Count =>
    some ([ZydisDecodedOperand.REGISTER ZydisRegister.EAX,
      ZydisDecodedOperand.REGISTER ZydisRegister.EDX,
      ZydisDecodedOperand.REGISTER RFLAGS].take Count)
  | 0x31 :: 0xC2 :: _, _, Count =>
    some ([ZydisDecodedOperand.REGISTER ZydisRegister.EDX,
      ZydisDecodedOperand.REGISTER ZydisRegister.EAX,
      ZydisDecodedOperand.REGISTER RFLAGS].take Count)
  | 0xC1 :: 0xC8 :: b0 :: _, _, Count =>
    some ([ZydisDecodedOperand.REGISTER ZydisRegister.EAX,
      ZydisDecodedOperand.IMMEDIATE false b0 8,
      ZydisDecodedOperand.REGISTER RFLAGS].take Count)
  | 0xC1 :: 0xCA :: b0 :: _, _, Count =>
    some ([ZydisDecodedOperand.REGISTER ZydisRegister.EDX,
      ZydisDecodedOperand.IMMEDIATE false b0 8,
      ZydisDecodedOperand.REGISTER RFLAGS].take Count)
  | 0xC1 :: 0xE8 :: b0 :: _, _, Count =>
    some ([ZydisDecodedOperand.REGISTER ZydisRegister.EAX,
      ZydisDecodedOperand.IMMEDIATE false b0 8,
      ZydisDecodedOperand.REGISTER RFLAGS].take Count)
  | 0xC1 :: 0xEA :: b0 :: _, _, Count =>
    some ([ZydisDecodedOperand.REGISTER ZydisRegister.EDX,
      ZydisDecodedOperand.IMMEDIATE false b0 8,
      ZydisDecodedOperand.REGISTER RFLAGS].take Count)
  | _, _, _ => some []

/-- The bytes of two 32-bit decryptor chains: `xor eax, 0x11111111;
ror eax, 0x11; xor eax, 0x22222222; xor eax, edx; shr eax, 0x05`, then
`xor edx, 0x33333333; ror edx, 0x07; xor edx, 0x44444444; xor edx, eax;
shr edx, 0x09`. -/
def TwoChainBytes32 : List Nat :=
  [0x35, 0x11, 0x11, 0x11, 0x11,
   0xC1, 0xC8, 0x11,
   0x35, 0x22, 0x22, 0x22, 0x22,
   0x31, 0xD0,
   0xC1, 0xE8, 0x05,
   0x81, 0xF2, 0x33, 0x33, 0x33, 0x33,
   0xC1, 0xCA, 0x07,
   0x81, 0xF2, 0x44, 0x44, 0x44, 0x44,
   0x31, 0xC2,
   0xC1, 0xEA, 0x09]

/-- A decryptor target of the group `Decryptors` with the given identifier,
search type and group index. -/
def GroupTarget (SearchID : String) (Type' : SearchType) (Index : Nat) : TSearchFor :=
  { SearchID := SearchID, SearchType := Type', Group := some ⟨"Decryptors", some Index⟩ }

/-- The finder of the 64-bit group scenario: the dump `TwoChainBytes`, and one
region over its 48 bytes with two 64-bit decryptor targets of one group. -/
def GroupFinder64 : OffsetFinder :=
  { Analyzer := TslAnalyzer TwoChainBytes,
    SearchRegions :=
      [{ RegionID := "Decrypt", RegionRange := { Offset := 0, Size := 48 },
         SearchFor := [GroupTarget "First" SearchType.TslDecryptor64 0,
                       GroupTarget "Second" SearchType.TslDecryptor64 1] }] }

/-- The finder of the 32-bit group scenario: the dump `TwoChainBytes32`, and
one region over its 38 bytes with two 32-bit decryptor targets of one group,
the first with the group index 1 and the second with the group index 0. -/
def GroupFinder32 : OffsetFinder :=
  { Analyzer := ⟨Mode.Sparse, {}, [], TwoChainBytes32,
      ⟨Tsl32DecodeInstruction, Tsl32DecodeOperands⟩⟩,
    SearchRegions :=
      [{ RegionID := "Decrypt", RegionRange := { Offset := 0, Size := 38 },
         SearchFor := [GroupTarget "First" SearchType.TslDecryptor32 1,
                       GroupTarget "Second" SearchType.TslDecryptor32 0] }] }

/-- The records the 32-bit extractor returns for `TwoChainBytes32`, in the
order of the chains. -/
def TwoChainRecords32 : List TslDecryption :=
  [⟨true, 0x11111111, 0x22222222, true, 0x11, true, 0x05,
    ("std::uint32_t <FunctioName>(std::uint32_t <ParamName>)\n\x7b\n" ++
     "  std::uint32_t <V>1 = _rotr(<ParamName> ^ 0x11111111, 17);\n" ++
     "  return (<V>1 ^ 0x22222222 ^ <ParamName> >> 5);\n\x7d").toList⟩,
   ⟨true, 0x33333333, 0x44444444, true, 0x07, true, 0x09,
    ("std::uint32_t <FunctioName>(std::uint32_t <ParamName>)\n\x7b\n" ++
     "  std::uint32_t <V>1 = _rotr(<ParamName> ^ 0x33333333, 7);\n" ++
     "  return (<V>1 ^ 0x44444444 ^ <ParamName> >> 9);\n\x7d").toList⟩]

/-- All targets of the regions, in the order of the regions. -/
def AllTargets (Regions : List TSearchRegion) : List TSearchFor :=
  (Regions.map (·.SearchFor)).flatten

/-! ## The construction of the typed regions (`OffsetFinder::Find(FilePath, ...)`) -/

/-- How the construction of the typed regions can be left early:
`nlohmann::json::type_error`, which `Find` catches; `out_of_range`, which it
does not catch; and the undefined behaviour of the constant `operator[]` with
a key that is not there. -/
inductive Fault where
  | type_error
  | out_of_range
  | undefined
deriving DecidableEq, Repr

/-- An exception of the JSON library as a way to leave the construction. -/
def Thrown.toFault : Thrown → Fault
  | Thrown.type_error => Fault.type_error
  | Thrown.out_of_range => Fault.out_of_range

/-- `J.at(Key).get<std::string>()`. -/
def StringAt (J : JSON) (Key : String) : Except Fault String :=
  match J.at Key with
  | Except.error E => Except.error E.toFault
  | Except.ok V =>
    match V.getString with
    | Except.error E => Except.error E.toFault
    | Except.ok Value => Except.ok Value

/-- `J.at(Key).get<std::uint64_t>()` and `J.at(Key).get<std::size_t>()`. -/
def UnsignedAt (J : JSON) (Key : String) : Except Fault Nat :=
  match J.at Key with
  | Except.error E => Except.error E.toFault
  | Except.ok V =>
    match V.getUnsigned with
    | Except.error E => Except.error E.toFault
    | Except.ok Value => Except.ok Value

/-- `J.at(Key).get<std::vector<std::string>>()`. -/
def StringsAt (J : JSON) (Key : String) : Except Fault (List String) :=
  match J.at Key with
  | Except.error E => Except.error E.toFault
  | Except.ok V =>
    match V.getStrings with
    | Except.error E => Except.error E.toFault
    | Except.ok Value => Except.ok Value

/-- The constant `operator[]` with a key, `J[Key]` on a `const` value:
`type_error` for a value that is not an object, undefined for a key that is
not there. -/
def JSON.index (J : JSON) (Key : String) : Except Fault JSON :=
  match J with
  | JSON.object Members =>
    match FindMember Key Members with
    | some V => Except.ok V
    | none => Except.error Fault.undefined
  | _ => Except.error Fault.type_error

/-- The test `J.contains(Key) && !J.at(Key).is_null()`. -/
def Present (J : JSON) (Key : String) : Bool :=
  match J.find Key with
  | some V => !V.is_null
  | none => false

/-- `SearchCriteria::RegionTypes`. -/
def RegionTypes : String → Option RegionType
  | "Section" => some RegionType.Section
  | "Function" => some RegionType.Function
  | _ => none

/-- `SearchCriteria::AccessTypes`. -/
def AccessTypes : String → Option AccessType
  | "Normal" => some AccessType.Normal
  | "XReference" => some AccessType.XReference
  | _ => none

/-- `SearchCriteria::SearchTypes`. -/
def SearchTypes : String → Option SearchType
  | "Immediate" => some SearchType.Immediate
  | "Displacement" => some SearchType.Displacement
  | "Reference" => some SearchType.Reference
  | "XReference" => some SearchType.XReference
  | "TslDecryptor32" => some SearchType.TslDecryptor32
  | "TslDecryptor64" => some SearchType.TslDecryptor64
  | _ => none

/-- `SearchCriteria::MatcherModes`. -/
def MatcherModes : String → Option MatcherMode
  | "First" => some MatcherMode.First
  | "All" => some MatcherMode.All
  | _ => none

/-- `SearchCriteria::MatcherTypes`. -/
def MatcherTypes : String → Option MatcherType
  | "Pattern" => some MatcherType.Pattern
  | "PatternSubsequence" => some MatcherType.PatternSubsequence
  | "InstructionSubsequence" => some MatcherType.InstructionSubsequence
  | _ => none

/-- `SearchCriteria::AnchorTypes`. -/
def AnchorTypes : String → Option AnchorType
  | "String" => some AnchorType.String
  | "Pattern" => some AnchorType.Pattern
  | "PatternSubsequence" => some AnchorType.PatternSubsequence
  | "InstructionSubsequence" => some AnchorType.InstructionSubsequence
  | _ => none

/-- One of the four statements of the lambda `SetRange`: the member is
assigned when the JSON range holds a value that is not null under `Key`. -/
def OptionalUnsigned (J : JSON) (Key : String) (Default : Nat) : Except Fault Nat :=
  if Present J Key then UnsignedAt J Key else Except.ok Default

/-- The lambda `SetRange` of `Find(FilePath, ...)`. -/
def SetRange (CppRange : TRange) (Range : JSON) : Except Fault TRange :=
  match OptionalUnsigned Range "Offset" CppRange.Offset with
  | Except.error E => Except.error E
  | Except.ok Offset =>
    match OptionalUnsigned Range "OffsetVariation" CppRange.OffsetVariation with
    | Except.error E => Except.error E
    | Except.ok OffsetVariation =>
      match OptionalUnsigned Range "Size" CppRange.Size with
      | Except.error E => Except.error E
      | Except.ok Size =>
        match OptionalUnsigned Range "SizeVariation" CppRange.SizeVariation with
        | Except.error E => Except.error E
        | Except.ok SizeVariation => Except.ok ⟨Offset, Size, OffsetVariation, SizeVariation⟩

/-- A loop `for (const auto& Item : Items)` whose body either adds an entry to
a local vector, passes the item over (`continue`), or leaves by an
exception. -/
def ParseLoop {α : Type} (Parse : JSON → Except Fault (Option α)) :
    List JSON → Except Fault (List α)
  | [] => Except.ok []
  | Item :: Rest =>
    match Parse Item with
    | Except.error E => Except.error E
    | Except.ok Entry =>
      match ParseLoop Parse Rest with
      | Except.error E => Except.error E
      | Except.ok Entries =>
        match Entry with
        | none => Except.ok Entries
        | some Entry => Except.ok (Entry :: Entries)

/-- The characters of each string. -/
def CharLists (Strings : List String) : List (List Char) :=
  Strings.map String.toList

/-- The body of the loop over `Anchors`: `none` for an anchor that is passed
over. -/
def ParseAnchor (Anchor : JSON) : Except Fault (Option TAnchor) :=
  match StringAt Anchor "Type" with
  | Except.error E => Except.error E
  | Except.ok Type' =>
    match AnchorTypes Type' with
    | none => Except.ok none
    | some AnchorType.String =>
      match StringAt Anchor "Value" with
      | Except.error E => Except.error E
      | Except.ok Value =>
        match OptionalUnsigned Anchor "Index" 0 with
        | Except.error E => Except.error E
        | Except.ok Index =>
          Except.ok (some { Type' := AnchorType.String, String := Value.toList, Index := Index })
    | some AnchorType.Pattern =>
      match StringAt Anchor "Value" with
      | Except.error E => Except.error E
      | Except.ok Value =>
        Except.ok (some { Type' := AnchorType.Pattern, Pattern := Value.toList })
    | some AnchorType.PatternSubsequence =>
      match StringsAt Anchor "Value" with
      | Except.error E => Except.error E
      | Except.ok Value =>
        Except.ok (some { Type' := AnchorType.PatternSubsequence,
                          PatternSubsequence := CharLists Value })
    | some AnchorType.InstructionSubsequence =>
      match StringsAt Anchor "Value" with
      | Except.error E => Except.error E
      | Except.ok Value =>
        Except.ok (some { Type' := AnchorType.InstructionSubsequence,
                          InstructionSubsequence := CharLists Value })
    | some AnchorType.None => Except.ok (some {})

/-- The value of a matcher, by its type. -/
def MatcherValue (Matcher : JSON) (CppMatcher : TMatcher) : Except Fault TMatcher :=
  match CppMatcher.Type' with
  | MatcherType.Pattern =>
    match StringAt Matcher "Value" with
    | Except.error E => Except.error E
    | Except.ok Value => Except.ok { CppMatcher with Pattern := Value.toList }
  | MatcherType.PatternSubsequence =>
    match StringsAt Matcher "Value" with
    | Except.error E => Except.error E
    | Except.ok Value => Except.ok { CppMatcher with PatternSubsequence := CharLists Value }
  | MatcherType.InstructionSubsequence =>
    match StringsAt Matcher "Value" with
    | Except.error E => Except.error E
    | Except.ok Value => Except.ok { CppMatcher with InstructionSubsequence := CharLists Value }
  | _ => Except.ok CppMatcher

/-- The body of the loop over `Matchers`: `none` for a matcher that is passed
over. -/
def ParseMatcher (Matcher : JSON) : Except Fault (Option TMatcher) :=
  match StringAt Matcher "Type" with
  | Except.error E => Except.error E
  | Except.ok Type' =>
    match MatcherTypes Type' with
    | none => Except.ok none
    | some CppType =>
      match MatcherValue Matcher { Type' := CppType } with
      | Except.error E => Except.error E
      | Except.ok CppMatcher =>
        match OptionalUnsigned Matcher "Offset" CppMatcher.Offset with
        | Except.error E => Except.error E
        | Except.ok Offset =>
          match OptionalUnsigned Matcher "Index" CppMatcher.Index with
          | Except.error E => Except.error E
          | Except.ok Index => Except.ok (some { CppMatcher with Offset := Offset, Index := Index })

/-- The part of the loop body over `SearchFor` that reads `Group`. -/
def ParseGroup (SearchTarget : JSON) : Except Fault (Option TGroup) :=
  if Present SearchTarget "Group" then
    match SearchTarget.index "Group" with
    | Except.error E => Except.error E
    | Except.ok Group =>
      match StringAt Group "ID" with
      | Except.error E => Except.error E
      | Except.ok ID =>
        if Present Group "Index" then
          match UnsignedAt Group "Index" with
          | Except.error E => Except.error E
          | Except.ok Index => Except.ok (some ⟨ID, some Index⟩)
        else Except.ok (some ⟨ID, none⟩)
  else Except.ok none

/-- The part of the loop body over `SearchFor` that reads `SearchRange`. -/
def ParseSearchRange (SearchTarget : JSON) : Except Fault TRange :=
  if Present SearchTarget "SearchRange" then
    match SearchTarget.index "SearchRange" with
    | Except.error E => Except.error E
    | Except.ok Range => SetRange {} Range
  else Except.ok {}

/-- The part of the loop body over `SearchFor` that reads `MatcherMode`: the
inner `none` for a mode that is not known (the target is passed over). -/
def ParseMatcherMode (SearchTarget : JSON) : Except Fault (Option MatcherMode) :=
  if Present SearchTarget "MatcherMode" then
    match StringAt SearchTarget "MatcherMode" with
    | Except.error E => Except.error E
    | Except.ok Mode => Except.ok (MatcherModes Mode)
  else Except.ok (some MatcherMode.None)

/-- The part of the loop body over `SearchFor` that reads `Matchers`. -/
def ParseMatchers (SearchTarget : JSON) : Except Fault (List TMatcher) :=
  if Present SearchTarget "Matchers" then
    match SearchTarget.index "Matchers" with
    | Except.error E => Except.error E
    | Except.ok Matchers => ParseLoop ParseMatcher Matchers.items
  else Except.ok []

/-- The part of the loop body over `SearchFor` for a target of the type
`XReference`: the inner `none` when `NextRegion` is not there (the target is
passed over). -/
def ParseNextRegion (SearchTarget : JSON) : Except Fault (Option TNextRegion) :=
  if Present SearchTarget "NextRegion" then
    match SearchTarget.index "NextRegion" with
    | Except.error E => Except.error E
    | Except.ok NextRegion =>
      match StringAt NextRegion "ID" with
      | Except.error E => Except.error E
      | Except.ok ID => Except.ok (some ⟨ID⟩)
  else Except.ok none

/-- The part of the loop body over `SearchFor` that reads `Print`. -/
def ParsePrint (SearchTarget : JSON) : Except Fault (Option TPrint) :=
  if Present SearchTarget "Print" then
    match SearchTarget.index "Print" with
    | Except.error E => Except.error E
    | Except.ok Print =>
      match StringAt Print "Name" with
      | Except.error E => Except.error E
      | Except.ok Name =>
        match Print.index "Group" with
        | Except.error E => Except.error E
        | Except.ok PrintGroup =>
          match StringAt PrintGroup "ID" with
          | Except.error E => Except.error E
          | Except.ok ID =>
            match OptionalUnsigned PrintGroup "Index" 0 with
            | Except.error E => Except.error E
            | Except.ok Index => Except.ok (some ⟨Name, ⟨ID, Index⟩⟩)
  else Except.ok none

/-- The body of the loop over `SearchFor`: `none` for a target that is passed
over. -/
def ParseTarget (SearchTarget : JSON) : Except Fault (Option TSearchFor) :=
  match StringAt SearchTarget "SearchID" with
  | Except.error E => Except.error E
  | Except.ok SearchID =>
    match StringAt SearchTarget "SearchType" with
    | Except.error E => Except.error E
    | Except.ok Type' =>
      match SearchTypes Type' with
      | none => Except.ok none
      | some CppType =>
        match ParseGroup SearchTarget with
        | Except.error E => Except.error E
        | Except.ok Group =>
          match ParseSearchRange SearchTarget with
          | Except.error E => Except.error E
          | Except.ok SearchRange =>
            match ParseMatcherMode SearchTarget with
            | Except.error E => Except.error E
            | Except.ok none => Except.ok none
            | Except.ok (some Mode) =>
              match ParseMatchers SearchTarget with
              | Except.error E => Except.error E
              | Except.ok Matchers =>
                match (if CppType = SearchType.XReference then
                    (ParseNextRegion SearchTarget).map fun N => N.map some
                  else Except.ok (some none)) with
                | Except.error E => Except.error E
                | Except.ok none => Except.ok none
                | Except.ok (some NextRegion) =>
                  match ParsePrint SearchTarget with
                  | Except.error E => Except.error E
                  | Except.ok Print =>
                    Except.ok (some
                      { SearchID := SearchID, SearchType := CppType, MatcherMode := Mode,
                        Matchers := Matchers, SearchRange := SearchRange,
                        NextRegion := NextRegion, Print := Print, Group := Group })

/-- The part of the loop body over the regions that reads `AccessType`: the
inner `none` for an access type that is not known (the region is passed
over). -/
def ParseAccessType (Region : JSON) : Except Fault (Option AccessType) :=
  if Present Region "AccessType" then
    match StringAt Region "AccessType" with
    | Except.error E => Except.error E
    | Except.ok Access => Except.ok (AccessTypes Access)
  else Except.ok (some AccessType.Normal)

/-- The part of the loop body over the regions that reads `RegionRange`. -/
def ParseRegionRange (Region : JSON) : Except Fault TRange :=
  if Present Region "RegionRange" then
    match Region.index "RegionRange" with
    | Except.error E => Except.error E
    | Except.ok Range => SetRange {} Range
  else Except.ok {}

/-- The part of the loop body over the regions that reads `Anchors`. -/
def ParseAnchors (Region : JSON) : Except Fault (List TAnchor) :=
  if Present Region "Anchors" then
    match Region.index "Anchors" with
    | Except.error E => Except.error E
    | Except.ok Anchors => ParseLoop ParseAnchor Anchors.items
  else Except.ok []

/-- The body of the loop over the regions: `none` for a region that is passed
over. -/
def ParseRegion (Region : JSON) : Except Fault (Option TSearchRegion) :=
  match StringAt Region "RegionID" with
  | Except.error E => Except.error E
  | Except.ok RegionID =>
    match StringAt Region "RegionType" with
    | Except.error E => Except.error E
    | Except.ok Type' =>
      match RegionTypes Type' with
      | none => Except.ok none
      | some CppType =>
        match ParseAccessType Region with
        | Except.error E => Except.error E
        | Except.ok none => Except.ok none
        | Except.ok (some Access) =>
          match ParseRegionRange Region with
          | Except.error E => Except.error E
          | Except.ok RegionRange =>
            match ParseAnchors Region with
            | Except.error E => Except.error E
            | Except.ok Anchors =>
              match Region.index "SearchFor" with
              | Except.error E => Except.error E
              | Except.ok SearchFor =>
                match ParseLoop ParseTarget SearchFor.items with
                | Except.error E => Except.error E
                | Except.ok CppSearchFor =>
                  Except.ok (some
                    { RegionID := RegionID, RegionType := CppType, AccessType := Access,
                      RegionRange := RegionRange, Anchors := Anchors,
                      SearchFor := CppSearchFor })

/-- The loop of `Find(FilePath, ...)` over the regions of the configuration:
the regions appended to the member `SearchRegions` when the loop is left, and
how it was left early, if it was. -/
def ParseRegions : List JSON → List TSearchRegion × Option Fault
  | [] => ([], none)
  | Region :: Rest =>
    match ParseRegion Region with
    | Except.error E => ([], some E)
    | Except.ok none => ParseRegions Rest
    | Except.ok (some CppRegion) =>
      (CppRegion :: (ParseRegions Rest).1, (ParseRegions Rest).2)

/-- `OffsetFinder::Find(FilePath, ShouldSyncSearchConfig)`, given what
`Util::JSON_ParseFile(FilePath)` returns.  A `type_error` is caught and ends
the call with the regions appended so far; `none` stands for an exception
that leaves the call, or undefined behaviour. -/
def OffsetFinder.FindFile (F : OffsetFinder) (ParsedSearchConfig : Option JSON)
    (Handlers : SearchType → Option SearchHandler)
    (RegionHandler : OffsetFinder → Nat → Option (Bool × OffsetFinder))
    (ShouldSyncSearchConfig : Bool) : Option OffsetFinder :=
  match ParsedSearchConfig with
  | none => some F
  | some Config =>
    let F := { F with JSON_SearchRegions := Config }
    match ParseRegions Config.items with
    | (Regions, none) =>
      ({ F with SearchRegions := F.SearchRegions ++ Regions }).Find Handlers RegionHandler
        ShouldSyncSearchConfig
    | (Regions, some Fault.type_error) =>
      some { F with SearchRegions := F.SearchRegions ++ Regions }
    | (_, some _) => none

/-- A region entry whose `RegionType` is a string that names no region type;
its `RegionID` is a string. -/
def UnknownRegionType (Region : JSON) : Prop :=
  ∃ ID Type', StringAt Region "RegionID" = Except.ok ID ∧
    StringAt Region "RegionType" = Except.ok Type' ∧ RegionTypes Type' = none

/-- A region entry whose `AccessType` is a string that names no access type;
its `RegionID` is a string and its `RegionType` names a region type. -/
def UnknownAccessType (Region : JSON) : Prop :=
  ∃ ID Type' CppType Access, StringAt Region "RegionID" = Except.ok ID ∧
    StringAt Region "RegionType" = Except.ok Type' ∧ RegionTypes Type' = some CppType ∧
    Present Region "AccessType" = true ∧ StringAt Region "AccessType" = Except.ok Access ∧
    AccessTypes Access = none

/-- A target entry whose `SearchType` is a string that names no search type;
its `SearchID` is a string. -/
def UnknownSearchType (SearchTarget : JSON) : Prop :=
  ∃ ID Type', StringAt SearchTarget "SearchID" = Except.ok ID ∧
    StringAt SearchTarget "SearchType" = Except.ok Type' ∧ SearchTypes Type' = none

/-- A target entry whose `MatcherMode` is a string that names no matcher
mode; the members read before it are well-formed. -/
def UnknownMatcherMode (SearchTarget : JSON) : Prop :=
  ∃ ID Type' CppType Group SearchRange Mode,
    StringAt SearchTarget "SearchID" = Except.ok ID ∧
    StringAt SearchTarget "SearchType" = Except.ok Type' ∧ SearchTypes Type' = some CppType ∧
    ParseGroup SearchTarget = Except.ok Group ∧
    ParseSearchRange SearchTarget = Except.ok SearchRange ∧
    Present SearchTarget "MatcherMode" = true ∧
    StringAt SearchTarget "MatcherMode" = Except.ok Mode ∧ MatcherModes Mode = none

/-- An anchor entry whose `Type` is a string that names no anchor type. -/
def UnknownAnchorType (Anchor : JSON) : Prop :=
  ∃ Type', StringAt Anchor "Type" = Except.ok Type' ∧ AnchorTypes Type' = none

/-- A matcher entry whose `Type` is a string that names no matcher type. -/
def UnknownMatcherType (Matcher : JSON) : Prop :=
  ∃ Type', StringAt Matcher "Type" = Except.ok Type' ∧ MatcherTypes Type' = none

/-- A finder as `HandleFind` has it before the call of `Find`: the dump of the
synchronisation scenario with its `.text` section, no regions, no finds. -/
def FreshFinder : OffsetFinder :=
  { Analyzer := SyncAnalyzer, InPeSections := some [⟨".text", 0x3000, 0x100⟩] }

/-- A region entry whose `RegionType` is a number. -/
def WrongTypeRegion : JSON :=
  JSON.object
    [("RegionID", JSON.string "Broken"), ("RegionType", JSON.number 5),
     ("SearchFor", JSON.array [])]

/-- A region entry without `RegionType`. -/
def MissingTypeRegion : JSON :=
  JSON.object [("RegionID", JSON.string "Broken"), ("SearchFor", JSON.array [])]

/-- A region entry whose `RegionType` names no region type. -/
def UnknownTypeRegion : JSON :=
  JSON.object
    [("RegionID", JSON.string "Broken"), ("RegionType", JSON.string "Segment"),
     ("SearchFor", JSON.array [])]

/-- The values found, in the order of the finds. -/
def FoundValues (F : OffsetFinder) : List FoundValue :=
  F.FoundList.map (·.Value)

/-- What the configuration file holds after `OffsetFinder::SyncSearchConfig()`
(the file is given by the JSON value it parses to): the JSON configuration of
the finder when the synchronisation flag is on, what it held before
otherwise. -/
def OffsetFinder.SyncSearchConfig (F : OffsetFinder) (File : JSON) : JSON :=
  if F.ShouldSyncSearchConfig then F.JSON_SearchRegions else File

/-- The finder of the synchronisation scenario after `Find(FilePath, true)` on
`FreshFinder`. -/
def ResyncResult : OffsetFinder :=
  { Analyzer := SyncAnalyzer,
    InPeSections := some [⟨".text", 0x3000, 0x100⟩],
    JSON_SearchRegions := SyncConfig,
    SearchRegions := [SyncRegion { Offset := 0x80, Size := 0x30 }],
    FoundList := [⟨SyncTarget { Offset := 0x80, Size := 0x30 }, FoundValue.U64 0x12345678⟩],
    ShouldSyncSearchConfig := true }

/-! ## Scenarios and notions for the remaining properties -/

/-- The bytes of `xor rax, 0x11111111; xor rax, 0x22222222;
xor rax, 0x33333333; ror rax, 0x11; xor rax, rbx; shr rax, 0x05`: a third
constant xor before the register xor. -/
def ThreeXorBytes : List Nat :=
  [0x48, 0x35, 0x11, 0x11, 0x11, 0x11,
   0x48, 0x35, 0x22, 0x22, 0x22, 0x22,
   0x48, 0x35, 0x33, 0x33, 0x33, 0x33,
   0x48, 0xC1, 0xC8, 0x11,
   0x48, 0x31, 0xD8,
   0x48, 0xC1, 0xE8, 0x05]

/-- The bytes of `ThreeXorBytes` without the third constant xor. -/
def TwoXorBytes : List Nat :=
  [0x48, 0x35, 0x11, 0x11, 0x11, 0x11,
   0x48, 0x35, 0x22, 0x22, 0x22, 0x22,
   0x48, 0xC1, 0xC8, 0x11,
   0x48, 0x31, 0xD8,
   0x48, 0xC1, 0xE8, 0x05]

/-- The two xor constants and the function text of the records of a result
of `ExtractTslDecryptors`. -/
def XorConstants (Out : Option (Option (Result (List TslDecryption)) × Nat)) :
    Option (Option (Option (List (Nat × Nat × String)))) :=
  Out.map fun Out => Out.1.map fun R =>
    R.Value.map (List.map fun D => (D.Xor1, D.Xor2, String.mk D.PseudoCode))

/-- A state of the extractor with one chain on `rax` that has recorded a
rotate by 17 (after `ror rax, 0x11` at offset 0). -/
def RotatedState : ExtractState :=
  { Chains := [{ ID := 0,
                 Extracted := { IsRotateRight := true, Rotate := 17 },
                 Checklist := { Rotate := true },
                 RegisterPseudocode := [(ZydisRegister.RAX, "_rotr64(<ParamName>, 17)".toList)],
                 Ranges := [⟨0, 4⟩] }],
    ChainMap := [(ZydisRegister.RAX, 0)],
    ChainID := 1 }

/-- The templates are matched to entries of the stream one after the other,
each template by the earliest entry behind the previous match that matches
it: the stream splits into entries `Pre` that do not match the template, the
match `x`, and the rest, in which the remaining templates are matched the same
way. -/
def EarliestInOrder (Step : ZydisDecodedOperand → Option MatchOperand → OperandStep) :
    List DecodedAt → List MatchInstruction → List DecodedAt → Prop
  | _, [], g => g = []
  | S, t :: ts, g =>
    ∃ Pre x Post g2, S = Pre ++ x :: Post ∧ (∀ y ∈ Pre, y.Matches Step t = false) ∧
      x.Matches Step t = true ∧ g = x :: g2 ∧ EarliestInOrder Step Post ts g2

/-- What the subsequence matcher does on a window: it succeeds exactly when
the templates can be matched, in order, to a sublist of the forward decode of
the window, and a successful result lists the ranges of the earliest matches,
one per template. -/
def SubsequenceMatching (A : DumpAnalyzer) (Start Size : Nat) (Pattern : List MatchInstruction) :
    Prop :=
  ((∃ out, A.FindInstructionSubsequence Start Size Pattern = some (some out)) ↔
    ∃ Buffer asg, A.Read Start Size = some Buffer ∧
      List.Sublist asg (ForwardDecode A.Decoder VisibleOperands Buffer) ∧
      MatchesInOrder SubsequenceOperandStep asg Pattern) ∧
  (∀ out, A.FindInstructionSubsequence Start Size Pattern = some (some out) →
    ∃ Buffer g, A.Read Start Size = some Buffer ∧
      EarliestInOrder SubsequenceOperandStep (ForwardDecode A.Decoder VisibleOperands Buffer)
        Pattern g ∧
      out.Value = some (g.map (DecodedAt.Range Start)) ∧
      out.Range = Coverage (g.map (DecodedAt.Range Start)))

/-- Two regions of a dump, `0x1000 .. 0x1FFF` and `0x3000 .. 0x3FFF`. -/
def TwoRegions : List Region :=
  [{ AddressBegin := 0x1000, AddressEnd := 0x1FFF },
   { AddressBegin := 0x3000, AddressEnd := 0x3FFF }]

/-- The metadata of a dump with base address 0 whose region data starts at
file offset `0x100`. -/
def TwoRegionsMetadata : Metadata :=
  { BaseAddress := 0, DumpSectionOffset := 0x100 }

/-- A sparse dump of eight bytes that holds `Hi` in UTF-16 LE once, at its
start. -/
def OneOccurrenceDump : DumpAnalyzer :=
  ScenarioAnalyzer [0x48, 0x00, 0x69, 0x00, 0, 0, 0, 0]

/-- The PE sections of `OneOccurrenceDump`: `.rdata` covers the eight
bytes. -/
def OneOccurrenceSections : Option (List PeSection) :=
  some [⟨".rdata", 0, 8⟩]

/-- A function region of size 8 with one `String` anchor that selects the
occurrence of `Hi` with the given index. -/
def OccurrenceRegion (Index : Nat) : TSearchRegion :=
  { RegionID := "Function_Hi", RegionType := RegionType.Function,
    RegionRange := { Size := 8 },
    Anchors := [{ Type' := AnchorType.String, String := "Hi".toList, Index := Index }] }

/-- A finder over the dump of the synchronisation scenario whose PE analysis
failed: no PE sections, no functions, no regions, no finds. -/
def FailedFinder : OffsetFinder :=
  { Analyzer := SyncAnalyzer }

/-- What `Find(FilePath, ...)` does for the finder `F` and the configuration
`Config` when the default region handler rejects every region: the handler
returns `false` for every region of the configuration and leaves the finder as
it is, a configuration that is read to its end gives the finder with the new
regions and nothing else changed, and however the call returns, the list of
finds is the one before the call. -/
def NothingProcessed (Z : ZydisStrings) (F : OffsetFinder) (Config : JSON)
    (Handlers : SearchType → Option SearchHandler) (ShouldSyncSearchConfig : Bool) : Prop :=
  (∀ (RegionIndex : Nat) (Region : TSearchRegion),
    (F.SearchRegions ++ (ParseRegions Config.items).1)[RegionIndex]? = some Region →
    RegionHandler Z
      { F with JSON_SearchRegions := Config,
               SearchRegions := F.SearchRegions ++ (ParseRegions Config.items).1 } RegionIndex =
      some (false,
        { F with JSON_SearchRegions := Config,
                 SearchRegions := F.SearchRegions ++ (ParseRegions Config.items).1 })) ∧
  ((ParseRegions Config.items).2 = none →
    F.FindFile (some Config) Handlers (RegionHandler Z) ShouldSyncSearchConfig =
      some { F with JSON_SearchRegions := Config,
                    SearchRegions := F.SearchRegions ++ (ParseRegions Config.items).1,
                    ShouldSyncSearchConfig := ShouldSyncSearchConfig }) ∧
  (∀ F2, F.FindFile (some Config) Handlers (RegionHandler Z) ShouldSyncSearchConfig = some F2 →
    F2.FoundList = F.FoundList)

/-! ## Progress of the decode scans -/

/-- The offset at which a decode scan over `Buffer` goes on after the
iteration at `Offset`: one byte further when the bytes at `Offset` do not
decode, behind the decoded instruction otherwise. -/
def NextOffset (D : ZydisDecoder) (Buffer : List Nat) (Offset : Nat) : Nat :=
  match D.DecodeInstruction (Buffer.drop Offset) with
  | none => Offset + 1
  | some Instruction => Offset + Instruction.length

/-- Every iteration of the loop `Loop` (given the iterations left, the scan
offset and the other local variables) over `Buffer` either leaves the loop,
with a result that does not depend on the iterations left, or, with the scan
offset inside the buffer, goes on at `NextOffset`. -/
def Advances {σ ρ : Type} (D : ZydisDecoder) (Buffer : List Nat)
    (Loop : Nat → Nat → σ → ρ) : Prop :=
  ∀ (Offset : Nat) (State : σ),
    (∃ Out, ∀ Fuel, Loop (Fuel + 1) Offset State = Out) ∨
    (Offset < Buffer.length ∧
      ∃ State2, ∀ Fuel,
        Loop (Fuel + 1) Offset State = Loop Fuel (NextOffset D Buffer Offset) State2)

/-- How a run of a loop with bounded iterations ends: the bound is used up,
an iteration has undefined behaviour, or the loop is left with a value. -/
inductive ScanEnd (α : Type) where
  | Unfinished
  | Undefined
  | Done (Value : α)

/-- The value of a run, when it has one. -/
def ScanEnd.toOption {α : Type} : ScanEnd α → Option α
  | ScanEnd.Done Value => some Value
  | _ => none

/-- The `while` loop of `ExtractTslDecryptors` once more, telling a bound
that is used up from an iteration with undefined behaviour (`ExtractLoop`
gives `none` for both). -/
def ExtractLoopEnd (D : ZydisDecoder) (Punned : ZydisDecodedOperand → ZydisRegister)
    (X32 : Bool) (StartOffset : Nat) (Buffer : List Nat) :
    Nat → Nat → ExtractState → ScanEnd ExtractState
  | 0, _, _ => ScanEnd.Unfinished
  | Fuel + 1, Offset, S =>
    if Offset < Buffer.length then
      match D.DecodeInstruction (Buffer.drop Offset) with
      | none => ExtractLoopEnd D Punned X32 StartOffset Buffer Fuel (Offset + 1) S
      | some Instruction =>
        match D.DecodeOperands (Buffer.drop Offset) Instruction Instruction.operand_count with
        | none =>
          ExtractLoopEnd D Punned X32 StartOffset Buffer Fuel (Offset + Instruction.length) S
        | some Operands =>
          match ExtractStep Punned X32 (add64 StartOffset Offset) Instruction Operands S with
          | none => ScanEnd.Undefined
          | some S =>
            ExtractLoopEnd D Punned X32 StartOffset Buffer Fuel (Offset + Instruction.length) S
    else ScanEnd.Done S

/-- Every iteration of each decode-scan loop leaves the loop or goes on at
`NextOffset`: the loop shared by `ResolveRipRelativeOffset`,
`FindRipRelativeReference`, `ExtractDisplacement` and `ExtractImmediate`, the
loops of `FindInstructionSequence` and `FindInstructionSubsequence`, the loop
of `ExtractTslDecryptors`, and the loop of `ExtractAndSaveFunctions` (over the
`BytesRead` bytes it scans). -/
def ScansAdvance (D : ZydisDecoder) : Prop :=
  (∀ (α : Type) (Buffer : List Nat)
    (Pick : Nat → ZydisDecodedInstruction → List ZydisDecodedOperand → Option α),
    Advances D Buffer (fun Fuel Offset (_ : Unit) => DecodeScanLoop D Buffer Pick Fuel Offset)) ∧
  (∀ (StartOffset : Nat) (Buffer : List Nat) (Pattern : List MatchInstruction),
    Advances D Buffer (fun Fuel Offset (S : Nat × List MatchRange × Nat) =>
      FindInstructionSequenceLoop D StartOffset Buffer Pattern Fuel Offset S.1 S.2.1 S.2.2)) ∧
  (∀ (StartOffset : Nat) (Buffer : List Nat) (Pattern : List MatchInstruction),
    Advances D Buffer (fun Fuel Offset (S : Nat × List MatchRange × Nat) =>
      FindInstructionSubsequenceLoop D StartOffset Buffer Pattern Fuel Offset S.1 S.2.1 S.2.2)) ∧
  (∀ (Punned : ZydisDecodedOperand → ZydisRegister) (X32 : Bool) (StartOffset : Nat)
    (Buffer : List Nat),
    Advances D Buffer (fun Fuel Offset S =>
      ExtractLoop D Punned X32 StartOffset Buffer Fuel Offset S)) ∧
  (∀ (TextSectionOffset TextSectionEnd : Nat) (Buffer : List Nat) (BytesRead : Nat),
    BytesRead ≤ Buffer.length →
    Advances D (Buffer.take BytesRead) (fun Fuel Offset InFunctionOffsets =>
      ExtractFunctionsLoop D TextSectionOffset TextSectionEnd Buffer BytesRead Fuel Offset
        InFunctionOffsets))

/-- Each decode-scan loop, started at `Offset` with at least
`Buffer.size() + 1 - Offset` iterations (and at least one), comes to its end
within them.  For the two matcher loops the template index is inside the
template list, as it is in every iteration; for the decryptor loop the run may
still end in an iteration with undefined behaviour. -/
def ScansFinish (D : ZydisDecoder) : Prop :=
  (∀ (α : Type) (Buffer : List Nat)
    (Pick : Nat → ZydisDecodedInstruction → List ZydisDecodedOperand → Option α)
    (Fuel Offset : Nat), 0 < Fuel → Buffer.length + 1 ≤ Fuel + Offset →
    DecodeScanLoop D Buffer Pick Fuel Offset ≠ none) ∧
  (∀ (StartOffset : Nat) (Buffer : List Nat) (Pattern : List MatchInstruction)
    (Fuel Offset PatternIndex : Nat) (MatchOffsets : List MatchRange) (OutRangeOffset : Nat),
    0 < Fuel → Buffer.length + 1 ≤ Fuel + Offset → PatternIndex < Pattern.length →
    FindInstructionSequenceLoop D StartOffset Buffer Pattern Fuel Offset PatternIndex
      MatchOffsets OutRangeOffset ≠ none) ∧
  (∀ (StartOffset : Nat) (Buffer : List Nat) (Pattern : List MatchInstruction)
    (Fuel Offset PatternIndex : Nat) (MatchOffsets : List MatchRange) (OutRangeOffset : Nat),
    0 < Fuel → Buffer.length + 1 ≤ Fuel + Offset → PatternIndex < Pattern.length →
    FindInstructionSubsequenceLoop D StartOffset Buffer Pattern Fuel Offset PatternIndex
      MatchOffsets OutRangeOffset ≠ none) ∧
  (∀ (Punned : ZydisDecodedOperand → ZydisRegister) (X32 : Bool) (StartOffset : Nat)
    (Buffer : List Nat) (Fuel Offset : Nat) (S : ExtractState),
    0 < Fuel → Buffer.length + 1 ≤ Fuel + Offset →
    ExtractLoopEnd D Punned X32 StartOffset Buffer Fuel Offset S ≠ ScanEnd.Unfinished ∧
    (ExtractLoopEnd D Punned X32 StartOffset Buffer Fuel Offset S).toOption =
      ExtractLoop D Punned X32 StartOffset Buffer Fuel Offset S) ∧
  (∀ (TextSectionOffset TextSectionEnd : Nat) (Buffer : List Nat) (BytesRead : Nat)
    (Fuel Offset : Nat) (InFunctionOffsets : List Nat),
    0 < Fuel → BytesRead + 1 ≤ Fuel + Offset →
    ExtractFunctionsLoop D TextSectionOffset TextSectionEnd Buffer BytesRead Fuel Offset
      InFunctionOffsets ≠ none)

/-- The decode scans make progress and end: the scan offset grows in every
iteration, every loop goes on at the next offset or is left, and every loop
ends within `Buffer.size() + 1` iterations. -/
def DecodeScansTerminate (D : ZydisDecoder) : Prop :=
  (∀ (Buffer : List Nat) (Offset : Nat),
    Offset < NextOffset D Buffer Offset ∧
    (D.DecodeInstruction (Buffer.drop Offset) = none → NextOffset D Buffer Offset = Offset + 1) ∧
    (∀ Instruction, D.DecodeInstruction (Buffer.drop Offset) = some Instruction →
      NextOffset D Buffer Offset = Offset + Instruction.length)) ∧
  ScansAdvance D ∧ ScansFinish D

/-! ## Nesting of cross-references -/

/-- The handlers of `DefaultHandlers` with `Stub` in the place of the
X-reference handler at nesting depth 0: a run that never comes down to depth 0
does not depend on `Stub`. -/
def DefaultHandlersWith (Stub : SearchHandler) (Z : ZydisStrings)
    (Punned : ZydisDecodedOperand → ZydisRegister) : Nat → SearchType → Option SearchHandler
  | _, SearchType.Unknown => none
  | _, SearchType.Immediate => some (ImmediateHandler Z)
  | _, SearchType.Displacement => some (DisplacementHandler Z)
  | _, SearchType.Reference => some (ReferenceHandler Z)
  | 0, SearchType.XReference => some Stub
  | Depth + 1, SearchType.XReference =>
    some (XReferenceHandler Z (DefaultHandlersWith Stub Z Punned Depth))
  | _, SearchType.TslDecryptor32 => some (TslDecryptorHandler32 Punned)
  | _, SearchType.TslDecryptor64 => some (TslDecryptorHandler64 Punned)

/-- The X-reference handler of `DefaultHandlers` at nesting depth `Depth`. -/
def NestedXReferenceHandler (Z : ZydisStrings) (Punned : ZydisDecodedOperand → ZydisRegister) :
    Nat → SearchHandler
  | 0 => fun _ _ _ => none
  | Depth + 1 => XReferenceHandler Z (DefaultHandlers Z Punned Depth)

/-- What the nesting of the handlers depends on in a target: its search type
and the region it names. -/
abbrev TargetLink := SearchType × Option TNextRegion

/-- What the nesting of the handlers depends on in a region: its identifier,
its access type, and the links of its targets. -/
abbrev RegionShape := String × AccessType × List TargetLink

/-- The link of a target. -/
def TSearchFor.Link (ToFind : TSearchFor) : TargetLink :=
  (ToFind.SearchType, ToFind.NextRegion)

/-- The shape of a region. -/
def TSearchRegion.Shape (Region : TSearchRegion) : RegionShape :=
  (Region.RegionID, Region.AccessType, Region.SearchFor.map TSearchFor.Link)

/-- The shapes of the regions of a finder. -/
def OffsetFinder.Shape (F : OffsetFinder) : List RegionShape :=
  F.SearchRegions.map TSearchRegion.Shape

/-- The cross-references of the regions form no cycle: `Rank` gives every
region identifier a number, and every target of search type `XReference`
names a region of a smaller number than the region it belongs to. -/
def Acyclic (Rank : String → Nat) (Regions : List TSearchRegion) : Prop :=
  ∀ Region ∈ Regions, ∀ ToFind ∈ Region.SearchFor,
    ToFind.SearchType = SearchType.XReference →
    ∀ NextRegion, ToFind.NextRegion = some NextRegion → Rank NextRegion.ID < Rank Region.RegionID

/-- The same for a list of shapes. -/
def AcyclicShape (Rank : String → Nat) (Shapes : List RegionShape) : Prop :=
  ∀ Entry ∈ Shapes, ∀ Link ∈ Entry.2.2, Link.1 = SearchType.XReference →
    ∀ NextRegion, Link.2 = some NextRegion → Rank NextRegion.ID < Rank Entry.1

/-- A handler that leaves the shapes of the regions as they are. -/
def KeepsShape (Handler : SearchHandler) : Prop :=
  ∀ F RegionIndex FindIndex Handled F2,
    Handler F RegionIndex FindIndex = some (Handled, F2) → F2.Shape = F.Shape

/-- A computation with a bound on the nesting of calls gives no value
whatever the bound is. -/
def NeverReturns {α : Type} (Run : Nat → Option α) : Prop :=
  ∀ Depth, Run Depth = none

/-- A sparse dump of the seven bytes of `mov rax, [rip-7]`: the reference
resolves to offset 0, the instruction itself. -/
def CycleDump : DumpAnalyzer :=
  ScenarioAnalyzer [0x48, 0x8B, 0x05, 0xF9, 0xFF, 0xFF, 0xFF]

/-- A target of search type `XReference` that names the region `Loop`: the
reference is resolved in the first seven bytes of its region. -/
def CycleTarget (SearchID : String) : TSearchFor :=
  { SearchID := SearchID, SearchType := SearchType.XReference,
    SearchRange := { Offset := 0, Size := 7 }, NextRegion := some ⟨"Loop"⟩ }

/-- The region `Start` of the cycle scenario, handled by `Find`: its target
leads to the region `Loop`. -/
def CycleStart : TSearchRegion :=
  { RegionID := "Start", RegionType := RegionType.Section, AccessType := AccessType.Normal,
    RegionRange := { Offset := 0, Size := 7 }, SearchFor := [CycleTarget "ToLoop"] }

/-- The region `Loop` of the cycle scenario, reached by cross-reference only:
its target leads to `Loop` again. -/
def CycleLoop : TSearchRegion :=
  { RegionID := "Loop", RegionType := RegionType.Function, AccessType := AccessType.XReference,
    RegionRange := { Offset := 0, Size := 7 }, SearchFor := [CycleTarget "Again"] }

/-- The regions of the cycle scenario. -/
def CycleRegions : List TSearchRegion :=
  [CycleStart, CycleLoop]

/-- The finder of the cycle scenario. -/
def CycleFinder : OffsetFinder :=
  { Analyzer := CycleDump, InPeSections := some [], SearchRegions := CycleRegions }

/-- The regions of the cycle scenario with the cycle cut: the target of the
region `Loop` is an immediate to extract. -/
def ChainRegions : List TSearchRegion :=
  [CycleStart,
   { RegionID := "Loop", RegionType := RegionType.Function,
     AccessType := AccessType.XReference,
     RegionRange := { Offset := 0, Size := 7 },
     SearchFor := [{ SearchID := "Value", SearchType := SearchType.Immediate,
                     SearchRange := { Offset := 0, Size := 7 } }] }]

/-- The finder of the scenario without cycle. -/
def ChainFinder : OffsetFinder :=
  { Analyzer := CycleDump, InPeSections := some [], SearchRegions := ChainRegions }

/-- The numbers of the regions of the scenarios: `Start` above `Loop`. -/
def ChainRank (RegionID : String) : Nat :=
  if RegionID = "Start" then 1 else 0

/-! ## Scenarios of the write-back -/

/-- A region entry that `Find` passes over (its `RegionType` names no region
type) and that has no member `SearchFor`; it carries the `RegionID` of the
region of the synchronisation scenario. -/
def ShadowEntry : JSON :=
  JSON.object
    [("RegionID", JSON.string "Section_Text"), ("RegionType", JSON.string "Segment")]

/-- The configuration of the synchronisation scenario with `ShadowEntry`
before its region. -/
def ShadowedConfig : JSON :=
  JSON.array (ShadowEntry :: SyncConfig.items)

/-- The configuration `ShadowedConfig` with a null member `SearchFor` added to
its first entry. -/
def ShadowedConfigWritten : JSON :=
  JSON.array
    (JSON.object
      [("RegionID", JSON.string "Section_Text"), ("RegionType", JSON.string "Segment"),
       ("SearchFor", JSON.null)] :: SyncConfig.items)

/-- A finder as `HandleFind` has it before the call of `Find(FilePath, ...)`,
but with the synchronisation flag on: the state after a call of
`Find(Regions, true)` on the fresh finder. -/
def FlaggedFinder : OffsetFinder :=
  { FreshFinder with ShouldSyncSearchConfig := true }

/-- The finder of the synchronisation scenario after `Find(FilePath, true)` on
`FlaggedFinder`: the find is added and the range `0x90`, 2 is written into the
JSON configuration. -/
def ResyncWritten : OffsetFinder :=
  { ResyncResult with JSON_SearchRegions := SyncConfigWritten }

/-! ## Theorems -/

theorem IsMatched_cons (B : List Nat) (a : PatternElem) (P : List PatternElem) (i : Nat) :
    IsMatched B (a :: P) i = true ↔
      ((B.getD i 0 &&& a.first) = a.second ∧ IsMatched B P (i + 1) = true) := by
  by_cases hne : (B.getD i 0 &&& a.first) = a.second
  · simp only [IsMatched, hne, bne_self_eq_false, Bool.false_eq_true, if_false, true_and]
  · have hb : ((B.getD i 0 &&& a.first) != a.second) = true := by
      simpa [bne_iff_ne] using hne
    simp only [IsMatched, hb, if_true, hne, false_and, Bool.false_eq_true]

theorem IsMatched_iff (B : List Nat) (P : List PatternElem) (i : Nat) :
    IsMatched B P i = true ↔
      ∀ k e, P[k]? = some e → (B.getD (i + k) 0 &&& e.first) = e.second := by
  induction P generalizing i with
  | nil => simp [IsMatched]
  | cons a P ih =>
    rw [IsMatched_cons, ih (i + 1)]
    constructor
    · rintro ⟨h0, h⟩ k e hk
      cases k with
      | zero =>
        simp only [List.getElem?_cons_zero, Option.some.injEq] at hk
        subst hk; exact h0
      | succ k =>
        simp only [List.getElem?_cons_succ] at hk
        have := h k e hk
        rw [show i + (k + 1) = i + 1 + k by omega]; exact this
    · intro h
      refine ⟨h 0 a (by simp), fun k e hk => ?_⟩
      have := h (k + 1) e (by simpa using hk)
      rw [show i + 1 + k = i + (k + 1) by omega]; exact this

theorem FindPatternLoop_some (B : List Nat) (P : List PatternElem) (n s i : Nat) :
    FindPatternLoop B P n s = some i ↔
      (s ≤ i ∧ i < s + n ∧ IsMatched B P i = true ∧ ∀ j, s ≤ j → j < i → IsMatched B P j = false) := by
  induction n generalizing s with
  | zero => simp [FindPatternLoop]; intro h1 h2; omega
  | succ n ih =>
    simp only [FindPatternLoop]
    by_cases hm : IsMatched B P s = true
    · simp only [hm, if_true, Option.some.injEq]
      constructor
      · rintro rfl
        exact ⟨le_refl _, by omega, hm, fun j h1 h2 => by omega⟩
      · rintro ⟨h1, _, _, h4⟩
        by_contra hne
        have := h4 s (le_refl _) (by omega)
        simp [hm] at this
    · simp only [hm, if_false, Bool.false_eq_true]
      rw [ih (s + 1)]
      have hm' : IsMatched B P s = false := by simpa using hm
      constructor
      · rintro ⟨h1, h2, h3, h4⟩
        refine ⟨by omega, by omega, h3, fun j hj1 hj2 => ?_⟩
        by_cases hjs : j = s
        · subst hjs; exact hm'
        · exact h4 j (by omega) hj2
      · rintro ⟨h1, h2, h3, h4⟩
        have hsi : s ≠ i := by
          rintro rfl
          simp [hm'] at h3
        exact ⟨by omega, by omega, h3, fun j hj1 hj2 => h4 j (by omega) hj2⟩

theorem FindPatternLoop_none (B : List Nat) (P : List PatternElem) (n s : Nat) :
    FindPatternLoop B P n s = none ↔ ∀ j, s ≤ j → j < s + n → IsMatched B P j = false := by
  induction n generalizing s with
  | zero => simp [FindPatternLoop]; intro j h1 h2; omega
  | succ n ih =>
    simp only [FindPatternLoop]
    by_cases hm : IsMatched B P s = true
    · simp only [hm, if_true]
      constructor
      · intro h; cases h
      · intro h
        have := h s (le_refl _) (by omega)
        simp [hm] at this
    · simp only [hm, if_false, Bool.false_eq_true]
      rw [ih (s + 1)]
      have hm' : IsMatched B P s = false := by simpa using hm
      constructor
      · intro h j hj1 hj2
        by_cases hjs : j = s
        · subst hjs; exact hm'
        · exact h j (by omega) (by omega)
      · intro h j hj1 hj2
        exact h j (by omega) (by omega)

theorem FindPattern_some_iff (B : List Nat) (P : List PatternElem) (i : Nat) :
    FindPattern B P = some i ↔
      (PatternOccursAt B P i ∧ ∀ j, j < i → ¬ PatternOccursAt B P j) := by
  unfold FindPattern PatternOccursAt
  by_cases hlen : B.length < P.length
  · simp only [hlen, if_true]
    constructor
    · intro h; cases h
    · rintro ⟨⟨h1, _⟩, _⟩; omega
  · simp only [hlen, if_false]
    rw [FindPatternLoop_some]
    constructor
    · rintro ⟨_, h2, h3, h4⟩
      refine ⟨⟨by omega, (IsMatched_iff B P i).1 h3⟩, fun j hj hocc => ?_⟩
      have := h4 j (Nat.zero_le _) hj
      rw [(IsMatched_iff B P j).2 hocc.2] at this
      cases this
    · rintro ⟨⟨h1, h2⟩, h3⟩
      refine ⟨Nat.zero_le _, by omega, (IsMatched_iff B P i).2 h2, fun j _ hj => ?_⟩
      by_contra hne
      have hjm : IsMatched B P j = true := by simpa using hne
      exact h3 j hj ⟨by omega, (IsMatched_iff B P j).1 hjm⟩

theorem FindPattern_none_iff (B : List Nat) (P : List PatternElem) :
    FindPattern B P = none ↔ ∀ i, ¬ PatternOccursAt B P i := by
  unfold FindPattern PatternOccursAt
  by_cases hlen : B.length < P.length
  · simp only [hlen, if_true, true_iff]
    rintro i ⟨h1, _⟩; omega
  · simp only [hlen, if_false]
    rw [FindPatternLoop_none]
    constructor
    · rintro h i ⟨h1, h2⟩
      have := h i (Nat.zero_le _) (by omega)
      rw [(IsMatched_iff B P i).2 h2] at this
      cases this
    · intro h j _ hj
      by_contra hne
      have hjm : IsMatched B P j = true := by simpa using hne
      exact h j ⟨by omega, (IsMatched_iff B P j).1 hjm⟩

/-- C1: `FindPattern(B, P)` returns index `i` exactly when `i` is the least
index at which the pattern occurs (it fits into the buffer and every element
matches by masked equality), and it returns absent exactly when the pattern
occurs nowhere. -/
theorem FindPattern_least_occurrence (B : List Nat) (P : List PatternElem) :
    (∀ i, FindPattern B P = some i ↔
      (PatternOccursAt B P i ∧ ∀ j, j < i → ¬ PatternOccursAt B P j)) ∧
    (FindPattern B P = none ↔ ∀ i, ¬ PatternOccursAt B P i) := by
  constructor
  · intro i
    exact FindPattern_some_iff B P i
  · exact FindPattern_none_iff B P

/-! ### Translation -/

theorem add64_lt (a b : Nat) : add64 a b < U64 := by
  unfold add64; exact Nat.mod_lt _ (by unfold U64; norm_num)

theorem sub64_of_le (a b : Nat) (hb : b ≤ a) (ha : a < U64) : sub64 a b = a - b := by
  unfold sub64 U64 at *
  have : b % 2 ^ 64 = b := Nat.mod_eq_of_lt (by omega)
  rw [this]
  omega

theorem regionSize_eq (r : Region) :
    sub64 (add64 r.AddressEnd 1) r.AddressBegin = r.Size64 := by
  unfold Region.Size64 sub64 add64 U64
  omega

theorem TranslateLoop_some (VA : Nat) (hVA : VA < U64) (regions : List Region) (acc out : Nat) :
    TranslateLoop VA regions acc = some out ↔
      ∃ pre r post, regions = pre ++ r :: post ∧ (∀ p ∈ pre, ¬ p.Covers VA) ∧ r.Covers VA ∧
        out = (acc + (pre.map Region.Size64).sum + (VA - r.AddressBegin)) % U64 := by
  induction regions generalizing acc with
  | nil => simp [TranslateLoop]
  | cons a rest ih =>
    simp only [TranslateLoop, regionSize_eq]
    by_cases hc : VA ≥ a.AddressBegin ∧ VA ≤ a.AddressEnd
    · simp only [hc, and_self, if_true, Option.some.injEq]
      constructor
      · rintro rfl
        refine ⟨[], a, rest, rfl, by simp, hc, ?_⟩
        rw [sub64_of_le VA a.AddressBegin hc.1 hVA]
        simp [add64]
      · rintro ⟨pre, r, post, hsplit, hpre, hr, hout⟩
        cases pre with
        | nil =>
          simp only [List.nil_append, List.cons.injEq] at hsplit
          obtain ⟨rfl, rfl⟩ := hsplit
          rw [hout, sub64_of_le VA a.AddressBegin hc.1 hVA]
          simp [add64]
        | cons p pre =>
          simp only [List.cons_append, List.cons.injEq] at hsplit
          obtain ⟨rfl, _⟩ := hsplit
          exact absurd hc (hpre a (by simp))
    · simp only [hc, if_false]
      rw [ih]
      constructor
      · rintro ⟨pre, r, post, hsplit, hpre, hr, hout⟩
        refine ⟨a :: pre, r, post, by simp [hsplit], ?_, hr, ?_⟩
        · intro p hp
          rcases List.mem_cons.1 hp with rfl | hp
          · exact hc
          · exact hpre p hp
        · rw [hout]
          simp only [List.map_cons, List.sum_cons, add64, U64]
          omega
      · rintro ⟨pre, r, post, hsplit, hpre, hr, hout⟩
        cases pre with
        | nil =>
          simp only [List.nil_append, List.cons.injEq] at hsplit
          obtain ⟨rfl, rfl⟩ := hsplit
          exact absurd hr hc
        | cons p pre =>
          simp only [List.cons_append, List.cons.injEq] at hsplit
          obtain ⟨rfl, rfl⟩ := hsplit
          refine ⟨pre, r, post, rfl, fun q hq => hpre q (by simp [hq]), hr, ?_⟩
          rw [hout]
          simp only [List.map_cons, List.sum_cons, add64, U64]
          omega

theorem TranslateLoop_none (VA : Nat) (regions : List Region) (acc : Nat) :
    TranslateLoop VA regions acc = none ↔ ∀ r ∈ regions, ¬ r.Covers VA := by
  induction regions generalizing acc with
  | nil => simp [TranslateLoop]
  | cons a rest ih =>
    simp only [TranslateLoop]
    by_cases hc : VA ≥ a.AddressBegin ∧ VA ≤ a.AddressEnd
    · simp only [hc, and_self, if_true]
      constructor
      · intro h; cases h
      · intro h; exact absurd hc (h a (by simp))
    · simp only [hc, if_false]
      rw [ih]
      constructor
      · intro h r hr
        rcases List.mem_cons.1 hr with rfl | hr
        · exact hc
        · exact h r hr
      · intro h r hr
        exact h r (by simp [hr])

theorem Region.Size64_eq (r : Region) (h1 : r.AddressBegin ≤ r.AddressEnd)
    (h2 : r.AddressEnd - r.AddressBegin + 1 < U64) :
    r.Size64 = r.AddressEnd - r.AddressBegin + 1 := by
  unfold Region.Size64 add64 sub64 U64 at *
  omega

theorem Size64_sum_eq (pre : List Region) (h1 : ∀ p ∈ pre, p.AddressBegin ≤ p.AddressEnd)
    (h2 : (pre.map fun p => p.AddressEnd - p.AddressBegin + 1).sum < U64) :
    (pre.map Region.Size64).sum = (pre.map fun p => p.AddressEnd - p.AddressBegin + 1).sum := by
  induction pre with
  | nil => rfl
  | cons a pre ih =>
    simp only [List.map_cons, List.sum_cons] at h2 ⊢
    rw [ih (fun p hp => h1 p (by simp [hp])) (by omega),
      Region.Size64_eq a (h1 a (by simp)) (by omega)]

/-- C2: with `VA = base_address + v`, the translation returns
`dump_section_offset + (sum of end - begin + 1 over the regions before r) +
(VA - r.begin)` for the first region `r` that covers `VA`, all sums taken in
64-bit arithmetic, and it returns absent exactly when no region covers `VA`;
when the regions before `r` have `begin <= end` and the sum does not exceed 64
bits, the result is that sum exactly. -/
theorem Translate_first_covering_region (md : Metadata) (regions : List Region) (v : Nat) :
    (∀ out, TranslateVirtualOffsetToFileOffset md regions v = some out ↔
      ∃ pre r post, regions = pre ++ r :: post ∧
        (∀ p ∈ pre, ¬ p.Covers (add64 md.BaseAddress v)) ∧
        r.Covers (add64 md.BaseAddress v) ∧
        out = (md.DumpSectionOffset + (pre.map Region.Size64).sum +
                (add64 md.BaseAddress v - r.AddressBegin)) % U64) ∧
    (TranslateVirtualOffsetToFileOffset md regions v = none ↔
      ∀ r ∈ regions, ¬ r.Covers (add64 md.BaseAddress v)) ∧
    (∀ pre r post, regions = pre ++ r :: post →
      (∀ p ∈ pre, ¬ p.Covers (add64 md.BaseAddress v)) →
      r.Covers (add64 md.BaseAddress v) →
      (∀ p ∈ pre, p.AddressBegin ≤ p.AddressEnd) →
      md.DumpSectionOffset + (pre.map fun p => p.AddressEnd - p.AddressBegin + 1).sum +
        (add64 md.BaseAddress v - r.AddressBegin) < U64 →
      TranslateVirtualOffsetToFileOffset md regions v =
        some (md.DumpSectionOffset + (pre.map fun p => p.AddressEnd - p.AddressBegin + 1).sum +
          (add64 md.BaseAddress v - r.AddressBegin))) := by
  unfold TranslateVirtualOffsetToFileOffset
  refine ⟨fun out => TranslateLoop_some _ (add64_lt _ _) regions _ out,
    TranslateLoop_none _ regions _, ?_⟩
  intro pre r post hsplit hpre hr hwf hsum
  rw [TranslateLoop_some _ (add64_lt _ _)]
  refine ⟨pre, r, post, hsplit, hpre, hr, ?_⟩
  rw [Size64_sum_eq pre hwf (by omega)]
  exact (Nat.mod_eq_of_lt hsum).symm

/-! ### Pattern text -/

theorem xdigit_char (c : Char) (h : isxdigit c = true) :
    stoul16 [c] = some (hexDigitValue c) ∧ hexDigitValue c < 16 ∧ c ≠ '?' := by
  have hc : c = Char.ofNat c.toNat := (Char.ofNat_toNat c).symm
  obtain ⟨n, hn⟩ : ∃ n, c.toNat = n := ⟨_, rfl⟩
  rw [hn] at hc
  simp only [isxdigit, hn, Bool.or_eq_true, Bool.and_eq_true, decide_eq_true_eq] at h
  subst hc
  rcases h with (⟨h1, h2⟩ | ⟨h1, h2⟩) | ⟨h1, h2⟩ <;> interval_cases n <;> decide

theorem nibble_join (a b : Nat) (ha : a < 16) (hb : b < 16) :
    (((a % 256) <<< 4) % 256 ||| ((b % 256) <<< 0) % 256) = 16 * a + b := by
  revert b
  revert a
  decide

theorem ParseToken_two (h l : Char) (hh : isxdigit h = true ∨ h = '?')
    (hl : isxdigit l = true ∨ l = '?') :
    ParseToken [h, l] = some (TokenElement [h, l]) := by
  have hne : ¬ ([h, l] = ['?']) := by simp
  by_cases hq : h = '?' ∧ l = '?'
  · obtain ⟨rfl, rfl⟩ := hq
    decide
  · have hne2 : ¬ ([h, l] = ['?', '?']) := by simpa using hq
    have hcond : [h, l].length = 2 ∧
        (isxdigit ([h, l].getD 0 ' ') = true ∨ [h, l].getD 0 ' ' = '?') ∧
        (isxdigit ([h, l].getD 1 ' ') = true ∨ [h, l].getD 1 ' ' = '?') := by
      refine ⟨rfl, ?_, ?_⟩
      · simpa using hh
      · simpa using hl
    have hg0 : [h, l].getD 0 ' ' = h := rfl
    have hg1 : [h, l].getD 1 ' ' = l := rfl
    unfold ParseToken
    rw [if_neg (by simp [hne, hne2]), if_pos hcond, hg0, hg1]
    unfold MakeNibble TokenElement NibbleOf
    by_cases h1 : h = '?'
    · have h2 : l ≠ '?' := fun h2 => hq ⟨h1, h2⟩
      obtain ⟨e2, b2, _⟩ := xdigit_char l (hl.resolve_right h2)
      simp only [h1, h2, if_true, if_false, e2]
      have := nibble_join 0 (hexDigitValue l) (by decide) b2
      simp only [PatternElem.mk.injEq, Option.some.injEq]
      constructor
      · decide
      · simpa using this
    · obtain ⟨e1, b1, _⟩ := xdigit_char h (hh.resolve_right h1)
      by_cases h2 : l = '?'
      · simp only [h1, h2, if_true, if_false, e1]
        have := nibble_join (hexDigitValue h) 0 b1 (by decide)
        simp only [PatternElem.mk.injEq, Option.some.injEq]
        constructor
        · decide
        · simpa using this
      · obtain ⟨e2, b2, _⟩ := xdigit_char l (hl.resolve_right h2)
        simp only [h1, h2, if_false, e1, e2]
        have := nibble_join (hexDigitValue h) (hexDigitValue l) b1 b2
        simp only [PatternElem.mk.injEq, Option.some.injEq]
        constructor
        · decide
        · simpa using this

theorem ParseToken_listed (t : List Char) (ht : ListedToken t) :
    ParseToken t = some (TokenElement t) := by
  rcases ht with rfl | ⟨hlen, hall⟩
  · decide
  · match t, hlen, hall with
    | [h, l], _, hall =>
      exact ParseToken_two h l (hall h (by simp)) (hall l (by simp))

theorem ParsePatternLoop_length (toks : List (List Char)) (acc P : List PatternElem)
    (h : ParsePatternLoop toks acc = some P) :
    P.length = acc.length + toks.length ∧ acc <+: P ∧
      ∀ k t, toks[k]? = some t → ∃ e, P[acc.length + k]? = some e ∧ ParseToken t = some e := by
  induction toks generalizing acc with
  | nil =>
    simp only [ParsePatternLoop, Option.some.injEq] at h
    subst h
    simp
  | cons tok rest ih =>
    simp only [ParsePatternLoop] at h
    cases hp : ParseToken tok with
    | none => simp [hp] at h
    | some e =>
      simp only [hp] at h
      obtain ⟨h1, h2, h3⟩ := ih _ h
      have hpre : acc <+: P := (List.prefix_append acc [e]).trans h2
      refine ⟨by simp at h1; simp; omega, hpre, fun k t hk => ?_⟩
      cases k with
      | zero =>
        simp only [List.getElem?_cons_zero, Option.some.injEq] at hk
        subst hk
        refine ⟨e, ?_, hp⟩
        obtain ⟨suffix, rfl⟩ := h2
        rw [List.append_assoc, Nat.add_zero, List.getElem?_append_right (le_refl _)]
        simp
      | succ k =>
        simp only [List.getElem?_cons_succ] at hk
        obtain ⟨e2, he2, hpe⟩ := h3 k t hk
        refine ⟨e2, ?_, hpe⟩
        rw [← he2]
        congr 1
        simp
        omega

theorem ParsePatternLoop_listed (toks : List (List Char)) (acc : List PatternElem)
    (h : ∀ t ∈ toks, ListedToken t) :
    ParsePatternLoop toks acc = some (acc ++ toks.map TokenElement) := by
  induction toks generalizing acc with
  | nil => simp [ParsePatternLoop]
  | cons tok rest ih =>
    simp only [ParsePatternLoop, ParseToken_listed tok (h tok (by simp))]
    rw [ih _ (fun t ht => h t (by simp [ht]))]
    simp

/-- C3: whenever `ParsePattern` returns, it has produced exactly one element
per white-space separated token, in token order; `?` and `??` give `{0, 0}`; a
two-character token of hex digits and `?` gives, per nibble, mask nibble `0xF`
and the digit as value nibble, or `0` and `0` for `?` (`4?` is `{0xF0, 0x40}`,
`?B` is `{0x0F, 0x0B}`); a plain two-digit hex byte `hl` gives
`{0xFF, 16*h + l}`; and a text made of such tokens only is always parsed. -/
theorem ParsePattern_elements (text : List Char) :
    (∀ P : List PatternElem, ParsePattern text = some P →
      P.length = (Tokens text).length ∧
      ∀ (k : Nat) (t : List Char), (Tokens text)[k]? = some t →
        ∃ e, P[k]? = some e ∧ ParseToken t = some e) ∧
    ((∀ t ∈ Tokens text, ListedToken t) →
      ParsePattern text = some ((Tokens text).map TokenElement)) ∧
    ParseToken ['?'] = some ⟨0x00, 0x00⟩ ∧
    ParseToken ['?', '?'] = some ⟨0x00, 0x00⟩ ∧
    (∀ h l, (isxdigit h = true ∨ h = '?') → (isxdigit l = true ∨ l = '?') →
      ParseToken [h, l] =
        some ⟨16 * (NibbleOf h).1 + (NibbleOf l).1, 16 * (NibbleOf h).2 + (NibbleOf l).2⟩) ∧
    (∀ h l, isxdigit h = true → isxdigit l = true →
      ParseToken [h, l] = some ⟨0xFF, 16 * hexDigitValue h + hexDigitValue l⟩) ∧
    ParseToken ['4', '?'] = some ⟨0xF0, 0x40⟩ ∧
    ParseToken ['?', 'B'] = some ⟨0x0F, 0x0B⟩ := by
  refine ⟨fun P hP => ?_, fun h => ?_, by decide, by decide, fun h l hh hl => ?_,
    fun h l hh hl => ?_, by decide, by decide⟩
  · obtain ⟨h1, _, h3⟩ := ParsePatternLoop_length _ _ _ hP
    refine ⟨by simpa using h1, fun k t hk => ?_⟩
    simpa using h3 k t hk
  · have := ParsePatternLoop_listed (Tokens text) [] h
    simpa [ParsePattern] using this
  · exact ParseToken_two h l hh hl
  · rw [ParseToken_two h l (Or.inl hh) (Or.inl hl)]
    have h1 := (xdigit_char h hh).2.2
    have h2 := (xdigit_char l hl).2.2
    simp [TokenElement, NibbleOf, h1, h2]

/-- C3, at the text `48 8B ?? 4? ?B ?`. -/
theorem ParsePattern_elements_witness :
    ParsePattern "48 8B ?? 4? ?B ?".toList =
      some [⟨0xFF, 0x48⟩, ⟨0xFF, 0x8B⟩, ⟨0, 0⟩, ⟨0xF0, 0x40⟩, ⟨0x0F, 0x0B⟩, ⟨0, 0⟩] :=
  (ParsePattern_elements "48 8B ?? 4? ?B ?".toList).2.1 (by decide)

/-! ### Pattern subsequences -/

theorem FindPatternInRange_some (A : DumpAnalyzer) (off size : Nat) (pat : List Char)
    (r : Result Unit) :
    A.FindPatternInRange off size pat = some (some r) ↔
      ∃ P i Buffer, ParsePattern pat = some P ∧
        A.Read off (max P.length size) = some Buffer ∧ Buffer ≠ [] ∧
        FindPattern Buffer P = some i ∧
        r = ⟨⟨add64 off i, P.length⟩, none⟩ := by
  unfold DumpAnalyzer.FindPatternInRange
  cases hP : ParsePattern pat with
  | none => simp
  | some P =>
    have hmax : (if P.length > size then P.length else size) = max P.length size := by
      by_cases h : P.length > size
      · simp [h, Nat.max_eq_left (Nat.le_of_lt h)]
      · simp [h, Nat.max_eq_right (Nat.le_of_not_lt h)]
    simp only [hmax]
    constructor
    · intro h
      cases hR : A.Read off (max P.length size) with
      | none => rw [hR] at h; simp at h
      | some Buffer =>
        rw [hR] at h
        simp only at h
        by_cases hB : Buffer = []
        · simp [hB] at h
        · simp only [hB, if_false] at h
          cases hF : FindPattern Buffer P with
          | none => rw [hF] at h; simp at h
          | some i =>
            rw [hF] at h
            simp only [Option.some.injEq] at h
            exact ⟨P, i, Buffer, rfl, hR, hB, hF, h.symm⟩
    · rintro ⟨P2, i2, B2, hP2, hR2, hB, hi2, rfl⟩
      obtain rfl : P = P2 := by simpa using hP2
      rw [hR2]
      simp [hB, hi2]

theorem EarliestChain_length (A : DumpAnalyzer) (Start Size : Nat) (pats : List (List Char))
    (off size : Nat) (ms : List MatchRange) (h : EarliestChain A Start Size pats off size ms) :
    ms.length = pats.length := by
  induction pats generalizing off size ms with
  | nil =>
    cases ms with
    | nil => rfl
    | cons m ms => simp [EarliestChain] at h
  | cons pat pats ih =>
    cases ms with
    | nil => simp [EarliestChain] at h
    | cons m ms =>
      simp only [EarliestChain] at h
      simp [ih _ _ _ h.2]

theorem EarliestChain_head_ge (A : DumpAnalyzer) (Start Size : Nat) (pats : List (List Char))
    (off size : Nat) (m : MatchRange) (ms : List MatchRange)
    (h : EarliestChain A Start Size pats off size (m :: ms)) :
    ∃ i, m.Offset = add64 off i := by
  cases pats with
  | nil => simp [EarliestChain] at h
  | cons pat pats =>
    simp only [EarliestChain] at h
    obtain ⟨⟨P, i, _, _, _, _, _, _, rfl⟩, _⟩ := h
    exact ⟨i, rfl⟩

theorem EarliestChain_steps (A : DumpAnalyzer) (Start Size : Nat) (pats : List (List Char))
    (off size : Nat) (ms : List MatchRange) (h : EarliestChain A Start Size pats off size ms) :
    ∀ (k : Nat) (m n : MatchRange), ms[k]? = some m → ms[k + 1]? = some n →
      ∃ i, n.Offset = (m.Offset + m.Size + i) % U64 ∧
        (m.Offset + m.Size + i < U64 → m.Offset + m.Size ≤ n.Offset) := by
  induction pats generalizing off size ms with
  | nil =>
    cases ms with
    | nil => simp
    | cons m ms => simp [EarliestChain] at h
  | cons pat pats ih =>
    cases ms with
    | nil => simp
    | cons m0 ms =>
      simp only [EarliestChain] at h
      intro k m n hm hn
      cases k with
      | succ k =>
        simp only [List.getElem?_cons_succ] at hm hn
        exact ih _ _ _ h.2 k m n hm hn
      | zero =>
        simp only [List.getElem?_cons_zero, Option.some.injEq] at hm
        subst hm
        simp only [zero_add, List.getElem?_cons_succ] at hn
        cases ms with
        | nil => simp at hn
        | cons m1 ms =>
          simp only [List.getElem?_cons_zero, Option.some.injEq] at hn
          subst hn
          obtain ⟨i, hi⟩ := EarliestChain_head_ge A Start Size pats _ _ m1 ms h.2
          refine ⟨i, ?_, ?_⟩
          · rw [hi]; unfold add64 U64; omega
          · intro hlt
            rw [hi]; unfold add64 U64 at *; omega

theorem Read_length (A : DumpAnalyzer) (off n : Nat) (Buffer : List Nat)
    (hR : A.Read off n = some Buffer) (hB : Buffer ≠ []) :
    Buffer.length = n ∧ n ≤ VectorMaxSize := by
  have hread : ∀ fo, A._Read fo n = some Buffer → Buffer.length = n ∧ n ≤ VectorMaxSize := by
    intro fo h
    unfold DumpAnalyzer._Read at h
    by_cases hn : n > VectorMaxSize
    · simp [hn] at h
    · simp only [hn, if_false, Option.some.injEq] at h
      subst h
      exact ⟨by simp, by omega⟩
  unfold DumpAnalyzer.Read at hR
  cases hm : A.AnalysisMode with
  | Sparse =>
    rw [hm] at hR
    exact hread _ hR
  | Regions =>
    rw [hm] at hR
    simp only at hR
    cases ht : TranslateVirtualOffsetToFileOffset A.InMetadata A.InMemoryRegions off with
    | none =>
      rw [ht] at hR
      simp only [Option.some.injEq] at hR
      exact absurd hR.symm hB
    | some fo =>
      rw [ht] at hR
      exact hread _ hR

theorem EarliestChain_ordered (A : DumpAnalyzer) (Start Size : Nat) (hRange : Start + Size < U64)
    (pats : List (List Char)) (off size : Nat) (ms : List MatchRange)
    (h : EarliestChain A Start Size pats off size ms)
    (h1 : Start ≤ off) (h2 : off ≤ Start + Size) (h3 : size = Start + Size - off) :
    (∀ m, ms.head? = some m → off ≤ m.Offset) ∧
      ∀ (k : Nat) (m n : MatchRange), ms[k]? = some m → ms[k + 1]? = some n →
        m.Offset + m.Size ≤ n.Offset := by
  induction pats generalizing off size ms with
  | nil =>
    cases ms with
    | nil => simp
    | cons m ms => simp [EarliestChain] at h
  | cons pat pats ih =>
    cases ms with
    | nil => simp
    | cons m0 ms =>
      simp only [EarliestChain] at h
      obtain ⟨⟨P, i, Buffer, hP, hR, hB, hocc, hmin, hm0⟩, htail⟩ := h
      obtain ⟨hlen, hmaxsz⟩ := Read_length A _ _ _ hR hB
      have hfit : i + P.length ≤ max P.length size := by
        rw [← hlen]; exact hocc.1
      have hoff : add64 off i = off + i := by
        unfold add64 U64 at *
        rcases Nat.le_total P.length size with hle | hle
        · rw [Nat.max_eq_right hle] at hfit
          omega
        · rw [Nat.max_eq_left hle] at hfit
          omega
      have hm0o : m0.Offset = off + i := by rw [hm0]; exact hoff
      have hm0s : m0.Size = P.length := by rw [hm0]
      constructor
      · intro m hm
        simp only [List.head?_cons, Option.some.injEq] at hm
        subst hm
        omega
      · cases ms with
        | nil =>
          intro k m n hm hn
          simp at hn
        | cons m1 ms =>
          -- the next search exists, so the match ended inside the window
          have hin : off + i + P.length ≤ Start + Size := by
            by_contra hout
            cases pats with
            | nil => simp [EarliestChain] at htail
            | cons pat2 pats =>
              simp only [EarliestChain] at htail
              obtain ⟨⟨P2, i2, B2, _, hR2, hB2, _, _, _⟩, _⟩ := htail
              obtain ⟨_, hsz2⟩ := Read_length A _ _ _ hR2 hB2
              have hsz3 : sub64 Size (sub64 (add64 m0.Offset m0.Size) Start) ≤ VectorMaxSize :=
                le_trans (Nat.le_max_right _ _) hsz2
              rw [hm0o, hm0s] at hsz3
              have hP63 : P.length ≤ VectorMaxSize := le_trans (Nat.le_max_left _ _) hmaxsz
              unfold sub64 add64 U64 VectorMaxSize at *
              rcases Nat.le_total P.length size with hle | hle
              · rw [Nat.max_eq_right hle] at hfit
                omega
              · rw [Nat.max_eq_left hle] at hfit
                omega
          have hnoff : add64 m0.Offset m0.Size = off + i + P.length := by
            rw [hm0o, hm0s]
            unfold add64 U64 at *
            omega
          have hnsize : sub64 Size (sub64 (add64 m0.Offset m0.Size) Start) =
              Start + Size - (off + i + P.length) := by
            rw [hnoff]
            unfold sub64 U64 at *
            omega
          rw [hnsize, hnoff] at htail
          obtain ⟨ihhead, ihsteps⟩ := ih _ _ _ htail (by omega) hin rfl
          intro k m n hm hn
          cases k with
          | zero =>
            simp only [List.getElem?_cons_zero, Option.some.injEq] at hm
            subst hm
            simp only [zero_add, List.getElem?_cons_succ, List.getElem?_cons_zero,
              Option.some.injEq] at hn
            subst hn
            have := ihhead m1 rfl
            omega
          | succ k =>
            rw [List.getElem?_cons_succ] at hm hn
            exact ihsteps k m n hm hn

theorem FindPatternSubsequenceLoop_some (A : DumpAnalyzer) (Start Size Total : Nat)
    (rest : List (List Char)) (idx off size : Nat) (acc : List MatchRange) (outOff : Nat)
    (hidx : idx + rest.length = Total) (out : Result (List MatchRange)) :
    A.FindPatternSubsequenceLoop Start Size Total rest idx off size acc outOff = some (some out) ↔
      ∃ m ms, EarliestChain A Start Size rest off size (m :: ms) ∧
        out = ⟨CoverageFrom (if idx = 0 then m.Offset else outOff) (m :: ms),
          some (acc ++ m :: ms)⟩ := by
  induction rest generalizing idx off size acc outOff with
  | nil => simp [DumpAnalyzer.FindPatternSubsequenceLoop, EarliestChain]
  | cons pat rest ih =>
    simp only [DumpAnalyzer.FindPatternSubsequenceLoop]
    cases hF : A.FindPatternInRange off size pat with
    | none =>
      constructor
      · intro h; cases h
      · rintro ⟨m, ms, hch, _⟩
        simp only [EarliestChain] at hch
        obtain ⟨⟨P, i, Buf, hP, hR, hB, hocc, hmin, _⟩, _⟩ := hch
        have := (FindPatternInRange_some A off size pat ⟨⟨add64 off i, P.length⟩, none⟩).2
          ⟨P, i, Buf, hP, hR, hB, (FindPattern_some_iff _ _ _).2 ⟨hocc, hmin⟩, rfl⟩
        rw [hF] at this
        cases this
    | some r =>
      cases r with
      | none =>
        constructor
        · intro h; cases h
        · rintro ⟨m, ms, hch, _⟩
          simp only [EarliestChain] at hch
          obtain ⟨⟨P, i, Buf, hP, hR, hB, hocc, hmin, _⟩, _⟩ := hch
          have := (FindPatternInRange_some A off size pat ⟨⟨add64 off i, P.length⟩, none⟩).2
            ⟨P, i, Buf, hP, hR, hB, (FindPattern_some_iff _ _ _).2 ⟨hocc, hmin⟩, rfl⟩
          rw [hF] at this
          cases this
      | some r =>
        obtain ⟨P, i, Buf, hP, hR, hB, hi, rfl⟩ := (FindPatternInRange_some A off size pat r).1 hF
        have hoi := (FindPattern_some_iff _ _ _).1 hi
        have hhead : ∀ m2 ms2, EarliestChain A Start Size (pat :: rest) off size (m2 :: ms2) →
            m2 = ⟨add64 off i, P.length⟩ := by
          intro m2 ms2 hch
          simp only [EarliestChain] at hch
          obtain ⟨⟨P2, i2, B2, hP2, hR2, _, hocc2, hmin2, rfl⟩, _⟩ := hch
          rw [hP] at hP2
          obtain rfl : P = P2 := by simpa using hP2
          rw [hR] at hR2
          obtain rfl : Buf = B2 := by simpa using hR2
          have := (FindPattern_some_iff _ _ _).2 ⟨hocc2, hmin2⟩
          rw [hi] at this
          obtain rfl : i = i2 := by simpa using this
          rfl
        have hone : (if idx + 1 = 1 then add64 off i else outOff) =
            (if idx = 0 then add64 off i else outOff) := by
          by_cases h0 : idx = 0 <;> simp [h0]
        simp only [hone]
        by_cases hlast : idx + 1 = Total
        · have hrest : rest = [] := by
            simp only [List.length_cons] at hidx
            exact List.length_eq_zero.1 (by omega)
          subst hrest
          simp only [if_pos hlast, Option.some.injEq]
          constructor
          · rintro rfl
            refine ⟨⟨add64 off i, P.length⟩, [], ?_, ?_⟩
            · simp only [EarliestChain, and_true]
              exact ⟨P, i, Buf, hP, hR, hB, hoi.1, hoi.2, rfl⟩
            · by_cases h0 : idx = 0 <;> simp [h0, CoverageFrom]
          · rintro ⟨m, ms, hch, rfl⟩
            have hm := hhead m ms hch
            subst hm
            have hms : ms = [] := by
              simp only [EarliestChain] at hch
              have := EarliestChain_length _ _ _ _ _ _ _ hch.2
              exact List.length_eq_zero.1 (by simpa using this)
            subst hms
            by_cases h0 : idx = 0 <;> simp [h0, CoverageFrom]
        · simp only [if_neg hlast]
          rw [ih (idx + 1) _ _ _ _ (by simp only [List.length_cons] at hidx; omega)]
          constructor
          · rintro ⟨m, ms, hch, rfl⟩
            refine ⟨⟨add64 off i, P.length⟩, m :: ms, ?_, ?_⟩
            · simp only [EarliestChain]
              exact ⟨⟨P, i, Buf, hP, hR, hB, hoi.1, hoi.2, rfl⟩, hch⟩
            · by_cases h0 : idx = 0 <;>
                simp [h0, CoverageFrom, List.getLast?_cons_cons]
          · rintro ⟨m, ms, hch, rfl⟩
            have hm := hhead m ms hch
            subst hm
            have hch2 := hch
            simp only [EarliestChain] at hch2
            cases ms with
            | nil =>
              have := EarliestChain_length _ _ _ _ _ _ _ hch2.2
              simp only [List.length_cons] at hidx
              simp only [List.length_nil] at this
              omega
            | cons m1 ms =>
              refine ⟨m1, ms, hch2.2, ?_⟩
              by_cases h0 : idx = 0 <;>
                simp [h0, CoverageFrom, List.getLast?_cons_cons]

/-- C7: `FindPatternSubsequence` succeeds exactly when the patterns can be
answered one by one in declared order, each match being the earliest occurrence
of its pattern in the window read at the end of the previous match; the result
then lists exactly one match per pattern and its coverage runs from the start
of the first match to the end of the last one.  Match `k + 1` lies at
`(match[k].offset + match[k].size + i) mod 2^64` for the index `i` found in its
window, and for a search window that fits into 64 bits
(`StartOffset + Size < 2^64`, the invariant of a range) every match starts at
or after the end of the previous one.  If some pattern has no occurrence in
its window no such chain exists and the result is absent. -/
theorem FindPatternSubsequence_chain (A : DumpAnalyzer) (Start Size : Nat)
    (pats : List (List Char)) :
    (∀ out, A.FindPatternSubsequence Start Size pats = some (some out) ↔
      ∃ ms, ms ≠ [] ∧ EarliestChain A Start Size pats Start Size ms ∧
        out = ⟨Coverage ms, some ms⟩) ∧
    (∀ ms, EarliestChain A Start Size pats Start Size ms →
      ms.length = pats.length ∧
      (∀ (k : Nat) (m n : MatchRange), ms[k]? = some m → ms[k + 1]? = some n →
        ∃ i, n.Offset = (m.Offset + m.Size + i) % U64) ∧
      (Start + Size < U64 →
        ∀ (k : Nat) (m n : MatchRange), ms[k]? = some m → ms[k + 1]? = some n →
          m.Offset + m.Size ≤ n.Offset)) := by
  constructor
  · intro out
    unfold DumpAnalyzer.FindPatternSubsequence
    rw [FindPatternSubsequenceLoop_some A Start Size pats.length pats 0 Start Size [] 0
      (by simp) out]
    constructor
    · rintro ⟨m, ms, hch, rfl⟩
      exact ⟨m :: ms, by simp, hch, by simp [Coverage]⟩
    · rintro ⟨ms, hne, hch, rfl⟩
      cases ms with
      | nil => exact absurd rfl hne
      | cons m ms => exact ⟨m, ms, hch, by simp [Coverage]⟩
  · intro ms hch
    refine ⟨EarliestChain_length A Start Size pats _ _ ms hch, ?_, ?_⟩
    · intro k m n hm hn
      obtain ⟨i, hi, _⟩ := EarliestChain_steps A Start Size pats _ _ ms hch k m n hm hn
      exact ⟨i, hi⟩
    · intro hRange
      exact (EarliestChain_ordered A Start Size hRange pats Start Size ms hch (le_refl _)
        (by omega) (by omega)).2

/-! ### Decoding scans -/

theorem DecodeScanLoop_some {α : Type} (D : ZydisDecoder) (Buffer : List Nat)
    (Pick : Nat → ZydisDecodedInstruction → List ZydisDecodedOperand → Option α)
    (fuel off : Nat) (r : α) :
    DecodeScanLoop D Buffer Pick fuel off = some (some r) ↔
      ∃ pre x post, ForwardDecodeLoop D AllOperands Buffer fuel off = pre ++ x :: post ∧
        (∀ y ∈ pre, y.Pick Pick = none) ∧ x.Pick Pick = some r := by
  induction fuel generalizing off with
  | zero => simp [DecodeScanLoop, ForwardDecodeLoop]
  | succ fuel ih =>
    simp only [DecodeScanLoop, ForwardDecodeLoop]
    by_cases hlt : off < Buffer.length
    · simp only [hlt, if_true]
      cases hI : D.DecodeInstruction (Buffer.drop off) with
      | none => simp only; exact ih (off + 1)
      | some I =>
        simp only [AllOperands]
        have hcons : ∀ (xo : Option (List ZydisDecodedOperand)) (hnone :
            (DecodedAt.mk off I xo).Pick Pick = none),
            ((∃ pre x post, ForwardDecodeLoop D AllOperands Buffer fuel (off + I.length) =
                pre ++ x :: post ∧ (∀ y ∈ pre, y.Pick Pick = none) ∧ x.Pick Pick = some r) ↔
              ∃ pre x post, DecodedAt.mk off I xo ::
                  ForwardDecodeLoop D AllOperands Buffer fuel (off + I.length) =
                pre ++ x :: post ∧ (∀ y ∈ pre, y.Pick Pick = none) ∧ x.Pick Pick = some r) := by
          intro xo hnone
          constructor
          · rintro ⟨pre, x, post, hs, hpre, hx⟩
            refine ⟨DecodedAt.mk off I xo :: pre, x, post, by simp [hs], ?_, hx⟩
            intro y hy
            rcases List.mem_cons.1 hy with rfl | hy
            · exact hnone
            · exact hpre y hy
          · rintro ⟨pre, x, post, hs, hpre, hx⟩
            cases pre with
            | nil =>
              simp only [List.nil_append, List.cons.injEq] at hs
              obtain ⟨rfl, _⟩ := hs
              rw [hnone] at hx
              cases hx
            | cons p pre =>
              simp only [List.cons_append, List.cons.injEq] at hs
              exact ⟨pre, x, post, hs.2, fun y hy => hpre y (by simp [hy]), hx⟩
        cases hO : D.DecodeOperands (Buffer.drop off) I I.operand_count with
        | none =>
          simp only
          rw [ih (off + I.length)]
          exact hcons none rfl
        | some ops =>
          simp only
          cases hP : Pick off I ops with
          | none =>
            simp only
            rw [ih (off + I.length)]
            exact hcons (some ops) (by simp [DecodedAt.Pick, hP])
          | some out =>
            simp only [Option.some.injEq]
            constructor
            · rintro rfl
              exact ⟨[], _, _, rfl, by simp, by simp [DecodedAt.Pick, hP]⟩
            · rintro ⟨pre, x, post, hs, hpre, hx⟩
              cases pre with
              | nil =>
                simp only [List.nil_append, List.cons.injEq] at hs
                obtain ⟨rfl, _⟩ := hs
                simp only [DecodedAt.Pick, hP, Option.some.injEq] at hx
                exact hx
              | cons p pre =>
                simp only [List.cons_append, List.cons.injEq] at hs
                obtain ⟨rfl, _⟩ := hs
                have := hpre _ (List.mem_cons_self _ _)
                simp [DecodedAt.Pick, hP] at this
    · simp [hlt]

theorem DecodeScanLoop_terminates {α : Type} (D : ZydisDecoder) (hD : D.LengthsPositive)
    (Buffer : List Nat)
    (Pick : Nat → ZydisDecodedInstruction → List ZydisDecodedOperand → Option α)
    (fuel off : Nat) (hpos : 0 < fuel) (hfuel : Buffer.length + 1 ≤ fuel + off) :
    DecodeScanLoop D Buffer Pick fuel off ≠ none := by
  induction fuel generalizing off with
  | zero => omega
  | succ fuel ih =>
    simp only [DecodeScanLoop]
    by_cases hlt : off < Buffer.length
    · simp only [hlt, if_true]
      cases hI : D.DecodeInstruction (Buffer.drop off) with
      | none =>
        simp only
        exact ih (off + 1) (by omega) (by omega)
      | some I =>
        have hlen := hD _ _ hI
        simp only
        cases hO : D.DecodeOperands (Buffer.drop off) I I.operand_count with
        | none =>
          simp only
          exact ih (off + I.length) (by omega) (by omega)
        | some ops =>
          simp only
          cases hP : Pick off I ops with
          | none =>
            simp only
            exact ih (off + I.length) (by omega) (by omega)
          | some out => simp
    · simp [hlt]

theorem DecodeScan_some {α : Type} (A : DumpAnalyzer) (Start Size : Nat)
    (Pick : Nat → ZydisDecodedInstruction → List ZydisDecodedOperand → Option α) (r : α) :
    A.DecodeScan Start Size Pick = some (some r) ↔
      ∃ Buffer pre x post, A.Read Start Size = some Buffer ∧
        ForwardDecode A.Decoder AllOperands Buffer = pre ++ x :: post ∧
        (∀ y ∈ pre, y.Pick Pick = none) ∧ x.Pick Pick = some r := by
  unfold DumpAnalyzer.DecodeScan ForwardDecode
  cases hR : A.Read Start Size with
  | none => simp
  | some Buffer =>
    simp only [Option.some.injEq, exists_and_left, exists_eq_left']
    by_cases hB : Buffer = []
    · simp [hB, ForwardDecodeLoop]
    · simp only [hB, if_false]
      rw [DecodeScanLoop_some]

theorem DecodeScan_terminates {α : Type} (A : DumpAnalyzer) (hD : A.Decoder.LengthsPositive)
    (Start Size : Nat) (hR : A.Read Start Size ≠ none)
    (Pick : Nat → ZydisDecodedInstruction → List ZydisDecodedOperand → Option α) :
    A.DecodeScan Start Size Pick ≠ none := by
  unfold DumpAnalyzer.DecodeScan
  cases hB0 : A.Read Start Size with
  | none => exact absurd hB0 hR
  | some Buffer =>
    simp only
    by_cases hB : Buffer = []
    · simp [hB]
    · simp only [hB, if_false]
      exact DecodeScanLoop_terminates _ hD _ _ _ _ (by omega) (by omega)

theorem wrap64_toInt64_add (a b : Nat) (d : Int) :
    wrap64 (toInt64 (add64 a b) + d) = wrap64 ((a : Int) + b + d) := by
  unfold wrap64 toInt64 add64 U64
  split <;> (congr 1; omega)

theorem ResolveOperandsLoop_eq (End : Int) (ops : List ZydisDecodedOperand) :
    ResolveOperandsLoop End ops = (ops.findSome? RelativeValue).map fun d => wrap64 (End + d) := by
  induction ops with
  | nil => rfl
  | cons o ops ih =>
    cases o with
    | REGISTER v => simpa [ResolveOperandsLoop, RelativeValue] using ih
    | UNUSED => simpa [ResolveOperandsLoop, RelativeValue] using ih
    | IMMEDIATE sg v sz =>
      by_cases hs : sg = true
      · simp [ResolveOperandsLoop, RelativeValue, hs]
      · simpa [ResolveOperandsLoop, RelativeValue, hs] using ih
    | MEMORY b i sc dv ds =>
      by_cases hc : b = ZydisRegister.RIP ∧ ds > 0
      · simp [ResolveOperandsLoop, RelativeValue, hc]
      · simp only [ResolveOperandsLoop, RelativeValue, hc, if_false, List.findSome?_cons]
        exact ih

theorem DecodeScan_first {α : Type} (A : DumpAnalyzer) (Start Size : Nat)
    (Pick : Nat → ZydisDecodedInstruction → List ZydisDecodedOperand → Option α)
    (Buffer : List Nat) (I : ZydisDecodedInstruction) (ops : List ZydisDecodedOperand) (r : α)
    (hR : A.Read Start Size = some Buffer)
    (hne : Buffer ≠ [])
    (hI : A.Decoder.DecodeInstruction Buffer = some I)
    (hO : A.Decoder.DecodeOperands Buffer I I.operand_count = some ops)
    (hP : Pick 0 I ops = some r) :
    A.DecodeScan Start Size Pick = some (some r) := by
  unfold DumpAnalyzer.DecodeScan
  have hlen : 0 < Buffer.length := List.length_pos.2 hne
  simp only [hR, hne, if_false, DecodeScanLoop, hlen, if_true, List.drop_zero, hI, hO, hP]

theorem ResolvePick_eq (Start : Nat) (Filter : InstructionFilter) (x : DecodedAt) :
    x.Pick (ResolvePick Start Filter) =
      (x.Passing Filter).bind fun ops =>
        (ops.findSome? RelativeValue).map fun d =>
          ⟨⟨add64 Start x.Offset, x.Instruction.length⟩,
            some (wrap64 ((add64 Start x.Offset : Nat) + (x.Instruction.length : Nat) + d))⟩ := by
  unfold DecodedAt.Pick DecodedAt.Passing ResolvePick
  cases x.Operands with
  | none => rfl
  | some ops =>
    simp only
    by_cases hf : FilteredOut Filter x.Instruction ops = true
    · simp [hf]
    · simp only [hf, if_false, Bool.false_eq_true, Option.some_bind, ResolveOperandsLoop_eq,
        wrap64_toInt64_add]
      cases (OperandArray ops x.Instruction.operand_count).findSome? RelativeValue <;> rfl

/-- C4: `ResolveRipRelativeOffset` returns exactly for the first instruction of
the forward decode of the window that passes the filter and has a memory
operand with base RIP and non-zero displacement size or a signed immediate
operand; the result is the range `{instr_start, instr_length}` and the value
`(instr_start + instr_length + d) mod 2^64` for the signed displacement or
immediate `d` of the first such operand.  The scan always returns when the
window can be read and decoded instructions are at least one byte long.  When
the window at `0x2000` begins with `48 8B 05 44 33 22 11`, decoded as a 7-byte
instruction whose operands are `rax` and `[rip+0x11223344]`, the value is
`0x2007 + 0x11223344`. -/
theorem ResolveRipRelativeOffset_first (A : DumpAnalyzer) (Start Size : Nat)
    (Filter : InstructionFilter) :
    (∀ r, A.ResolveRipRelativeOffset Start Size Filter = some (some r) ↔
      ∃ Buffer pre x post ops d,
        A.Read Start Size = some Buffer ∧
        ForwardDecode A.Decoder AllOperands Buffer = pre ++ x :: post ∧
        (∀ y ∈ pre, ∀ yops, y.Passing Filter = some yops →
          ∀ o ∈ yops, RelativeValue o = none) ∧
        x.Passing Filter = some ops ∧
        ops.findSome? RelativeValue = some d ∧
        r = ⟨⟨add64 Start x.Offset, x.Instruction.length⟩,
          some (wrap64 ((add64 Start x.Offset : Nat) + (x.Instruction.length : Nat) + d))⟩) ∧
    (A.Decoder.LengthsPositive → A.Read Start Size ≠ none →
      A.ResolveRipRelativeOffset Start Size Filter ≠ none) ∧
    (∀ (rest : List Nat) (I : ZydisDecodedInstruction) (ops : List ZydisDecodedOperand),
      Start = 0x2000 →
      A.Read Start Size = some ([0x48, 0x8B, 0x05, 0x44, 0x33, 0x22, 0x11] ++ rest) →
      A.Decoder.DecodeInstruction ([0x48, 0x8B, 0x05, 0x44, 0x33, 0x22, 0x11] ++ rest) =
        some I →
      I.length = 7 →
      A.Decoder.DecodeOperands ([0x48, 0x8B, 0x05, 0x44, 0x33, 0x22, 0x11] ++ rest) I
        I.operand_count = some ops →
      OperandArray ops I.operand_count =
        [ZydisDecodedOperand.REGISTER ZydisRegister.RAX,
          ZydisDecodedOperand.MEMORY ZydisRegister.RIP ZydisRegister.NONE 0 0x11223344 32] →
      FilteredOut Filter I ops = false →
      A.ResolveRipRelativeOffset Start Size Filter =
        some (some ⟨⟨0x2000, 7⟩, some (0x2007 + 0x11223344)⟩)) := by
  refine ⟨fun r => ?_, fun hD hR => DecodeScan_terminates A hD _ _ hR _, ?_⟩
  · unfold DumpAnalyzer.ResolveRipRelativeOffset
    rw [DecodeScan_some]
    constructor
    · rintro ⟨Buffer, pre, x, post, hR, hs, hpre, hx⟩
      rw [ResolvePick_eq] at hx
      cases hp : x.Passing Filter with
      | none => simp [hp] at hx
      | some ops =>
        rw [hp, Option.some_bind] at hx
        cases hd : ops.findSome? RelativeValue with
        | none => rw [hd] at hx; cases hx
        | some d =>
          rw [hd, Option.map_some'] at hx
          refine ⟨Buffer, pre, x, post, ops, d, hR, hs, ?_, hp, hd, (Option.some.inj hx).symm⟩
          intro y hy yops hyo
          have := hpre y hy
          rw [ResolvePick_eq, hyo, Option.some_bind] at this
          exact List.findSome?_eq_none_iff.1 (Option.map_eq_none'.1 this)
    · rintro ⟨Buffer, pre, x, post, ops, d, hR, hs, hpre, hx, hd, rfl⟩
      refine ⟨Buffer, pre, x, post, hR, hs, ?_, ?_⟩
      · intro y hy
        rw [ResolvePick_eq]
        cases hyo : y.Passing Filter with
        | none => rfl
        | some yops =>
          rw [Option.some_bind]
          exact Option.map_eq_none'.2 (List.findSome?_eq_none_iff.2 (hpre y hy yops hyo))
      · rw [ResolvePick_eq, hx, Option.some_bind, hd, Option.map_some']
  · intro rest I ops hS hB hI hlen hO hA hF
    unfold DumpAnalyzer.ResolveRipRelativeOffset
    apply DecodeScan_first A Start Size _ _ I ops _ hB (by simp) hI hO
    unfold ResolvePick
    rw [hF, hA, hlen, hS]
    decide

/-- C4, at a regions dump whose only region starts at `0x2000` and holds the
seven bytes of `mov rax, [rip+0x11223344]`. -/
theorem ResolveRipRelativeOffset_first_witness :
    (ScenarioRegionAnalyzer 0x2000 [0x48, 0x8B, 0x05, 0x44, 0x33, 0x22, 0x11]).ResolveRipRelativeOffset
        0x2000 7 none =
      some (some ⟨⟨0x2000, 7⟩, some (0x2007 + 0x11223344)⟩) :=
  (ResolveRipRelativeOffset_first
      (ScenarioRegionAnalyzer 0x2000 [0x48, 0x8B, 0x05, 0x44, 0x33, 0x22, 0x11]) 0x2000 7
      none).2.2 [] ⟨ZydisMnemonic.MOV, 7, 2, 2, 64⟩
    [ZydisDecodedOperand.REGISTER ZydisRegister.RAX,
      ZydisDecodedOperand.MEMORY ZydisRegister.RIP ZydisRegister.NONE 0 0x11223344 32]
    rfl (by decide) (by decide) rfl (by decide) (by decide) rfl

/-- C5 (code defect): for target offset 0 `FindRipRelativeReference` returns
the instruction `mov rax, rbx`, whose operands are two registers: the forward
decode of the window holds this one instruction, none of its operands is a
RIP-relative memory operand or a signed immediate, yet each leaves
`ResolvedOffset` at its initial 0, which equals the target. -/
theorem FindRipRelativeReference_target_zero :
    (ScenarioAnalyzer [0x48, 0x89, 0xD8]).FindRipRelativeReference 0 3 0 none =
        some (some ⟨⟨0, 3⟩, some 0⟩) ∧
      ((ScenarioAnalyzer [0x48, 0x89, 0xD8]).Read 0 3).map
        (fun Buffer => (ForwardDecode ScenarioDecoder AllOperands Buffer).map
          (fun x => (x.Offset, (x.Passing none).map fun ops => ops.map RelativeValue))) =
        some [(0, some [none, none])] := by
  constructor
  · decide
  · decide

theorem DisplacementOperandsLoop_eq (ops : List ZydisDecodedOperand) :
    DisplacementOperandsLoop ops =
      (ops.findSome? DisplacementValue).map fun d => (d % (2 ^ 32 : Int)).toNat := by
  induction ops with
  | nil => rfl
  | cons o ops ih =>
    cases o with
    | REGISTER v => simpa [DisplacementOperandsLoop, DisplacementValue] using ih
    | UNUSED => simpa [DisplacementOperandsLoop, DisplacementValue] using ih
    | IMMEDIATE sg v sz => simpa [DisplacementOperandsLoop, DisplacementValue] using ih
    | MEMORY b i sc dv ds =>
      by_cases hc : ds > 0
      · simp [DisplacementOperandsLoop, DisplacementValue, hc]
      · simp only [DisplacementOperandsLoop, DisplacementValue, hc, if_false,
          List.findSome?_cons]
        exact ih

theorem DisplacementPick_eq (Start : Nat) (x : DecodedAt) :
    x.Pick (DisplacementPick Start) =
      (x.Passing none).bind fun ops =>
        (ops.findSome? DisplacementValue).map fun d =>
          ⟨⟨add64 Start x.Offset, x.Instruction.length⟩, some (d % (2 ^ 32 : Int)).toNat⟩ := by
  unfold DecodedAt.Pick DecodedAt.Passing DisplacementPick
  cases x.Operands with
  | none => rfl
  | some ops =>
    simp only [FilteredOut, Bool.false_eq_true, if_false, Option.some_bind,
      DisplacementOperandsLoop_eq]
    cases (OperandArray ops x.Instruction.operand_count).findSome? DisplacementValue <;> rfl

/-- C6: `ExtractDisplacement` returns exactly for the first instruction of the
forward decode of the window that has a memory operand with non-zero
displacement size; the result is the range `{instr_start, instr_length}` and
the low 32 bits of the displacement of the first such operand.  The scan always
returns when the window can be read and decoded instructions are at least one
byte long.  When the window begins with `48 8B 05 44 33 22 11`, decoded as an
instruction whose operands are `rax` and `[rip+0x11223344]`, the value is
`0x11223344`. -/
theorem ExtractDisplacement_first (A : DumpAnalyzer) (Start Size : Nat) :
    (∀ r, A.ExtractDisplacement Start Size = some (some r) ↔
      ∃ Buffer pre x post ops d,
        A.Read Start Size = some Buffer ∧
        ForwardDecode A.Decoder AllOperands Buffer = pre ++ x :: post ∧
        (∀ y ∈ pre, ∀ yops, y.Passing none = some yops →
          ∀ o ∈ yops, DisplacementValue o = none) ∧
        x.Passing none = some ops ∧
        ops.findSome? DisplacementValue = some d ∧
        r = ⟨⟨add64 Start x.Offset, x.Instruction.length⟩, some (d % (2 ^ 32 : Int)).toNat⟩) ∧
    (A.Decoder.LengthsPositive → A.Read Start Size ≠ none →
      A.ExtractDisplacement Start Size ≠ none) ∧
    (∀ (rest : List Nat) (I : ZydisDecodedInstruction) (ops : List ZydisDecodedOperand),
      A.Read Start Size = some ([0x48, 0x8B, 0x05, 0x44, 0x33, 0x22, 0x11] ++ rest) →
      A.Decoder.DecodeInstruction ([0x48, 0x8B, 0x05, 0x44, 0x33, 0x22, 0x11] ++ rest) =
        some I →
      A.Decoder.DecodeOperands ([0x48, 0x8B, 0x05, 0x44, 0x33, 0x22, 0x11] ++ rest) I
        I.operand_count = some ops →
      OperandArray ops I.operand_count =
        [ZydisDecodedOperand.REGISTER ZydisRegister.RAX,
          ZydisDecodedOperand.MEMORY ZydisRegister.RIP ZydisRegister.NONE 0 0x11223344 32] →
      A.ExtractDisplacement Start Size =
        some (some ⟨⟨add64 Start 0, I.length⟩, some 0x11223344⟩)) := by
  refine ⟨fun r => ?_, fun hD hR => DecodeScan_terminates A hD _ _ hR _, ?_⟩
  · unfold DumpAnalyzer.ExtractDisplacement
    rw [DecodeScan_some]
    constructor
    · rintro ⟨Buffer, pre, x, post, hR, hs, hpre, hx⟩
      rw [DisplacementPick_eq] at hx
      cases hp : x.Passing none with
      | none => simp [hp] at hx
      | some ops =>
        rw [hp, Option.some_bind] at hx
        cases hd : ops.findSome? DisplacementValue with
        | none => rw [hd] at hx; cases hx
        | some d =>
          rw [hd, Option.map_some'] at hx
          refine ⟨Buffer, pre, x, post, ops, d, hR, hs, ?_, hp, hd, (Option.some.inj hx).symm⟩
          intro y hy yops hyo
          have := hpre y hy
          rw [DisplacementPick_eq, hyo, Option.some_bind] at this
          exact List.findSome?_eq_none_iff.1 (Option.map_eq_none'.1 this)
    · rintro ⟨Buffer, pre, x, post, ops, d, hR, hs, hpre, hx, hd, rfl⟩
      refine ⟨Buffer, pre, x, post, hR, hs, ?_, ?_⟩
      · intro y hy
        rw [DisplacementPick_eq]
        cases hyo : y.Passing none with
        | none => rfl
        | some yops =>
          rw [Option.some_bind]
          exact Option.map_eq_none'.2 (List.findSome?_eq_none_iff.2 (hpre y hy yops hyo))
      · rw [DisplacementPick_eq, hx, Option.some_bind, hd, Option.map_some']
  · intro rest I ops hB hI hO hA
    unfold DumpAnalyzer.ExtractDisplacement
    apply DecodeScan_first A Start Size _ _ I ops _ hB (by simp) hI hO
    have hv : DisplacementOperandsLoop
        [ZydisDecodedOperand.REGISTER ZydisRegister.RAX,
          ZydisDecodedOperand.MEMORY ZydisRegister.RIP ZydisRegister.NONE 0 0x11223344 32] =
        some 0x11223344 := by decide
    unfold DisplacementPick
    rw [hA, hv]

/-- C6, at the seven bytes of `mov rax, [rip+0x11223344]` placed at region
offset 0. -/
theorem ExtractDisplacement_first_witness :
    (ScenarioAnalyzer [0x48, 0x8B, 0x05, 0x44, 0x33, 0x22, 0x11]).ExtractDisplacement 0 7 =
      some (some ⟨⟨0, 7⟩, some 0x11223344⟩) :=
  (ExtractDisplacement_first
      (ScenarioAnalyzer [0x48, 0x8B, 0x05, 0x44, 0x33, 0x22, 0x11]) 0 7).2.2 []
    ⟨ZydisMnemonic.MOV, 7, 2, 2, 64⟩
    [ZydisDecodedOperand.REGISTER ZydisRegister.RAX,
      ZydisDecodedOperand.MEMORY ZydisRegister.RIP ZydisRegister.NONE 0 0x11223344 32]
    (by decide) (by decide) (by decide) (by decide)

/-! ### Instruction matchers -/

theorem ForwardDecodeLoop_fail (D : ZydisDecoder) (R : ZydisDecodedInstruction → Nat)
    (Buffer : List Nat) (fuel off : Nat) (hlt : off < Buffer.length)
    (hI : D.DecodeInstruction (Buffer.drop off) = none) :
    ForwardDecodeLoop D R Buffer (fuel + 1) off = ForwardDecodeLoop D R Buffer fuel (off + 1) := by
  simp [ForwardDecodeLoop, hlt, hI]

theorem ForwardDecodeLoop_ok (D : ZydisDecoder) (R : ZydisDecodedInstruction → Nat)
    (Buffer : List Nat) (fuel off : Nat) (hlt : off < Buffer.length)
    (I : ZydisDecodedInstruction) (hI : D.DecodeInstruction (Buffer.drop off) = some I) :
    ForwardDecodeLoop D R Buffer (fuel + 1) off =
      ⟨off, I, D.DecodeOperands (Buffer.drop off) I (R I)⟩ ::
        ForwardDecodeLoop D R Buffer fuel (off + I.length) := by
  simp [ForwardDecodeLoop, hlt, hI]

theorem take_succ_of_getElem? {α : Type} (l : List α) (n : Nat) (a : α) (h : l[n]? = some a) :
    l.take (n + 1) = l.take n ++ [a] := by
  rw [List.take_succ, h]
  rfl

theorem Coverage_append_singleton (Start : Nat) (xs : List DecodedAt) (x : DecodedAt)
    (OutOff : Nat) (hOut : ∀ f, xs.head? = some f → OutOff = add64 Start f.Offset) :
    (⟨if xs.length + 1 = 1 then add64 Start x.Offset else OutOff,
        sub64 (add64 (add64 Start x.Offset) x.Instruction.length)
          (if xs.length + 1 = 1 then add64 Start x.Offset else OutOff)⟩ : MatchRange) =
      Coverage ((xs ++ [x]).map (DecodedAt.Range Start)) := by
  cases xs with
  | nil => simp [Coverage, CoverageFrom, DecodedAt.Range]
  | cons f xs =>
    have := hOut f rfl
    subst this
    have hl : (((f :: xs) ++ [x]).map (DecodedAt.Range Start)).getLast? =
        some (DecodedAt.Range Start x) := by
      rw [List.map_append]
      exact List.getLast?_concat _
    have hh : (((f :: xs) ++ [x]).map (DecodedAt.Range Start)).head? =
        some (DecodedAt.Range Start f) := rfl
    simp only [Coverage, CoverageFrom, hl, hh]
    simp [DecodedAt.Range]

theorem FindInstructionSequenceLoop_some (D : ZydisDecoder) (Start : Nat) (Buffer : List Nat)
    (Pattern : List MatchInstruction) (fuel Offset PatternIndex : Nat)
    (MatchOffsets : List MatchRange) (OutOff : Nat) (xs : List DecodedAt)
    (out : Result (List MatchRange))
    (hlen : xs.length = PatternIndex)
    (hMO : MatchOffsets = xs.map (DecodedAt.Range Start))
    (hM : MatchesInOrder SequenceOperandStep xs (Pattern.take PatternIndex))
    (hC : Contiguous xs)
    (hLast : ∀ l, xs.getLast? = some l → l.Offset + l.Instruction.length = Offset)
    (hOut : ∀ f, xs.head? = some f → OutOff = add64 Start f.Offset)
    (h : FindInstructionSequenceLoop D Start Buffer Pattern fuel Offset PatternIndex MatchOffsets
      OutOff = some (some out)) :
    ∃ XS pre post,
      xs ++ ForwardDecodeLoop D VisibleOperands Buffer fuel Offset = pre ++ XS ++ post ∧
      MatchesInOrder SequenceOperandStep XS Pattern ∧ Contiguous XS ∧
      out = ⟨Coverage (XS.map (DecodedAt.Range Start)), some (XS.map (DecodedAt.Range Start))⟩ := by
  induction fuel generalizing Offset PatternIndex MatchOffsets OutOff xs with
  | zero => simp [FindInstructionSequenceLoop] at h
  | succ fuel ih =>
    have hreset : ∀ (off2 : Nat) (T2 : List DecodedAt) (mid : List DecodedAt),
        ForwardDecodeLoop D VisibleOperands Buffer (fuel + 1) Offset =
          mid ++ ForwardDecodeLoop D VisibleOperands Buffer fuel off2 →
        FindInstructionSequenceLoop D Start Buffer Pattern fuel off2 0 [] OutOff =
          some (some out) →
        ∃ XS pre post,
          xs ++ ForwardDecodeLoop D VisibleOperands Buffer (fuel + 1) Offset = pre ++ XS ++ post ∧
          MatchesInOrder SequenceOperandStep XS Pattern ∧ Contiguous XS ∧
          out = ⟨Coverage (XS.map (DecodedAt.Range Start)),
            some (XS.map (DecodedAt.Range Start))⟩ := by
      intro off2 _ mid hT h2
      obtain ⟨XS, pre, post, hs, h3, h4, h5⟩ :=
        ih off2 0 [] OutOff [] rfl rfl (by simp [MatchesInOrder]) (by simp [Contiguous])
          (by simp) (by simp) h2
      refine ⟨XS, xs ++ mid ++ pre, post, ?_, h3, h4, h5⟩
      rw [hT]
      simp only [List.nil_append] at hs
      rw [hs]
      simp [List.append_assoc]
    simp only [FindInstructionSequenceLoop] at h
    by_cases hlt : Offset < Buffer.length
    · simp only [hlt, if_true] at h
      cases hI : D.DecodeInstruction (Buffer.drop Offset) with
      | none =>
        rw [hI] at h
        exact hreset (Offset + 1) [] [] (by rw [ForwardDecodeLoop_fail _ _ _ _ _ hlt hI]; rfl) h
      | some I =>
        rw [hI] at h
        simp only at h
        have hT := ForwardDecodeLoop_ok D VisibleOperands Buffer fuel Offset hlt I hI
        cases hO : D.DecodeOperands (Buffer.drop Offset) I I.operand_count_visible with
        | none =>
          rw [hO] at h
          exact hreset (Offset + I.length) [] [_] (by rw [hT]; rfl) h
        | some ops =>
          rw [hO] at h
          simp only at h
          cases hP : Pattern[PatternIndex]? with
          | none => rw [hP] at h; simp at h
          | some MI =>
            rw [hP] at h
            simp only at h
            by_cases hm : InstructionMatches SequenceOperandStep I ops MI = true
            · simp only [hm, if_true] at h
              have hx : (DecodedAt.mk Offset I (some ops)).Matches SequenceOperandStep MI = true := by
                simpa [DecodedAt.Matches] using hm
              have hM2 : MatchesInOrder SequenceOperandStep (xs ++ [DecodedAt.mk Offset I (some ops)])
                  (Pattern.take (PatternIndex + 1)) := by
                rw [take_succ_of_getElem? _ _ _ hP]
                exact List.rel_append hM (List.Forall₂.cons hx List.Forall₂.nil)
              have hC2 : Contiguous (xs ++ [DecodedAt.mk Offset I (some ops)]) := by
                unfold Contiguous at *
                rw [List.chain'_append]
                refine ⟨hC, by simp, ?_⟩
                intro l hl y hy
                simp only [List.head?_cons, Option.mem_def, Option.some.injEq] at hy
                subst hy
                exact (hLast l hl).symm
              have hVis : VisibleOperands I = I.operand_count_visible := rfl
              by_cases hfin : PatternIndex + 1 = Pattern.length
              · simp only [hfin, if_true, Option.some.injEq] at h
                refine ⟨xs ++ [DecodedAt.mk Offset I (some ops)], [], 
                  ForwardDecodeLoop D VisibleOperands Buffer fuel (Offset + I.length), ?_, ?_, hC2, ?_⟩
                · rw [hT, hVis, hO]; simp
                · have : Pattern.take (PatternIndex + 1) = Pattern := by
                    rw [hfin]; exact List.take_length _
                  rw [this] at hM2
                  exact hM2
                · rw [← h, hMO]
                  have hcov := Coverage_append_singleton Start xs (DecodedAt.mk Offset I (some ops))
                    OutOff hOut
                  simp only at hcov
                  rw [← hcov, hlen, hfin]
                  simp [DecodedAt.Range]
              · simp only [hfin, if_false] at h
                obtain ⟨XS, pre, post, hs, h3, h4, h5⟩ :=
                  ih (Offset + I.length) (PatternIndex + 1) _ _
                    (xs ++ [DecodedAt.mk Offset I (some ops)]) (by simp [hlen])
                    (by simp [hMO, DecodedAt.Range]) hM2 hC2
                    (by intro l hl; simp at hl; subst hl; rfl)
                    (by
                      intro f hf
                      cases xs with
                      | nil =>
                        simp at hf; subst hf
                        simp at hlen; subst hlen
                        simp
                      | cons g xs =>
                        simp at hf; subst hf
                        have hne : PatternIndex + 1 ≠ 1 := by
                          simp at hlen; omega
                        simp only [hne, if_false]
                        exact hOut _ rfl) h
                refine ⟨XS, pre, post, ?_, h3, h4, h5⟩
                rw [hT, hVis, hO, ← hs]
                simp
            · simp only [hm, if_false] at h
              exact hreset (Offset + I.length) [] [_] (by rw [hT]; rfl) h
    · simp [hlt] at h

theorem Contiguous_ranges (Start : Nat) (XS : List DecodedAt) (hC : Contiguous XS) :
    ∀ (k : Nat) (m n : MatchRange), (XS.map (DecodedAt.Range Start))[k]? = some m →
      (XS.map (DecodedAt.Range Start))[k + 1]? = some n → n.Offset = add64 m.Offset m.Size := by
  induction XS with
  | nil => simp
  | cons a XS ih =>
    intro k m n hm hn
    cases XS with
    | nil => simp at hn
    | cons b XS =>
      have hC2 : Contiguous (b :: XS) := by
        unfold Contiguous at *
        exact (List.chain'_cons.1 hC).2
      cases k with
      | succ k =>
        simp only [List.map_cons, List.getElem?_cons_succ] at hm hn
        exact ih hC2 k m n (by simpa using hm) (by simpa using hn)
      | zero =>
        simp only [List.map_cons, List.getElem?_cons_zero, Option.some.injEq, zero_add,
          List.getElem?_cons_succ] at hm hn
        subst hm
        subst hn
        have hab : b.Offset = a.Offset + a.Instruction.length := by
          unfold Contiguous at hC
          exact (List.chain'_cons.1 hC).1
        simp only [DecodedAt.Range, hab]
        unfold add64 U64
        omega

theorem ForwardDecodeLoop_lt (D : ZydisDecoder) (R : ZydisDecodedInstruction → Nat)
    (Buffer : List Nat) (fuel off : Nat) :
    ∀ y ∈ ForwardDecodeLoop D R Buffer fuel off, y.Offset < Buffer.length := by
  induction fuel generalizing off with
  | zero => simp [ForwardDecodeLoop]
  | succ fuel ih =>
    intro y hy
    by_cases hlt : off < Buffer.length
    · cases hI : D.DecodeInstruction (Buffer.drop off) with
      | none =>
        rw [ForwardDecodeLoop_fail _ _ _ _ _ hlt hI] at hy
        exact ih (off + 1) y hy
      | some I =>
        rw [ForwardDecodeLoop_ok _ _ _ _ _ hlt I hI] at hy
        rcases List.mem_cons.1 hy with rfl | hy
        · exact hlt
        · exact ih (off + I.length) y hy
    · simp [ForwardDecodeLoop, hlt] at hy

theorem Contiguous_ranges_exact (Start : Nat) (XS : List DecodedAt) (hC : Contiguous XS)
    (hfit : ∀ y ∈ XS, Start + y.Offset < U64) :
    ∀ (k : Nat) (m n : MatchRange), (XS.map (DecodedAt.Range Start))[k]? = some m →
      (XS.map (DecodedAt.Range Start))[k + 1]? = some n → n.Offset = m.Offset + m.Size := by
  induction XS with
  | nil => simp
  | cons a XS ih =>
    intro k m n hm hn
    cases XS with
    | nil => simp at hn
    | cons b XS =>
      have hC2 : Contiguous (b :: XS) := by
        unfold Contiguous at *
        exact (List.chain'_cons.1 hC).2
      cases k with
      | succ k =>
        simp only [List.map_cons, List.getElem?_cons_succ] at hm hn
        exact ih hC2 (fun y hy => hfit y (by simp [hy])) k m n (by simpa using hm)
          (by simpa using hn)
      | zero =>
        simp only [List.map_cons, List.getElem?_cons_zero, Option.some.injEq, zero_add,
          List.getElem?_cons_succ] at hm hn
        subst hm
        subst hn
        have hab : b.Offset = a.Offset + a.Instruction.length := by
          unfold Contiguous at hC
          exact (List.chain'_cons.1 hC).1
        have hb := hfit b (by simp)
        simp only [DecodedAt.Range, hab]
        unfold add64 U64 at *
        omega

/-- C9: whenever `FindInstructionSequence` succeeds, the matched instructions
are consecutive entries of the forward decode of the window that match the
templates one by one, in order, and follow each other without a gap; the
result lists exactly one range per template with
`match[k+1].offset = match[k].offset + match[k].size` (in 64-bit arithmetic,
and exactly so when `StartOffset + Size < 2^64`), and the coverage runs from
the start of the first matched instruction to the end of the last one. -/
theorem FindInstructionSequence_contiguous (A : DumpAnalyzer) (Start Size : Nat)
    (Pattern : List MatchInstruction) (out : Result (List MatchRange))
    (h : A.FindInstructionSequence Start Size Pattern = some (some out)) :
    SequenceOutcome A Start Size Pattern out := by
  unfold DumpAnalyzer.FindInstructionSequence at h
  by_cases hP : Pattern = []
  · simp [hP] at h
  · simp only [hP, if_false] at h
    cases hR : A.Read Start Size with
    | none => rw [hR] at h; simp at h
    | some Buffer =>
      rw [hR] at h
      simp only at h
      by_cases hB : Buffer = []
      · simp [hB] at h
      · simp only [hB, if_false] at h
        obtain ⟨XS, pre, post, hs, hM, hC, hout⟩ :=
          FindInstructionSequenceLoop_some A.Decoder Start Buffer Pattern _ 0 0 [] 0 []
            out rfl rfl (by simp [MatchesInOrder]) (by simp [Contiguous]) (by simp) (by simp) h
        have hs2 : ForwardDecode A.Decoder VisibleOperands Buffer = pre ++ XS ++ post := by
          simpa [ForwardDecode] using hs
        refine ⟨Buffer, XS, pre, post, hR, hs2, hM, hC, ?_, ?_,
          Contiguous_ranges Start XS hC, ?_, ?_⟩
        · rw [hout]
        · rw [List.length_map]
          exact List.Forall₂.length_eq hM
        · intro hRange
          apply Contiguous_ranges_exact Start XS hC
          intro y hy
          have hmem : y ∈ ForwardDecode A.Decoder VisibleOperands Buffer := by
            rw [hs2]; simp [hy]
          have hlt := ForwardDecodeLoop_lt _ _ _ _ _ y hmem
          have hlen := (Read_length A _ _ _ hR hB).1
          omega
        · rw [hout]

/-- C9, at the window `nop; mov rax, rbx; ret` and the templates `mov ?, rbx`
and "any instruction without operands". -/
theorem FindInstructionSequence_contiguous_witness :
    (ScenarioAnalyzer [0x90, 0x48, 0x89, 0xD8, 0xC3]).FindInstructionSequence 0 5
        ExampleSequencePattern = some (some ⟨⟨1, 4⟩, some [⟨1, 3⟩, ⟨4, 1⟩]⟩) ∧
      SequenceOutcome (ScenarioAnalyzer [0x90, 0x48, 0x89, 0xD8, 0xC3]) 0 5
        ExampleSequencePattern ⟨⟨1, 4⟩, some [⟨1, 3⟩, ⟨4, 1⟩]⟩ :=
  ⟨by decide,
    FindInstructionSequence_contiguous (ScenarioAnalyzer [0x90, 0x48, 0x89, 0xD8, 0xC3]) 0 5
      ExampleSequencePattern ⟨⟨1, 4⟩, some [⟨1, 3⟩, ⟨4, 1⟩]⟩ (by decide)⟩

/-! ### Instruction subsequences -/

theorem ForwardDecodeLoop_ge (D : ZydisDecoder) (R : ZydisDecodedInstruction → Nat)
    (Buffer : List Nat) (fuel off : Nat) :
    ∀ y ∈ ForwardDecodeLoop D R Buffer fuel off, off ≤ y.Offset := by
  induction fuel generalizing off with
  | zero => simp [ForwardDecodeLoop]
  | succ fuel ih =>
    intro y hy
    by_cases hlt : off < Buffer.length
    · cases hI : D.DecodeInstruction (Buffer.drop off) with
      | none =>
        rw [ForwardDecodeLoop_fail _ _ _ _ _ hlt hI] at hy
        have := ih (off + 1) y hy
        omega
      | some I =>
        rw [ForwardDecodeLoop_ok _ _ _ _ _ hlt I hI] at hy
        rcases List.mem_cons.1 hy with rfl | hy
        · exact le_refl _
        · have := ih (off + I.length) y hy
          omega
    · simp [ForwardDecodeLoop, hlt] at hy

theorem ForwardDecodeLoop_pairwise (D : ZydisDecoder) (R : ZydisDecodedInstruction → Nat)
    (Buffer : List Nat) (fuel off : Nat) :
    List.Pairwise (fun a b => a.Offset + a.Instruction.length ≤ b.Offset)
      (ForwardDecodeLoop D R Buffer fuel off) := by
  induction fuel generalizing off with
  | zero => simp [ForwardDecodeLoop]
  | succ fuel ih =>
    by_cases hlt : off < Buffer.length
    · cases hI : D.DecodeInstruction (Buffer.drop off) with
      | none =>
        rw [ForwardDecodeLoop_fail _ _ _ _ _ hlt hI]
        exact ih (off + 1)
      | some I =>
        rw [ForwardDecodeLoop_ok _ _ _ _ _ hlt I hI]
        refine List.pairwise_cons.2 ⟨fun y hy => ?_, ih (off + I.length)⟩
        exact ForwardDecodeLoop_ge D R Buffer fuel (off + I.length) y hy
    · simp [ForwardDecodeLoop, hlt]

theorem GreedyMatch_sound (Step : ZydisDecodedOperand → Option MatchOperand → OperandStep)
    (S : List DecodedAt) (P : List MatchInstruction) (g : List DecodedAt)
    (h : GreedyMatch Step S P = some g) : List.Sublist g S ∧ MatchesInOrder Step g P := by
  induction S generalizing P g with
  | nil =>
    cases P with
    | nil =>
      simp only [GreedyMatch, Option.some.injEq] at h
      subst h
      exact ⟨List.Sublist.refl _, List.Forall₂.nil⟩
    | cons t ts => simp [GreedyMatch] at h
  | cons x S ih =>
    cases P with
    | nil =>
      simp only [GreedyMatch, Option.some.injEq] at h
      subst h
      exact ⟨List.nil_sublist _, List.Forall₂.nil⟩
    | cons t ts =>
      simp only [GreedyMatch] at h
      by_cases hm : x.Matches Step t = true
      · simp only [hm, if_true] at h
        cases hg : GreedyMatch Step S ts with
        | none => simp [hg] at h
        | some g2 =>
          simp only [hg, Option.map_some', Option.some.injEq] at h
          subst h
          obtain ⟨h1, h2⟩ := ih ts g2 hg
          exact ⟨List.cons_sublist_cons.2 h1, List.Forall₂.cons hm h2⟩
      · simp only [hm, if_false] at h
        obtain ⟨h1, h2⟩ := ih (t :: ts) g h
        exact ⟨h1.trans (List.sublist_cons_self _ _), h2⟩

theorem GreedyMatch_earliest (Step : ZydisDecodedOperand → Option MatchOperand → OperandStep)
    (S : List DecodedAt) (P : List MatchInstruction) (asg : List DecodedAt)
    (hasg : List.Sublist asg S) (hM : MatchesInOrder Step asg P)
    (hS : List.Pairwise (fun a b => a.Offset + a.Instruction.length ≤ b.Offset) S) :
    ∃ g, GreedyMatch Step S P = some g ∧ List.Forall₂ NotAfter g asg := by
  induction S generalizing P asg with
  | nil =>
    have : asg = [] := List.sublist_nil.1 hasg
    subst this
    cases hM
    exact ⟨[], rfl, List.Forall₂.nil⟩
  | cons x S ih =>
    cases P with
    | nil =>
      have : asg = [] := by
        cases hM
        rfl
      subst this
      exact ⟨[], rfl, List.Forall₂.nil⟩
    | cons t ts =>
      cases asg with
      | nil => cases hM
      | cons s0 asg2 =>
        have hs0 : s0.Matches Step t = true := by
          cases hM with
          | cons h1 _ => exact h1
        have hM2 : MatchesInOrder Step asg2 ts := by
          cases hM with
          | cons _ h2 => exact h2
        obtain ⟨hx, hS2⟩ := List.pairwise_cons.1 hS
        simp only [GreedyMatch]
        by_cases hm : x.Matches Step t = true
        · simp only [hm, if_true]
          have hsub2 : List.Sublist asg2 S := by
            rcases List.sublist_cons_iff.1 hasg with h | ⟨r, hr, h⟩
            · exact (List.sublist_cons_self _ _).trans h
            · exact List.Sublist.of_cons_cons hasg
          obtain ⟨g2, hg2, hrel⟩ := ih ts asg2 hsub2 hM2 hS2
          refine ⟨x :: g2, by simp [hg2], List.Forall₂.cons ?_ hrel⟩
          by_cases hxs : x = s0
          · exact Or.inl hxs
          · right
            have hmem : s0 ∈ S := by
              have := hasg.subset (List.mem_cons_self _ _)
              rcases List.mem_cons.1 this with h | h
              · exact absurd h.symm hxs
              · exact h
            exact hx s0 hmem
        · simp only [hm, if_false]
          have hsub3 : List.Sublist (s0 :: asg2) S := by
            rcases List.sublist_cons_iff.1 hasg with h | ⟨r, hr, h⟩
            · exact h
            · have : s0 = x := by
                have := List.cons.inj hr
                exact this.1
              subst this
              exact absurd hs0 hm
          exact ih (t :: ts) (s0 :: asg2) hsub3 (List.Forall₂.cons hs0 hM2) hS2

theorem NotAfter_index (g asg : List DecodedAt) (h : List.Forall₂ NotAfter g asg) :
    ∀ (k : Nat) (a b : DecodedAt), g[k]? = some a → asg[k]? = some b →
      a.Offset ≤ b.Offset ∧
        a.Offset + a.Instruction.length ≤ b.Offset + b.Instruction.length := by
  induction h with
  | nil => simp
  | cons hab _ ih =>
    intro k a b ha hb
    cases k with
    | zero =>
      simp only [List.getElem?_cons_zero, Option.some.injEq] at ha hb
      subst ha
      subst hb
      rcases hab with rfl | hlt
      · exact ⟨le_refl _, le_refl _⟩
      · constructor <;> omega
    | succ k =>
      simp only [List.getElem?_cons_succ] at ha hb
      exact ih k a b ha hb

theorem CoverageFrom_cons_cons (Start : Nat) (a b : MatchRange) (l : List MatchRange) :
    CoverageFrom Start (a :: b :: l) = CoverageFrom Start (b :: l) := by
  simp [CoverageFrom, List.getLast?_cons_cons]

theorem FindInstructionSubsequenceLoop_some (D : ZydisDecoder) (Start : Nat) (Buffer : List Nat)
    (Pattern : List MatchInstruction) (fuel Offset PatternIndex : Nat)
    (MatchOffsets : List MatchRange) (OutOff : Nat) (out : Result (List MatchRange))
    (hPI : PatternIndex < Pattern.length) :
    FindInstructionSubsequenceLoop D Start Buffer Pattern fuel Offset PatternIndex MatchOffsets
        OutOff = some (some out) ↔
      ∃ x g,
        GreedyMatch SubsequenceOperandStep (ForwardDecodeLoop D VisibleOperands Buffer fuel Offset)
          (Pattern.drop PatternIndex) = some (x :: g) ∧
        out = ⟨CoverageFrom (if PatternIndex = 0 then add64 Start x.Offset else OutOff)
            ((x :: g).map (DecodedAt.Range Start)),
          some (MatchOffsets ++ (x :: g).map (DecodedAt.Range Start))⟩ := by
  induction fuel generalizing Offset PatternIndex MatchOffsets OutOff with
  | zero =>
    have hdrop := List.drop_eq_getElem_cons hPI
    have hnone : GreedyMatch SubsequenceOperandStep [] (Pattern.drop PatternIndex) = none := by
      rw [hdrop]; rfl
    simp [FindInstructionSubsequenceLoop, ForwardDecodeLoop, hnone]
  | succ fuel ih =>
    have hdrop := List.drop_eq_getElem_cons hPI
    have hnone : GreedyMatch SubsequenceOperandStep [] (Pattern.drop PatternIndex) = none := by
      rw [hdrop]; rfl
    have hget : Pattern[PatternIndex]? = some Pattern[PatternIndex] :=
      List.getElem?_eq_getElem hPI
    simp only [FindInstructionSubsequenceLoop]
    by_cases hlt : Offset < Buffer.length
    · simp only [hlt, if_true]
      cases hI : D.DecodeInstruction (Buffer.drop Offset) with
      | none =>
        simp only
        rw [ForwardDecodeLoop_fail _ _ _ _ _ hlt hI]
        exact ih (Offset + 1) PatternIndex MatchOffsets OutOff hPI
      | some I =>
        simp only
        rw [ForwardDecodeLoop_ok _ _ _ _ _ hlt I hI]
        have hVis : VisibleOperands I = I.operand_count_visible := rfl
        rw [hVis]
        cases hO : D.DecodeOperands (Buffer.drop Offset) I I.operand_count_visible with
        | none =>
          simp only
          rw [ih (Offset + I.length) PatternIndex MatchOffsets OutOff hPI, hdrop]
          simp [GreedyMatch, DecodedAt.Matches]
        | some ops =>
          simp only [hget]
          by_cases hm : InstructionMatches SubsequenceOperandStep I ops Pattern[PatternIndex] = true
          · have hx : (DecodedAt.mk Offset I (some ops)).Matches SubsequenceOperandStep
                Pattern[PatternIndex] = true := by
              simpa [DecodedAt.Matches] using hm
            have hone : (if PatternIndex + 1 = 1 then add64 Start Offset else OutOff) =
                (if PatternIndex = 0 then add64 Start Offset else OutOff) := by
              by_cases h0 : PatternIndex = 0 <;> simp [h0]
            simp only [hm, if_true, hone]
            rw [hdrop]
            simp only [GreedyMatch, hx, if_true]
            by_cases hfin : PatternIndex + 1 = Pattern.length
            · have hnil : Pattern.drop (PatternIndex + 1) = [] :=
                List.drop_eq_nil_of_le (by omega)
              simp only [if_pos hfin, hnil, GreedyMatch, Option.map_some', Option.some.injEq,
                List.cons.injEq]
              constructor
              · rintro rfl
                exact ⟨_, [], ⟨rfl, rfl⟩, by simp [CoverageFrom, DecodedAt.Range]⟩
              · rintro ⟨x, g, ⟨rfl, rfl⟩, rfl⟩
                simp [CoverageFrom, DecodedAt.Range]
            · simp only [if_neg hfin]
              rw [ih (Offset + I.length) (PatternIndex + 1) _ _ (by omega)]
              constructor
              · rintro ⟨y, g, hg, rfl⟩
                refine ⟨DecodedAt.mk Offset I (some ops), y :: g, by simp [hg], ?_⟩
                simp only [List.map_cons, CoverageFrom_cons_cons, Nat.add_one_ne_zero, if_false,
                  List.append_assoc, List.singleton_append, DecodedAt.Range]
              · rintro ⟨x, g, hg, rfl⟩
                cases hg2 : GreedyMatch SubsequenceOperandStep
                    (ForwardDecodeLoop D VisibleOperands Buffer fuel (Offset + I.length))
                    (Pattern.drop (PatternIndex + 1)) with
                | none => simp [hg2] at hg
                | some g2 =>
                  simp only [hg2, Option.map_some', Option.some.injEq, List.cons.injEq] at hg
                  obtain ⟨rfl, rfl⟩ := hg
                  have hlen := (GreedyMatch_sound _ _ _ _ hg2).2.length_eq
                  cases g2 with
                  | nil =>
                    simp only [List.length_nil, List.length_drop] at hlen
                    omega
                  | cons y g =>
                    refine ⟨y, g, rfl, ?_⟩
                    simp only [List.map_cons, CoverageFrom_cons_cons, Nat.add_one_ne_zero,
                      if_false, List.append_assoc, List.singleton_append, DecodedAt.Range]
          · have hx : (DecodedAt.mk Offset I (some ops)).Matches SubsequenceOperandStep
                Pattern[PatternIndex] = false := by
              simpa [DecodedAt.Matches] using hm
            simp only [hm, if_false, Bool.false_eq_true]
            rw [ih (Offset + I.length) PatternIndex MatchOffsets OutOff hPI, hdrop]
            simp only [GreedyMatch, hx, if_false, Bool.false_eq_true]
    · simp [hlt, ForwardDecodeLoop, hnone]

/-- C8 (as stated, refuted): in the window `nop; nop; ret` the templates
`nop`, `ret` are matched at offsets 0 and 2, a coverage of 3 bytes, although
the assignment to the second `nop` and the `ret` is order-preserving and covers
only 2 bytes. -/
theorem FindInstructionSubsequence_not_minimal :
    (ScenarioAnalyzer [0x90, 0x90, 0xC3]).FindInstructionSubsequence 0 3
        ExampleSubsequencePattern = some (some ⟨⟨0, 3⟩, some [⟨0, 1⟩, ⟨2, 1⟩]⟩) ∧
      ∃ Buffer asg,
        (ScenarioAnalyzer [0x90, 0x90, 0xC3]).Read 0 3 = some Buffer ∧
        List.Sublist asg (ForwardDecode (ScenarioAnalyzer [0x90, 0x90, 0xC3]).Decoder
          VisibleOperands Buffer) ∧
        MatchesInOrder SubsequenceOperandStep asg ExampleSubsequencePattern ∧
        (Coverage (asg.map (DecodedAt.Range 0))).Size < 3 := by
  refine ⟨by decide, [0x90, 0x90, 0xC3], [⟨1, ⟨ZydisMnemonic.NOP, 1, 0, 0, 32⟩, some []⟩,
    ⟨2, ⟨ZydisMnemonic.RET, 1, 0, 0, 64⟩, some []⟩], by decide, ?_, ?_, by decide⟩
  · have hS : ForwardDecode (ScenarioAnalyzer [0x90, 0x90, 0xC3]).Decoder VisibleOperands
        [0x90, 0x90, 0xC3] =
        [⟨0, ⟨ZydisMnemonic.NOP, 1, 0, 0, 32⟩, some []⟩,
          ⟨1, ⟨ZydisMnemonic.NOP, 1, 0, 0, 32⟩, some []⟩,
          ⟨2, ⟨ZydisMnemonic.RET, 1, 0, 0, 64⟩, some []⟩] := by decide
    rw [hS]
    exact List.Sublist.cons _ (List.Sublist.refl _)
  · exact List.Forall₂.cons (by decide) (List.Forall₂.cons (by decide) List.Forall₂.nil)

/-- C8 (amended): whenever `FindInstructionSubsequence` succeeds, its matches
are an order-preserving assignment of the templates to instructions of the
forward decode of the window, the coverage runs from the first match start to
the last match end, and against every other order-preserving assignment the
`k`-th match starts no later and ends no later than the `k`-th instruction of
that assignment: the coverage begins at the earliest instruction matching the
first template and ends at the earliest possible end. -/
theorem FindInstructionSubsequence_greedy (A : DumpAnalyzer) (Start Size : Nat)
    (Pattern : List MatchInstruction) (out : Result (List MatchRange))
    (h : A.FindInstructionSubsequence Start Size Pattern = some (some out)) :
    SubsequenceOutcome A Start Size Pattern out := by
  unfold DumpAnalyzer.FindInstructionSubsequence at h
  by_cases hP : Pattern = []
  · simp [hP] at h
  · simp only [hP, if_false] at h
    cases hR : A.Read Start Size with
    | none => rw [hR] at h; simp at h
    | some Buffer =>
      rw [hR] at h
      simp only at h
      by_cases hB : Buffer = []
      · simp [hB] at h
      · simp only [hB, if_false] at h
        have hpos : 0 < Pattern.length := List.length_pos.2 hP
        obtain ⟨x, g, hg, hout⟩ :=
          (FindInstructionSubsequenceLoop_some A.Decoder Start Buffer Pattern _ 0 0 []
            0 out hpos).1 h
        simp only [List.drop_zero] at hg
        obtain ⟨hsub, hM⟩ := GreedyMatch_sound _ _ _ _ hg
        refine ⟨Buffer, x :: g, hR, hsub, hM, ?_, ?_⟩
        · rw [hout]
          simp [Coverage, DecodedAt.Range]
        · intro asg hasg hMasg k a b ha hb
          obtain ⟨g2, hg2, hrel⟩ := GreedyMatch_earliest SubsequenceOperandStep _ Pattern asg
            hasg hMasg (ForwardDecodeLoop_pairwise _ _ _ _ _)
          have : g2 = x :: g := by
            have h3 : GreedyMatch SubsequenceOperandStep
                (ForwardDecode A.Decoder VisibleOperands Buffer) Pattern =
                some (x :: g) := hg
            rw [h3] at hg2
            exact (Option.some.inj hg2).symm
          subst this
          exact NotAfter_index _ _ hrel k a b ha hb

/-- C8 (amended), at the window `nop; nop; ret` and the templates `nop`,
`ret`. -/
theorem FindInstructionSubsequence_greedy_witness :
    (ScenarioAnalyzer [0x90, 0x90, 0xC3]).FindInstructionSubsequence 0 3
        ExampleSubsequencePattern = some (some ⟨⟨0, 3⟩, some [⟨0, 1⟩, ⟨2, 1⟩]⟩) ∧
      SubsequenceOutcome (ScenarioAnalyzer [0x90, 0x90, 0xC3]) 0 3 ExampleSubsequencePattern
        ⟨⟨0, 3⟩, some [⟨0, 1⟩, ⟨2, 1⟩]⟩ :=
  ⟨by decide,
    FindInstructionSubsequence_greedy (ScenarioAnalyzer [0x90, 0x90, 0xC3]) 0 3
      ExampleSubsequencePattern ⟨⟨0, 3⟩, some [⟨0, 1⟩, ⟨2, 1⟩]⟩ (by decide)⟩

/-! ### Search windows -/

/-- C15 (code defect): for a region of 16 bytes and a target whose search
range starts at offset `0x20`, beyond the end of the region, the truncation
`(FunctionSize + FunctionSizeVariation) - OffsetLow` wraps around and
`SetBoundaries` returns the window `{0x20, 2^64 - 0x10}`, which does not lie
inside the region.  When the adjusted offset does not exceed the region end
and the sums stay below `2^64`, the window does lie inside the region. -/
theorem SetBoundaries_beyond_region :
    SetBoundaries { RegionRange := { Size := 0x10 } }
        { SearchRange := { Offset := 0x20, Size := 8 } } =
      ⟨0x20, 2 ^ 64 - 0x10, 0, 0⟩ ∧
    ¬ (0x20 + (2 ^ 64 - 0x10) ≤ 0x10 + 0) ∧
    (∀ (Region : TSearchRegion) (ToFind : TSearchFor),
      ToFind.SearchRange.Offset + ToFind.SearchRange.OffsetVariation + ToFind.SearchRange.Size +
        ToFind.SearchRange.SizeVariation < U64 →
      ToFind.SearchRange.Offset + (Region.RegionRange.Size + Region.RegionRange.SizeVariation) <
        U64 →
      (SetBoundaries Region ToFind).Offset ≤
        Region.RegionRange.Size + Region.RegionRange.SizeVariation →
      (SetBoundaries Region ToFind).Offset + (SetBoundaries Region ToFind).Size ≤
        Region.RegionRange.Size + Region.RegionRange.SizeVariation) := by
  refine ⟨by decide, by decide, ?_⟩
  intro Region ToFind h1 h2
  simp only [SetBoundaries]
  unfold add64 sub64 U64 at *
  intro h3
  split_ifs at h3 ⊢ <;> omega

/-- C16 (as stated, refuted): with search range offset 5 and offset variation
10 the window `SetBoundaries` returns starts at offset 5, not at 0. -/
theorem SetBoundaries_offset_not_clamped :
    (SetBoundaries { RegionRange := { Size := 0x100 } }
        { SearchRange := { Offset := 5, Size := 0x10, OffsetVariation := 10 } }).Offset = 5 ∧
      (5 : Nat) < 10 := by
  decide

/-- C16 (amended): the offset of the window `SetBoundaries` returns is
`search_range.offset - offset_variation` when the variation does not exceed
the offset, and `search_range.offset` itself otherwise. -/
theorem SetBoundaries_offset (Region : TSearchRegion) (ToFind : TSearchFor)
    (hFits : ToFind.SearchRange.Offset < U64) :
    (SetBoundaries Region ToFind).Offset =
      if ToFind.SearchRange.OffsetVariation ≤ ToFind.SearchRange.Offset then
        ToFind.SearchRange.Offset - ToFind.SearchRange.OffsetVariation
      else ToFind.SearchRange.Offset := by
  simp only [SetBoundaries, ge_iff_le]
  unfold sub64 U64 at *
  split_ifs <;> omega

/-- C16 (amended), at search range offset `0x80` with variation `0x10`. -/
theorem SetBoundaries_offset_witness :
    (SetBoundaries {} { SearchRange := { Offset := 0x80, OffsetVariation := 0x10 } }).Offset =
      0x70 :=
  SetBoundaries_offset {} { SearchRange := { Offset := 0x80, OffsetVariation := 0x10 } }
    (by decide)

/-! ### Function table -/

theorem SetInsert_mem (x y : Nat) (l : List Nat) : y ∈ SetInsert x l ↔ y = x ∨ y ∈ l := by
  induction l with
  | nil => simp [SetInsert]
  | cons a l ih =>
    unfold SetInsert
    split_ifs with h1 h2
    · simp
    · subst h2
      simp
    · rw [List.mem_cons, ih, List.mem_cons]
      tauto

theorem ExtractFunctionsLoop_bound (D : ZydisDecoder) (TextSectionOffset TextSectionEnd : Nat)
    (Buffer : List Nat) (BytesRead Fuel Offset : Nat) (Functions Out : List Nat)
    (h : ExtractFunctionsLoop D TextSectionOffset TextSectionEnd Buffer BytesRead Fuel Offset
      Functions = some Out) :
    ∀ x ∈ Out, x ∈ Functions ∨ x < TextSectionEnd := by
  induction Fuel generalizing Offset Functions with
  | zero => simp [ExtractFunctionsLoop] at h
  | succ Fuel ih =>
    unfold ExtractFunctionsLoop at h
    split_ifs at h with hlt
    · split at h
      · exact ih _ _ h
      · intro x hx
        rcases ih _ _ h x hx with hmem | hb
        · simp only at hmem
          split_ifs at hmem with hcall
          · split at hmem
            · split at hmem
              · split_ifs at hmem with hge
                · exact Or.inl hmem
                · rcases (SetInsert_mem _ _ _).1 hmem with heq | hmem
                  · right
                    rw [heq]
                    omega
                  · exact Or.inl hmem
              · exact Or.inl hmem
            · exact Or.inl hmem
          · exact Or.inl hmem
        · exact Or.inr hb
    · simp only [Option.some.injEq] at h
      subst h
      intro x hx
      exact Or.inl hx

/-- C14 (code defect): with `.text` at offset 16 and the instruction
`call rel32` with displacement -13 at its start, the target `21 - 13 = 8` is
put into the function set although it lies below `.text`: the code compares
the target with the end of the section only.  Every offset the scan adds does
lie below the end of `.text`. -/
theorem ExtractAndSaveFunctions_below_text :
    (DriverAnalyzer (List.replicate 16 0 ++ [0xE8, 0xF3, 0xFF, 0xFF, 0xFF, 0x90, 0x90, 0xC3])
      ).ExtractAndSaveFunctions (some [⟨".text", 16, 8⟩]) 0 [] = some [8] ∧
    ¬ (16 ≤ 8) ∧
    (∀ (A : DumpAnalyzer) (Sections_ : List PeSection) (GCount : Nat) (Functions Out : List Nat)
      (TextSection : PeSection),
      GetSection Sections_ ".text" = some TextSection →
      A.ExtractAndSaveFunctions (some Sections_) GCount Functions = some Out →
      ∀ x ∈ Out, x ∈ Functions ∨ x < add64 TextSection.Offset TextSection.Size) := by
  refine ⟨by decide, by decide, ?_⟩
  intro A Sections_ GCount Functions Out TextSection hText h
  unfold DumpAnalyzer.ExtractAndSaveFunctions at h
  simp only [hText] at h
  split at h
  · cases h
  · split_ifs at h
    exact ExtractFunctionsLoop_bound _ _ _ _ _ _ _ _ _ h

/-! ### Memory operand text -/

theorem SignedTokensLoop_rejoin (Content : List Char) (Sign : Char) (Token : List Char) :
    Rejoin (SignedTokensLoop Content Sign Token) = Sign :: (Token ++ Content) := by
  induction Content generalizing Sign Token with
  | nil => simp [SignedTokensLoop, Rejoin]
  | cons c Rest ih =>
    unfold SignedTokensLoop
    split_ifs with h
    · have := ih c []
      simp only [Rejoin, List.flatMap_cons] at this ⊢
      rw [this]
      simp
    · rw [ih]
      simp

theorem SignedTokensLoop_pieces (Content : List Char) (Sign : Char) (Token : List Char)
    (hSign : Sign = '+' ∨ Sign = '-') (hToken : '+' ∉ Token ∧ '-' ∉ Token) :
    ∀ P ∈ SignedTokensLoop Content Sign Token,
      (P.1 = '+' ∨ P.1 = '-') ∧ '+' ∉ P.2 ∧ '-' ∉ P.2 := by
  induction Content generalizing Sign Token with
  | nil =>
    intro P hP
    simp only [SignedTokensLoop, List.mem_singleton] at hP
    subst hP
    exact ⟨hSign, hToken⟩
  | cons c Rest ih =>
    intro P hP
    unfold SignedTokensLoop at hP
    split_ifs at hP with h
    · rcases List.mem_cons.1 hP with hP | hP
      · subst hP
        exact ⟨hSign, hToken⟩
      · exact ih c [] h (by simp) P hP
    · refine ih Sign (Token ++ [c]) hSign ?_ P hP
      simp only [not_or] at h
      simp only [List.mem_append, List.mem_singleton, not_or]
      exact ⟨⟨hToken.1, fun hc => h.1 hc.symm⟩, ⟨hToken.2, fun hc => h.2 hc.symm⟩⟩

theorem toInt64_wrap64 (x : Int) (h1 : -(2 ^ 63 : Int) ≤ x) (h2 : x < 2 ^ 63) :
    toInt64 (wrap64 x) = x := by
  unfold toInt64 wrap64 U64
  have hpos : (0 : Int) ≤ x % ((2 ^ 64 : Nat) : Int) := Int.emod_nonneg _ (by norm_num)
  have hlt : x % ((2 ^ 64 : Nat) : Int) < ((2 ^ 64 : Nat) : Int) := Int.emod_lt_of_pos _ (by norm_num)
  have hcast : (((x % ((2 ^ 64 : Nat) : Int)).toNat : Nat) : Int) = x % ((2 ^ 64 : Nat) : Int) :=
    Int.toNat_of_nonneg hpos
  have hmod : (x % ((2 ^ 64 : Nat) : Int)).toNat % 2 ^ 64 = (x % ((2 ^ 64 : Nat) : Int)).toNat := by
    apply Nat.mod_eq_of_lt
    omega
  rw [hmod]
  split_ifs with h <;> push_cast at * <;> omega

theorem addInt64_wrap (a b : Int) :
    addInt64 (toInt64 (wrap64 a)) b = toInt64 (wrap64 (a + b)) := by
  unfold addInt64
  congr 1
  unfold toInt64 wrap64 U64
  have hpos : (0 : Int) ≤ a % ((2 ^ 64 : Nat) : Int) := Int.emod_nonneg _ (by norm_num)
  have hlt : a % ((2 ^ 64 : Nat) : Int) < ((2 ^ 64 : Nat) : Int) := Int.emod_lt_of_pos _ (by norm_num)
  have hcast : (((a % ((2 ^ 64 : Nat) : Int)).toNat : Nat) : Int) = a % ((2 ^ 64 : Nat) : Int) :=
    Int.toNat_of_nonneg hpos
  have hmod : (a % ((2 ^ 64 : Nat) : Int)).toNat % 2 ^ 64 = (a % ((2 ^ 64 : Nat) : Int)).toNat := by
    apply Nat.mod_eq_of_lt
    omega
  rw [hmod]
  congr 1
  split_ifs with h <;> push_cast at * <;> omega

theorem stoll_range (s : List Char) (v : Int) (h : stoll s = some v) :
    -(2 ^ 63 : Int) ≤ v ∧ v < 2 ^ 63 := by
  unfold stoll at h
  split at h
  · cases h
  · split_ifs at h with h1 h2 h3 <;> cases h <;> constructor <;> push_cast <;> omega

theorem DispFold_some (d : Int) (vs : List Int) :
    DispFold (some (toInt64 (wrap64 d))) vs = some (toInt64 (wrap64 (d + vs.sum))) := by
  induction vs generalizing d with
  | nil => simp [DispFold]
  | cons v vs ih =>
    rw [DispFold, addInt64_wrap, ih, List.sum_cons, add_assoc]

theorem DispFold_none (vs : List Int) (h : ∀ v ∈ vs, -(2 ^ 63 : Int) ≤ v ∧ v < 2 ^ 63) :
    DispFold none vs = if vs = [] then none else some (toInt64 (wrap64 vs.sum)) := by
  cases vs with
  | nil => simp [DispFold]
  | cons v vs =>
    have hv := h v (by simp)
    rw [DispFold, ← toInt64_wrap64 v hv.1 hv.2, DispFold_some]
    simp [toInt64_wrap64 v hv.1 hv.2]

theorem getLast?_map_getD_cons {α β : Type} (a : α) (l : List α) (f : α → β) (d : β) :
    ((a :: l).getLast?.map f).getD d = (l.getLast?.map f).getD (f a) := by
  cases l with
  | nil => rfl
  | cons b l =>
    rw [List.getLast?_cons_cons]
    cases hL : (b :: l).getLast? with
    | none => simp at hL
    | some E => rfl

theorem ParseMemoryTokens_spec (Z : ZydisStrings) (toks : List (Char × List Char))
    (Op Op' : MemoryOperand) (h : ParseMemoryTokens Z toks Op = some Op') :
    Op'.Base = Op.Base.or (PlainRegisters Z (toks.map fun P => (P.1, Trim P.2))).head? ∧
    Op'.Index = (((if Op.Base.isSome then
          RegisterPieces Z (toks.map fun P => (P.1, Trim P.2))
        else (RegisterPieces Z (toks.map fun P => (P.1, Trim P.2))).eraseP
          fun E => E.1).getLast?).map fun E => E.2).getD Op.Index ∧
    Op'.Scale =
      (((ScalePieces Z (toks.map fun P => (P.1, Trim P.2))).getLast?).map some).getD Op.Scale ∧
    Op'.Disp = DispFold Op.Disp (SignedIntegers Z (toks.map fun P => (P.1, Trim P.2))) := by
  induction toks generalizing Op with
  | nil =>
    simp only [ParseMemoryTokens, Option.some.injEq] at h
    subst h
    cases hB : Op.Base <;>
      simp [PlainRegisters, RegisterPieces, ScalePieces, SignedIntegers, DispFold]
  | cons P toks ih =>
    obtain ⟨TokSign, Raw⟩ := P
    unfold ParseMemoryTokens at h
    simp only at h
    by_cases hW : Trim Raw = [] ∨ Trim Raw = ['?']
    · rw [if_pos hW] at h
      have hK : PieceKindOf Z (Trim Raw) = PieceKind.Wildcard := by
        unfold PieceKindOf
        rw [if_pos hW]
      have := ih Op h
      simpa [PlainRegisters, RegisterPieces, ScalePieces, SignedIntegers, hK] using this
    · rw [if_neg hW] at h
      by_cases hS : '*' ∈ Trim Raw
      · rw [if_pos hS] at h
        have hK : PieceKindOf Z (Trim Raw) = PieceKind.Scaled := by
          unfold PieceKindOf
          rw [if_neg hW, if_pos hS]
        change (if ScaledScale (Trim Raw) ≠ ['?'] then
            match stoull (ScaledScale (Trim Raw)) with
            | none => none
            | some Scale =>
              ParseMemoryTokens Z toks
                { (if ScaledRegister (Trim Raw) ≠ ['?'] then
                    { Op with Index := ParseRegister Z (ScaledRegister (Trim Raw)) }
                  else Op) with Scale := some (Scale % 256) }
          else
            ParseMemoryTokens Z toks
              (if ScaledRegister (Trim Raw) ≠ ['?'] then
                { Op with Index := ParseRegister Z (ScaledRegister (Trim Raw)) }
              else Op)) = some Op' at h
        by_cases hSc : ScaledScale (Trim Raw) ≠ ['?']
        · rw [if_pos hSc] at h
          cases hv : stoull (ScaledScale (Trim Raw)) with
          | none => rw [hv] at h; cases h
          | some Scale =>
            rw [hv] at h
            simp only at h
            by_cases hR : ScaledRegister (Trim Raw) ≠ ['?']
            · rw [if_pos hR] at h
              obtain ⟨h1, h2, h3, h4⟩ := ih _ h
              dsimp only at h1 h2 h3 h4
              rw [h1, h2, h3, h4]
              cases hB : Op.Base <;>
                simp [PlainRegisters, RegisterPieces, ScalePieces, SignedIntegers, hK, hR, hSc, hv,
                  getLast?_map_getD_cons]
            · rw [if_neg hR] at h
              obtain ⟨h1, h2, h3, h4⟩ := ih _ h
              dsimp only at h1 h2 h3 h4
              rw [h1, h2, h3, h4]
              cases hB : Op.Base <;>
                simp [PlainRegisters, RegisterPieces, ScalePieces, SignedIntegers, hK, hR, hSc, hv,
                  getLast?_map_getD_cons]
        · rw [if_neg hSc] at h
          by_cases hR : ScaledRegister (Trim Raw) ≠ ['?']
          · rw [if_pos hR] at h
            obtain ⟨h1, h2, h3, h4⟩ := ih _ h
            dsimp only at h1 h2 h3 h4
            rw [h1, h2, h3, h4]
            cases hB : Op.Base <;>
              simp [PlainRegisters, RegisterPieces, ScalePieces, SignedIntegers, hK, hR, hSc,
                getLast?_map_getD_cons]
          · rw [if_neg hR] at h
            obtain ⟨h1, h2, h3, h4⟩ := ih _ h
            rw [h1, h2, h3, h4]
            cases hB : Op.Base <;>
              simp [PlainRegisters, RegisterPieces, ScalePieces, SignedIntegers, hK, hR, hSc]
      · rw [if_neg hS] at h
        by_cases hI : IsRegister Z (Trim Raw) = true
        · rw [if_pos hI] at h
          have hK : PieceKindOf Z (Trim Raw) = PieceKind.Register := by
            unfold PieceKindOf
            rw [if_neg hW, if_neg hS, if_pos hI]
          obtain ⟨r, hr⟩ : ∃ r, ParseRegister Z (Trim Raw) = some r := by
            unfold IsRegister at hI
            exact Option.isSome_iff_exists.1 hI
          cases hB : Op.Base with
          | none =>
            rw [hB] at h
            simp only [Option.isNone_none, if_true] at h
            obtain ⟨h1, h2, h3, h4⟩ := ih _ h
            dsimp only at h1 h2 h3 h4
            rw [h1, h2, h3, h4]
            simp [PlainRegisters, RegisterPieces, ScalePieces, SignedIntegers, hK, hr]
          | some b =>
            rw [hB] at h
            simp only [Option.isNone_some, Bool.false_eq_true, if_false] at h
            obtain ⟨h1, h2, h3, h4⟩ := ih _ h
            dsimp only at h1 h2 h3 h4
            rw [h1, h2, h3, h4]
            simp [PlainRegisters, RegisterPieces, ScalePieces, SignedIntegers, hK, hr, hB,
              getLast?_map_getD_cons]
        · rw [if_neg hI] at h
          have hK : PieceKindOf Z (Trim Raw) = PieceKind.Integer := by
            unfold PieceKindOf
            rw [if_neg hW, if_neg hS, if_neg hI]
          cases hv : stoll (Trim Raw) with
          | none => rw [hv] at h; cases h
          | some Val =>
            rw [hv] at h
            simp only at h
            cases hD : Op.Disp with
            | none =>
              rw [hD] at h
              simp only at h
              obtain ⟨h1, h2, h3, h4⟩ := ih _ h
              dsimp only at h1 h2 h3 h4
              rw [h1, h2, h3, h4]
              simp [PlainRegisters, RegisterPieces, ScalePieces, SignedIntegers, hK, hv, DispFold]
            | some Disp =>
              rw [hD] at h
              simp only at h
              obtain ⟨h1, h2, h3, h4⟩ := ih _ h
              dsimp only at h1 h2 h3 h4
              rw [h1, h2, h3, h4]
              simp [PlainRegisters, RegisterPieces, ScalePieces, SignedIntegers, hK, hv, DispFold]

theorem ParseMemoryTokens_isSome (Z : ZydisStrings) (toks : List (Char × List Char))
    (Op : MemoryOperand) :
    (∃ Op', ParseMemoryTokens Z toks Op = some Op') ↔
      PiecesConvertible Z (toks.map fun P => (P.1, Trim P.2)) := by
  induction toks generalizing Op with
  | nil => simp [ParseMemoryTokens, PiecesConvertible]
  | cons P toks ih =>
    obtain ⟨TokSign, Raw⟩ := P
    unfold PiecesConvertible at ih ⊢
    rw [List.map_cons, List.forall_mem_cons]
    unfold ParseMemoryTokens
    simp only
    by_cases hW : Trim Raw = [] ∨ Trim Raw = ['?']
    · rw [if_pos hW]
      have hK : PieceKindOf Z (Trim Raw) = PieceKind.Wildcard := by
        unfold PieceKindOf
        rw [if_pos hW]
      rw [ih Op]
      simp [hK]
    · rw [if_neg hW]
      by_cases hS : '*' ∈ Trim Raw
      · rw [if_pos hS]
        have hK : PieceKindOf Z (Trim Raw) = PieceKind.Scaled := by
          unfold PieceKindOf
          rw [if_neg hW, if_pos hS]
        change (∃ Op', (if ScaledScale (Trim Raw) ≠ ['?'] then
            match stoull (ScaledScale (Trim Raw)) with
            | none => none
            | some Scale =>
              ParseMemoryTokens Z toks
                { (if ScaledRegister (Trim Raw) ≠ ['?'] then
                    { Op with Index := ParseRegister Z (ScaledRegister (Trim Raw)) }
                  else Op) with Scale := some (Scale % 256) }
          else
            ParseMemoryTokens Z toks
              (if ScaledRegister (Trim Raw) ≠ ['?'] then
                { Op with Index := ParseRegister Z (ScaledRegister (Trim Raw)) }
              else Op)) = some Op') ↔ _
        by_cases hSc : ScaledScale (Trim Raw) ≠ ['?']
        · rw [if_pos hSc]
          cases hv : stoull (ScaledScale (Trim Raw)) with
          | none => simp [hK, hSc, hv]
          | some Scale =>
            simp only
            rw [ih]
            simp [hK, hSc, hv]
        · rw [if_neg hSc, ih]
          simp [hK, hSc]
      · rw [if_neg hS]
        by_cases hI : IsRegister Z (Trim Raw) = true
        · rw [if_pos hI]
          have hK : PieceKindOf Z (Trim Raw) = PieceKind.Register := by
            unfold PieceKindOf
            rw [if_neg hW, if_neg hS, if_pos hI]
          split_ifs
          · rw [ih]
            simp [hK]
          · rw [ih]
            simp [hK]
        · rw [if_neg hI]
          have hK : PieceKindOf Z (Trim Raw) = PieceKind.Integer := by
            unfold PieceKindOf
            rw [if_neg hW, if_neg hS, if_neg hI]
          cases hv : stoll (Trim Raw) with
          | none => simp [hK, hv]
          | some Val =>
            simp only
            cases hD : Op.Disp with
            | none =>
              simp only
              rw [ih]
              simp [hK, hv]
            | some Disp =>
              simp only
              rw [ih]
              simp [hK, hv]

theorem mem_Trim (c : Char) (s : List Char) (h : c ∈ Trim s) : c ∈ s := by
  unfold Trim at h
  rw [List.mem_reverse] at h
  have h2 := (List.dropWhile_sublist _).subset h
  rw [List.mem_reverse] at h2
  exact (List.dropWhile_sublist _).subset h2

theorem stoll_nonneg (s : List Char) (v : Int) (hs : '-' ∉ s) (h : stoll s = some v) :
    0 ≤ v ∧ v < 2 ^ 63 := by
  unfold stoll at h
  split at h
  · cases h
  · rename_i Negative Magnitude hP
    have hneg : Negative = false := by
      unfold ParseSigned at hP
      split at hP
      · rename_i Rest hdrop
        exfalso
        apply hs
        apply (List.dropWhile_sublist isspace).subset
        rw [hdrop]
        simp
      · obtain ⟨m, _, hm⟩ := Option.map_eq_some'.1 hP
        simp only [Prod.mk.injEq] at hm
        exact hm.1.symm
      · obtain ⟨m, _, hm⟩ := Option.map_eq_some'.1 hP
        simp only [Prod.mk.injEq] at hm
        exact hm.1.symm
    subst hneg
    simp only [Bool.false_eq_true, if_false] at h
    split_ifs at h with h3
    cases h
    constructor
    · exact Int.natCast_nonneg _
    · exact_mod_cast h3

theorem SignedIntegers_range (Z : ZydisStrings) (Pieces : List (Char × List Char))
    (hPieces : ∀ P ∈ Pieces, '-' ∉ P.2) :
    ∀ v ∈ SignedIntegers Z Pieces, -(2 ^ 63 : Int) ≤ v ∧ v < 2 ^ 63 := by
  intro v hv
  unfold SignedIntegers at hv
  obtain ⟨P, hmem, hP⟩ := List.mem_filterMap.1 hv
  split_ifs at hP with hK hS
  all_goals
    obtain ⟨Val, hVal, hEq⟩ := Option.map_eq_some'.1 hP
    have hr := stoll_nonneg _ _ (hPieces P hmem) hVal
    subst hEq
    constructor <;> omega

theorem MemoryPieces_no_minus (Text : List Char) : ∀ P ∈ MemoryPieces Text, '-' ∉ P.2 := by
  intro P hP
  unfold MemoryPieces at hP
  obtain ⟨Q, hQ, rfl⟩ := List.mem_map.1 hP
  intro hmem
  exact (SignedTokensLoop_pieces _ _ _ (Or.inl rfl) (by simp) Q hQ).2.2 (mem_Trim _ _ hmem)

/-- C11: `ParseMemoryOperand` returns absent exactly for a text that is not
bracketed; the pieces it works on are the content cut at every `+` and `-`;
it returns normally exactly when every number in the pieces can be converted;
and then `Disp` is the signed sum of the integer pieces (absent without one),
`Base` the first plain register, `Index` the register of the last piece that
names one apart from the first plain register (a later plain register or a
`reg*scale` piece whose register is not `?`), `Scale` the scale of the last
`reg*scale` piece whose scale is not `?`, and a field no piece sets is absent;
`[rax + rbx*4 - 0x10 + 8]` gives base `rax`, index `rbx`, scale 4 and
displacement -8. -/
theorem ParseMemoryOperand_fields (Z : ZydisStrings) (Text : List Char) :
    (ParseMemoryOperand Z Text = some none ↔ Bracketed (Trim Text) = false) ∧
    (Rejoin (SignedPieces Text) = '+' :: BracketContent Text ∧
      ∀ P ∈ SignedPieces Text, (P.1 = '+' ∨ P.1 = '-') ∧ '+' ∉ P.2 ∧ '-' ∉ P.2) ∧
    (Bracketed (Trim Text) = true →
      ((∃ Op, ParseMemoryOperand Z Text = some (some Op)) ↔
        PiecesConvertible Z (MemoryPieces Text))) ∧
    (∀ Op, ParseMemoryOperand Z Text = some (some Op) →
      Op.Disp = (if SignedIntegers Z (MemoryPieces Text) = [] then none
        else some (toInt64 (wrap64 (SignedIntegers Z (MemoryPieces Text)).sum))) ∧
      (SignedIntegers Z (MemoryPieces Text) ≠ [] →
        -(2 ^ 63 : Int) ≤ (SignedIntegers Z (MemoryPieces Text)).sum →
        (SignedIntegers Z (MemoryPieces Text)).sum < 2 ^ 63 →
        Op.Disp = some (SignedIntegers Z (MemoryPieces Text)).sum) ∧
      Op.Base = (PlainRegisters Z (MemoryPieces Text)).head? ∧
      Op.Index = (((RegisterPieces Z (MemoryPieces Text)).eraseP fun E => E.1).getLast?).bind
        (fun E => E.2) ∧
      Op.Scale = (ScalePieces Z (MemoryPieces Text)).getLast?) ∧
    ParseMemoryOperand ScenarioStrings "[rax + rbx*4 - 0x10 + 8]".toList =
      some (some ⟨some ZydisRegister.RAX, some ZydisRegister.RBX, some 4, some (-8)⟩) := by
  refine ⟨?_, ⟨SignedTokensLoop_rejoin _ _ _,
    SignedTokensLoop_pieces _ _ _ (Or.inl rfl) (by simp)⟩, ?_, ?_, by decide⟩
  · unfold ParseMemoryOperand
    simp only
    by_cases hB : Bracketed (Trim Text) = true
    · simp only [hB, not_true_eq_false, if_false]
      constructor
      · intro h
        split at h <;> cases h
      · intro h
        cases h
    · simp [hB]
  · intro hB
    unfold ParseMemoryOperand MemoryPieces SignedPieces BracketContent
    simp only [hB, not_true_eq_false, if_false]
    rw [← ParseMemoryTokens_isSome Z _ {}]
    constructor
    · rintro ⟨Op, h⟩
      split at h
      · cases h
      · rename_i Op' hOp
        exact ⟨Op', hOp⟩
    · rintro ⟨Op, h⟩
      exact ⟨Op, by rw [h]⟩
  · intro Op h
    unfold ParseMemoryOperand at h
    simp only at h
    by_cases hB : Bracketed (Trim Text) = true
    swap
    · simp [hB] at h
    simp only [hB, not_true_eq_false, if_false] at h
    split at h
    · cases h
    · rename_i Op' hOp
      simp only [Option.some.injEq] at h
      subst h
      obtain ⟨h1, h2, h3, h4⟩ := ParseMemoryTokens_spec Z _ _ _ hOp
      have hMP : MemoryPieces Text = List.map (fun P => (P.1, Trim P.2))
          (SignedTokensLoop (List.take ((Trim Text).length - 2) (List.drop 1 (Trim Text))) '+'
            []) := rfl
      rw [← hMP] at h1 h2 h3 h4
      have hD : Op'.Disp = (if SignedIntegers Z (MemoryPieces Text) = [] then none
          else some (toInt64 (wrap64 (SignedIntegers Z (MemoryPieces Text)).sum))) := by
        rw [h4]
        exact DispFold_none _ (SignedIntegers_range Z _ (MemoryPieces_no_minus Text))
      refine ⟨hD, ?_, ?_, ?_, ?_⟩
      · intro hne hlo hhi
        rw [hD, if_neg hne, toInt64_wrap64 _ hlo hhi]
      · simpa using h1
      · rw [h2]
        show (Option.map (fun E => E.2)
          ((RegisterPieces Z (MemoryPieces Text)).eraseP fun E => E.1).getLast?).getD none = _
        cases ((RegisterPieces Z (MemoryPieces Text)).eraseP fun E => E.1).getLast? <;> rfl
      · rw [h3]
        show (Option.map some (ScalePieces Z (MemoryPieces Text)).getLast?).getD none = _
        cases (ScalePieces Z (MemoryPieces Text)).getLast? <;> rfl

/-! ### Function regions -/

theorem range_map_getD_window (pre W post : List Nat) :
    ((List.range W.length).map fun I => (pre ++ W ++ post).getD (pre.length + I) 0) = W := by
  apply List.ext_getElem
  · simp
  · intro i h1 h2
    simp only [List.length_map, List.length_range] at h1
    simp only [List.getElem_map, List.getElem_range]
    rw [List.getD_eq_getElem?_getD, List.append_assoc,
      List.getElem?_append_right (by omega), Nat.add_sub_cancel_left,
      List.getElem?_append_left h1, List.getElem?_eq_getElem h1]
    rfl

theorem Read_window (A : DumpAnalyzer) (Offset FileOffset : Nat) (pre W post : List Nat)
    (hmode : A.AnalysisMode = Mode.Regions)
    (htr : TranslateVirtualOffsetToFileOffset A.InMetadata A.InMemoryRegions Offset =
      some FileOffset)
    (hfile : A.InFile = pre ++ W ++ post) (hpre : pre.length = FileOffset) (Size : Nat)
    (hSize : W.length = Size) (hW : Size ≤ VectorMaxSize) :
    A.Read Offset Size = some W := by
  subst hSize
  unfold DumpAnalyzer.Read DumpAnalyzer._Read
  rw [hmode]
  simp only [htr]
  rw [if_neg (by omega), hfile, ← hpre, range_map_getD_window]

theorem DriverDecodeInstruction_zero (Rest : List Nat) :
    DriverDecodeInstruction (0 :: Rest) = none := rfl

theorem DecodeScanLoop_zeros {α : Type} (k : Nat) (Rest : List Nat)
    (Pick : Nat → ZydisDecodedInstruction → List ZydisDecodedOperand → Option α)
    (j Fuel : Nat) (hj : j ≤ k) :
    DecodeScanLoop DriverDecoder (List.replicate k 0 ++ Rest) Pick (j + Fuel) (k - j) =
      DecodeScanLoop DriverDecoder (List.replicate k 0 ++ Rest) Pick Fuel k := by
  induction j with
  | zero => simp
  | succ j ih =>
    rw [show j + 1 + Fuel = (j + Fuel) + 1 by omega, DecodeScanLoop]
    have hlt : k - (j + 1) < (List.replicate k 0 ++ Rest).length := by
      simp only [List.length_append, List.length_replicate]
      omega
    rw [if_pos hlt]
    have hdrop : (List.replicate k 0 ++ Rest).drop (k - (j + 1)) =
        0 :: (List.replicate j 0 ++ Rest) := by
      rw [List.drop_append_of_le_length (by simp), List.drop_replicate]
      rw [show k - (k - (j + 1)) = j + 1 by omega, List.replicate_succ, List.cons_append]
    rw [hdrop]
    show DecodeScanLoop DriverDecoder (List.replicate k 0 ++ Rest) Pick (j + Fuel)
      (k - (j + 1) + 1) = _
    rw [show k - (j + 1) + 1 = k - j by omega]
    exact ih (by omega)

theorem DecodeScanLoop_hit {α : Type} (D : ZydisDecoder) (Buffer : List Nat)
    (Pick : Nat → ZydisDecodedInstruction → List ZydisDecodedOperand → Option α)
    (Fuel Offset : Nat) (Instruction : ZydisDecodedInstruction)
    (Operands : List ZydisDecodedOperand) (Out : α)
    (hlt : Offset < Buffer.length)
    (hI : D.DecodeInstruction (Buffer.drop Offset) = some Instruction)
    (hO : D.DecodeOperands (Buffer.drop Offset) Instruction Instruction.operand_count =
      some Operands)
    (hP : Pick Offset Instruction Operands = some Out) :
    DecodeScanLoop D Buffer Pick (Fuel + 1) Offset = some (some Out) := by
  unfold DecodeScanLoop
  rw [if_pos hlt, hI]
  simp only [hO, hP]

theorem FunctionBaseScenario_window1 :
    FunctionBaseScenario.InFile =
      [] ++ (List.replicate 0x420 0 ++ ([0x48, 0x8D, 0x05, 0xD9, 0x3B, 0x00, 0x00] ++
        List.replicate 0xD9 0)) ++
      (List.replicate 0xB00 0 ++
        [0x48, 0x00, 0x65, 0x00, 0x6C, 0x00, 0x6C, 0x00, 0x6F, 0x00, 0, 0, 0, 0, 0, 0]) := by
  decide!

theorem AnchorsLoop_spec (Z : ZydisStrings) (A : DumpAnalyzer) (FunctionBase FunctionSize : Nat)
    (Anchors : List (TAnchor × Option Nat)) (Acc Out : List Nat)
    (h : AnchorsLoop Z A FunctionBase FunctionSize Anchors Acc = some (some Out)) :
    ∃ New, Out = Acc ++ New ∧ New.length ≤ Anchors.length ∧
      (New.length = Anchors.length →
        List.Forall₂
          (fun Anchor AnchorOffset =>
            AnchorStepAt Z A FunctionBase FunctionSize Anchor.1 Anchor.2 =
              AnchorStep.Found AnchorOffset)
          Anchors New) := by
  induction Anchors generalizing Acc with
  | nil =>
    simp only [AnchorsLoop, Option.some.injEq] at h
    exact ⟨[], by simp [h], by simp, fun _ => List.Forall₂.nil⟩
  | cons P Anchors ih =>
    obtain ⟨Anchor, StringRef⟩ := P
    unfold AnchorsLoop at h
    split at h
    · rename_i AnchorOffset hStep
      obtain ⟨New, hOut, hLen, hAll⟩ := ih _ h
      refine ⟨AnchorOffset :: New, by simp [hOut], by simp [hLen], fun hl => ?_⟩
      simp only [List.length_cons, add_left_inj] at hl
      exact List.Forall₂.cons hStep (hAll hl)
    · simp only [Option.some.injEq] at h
      exact ⟨[], by simp [h], by simp, fun hl => by simp at hl⟩
    · obtain ⟨New, hOut, hLen, _⟩ := ih _ h
      refine ⟨New, hOut, by simp; omega, fun hl => ?_⟩
      simp only [List.length_cons] at hl
      omega
    · cases h
    · cases h

theorem AnchorsLoop_found (Z : ZydisStrings) (A : DumpAnalyzer) (FunctionBase FunctionSize : Nat)
    (Anchors : List (TAnchor × Option Nat)) (Acc New : List Nat)
    (h : List.Forall₂
      (fun Anchor AnchorOffset =>
        AnchorStepAt Z A FunctionBase FunctionSize Anchor.1 Anchor.2 =
          AnchorStep.Found AnchorOffset)
      Anchors New) :
    AnchorsLoop Z A FunctionBase FunctionSize Anchors Acc = some (some (Acc ++ New)) := by
  induction h generalizing Acc with
  | nil => simp [AnchorsLoop]
  | @cons P o Anchors New hStep _ ih =>
    obtain ⟨Anchor, StringRef⟩ := P
    unfold AnchorsLoop
    rw [hStep]
    simp only
    rw [ih]
    simp

theorem VerifyLoop_le (FunctionBase : Nat) (Next : Option Nat) (Offs : List Nat) (V : Nat) :
    VerifyLoop FunctionBase Next Offs V ≤ V + Offs.length := by
  induction Offs generalizing V with
  | nil => simp [VerifyLoop]
  | cons o Offs ih =>
    unfold VerifyLoop
    cases Next with
    | none =>
      simp only [List.length_cons]
      have := ih V
      omega
    | some n =>
      simp only [List.length_cons]
      split_ifs
      · omega
      · have := ih (V + 1)
        omega

theorem VerifyLoop_eq_iff (FunctionBase : Nat) (Next : Option Nat) (Offs : List Nat) (V : Nat)
    (hne : Offs ≠ []) :
    VerifyLoop FunctionBase Next Offs V = V + Offs.length ↔
      ∃ n, Next = some n ∧ ∀ o ∈ Offs, FunctionBase < o ∧ o < n := by
  induction Offs generalizing V with
  | nil => exact absurd rfl hne
  | cons o Offs ih =>
    unfold VerifyLoop
    cases Next with
    | none =>
      simp only [List.length_cons]
      have := VerifyLoop_le FunctionBase none Offs V
      constructor
      · intro h
        omega
      · rintro ⟨n, hn, _⟩
        cases hn
    | some n =>
      simp only [List.length_cons, Option.some.injEq, exists_eq_left', List.mem_cons,
        forall_eq_or_imp]
      split_ifs with hb
      · constructor
        · intro h
          omega
        · rintro ⟨h1, _⟩
          omega
      · by_cases hO : Offs = []
        · subst hO
          have h1 : VerifyLoop FunctionBase (some n) [] (V + 1) = V + 1 := rfl
          push_neg at hb
          simp [h1, hb.1, hb.2]
        · have := ih (V + 1) hO
          simp only [Option.some.injEq, exists_eq_left'] at this
          rw [show V + (Offs.length + 1) = V + 1 + Offs.length by omega, this]
          constructor
          · intro h
            exact ⟨by omega, h⟩
          · intro h
            exact h.2

theorem candidate_check_iff (Z : ZydisStrings) (A : DumpAnalyzer) (FunctionSize : Nat)
    (Anchors : List (TAnchor × Option Nat)) (hA : Anchors ≠ []) (FunctionBase : Nat)
    (Next : Option Nat) (Offs : List Nat) :
    (AnchorsLoop Z A FunctionBase FunctionSize Anchors [] = some (some Offs) ∧
      Offs.length = Anchors.length ∧ VerifyLoop FunctionBase Next Offs 0 = Offs.length) ↔
    CandidatePasses Z A FunctionSize Anchors FunctionBase Next Offs := by
  have hpos : 0 < Anchors.length := List.length_pos.2 hA
  constructor
  · rintro ⟨hR, hLen, hV⟩
    obtain ⟨New, hOut, _, hAll⟩ := AnchorsLoop_spec Z A _ _ _ _ _ hR
    simp only [List.nil_append] at hOut
    subst hOut
    have hne : Offs ≠ [] := List.ne_nil_of_length_pos (by omega)
    refine ⟨hAll hLen, ?_⟩
    rw [← VerifyLoop_eq_iff FunctionBase Next Offs 0 hne]
    omega
  · rintro ⟨hAll, hB⟩
    have hR := AnchorsLoop_found Z A FunctionBase FunctionSize Anchors [] Offs hAll
    simp only [List.nil_append] at hR
    have hLen := hAll.length_eq
    have hne : Offs ≠ [] := List.ne_nil_of_length_pos (by omega)
    refine ⟨hR, hLen.symm, ?_⟩
    have := (VerifyLoop_eq_iff FunctionBase Next Offs 0 hne).2 hB
    omega

theorem CandidatesLoop_found (Z : ZydisStrings) (A : DumpAnalyzer) (FunctionSize : Nat)
    (Anchors : List (TAnchor × Option Nat)) (hA : Anchors ≠ []) (Bases : List Nat) (fb : Nat)
    (hfb : fb ≠ 0) :
    CandidatesLoop Z A FunctionSize Anchors Bases = some (some fb) ↔
      ∃ i Offs, Bases[i]? = some fb ∧
        CandidatePasses Z A FunctionSize Anchors fb Bases[i + 1]? Offs ∧
        ∀ j, j < i → ∀ d, Bases[j]? = some d →
          CandidateGivenUp Z A FunctionSize Anchors d Bases[j + 1]? := by
  induction Bases with
  | nil =>
    simp only [CandidatesLoop, Option.some.injEq]
    constructor
    · intro h
      exact absurd h.symm hfb
    · rintro ⟨i, Offs, h, _⟩
      simp at h
  | cons b Rest ih =>
    have hnext : (b :: Rest)[0 + 1]? = Rest.head? := by
      cases Rest <;> simp
    have hshift : ∀ i Offs,
        (Rest[i]? = some fb ∧ CandidatePasses Z A FunctionSize Anchors fb Rest[i + 1]? Offs ∧
          ∀ j, j < i → ∀ d, Rest[j]? = some d →
            CandidateGivenUp Z A FunctionSize Anchors d Rest[j + 1]?) →
        CandidateGivenUp Z A FunctionSize Anchors b Rest.head? →
        ∃ i Offs, (b :: Rest)[i]? = some fb ∧
          CandidatePasses Z A FunctionSize Anchors fb (b :: Rest)[i + 1]? Offs ∧
          ∀ j, j < i → ∀ d, (b :: Rest)[j]? = some d →
            CandidateGivenUp Z A FunctionSize Anchors d (b :: Rest)[j + 1]? := by
      rintro i Offs ⟨h1, h2, h3⟩ hG
      refine ⟨i + 1, Offs, by simpa using h1, by simpa using h2, ?_⟩
      intro j hj d hd
      cases j with
      | zero =>
        simp only [List.getElem?_cons_zero, Option.some.injEq] at hd
        subst hd
        rw [hnext]
        exact hG
      | succ j =>
        simp only [List.getElem?_cons_succ] at hd ⊢
        exact h3 j (by omega) d hd
    have hunshift : (∃ i Offs, (b :: Rest)[i]? = some fb ∧
          CandidatePasses Z A FunctionSize Anchors fb (b :: Rest)[i + 1]? Offs ∧
          ∀ j, j < i → ∀ d, (b :: Rest)[j]? = some d →
            CandidateGivenUp Z A FunctionSize Anchors d (b :: Rest)[j + 1]?) →
        (∃ Offs, b = fb ∧ CandidatePasses Z A FunctionSize Anchors b Rest.head? Offs) ∨
        (CandidateGivenUp Z A FunctionSize Anchors b Rest.head? ∧
          ∃ i Offs, Rest[i]? = some fb ∧
            CandidatePasses Z A FunctionSize Anchors fb Rest[i + 1]? Offs ∧
            ∀ j, j < i → ∀ d, Rest[j]? = some d →
              CandidateGivenUp Z A FunctionSize Anchors d Rest[j + 1]?) := by
      rintro ⟨i, Offs, h1, h2, h3⟩
      cases i with
      | zero =>
        left
        simp only [List.getElem?_cons_zero, Option.some.injEq] at h1
        subst h1
        rw [hnext] at h2
        exact ⟨Offs, rfl, h2⟩
      | succ i =>
        right
        refine ⟨?_, i, Offs, by simpa using h1, by simpa using h2, ?_⟩
        · have := h3 0 (by omega) b (by simp)
          rwa [hnext] at this
        · intro j hj d hd
          have := h3 (j + 1) (by omega) d (by simpa using hd)
          simpa using this
    unfold CandidatesLoop
    cases hR : AnchorsLoop Z A b FunctionSize Anchors [] with
    | none =>
      simp only
      constructor
      · intro h
        cases h
      · intro h
        rcases hunshift h with ⟨Offs, _, hP⟩ | ⟨hG, _⟩
        · rw [((candidate_check_iff Z A FunctionSize Anchors hA b _ Offs).2 hP).1] at hR
          cases hR
        · obtain ⟨⟨C, hC⟩, _⟩ := hG
          rw [hC] at hR
          cases hR
    | some R =>
      cases R with
      | none =>
        simp only
        constructor
        · intro h
          cases h
        · intro h
          rcases hunshift h with ⟨Offs, _, hP⟩ | ⟨hG, _⟩
          · rw [((candidate_check_iff Z A FunctionSize Anchors hA b _ Offs).2 hP).1] at hR
            cases hR
          · obtain ⟨⟨C, hC⟩, _⟩ := hG
            rw [hC] at hR
            cases hR
      | some Collected =>
        simp only
        have hdet : ∀ Offs, CandidatePasses Z A FunctionSize Anchors b Rest.head? Offs →
            Offs = Collected ∧ Collected.length = Anchors.length ∧
              VerifyLoop b Rest.head? Collected 0 = Collected.length := by
          intro Offs hP
          obtain ⟨h1, h2, h3⟩ := (candidate_check_iff Z A FunctionSize Anchors hA b _ Offs).2 hP
          rw [hR] at h1
          simp only [Option.some.injEq] at h1
          subst h1
          exact ⟨rfl, h2, h3⟩
        by_cases hLen : Collected.length = Anchors.length
        · rw [if_neg (by simpa using hLen)]
          by_cases hV : VerifyLoop b Rest.head? Collected 0 = Collected.length
          · rw [if_pos hV]
            have hP := (candidate_check_iff Z A FunctionSize Anchors hA b _ Collected).1
              ⟨hR, hLen, hV⟩
            simp only [Option.some.injEq]
            constructor
            · intro h
              subst h
              exact ⟨0, Collected, by simp, by rw [hnext]; exact hP, fun j hj => by omega⟩
            · intro h
              rcases hunshift h with ⟨Offs, hb, _⟩ | ⟨hG, _⟩
              · exact hb
              · exact absurd hP (hG.2 Collected)
          · rw [if_neg hV, ih]
            have hG : CandidateGivenUp Z A FunctionSize Anchors b Rest.head? :=
              ⟨⟨Collected, hR⟩, fun Offs hP => hV (hdet Offs hP).2.2⟩
            constructor
            · rintro ⟨i, Offs, h⟩
              exact hshift i Offs h hG
            · intro h
              rcases hunshift h with ⟨Offs, _, hP⟩ | ⟨_, h⟩
              · exact absurd (hdet Offs hP).2.2 hV
              · exact h
        · rw [if_pos (by simpa using hLen), ih]
          have hG : CandidateGivenUp Z A FunctionSize Anchors b Rest.head? :=
            ⟨⟨Collected, hR⟩, fun Offs hP => hLen (hdet Offs hP).2.1⟩
          constructor
          · rintro ⟨i, Offs, h⟩
            exact hshift i Offs h hG
          · intro h
            rcases hunshift h with ⟨Offs, _, hP⟩ | ⟨_, h⟩
            · exact absurd (hdet Offs hP).2.1 hLen
            · exact h

theorem DriverScan_lea_after_zeros {α : Type}
    (Pick : Nat → ZydisDecodedInstruction → List ZydisDecodedOperand → Option α)
    (k b0 b1 b2 b3 : Nat) (Tail : List Nat) (Out : α)
    (hP : Pick k ⟨ZydisMnemonic.LEA, 7, 2, 2, 64⟩
      [ZydisDecodedOperand.REGISTER ZydisRegister.RAX,
        ZydisDecodedOperand.MEMORY ZydisRegister.RIP ZydisRegister.NONE 0
          (signExtend32 (b0 + 256 * b1 + 65536 * b2 + 16777216 * b3)) 32] = some Out) :
    DecodeScanLoop DriverDecoder
      (List.replicate k 0 ++ (0x48 :: 0x8D :: 0x05 :: b0 :: b1 :: b2 :: b3 :: Tail)) Pick
      ((List.replicate k 0 ++ (0x48 :: 0x8D :: 0x05 :: b0 :: b1 :: b2 :: b3 :: Tail)).length + 1)
      0 = some (some Out) := by
  have hlen : (List.replicate k 0 ++
      (0x48 :: 0x8D :: 0x05 :: b0 :: b1 :: b2 :: b3 :: Tail)).length + 1 =
      k + (Tail.length + 7 + 1) := by
    simp only [List.length_append, List.length_replicate, List.length_cons]
    omega
  have h0 := DecodeScanLoop_zeros k (0x48 :: 0x8D :: 0x05 :: b0 :: b1 :: b2 :: b3 :: Tail) Pick k
    (Tail.length + 7 + 1) (le_refl k)
  rw [Nat.sub_self] at h0
  rw [hlen, h0]
  have hdrop : (List.replicate k 0 ++
      (0x48 :: 0x8D :: 0x05 :: b0 :: b1 :: b2 :: b3 :: Tail)).drop k =
      0x48 :: 0x8D :: 0x05 :: b0 :: b1 :: b2 :: b3 :: Tail := by
    rw [List.drop_append_of_le_length (by simp), List.drop_replicate, Nat.sub_self]
    rfl
  refine DecodeScanLoop_hit DriverDecoder _ Pick (Tail.length + 7) k
    ⟨ZydisMnemonic.LEA, 7, 2, 2, 64⟩ _ Out ?_ ?_ ?_ hP
  · simp only [List.length_append, List.length_replicate, List.length_cons]
    omega
  · rw [hdrop]
    rfl
  · rw [hdrop]
    rfl

theorem FunctionBaseScenario_reference1 :
    FunctionBaseScenario.FindRipRelativeReference 0x1000 0x500 0x5000 (some LeaFilter) =
      some (some ⟨⟨0x1420, 7⟩, some 0x1420⟩) := by
  have hRead : FunctionBaseScenario.Read 0x1000 0x500 =
      some (List.replicate 0x420 0 ++ ([0x48, 0x8D, 0x05, 0xD9, 0x3B, 0x00, 0x00] ++
        List.replicate 0xD9 0)) :=
    Read_window FunctionBaseScenario 0x1000 0 [] _ _ rfl (by decide)
      FunctionBaseScenario_window1 rfl 0x500
      (by rw [List.length_append, List.length_replicate, List.length_append,
        List.length_replicate]; rfl) (by decide)
  unfold DumpAnalyzer.FindRipRelativeReference DumpAnalyzer.DecodeScan
  rw [hRead]
  simp only
  rw [if_neg (by decide)]
  exact DriverScan_lea_after_zeros _ 0x420 0xD9 0x3B 0x00 0x00 _ _ (by decide)

theorem FunctionBaseScenario_window2 :
    FunctionBaseScenario.InFile =
      List.replicate 0x400 0 ++ (List.replicate 0x20 0 ++
        ([0x48, 0x8D, 0x05, 0xD9, 0x3B, 0x00, 0x00] ++ List.replicate 0x4D9 0)) ++
      (List.replicate 0x700 0 ++
        [0x48, 0x00, 0x65, 0x00, 0x6C, 0x00, 0x6C, 0x00, 0x6F, 0x00, 0, 0, 0, 0, 0, 0]) := by
  decide!

theorem FunctionBaseScenario_reference2 :
    FunctionBaseScenario.FindRipRelativeReference 0x1400 0x500 0x5000 (some LeaFilter) =
      some (some ⟨⟨0x1420, 7⟩, some 0x1420⟩) := by
  have hRead : FunctionBaseScenario.Read 0x1400 0x500 =
      some (List.replicate 0x20 0 ++ ([0x48, 0x8D, 0x05, 0xD9, 0x3B, 0x00, 0x00] ++
        List.replicate 0x4D9 0)) :=
    Read_window FunctionBaseScenario 0x1400 0x400 (List.replicate 0x400 0) _ _ rfl (by decide)
      FunctionBaseScenario_window2 (List.length_replicate _ _) 0x500
      (by rw [List.length_append, List.length_replicate, List.length_append,
        List.length_replicate]; rfl) (by decide)
  unfold DumpAnalyzer.FindRipRelativeReference DumpAnalyzer.DecodeScan
  rw [hRead]
  simp only
  rw [if_neg (by decide)]
  exact DriverScan_lea_after_zeros _ 0x20 0xD9 0x3B 0x00 0x00 _ _ (by decide)

theorem FunctionBaseScenario_string :
    FunctionBaseScenario.FindString FunctionBaseSections StringType.UTF16_LE "Hello".toList 1 =
      some (some ⟨⟨0x5000, 0⟩, some [0x5000]⟩) := by
  have hfile : FunctionBaseScenario.InFile =
      (List.replicate 0x420 0 ++ [0x48, 0x8D, 0x05, 0xD9, 0x3B, 0x00, 0x00] ++
        List.replicate 0xBD9 0) ++
      [0x48, 0x00, 0x65, 0x00, 0x6C, 0x00, 0x6C, 0x00, 0x6F, 0x00, 0, 0, 0, 0, 0, 0] ++ [] := by
    rw [List.append_nil]
    rfl
  have hRead : FunctionBaseScenario.Read 0x5000 0x10 =
      some [0x48, 0x00, 0x65, 0x00, 0x6C, 0x00, 0x6C, 0x00, 0x6F, 0x00, 0, 0, 0, 0, 0, 0] :=
    Read_window FunctionBaseScenario 0x5000 0x1000 _ _ _ rfl (by decide) hfile
      (by rw [List.length_append, List.length_append, List.length_replicate,
        List.length_replicate]; rfl) 0x10 rfl (by decide)
  have hSec : GetSection [⟨".text", 0x1000, 0x1000⟩, ⟨".rdata", 0x5000, 0x10⟩] ".rdata" =
      some ⟨".rdata", 0x5000, 0x10⟩ := by decide
  unfold DumpAnalyzer.FindString FunctionBaseSections
  simp only [hSec, hRead]
  decide

theorem AnchorsLoop_single_string (Z : ZydisStrings) (A : DumpAnalyzer)
    (FunctionBase FunctionSize StringRef : Nat) (Anchor : TAnchor) (Found : Result Nat)
    (hT : Anchor.Type' = AnchorType.String)
    (hF : A.FindRipRelativeReference FunctionBase FunctionSize StringRef (some LeaFilter) =
      some (some Found)) :
    AnchorsLoop Z A FunctionBase FunctionSize [(Anchor, some StringRef)] [] =
      some (some [Found.Range.Offset]) := by
  simp only [AnchorsLoop, AnchorStepAt, hT, Option.getD_some, hF, AnchorStepOf,
    List.nil_append]

theorem CandidatesLoop_give_up (Z : ZydisStrings) (A : DumpAnalyzer) (FunctionSize : Nat)
    (Anchors : List (TAnchor × Option Nat)) (FunctionBase : Nat) (Rest AnchorOffsets : List Nat)
    (hA : AnchorsLoop Z A FunctionBase FunctionSize Anchors [] = some (some AnchorOffsets))
    (hV : AnchorOffsets.length ≠ Anchors.length ∨
      VerifyLoop FunctionBase Rest.head? AnchorOffsets 0 ≠ AnchorOffsets.length) :
    CandidatesLoop Z A FunctionSize Anchors (FunctionBase :: Rest) =
      CandidatesLoop Z A FunctionSize Anchors Rest := by
  rw [CandidatesLoop, hA]
  simp only
  rcases hV with hV | hV
  · rw [if_pos hV]
  · split_ifs
    · rfl
    · rfl

theorem CandidatesLoop_accept (Z : ZydisStrings) (A : DumpAnalyzer) (FunctionSize : Nat)
    (Anchors : List (TAnchor × Option Nat)) (FunctionBase : Nat) (Rest AnchorOffsets : List Nat)
    (hA : AnchorsLoop Z A FunctionBase FunctionSize Anchors [] = some (some AnchorOffsets))
    (hL : AnchorOffsets.length = Anchors.length)
    (hV : VerifyLoop FunctionBase Rest.head? AnchorOffsets 0 = AnchorOffsets.length) :
    CandidatesLoop Z A FunctionSize Anchors (FunctionBase :: Rest) = some (some FunctionBase) := by
  rw [CandidatesLoop, hA]
  simp only
  rw [if_neg (by simpa using hL), if_pos hV]

theorem SetFunctionBase_single_string (Z : ZydisStrings) (A : DumpAnalyzer)
    (InPeSections : Option (List PeSection)) (FunctionBases : List Nat)
    (Function : TSearchRegion) (Anchor : TAnchor) (StringMatches : Result (List Nat))
    (StringRef FunctionSize FoundFunctionBase : Nat)
    (hAnchors : Function.Anchors = [Anchor]) (hT : Anchor.Type' = AnchorType.String)
    (hSize : add64 Function.RegionRange.Size Function.RegionRange.SizeVariation = FunctionSize)
    (hSize0 : FunctionSize ≠ 0)
    (hS : A.FindString InPeSections StringType.UTF16_LE Anchor.String (add64 Anchor.Index 1) =
      some (some StringMatches))
    (hRef : (StringMatches.Value.getD [])[Anchor.Index]? = some StringRef)
    (hC : CandidatesLoop Z A FunctionSize [(Anchor, some StringRef)] FunctionBases =
      some (some FoundFunctionBase))
    (hF : FoundFunctionBase ≠ 0) :
    SetFunctionBase Z A InPeSections FunctionBases Function =
      some (some FoundFunctionBase,
        { Function with
          RegionRange := { Function.RegionRange with Offset := FoundFunctionBase } }) := by
  have hRefs : StringRefOffsetsLoop A InPeSections Function.Anchors =
      some (some [some StringRef]) := by
    rw [hAnchors]
    simp only [StringRefOffsetsLoop, hT, if_true, hS, hRef]
  unfold SetFunctionBase
  rw [if_neg (by rw [hAnchors]; simp)]
  simp only [hSize, if_neg hSize0, hRefs]
  rw [hAnchors]
  simp only [List.zip_cons_cons, List.zip_nil_right, hC, if_pos hF]

/-- The function-base scenario: the candidate `0x1000` is given up (the LEA
at `0x1420` lies beyond the next function `0x1400`), the candidate `0x1400`
is accepted. -/
theorem FunctionBaseScenario_result :
    SetFunctionBase ScenarioStrings FunctionBaseScenario FunctionBaseSections
        [0x1000, 0x1400, 0x1A00] FunctionBaseRegion =
      some (some 0x1400,
        { FunctionBaseRegion with RegionRange := { Offset := 0x1400, Size := 0x500 } }) := by
  have hA1 := AnchorsLoop_single_string ScenarioStrings FunctionBaseScenario 0x1000 0x500 0x5000
    { Type' := AnchorType.String, String := "Hello".toList } _ rfl
    FunctionBaseScenario_reference1
  have hA2 := AnchorsLoop_single_string ScenarioStrings FunctionBaseScenario 0x1400 0x500 0x5000
    { Type' := AnchorType.String, String := "Hello".toList } _ rfl
    FunctionBaseScenario_reference2
  have hC1 := CandidatesLoop_give_up ScenarioStrings FunctionBaseScenario 0x500 _ 0x1000
    [0x1400, 0x1A00] _ hA1 (Or.inr (by decide))
  have hC2 := CandidatesLoop_accept ScenarioStrings FunctionBaseScenario 0x500 _ 0x1400
    [0x1A00] _ hA2 rfl (by decide)
  exact SetFunctionBase_single_string ScenarioStrings FunctionBaseScenario FunctionBaseSections
    [0x1000, 0x1400, 0x1A00] FunctionBaseRegion
    { Type' := AnchorType.String, String := "Hello".toList } _ 0x5000 0x500 0x1400 rfl rfl
    (by decide) (by decide) FunctionBaseScenario_string rfl (hC1.trans hC2) (by decide)

theorem StringRefOffsetsLoop_length (A : DumpAnalyzer) (InPeSections : Option (List PeSection))
    (Anchors : List TAnchor) (StringRefOffsets : List (Option Nat))
    (h : StringRefOffsetsLoop A InPeSections Anchors = some (some StringRefOffsets)) :
    StringRefOffsets.length = Anchors.length := by
  induction Anchors generalizing StringRefOffsets with
  | nil =>
    simp only [StringRefOffsetsLoop, Option.some.injEq] at h
    subst h
    rfl
  | cons Anchor Rest ih =>
    rw [StringRefOffsetsLoop] at h
    split_ifs at h with hT
    · cases hS : A.FindString InPeSections StringType.UTF16_LE Anchor.String
          (add64 Anchor.Index 1) with
      | none => rw [hS] at h; cases h
      | some r =>
        cases r with
        | none => rw [hS] at h; cases h
        | some StringMatches =>
          rw [hS] at h
          dsimp only at h
          cases hI : (StringMatches.Value.getD [])[Anchor.Index]? with
          | none => rw [hI] at h; cases h
          | some StringRef =>
            rw [hI] at h
            dsimp only at h
            cases hR : StringRefOffsetsLoop A InPeSections Rest with
            | none => rw [hR] at h; cases h
            | some r2 =>
              cases r2 with
              | none => rw [hR] at h; cases h
              | some L =>
                rw [hR] at h
                simp only [Option.some.injEq] at h
                subst h
                simp [ih L hR]
    · cases hR : StringRefOffsetsLoop A InPeSections Rest with
      | none => rw [hR] at h; cases h
      | some r2 =>
        cases r2 with
        | none => rw [hR] at h; cases h
        | some L =>
          rw [hR] at h
          simp only [Option.some.injEq] at h
          subst h
          simp [ih L hR]

/-- What a successful `SetFunctionBase` amounts to. -/
theorem SetFunctionBase_some_iff (Z : ZydisStrings) (A : DumpAnalyzer)
    (InPeSections : Option (List PeSection)) (FunctionBases : List Nat)
    (Function : TSearchRegion) (c : Nat) (Function' : TSearchRegion) :
    SetFunctionBase Z A InPeSections FunctionBases Function = some (some c, Function') ↔
      c ≠ 0 ∧ Function.Anchors ≠ [] ∧
      add64 Function.RegionRange.Size Function.RegionRange.SizeVariation ≠ 0 ∧
      Function' =
        { Function with RegionRange := { Function.RegionRange with Offset := c } } ∧
      ∃ StringRefOffsets,
        StringRefOffsetsLoop A InPeSections Function.Anchors = some (some StringRefOffsets) ∧
        CandidatesLoop Z A
          (add64 Function.RegionRange.Size Function.RegionRange.SizeVariation)
          (Function.Anchors.zip StringRefOffsets) FunctionBases = some (some c) := by
  unfold SetFunctionBase
  by_cases hA : Function.Anchors = []
  · rw [if_pos hA]
    simp [hA]
  rw [if_neg hA]
  dsimp only
  by_cases hS : add64 Function.RegionRange.Size Function.RegionRange.SizeVariation = 0
  · rw [if_pos hS]
    simp [hS]
  rw [if_neg hS]
  cases hR : StringRefOffsetsLoop A InPeSections Function.Anchors with
  | none => simp
  | some r =>
    cases r with
    | none => simp
    | some Refs =>
      dsimp only
      cases hC : CandidatesLoop Z A
          (add64 Function.RegionRange.Size Function.RegionRange.SizeVariation)
          (Function.Anchors.zip Refs) FunctionBases with
      | none => simp [hC]
      | some r2 =>
        cases r2 with
        | none => simp [hC]
        | some fb =>
          dsimp only
          by_cases hfb : fb = 0
          · rw [if_neg (by simpa using hfb)]
            constructor
            · intro h
              simp at h
            · rintro ⟨hc, _, _, _, Refs', hR', hC'⟩
              simp only [Option.some.injEq] at hR'
              subst hR'
              rw [hC] at hC'
              simp only [Option.some.injEq] at hC'
              exact absurd (hC'.symm.trans hfb) hc
          · rw [if_pos hfb]
            constructor
            · intro h
              simp only [Option.some.injEq, Prod.mk.injEq] at h
              obtain ⟨rfl, rfl⟩ := h
              exact ⟨hfb, hA, hS, rfl, Refs, rfl, hC⟩
            · rintro ⟨_, _, _, hF, Refs', hR', hC'⟩
              simp only [Option.some.injEq] at hR'
              subst hR'
              rw [hC] at hC'
              simp only [Option.some.injEq] at hC'
              subst hC'
              rw [hF]

theorem Pairwise_getElem?_lt (Bases : List Nat) (hSorted : Bases.Pairwise (· < ·))
    (j k x y : Nat) (hjk : j < k) (hx : Bases[j]? = some x) (hy : Bases[k]? = some y) :
    x < y := by
  obtain ⟨hj, rfl⟩ := List.getElem?_eq_some_iff.1 hx
  obtain ⟨hk, rfl⟩ := List.getElem?_eq_some_iff.1 hy
  exact List.pairwise_iff_getElem.1 hSorted j k hj hk hjk

theorem Forall₂_exists_of_mem {α β : Type} (R : α → β → Prop) (l₁ : List α) (l₂ : List β)
    (h : List.Forall₂ R l₁ l₂) (a : α) (ha : a ∈ l₁) : ∃ b ∈ l₂, R a b := by
  induction h with
  | nil => cases ha
  | @cons x y l₁ l₂ hxy _ ih =>
    rcases List.mem_cons.1 ha with rfl | ha
    · exact ⟨y, List.mem_cons_self _ _, hxy⟩
    · obtain ⟨b, hb, hR⟩ := ih ha
      exact ⟨b, List.mem_cons_of_mem _ hb, hR⟩

theorem zip_ne_nil {α β : Type} (l₁ : List α) (l₂ : List β) (h₁ : l₁ ≠ [])
    (h : l₂.length = l₁.length) : l₁.zip l₂ ≠ [] := by
  cases l₁ with
  | nil => exact absurd rfl h₁
  | cons a l₁ =>
    cases l₂ with
    | nil => simp at h
    | cons b l₂ => simp

/-- C12: whenever `SetFunctionBase` resolves a region to the base `b` (the
function set being in strictly ascending order), `b` has a next larger element
`n` in the function set, and every anchor of the region was matched for the
candidate `b` at an offset `o` with `b < o < n`. -/
theorem SetFunctionBase_anchor_bounds (Z : ZydisStrings) (A : DumpAnalyzer)
    (InPeSections : Option (List PeSection)) (FunctionBases : List Nat)
    (Function : TSearchRegion) (b : Nat) (Function' : TSearchRegion)
    (hSorted : FunctionBases.Pairwise (· < ·))
    (h : SetFunctionBase Z A InPeSections FunctionBases Function = some (some b, Function')) :
    ∃ StringRefOffsets n,
      StringRefOffsetsLoop A InPeSections Function.Anchors = some (some StringRefOffsets) ∧
      StringRefOffsets.length = Function.Anchors.length ∧
      b ∈ FunctionBases ∧ n ∈ FunctionBases ∧ b < n ∧
      (∀ m ∈ FunctionBases, b < m → n ≤ m) ∧
      ∀ Anchor ∈ Function.Anchors.zip StringRefOffsets, ∃ o,
        AnchorStepAt Z A b
            (add64 Function.RegionRange.Size Function.RegionRange.SizeVariation)
            Anchor.1 Anchor.2 = AnchorStep.Found o ∧
          b < o ∧ o < n := by
  obtain ⟨hb, hA, _, _, Refs, hR, hC⟩ :=
    (SetFunctionBase_some_iff Z A InPeSections FunctionBases Function b Function').1 h
  have hLen := StringRefOffsetsLoop_length A InPeSections _ _ hR
  obtain ⟨i, Offs, hi, ⟨hAll, n, hn, hB⟩, _⟩ :=
    (CandidatesLoop_found Z A _ _ (zip_ne_nil _ _ hA hLen) FunctionBases b hb).1 hC
  refine ⟨Refs, n, hR, hLen, List.mem_iff_getElem?.2 ⟨i, hi⟩,
    List.mem_iff_getElem?.2 ⟨i + 1, hn⟩,
    Pairwise_getElem?_lt FunctionBases hSorted i (i + 1) b n (Nat.lt_succ_self i) hi hn, ?_, ?_⟩
  · intro m hm hbm
    obtain ⟨k, hk⟩ := List.mem_iff_getElem?.1 hm
    rcases Nat.lt_trichotomy k (i + 1) with hlt | heq | hgt
    · rcases Nat.lt_or_eq_of_le (Nat.lt_succ_iff.1 hlt) with hlt | heq
      · have := Pairwise_getElem?_lt FunctionBases hSorted k i m b hlt hk hi
        omega
      · subst heq
        rw [hi] at hk
        simp only [Option.some.injEq] at hk
        omega
    · subst heq
      rw [hn] at hk
      simp only [Option.some.injEq] at hk
      omega
    · exact Nat.le_of_lt (Pairwise_getElem?_lt FunctionBases hSorted (i + 1) k n m hgt hn hk)
  · intro Anchor hAnchor
    obtain ⟨o, ho, hStep⟩ := Forall₂_exists_of_mem _ _ _ hAll Anchor hAnchor
    exact ⟨o, hStep, hB o ho⟩

/-- C12, at the function-base scenario: function set `0x1000, 0x1400, 0x1A00`,
the string `Hello` at `0x5000`, referenced by the LEA at `0x1420`; the region
resolves to `0x1400`. -/
theorem SetFunctionBase_anchor_bounds_witness :
    List.Pairwise (· < ·) [0x1000, 0x1400, 0x1A00] ∧
    ∃ StringRefOffsets n,
      StringRefOffsetsLoop FunctionBaseScenario FunctionBaseSections FunctionBaseRegion.Anchors =
        some (some StringRefOffsets) ∧
      StringRefOffsets.length = FunctionBaseRegion.Anchors.length ∧
      0x1400 ∈ [0x1000, 0x1400, 0x1A00] ∧ n ∈ [0x1000, 0x1400, 0x1A00] ∧ 0x1400 < n ∧
      (∀ m ∈ [0x1000, 0x1400, 0x1A00], 0x1400 < m → n ≤ m) ∧
      ∀ Anchor ∈ FunctionBaseRegion.Anchors.zip StringRefOffsets, ∃ o,
        AnchorStepAt ScenarioStrings FunctionBaseScenario 0x1400
            (add64 FunctionBaseRegion.RegionRange.Size
              FunctionBaseRegion.RegionRange.SizeVariation)
            Anchor.1 Anchor.2 = AnchorStep.Found o ∧
          0x1400 < o ∧ o < n :=
  ⟨by decide,
    SetFunctionBase_anchor_bounds ScenarioStrings FunctionBaseScenario FunctionBaseSections
      [0x1000, 0x1400, 0x1A00] FunctionBaseRegion 0x1400 _ (by decide)
      FunctionBaseScenario_result⟩

/-- C13 (counterexample): with the function set `0, 0x10`, a dump whose byte
5 is `0x90`, and a region of size 8 with the `Pattern` anchor `90`, the
candidate 0 is the first of the set, its anchor is found at offset 5 inside
`[0, 8)`, and `0 < 5 < 0x10` passes the boundary verification; yet
`SetFunctionBase` returns nothing and leaves the region as it was, because the
base found is tested by `if (FoundFunctionBase)`. -/
theorem SetFunctionBase_candidate_zero :
    SetFunctionBase ScenarioStrings ZeroBaseScenario none [0, 0x10] ZeroBaseRegion =
        some (none, ZeroBaseRegion) ∧
      CandidatePasses ScenarioStrings ZeroBaseScenario 8 (ZeroBaseRegion.Anchors.zip [none]) 0
        (some 0x10) [5] := by
  constructor
  · decide
  · exact ⟨List.Forall₂.cons (by decide) List.Forall₂.nil, 0x10, rfl, by decide⟩

/-- C13 (amended): `SetFunctionBase` returns `c` and sets the offset of the
region range to `c` exactly when `c` is not 0, the region has anchors and a
size (with variation) other than 0, the occurrences of the `String` anchors
are found, and `c` is the first candidate of the function set, in ascending
order, that passes: every anchor is found in the window of `size` bytes at `c`
and lies strictly between `c` and the next function, all earlier candidates
being given up.  In the function-base scenario (function set
`0x1000, 0x1400, 0x1A00`, string at `0x5000` referenced only by the LEA at
`0x1420`, size `0x500`) the result is `0x1400`. -/
theorem SetFunctionBase_first_candidate :
    (∀ (Z : ZydisStrings) (A : DumpAnalyzer) (InPeSections : Option (List PeSection))
        (FunctionBases : List Nat) (Function : TSearchRegion) (c : Nat)
        (Function' : TSearchRegion),
      SetFunctionBase Z A InPeSections FunctionBases Function = some (some c, Function') ↔
        c ≠ 0 ∧ Function.Anchors ≠ [] ∧
        add64 Function.RegionRange.Size Function.RegionRange.SizeVariation ≠ 0 ∧
        Function' =
          { Function with RegionRange := { Function.RegionRange with Offset := c } } ∧
        ∃ StringRefOffsets,
          StringRefOffsetsLoop A InPeSections Function.Anchors =
            some (some StringRefOffsets) ∧
          ∃ i AnchorOffsets, FunctionBases[i]? = some c ∧
            CandidatePasses Z A
              (add64 Function.RegionRange.Size Function.RegionRange.SizeVariation)
              (Function.Anchors.zip StringRefOffsets) c FunctionBases[i + 1]? AnchorOffsets ∧
            ∀ j, j < i → ∀ d, FunctionBases[j]? = some d →
              CandidateGivenUp Z A
                (add64 Function.RegionRange.Size Function.RegionRange.SizeVariation)
                (Function.Anchors.zip StringRefOffsets) d FunctionBases[j + 1]?) ∧
    SetFunctionBase ScenarioStrings FunctionBaseScenario FunctionBaseSections
        [0x1000, 0x1400, 0x1A00] FunctionBaseRegion =
      some (some 0x1400,
        { FunctionBaseRegion with RegionRange := { Offset := 0x1400, Size := 0x500 } }) := by
  refine ⟨?_, FunctionBaseScenario_result⟩
  intro Z A InPeSections FunctionBases Function c Function'
  rw [SetFunctionBase_some_iff]
  constructor
  · rintro ⟨hc, hA, hS, hF, Refs, hR, hC⟩
    have hLen := StringRefOffsetsLoop_length A InPeSections _ _ hR
    exact ⟨hc, hA, hS, hF, Refs, hR,
      (CandidatesLoop_found Z A _ _ (zip_ne_nil _ _ hA hLen) FunctionBases c hc).1 hC⟩
  · rintro ⟨hc, hA, hS, hF, Refs, hR, hC⟩
    have hLen := StringRefOffsetsLoop_length A InPeSections _ _ hR
    exact ⟨hc, hA, hS, hF, Refs, hR,
      (CandidatesLoop_found Z A _ _ (zip_ne_nil _ _ hA hLen) FunctionBases c hc).2 hC⟩

theorem MatcherState.Extends_nil (S : MatcherState) : S.Extends S [] := by
  simp [MatcherState.Extends]

theorem MatcherState.Extends_cons (S S0 : MatcherState) (Matcher : TMatcher) (o s : Nat)
    (Hits : List (TMatcher × Nat × Nat)) (h : S.Extends (PostMatching S0 Matcher o s) Hits) :
    S.Extends S0 ((Matcher, o, s) :: Hits) := by
  obtain ⟨h1, h2, h3, h4⟩ := h
  refine ⟨?_, ?_, ?_, ?_⟩
  · rw [h1]
    simp [PostMatching]
  · rw [h2]
    simp [PostMatching]
  · rw [h3]
    simp [PostMatching]
    omega
  · rw [h4]
    cases Hits with
    | nil => simp [PostMatching]
    | cons H Hits =>
      obtain ⟨x, hx⟩ : ∃ x, (H :: Hits).getLast? = some x :=
        ⟨_, List.getLast?_eq_getLast _ (by simp)⟩
      simp [List.getLast?_cons_cons, hx]

/-- What a matcher loop that comes to an end has done: the matchers that
matched form a sublist of the matchers, each with its match, and the state
records them in order. -/
theorem MatchersLoop_spec (Z : ZydisStrings) (A : DumpAnalyzer) (StartOffset Size ToMatch : Nat)
    (Matchers : List TMatcher) (S0 S : MatcherState)
    (h : MatchersLoop Z A StartOffset Size ToMatch Matchers S0 = some (some S)) :
    ∃ Hits : List (TMatcher × Nat × Nat), S.Extends S0 Hits ∧
      List.Sublist (Hits.map Prod.fst) Matchers ∧
      ∀ H ∈ Hits, MatcherStepAt Z A StartOffset Size H.1 = MatcherStep.Matched H.2.1 H.2.2 := by
  induction Matchers generalizing S0 with
  | nil =>
    simp only [MatchersLoop, Option.some.injEq] at h
    subst h
    exact ⟨[], MatcherState.Extends_nil _, List.Sublist.refl _, by simp⟩
  | cons Matcher Rest ih =>
    rw [MatchersLoop] at h
    cases hStep : MatcherStepAt Z A StartOffset Size Matcher with
    | Throw => rw [hStep] at h; cases h
    | Return => rw [hStep] at h; cases h
    | NoMatch =>
      rw [hStep] at h
      dsimp only at h
      split_ifs at h with hT
      · simp only [Option.some.injEq] at h
        subst h
        exact ⟨[], MatcherState.Extends_nil _, by simp, by simp⟩
      · obtain ⟨Hits, hE, hSub, hAll⟩ := ih S0 h
        exact ⟨Hits, hE, List.Sublist.cons _ hSub, hAll⟩
    | Matched o s =>
      rw [hStep] at h
      dsimp only at h
      split_ifs at h with hT
      · simp only [Option.some.injEq] at h
        subst h
        refine ⟨[(Matcher, o, s)], MatcherState.Extends_cons _ _ _ _ _ _
          (MatcherState.Extends_nil _), ?_, ?_⟩
        · simp
        · intro H hH
          simp only [List.mem_singleton] at hH
          subst hH
          exact hStep
      · obtain ⟨Hits, hE, hSub, hAll⟩ := ih _ h
        refine ⟨(Matcher, o, s) :: Hits, MatcherState.Extends_cons _ _ _ _ _ _ hE, ?_, ?_⟩
        · simpa using hSub.cons₂ Matcher
        · intro H hH
          rcases List.mem_cons.1 hH with rfl | hH
          · exact hStep
          · exact hAll H hH

/-- A matcher loop none of whose matchers raises an exception comes to an
end. -/
theorem MatchersLoop_isSome (Z : ZydisStrings) (A : DumpAnalyzer)
    (StartOffset Size ToMatch : Nat) (Matchers : List TMatcher) (S0 : MatcherState)
    (h : ∀ Matcher ∈ Matchers,
      MatcherStepAt Z A StartOffset Size Matcher ≠ MatcherStep.Throw) :
    ∃ R, MatchersLoop Z A StartOffset Size ToMatch Matchers S0 = some R := by
  induction Matchers generalizing S0 with
  | nil => exact ⟨_, rfl⟩
  | cons Matcher Rest ih =>
    have hRest : ∀ M ∈ Rest, MatcherStepAt Z A StartOffset Size M ≠ MatcherStep.Throw :=
      fun M hM => h M (List.mem_cons_of_mem _ hM)
    rw [MatchersLoop]
    cases hStep : MatcherStepAt Z A StartOffset Size Matcher with
    | Throw => exact absurd hStep (h Matcher (List.mem_cons_self _ _))
    | Return => exact ⟨_, rfl⟩
    | NoMatch =>
      dsimp only
      split_ifs
      · exact ⟨_, rfl⟩
      · exact ih S0 hRest
    | Matched o s =>
      dsimp only
      split_ifs
      · exact ⟨_, rfl⟩
      · exact ih _ hRest

/-- In mode `All`, a matcher loop that ends with as many matches as there are
matchers has matched every matcher, and the list of instruction offsets holds
one offset per matcher. -/
theorem MatchersLoop_all (Z : ZydisStrings) (A : DumpAnalyzer) (StartOffset Size : Nat)
    (Matchers : List TMatcher) (S : MatcherState)
    (h : MatchersLoop Z A StartOffset Size Matchers.length Matchers {} = some (some S))
    (hS : ¬ S.SuccessfulMatches < Matchers.length) :
    ∀ Matcher ∈ Matchers, ∃ o s,
      MatcherStepAt Z A StartOffset Size Matcher = MatcherStep.Matched o s ∧
      add64 o Matcher.Offset ∈ S.InstructionOffsetsVerifying := by
  obtain ⟨Hits, ⟨h1, _, h3, _⟩, hSub, hAll⟩ := MatchersLoop_spec Z A _ _ _ _ _ _ h
  have hLen : (Hits.map Prod.fst).length = Matchers.length := by
    have := hSub.length_le
    simp only [List.length_map] at this ⊢
    simp only [zero_add] at h3
    omega
  have hEq := hSub.eq_of_length hLen
  intro Matcher hM
  rw [← hEq] at hM
  obtain ⟨H, hH, rfl⟩ := List.mem_map.1 hM
  refine ⟨H.2.1, H.2.2, hAll H hH, ?_⟩
  rw [h1]
  exact List.mem_append_right _ (List.mem_map.2 ⟨H, hH, rfl⟩)

/-- C17: for a target in mode `All`, whenever `ValueExtractingHandler` returns
a value, the target has matchers, every matcher matched, and every matcher
gives the same instruction offset `match_offset + matcher.offset` (in 64
bits), which is the offset the extractor ran at; and if two matchers that
matched give different instruction offsets, the handler returns nothing
(provided no matcher raises an exception). -/
theorem ValueExtractingHandler_all {α : Type} (Z : ZydisStrings) (A : DumpAnalyzer)
    (Region : TSearchRegion) (ToFind : TSearchFor) (MatcherCoverage : TRange)
    (Extractor : Nat → Nat → Option (Option (Result α)))
    (hMode : ToFind.MatcherMode = MatcherMode.All) :
    (∀ Found MatcherCoverage',
      ValueExtractingHandler Z A Region ToFind MatcherCoverage Extractor =
        some (some Found, MatcherCoverage') →
      ToFind.Matchers ≠ [] ∧ ∃ InstructionOffset,
        (∀ Matcher ∈ ToFind.Matchers, ∃ o s,
          MatcherStepAt Z A
              (add64 Region.RegionRange.Offset (SetBoundaries Region ToFind).Offset)
              (SetBoundaries Region ToFind).Size Matcher = MatcherStep.Matched o s ∧
            add64 o Matcher.Offset = InstructionOffset) ∧
        Extractor InstructionOffset (SetBoundaries Region ToFind).Size = some (some Found)) ∧
    (∀ M1 ∈ ToFind.Matchers, ∀ M2 ∈ ToFind.Matchers, ∀ o1 s1 o2 s2,
      MatcherStepAt Z A (add64 Region.RegionRange.Offset (SetBoundaries Region ToFind).Offset)
          (SetBoundaries Region ToFind).Size M1 = MatcherStep.Matched o1 s1 →
      MatcherStepAt Z A (add64 Region.RegionRange.Offset (SetBoundaries Region ToFind).Offset)
          (SetBoundaries Region ToFind).Size M2 = MatcherStep.Matched o2 s2 →
      add64 o1 M1.Offset ≠ add64 o2 M2.Offset →
      (∀ Matcher ∈ ToFind.Matchers,
        MatcherStepAt Z A (add64 Region.RegionRange.Offset (SetBoundaries Region ToFind).Offset)
          (SetBoundaries Region ToFind).Size Matcher ≠ MatcherStep.Throw) →
      ValueExtractingHandler Z A Region ToFind MatcherCoverage Extractor =
        some (none, MatcherCoverage)) := by
  constructor
  · intro Found MC' h
    unfold ValueExtractingHandler at h
    simp only [hMode] at h
    by_cases hN : ToFind.Matchers.length = 0
    · simp [hN] at h
    rw [if_neg (by simp [hN])] at h
    refine ⟨fun hnil => hN (by rw [hnil]; rfl), ?_⟩
    cases hL : MatchersLoop Z A
        (add64 Region.RegionRange.Offset (SetBoundaries Region ToFind).Offset)
        (SetBoundaries Region ToFind).Size ToFind.Matchers.length ToFind.Matchers {} with
    | none => rw [hL] at h; cases h
    | some R =>
      cases R with
      | none => rw [hL] at h; simp at h
      | some S =>
        rw [hL] at h
        dsimp only at h
        rw [if_pos (by decide)] at h
        split_ifs at h with hS hD
        · simp at h
        · simp at h
        · cases hE : Extractor S.InstructionOffset (SetBoundaries Region ToFind).Size with
          | none => rw [hE] at h; cases h
          | some Extracted =>
            rw [hE] at h
            simp only [Option.some.injEq, Prod.mk.injEq] at h
            refine ⟨S.InstructionOffset, ?_, by rw [hE, h.1]⟩
            intro Matcher hM
            obtain ⟨o, s, hStep, hMem⟩ := MatchersLoop_all Z A _ _ _ S hL hS Matcher hM
            refine ⟨o, s, hStep, ?_⟩
            by_contra hne
            apply hD
            rw [List.any_eq_true]
            exact ⟨_, hMem, by simpa using fun h' => hne h'.symm⟩
  · intro M1 hM1 M2 hM2 o1 s1 o2 s2 h1 h2 hne hT
    unfold ValueExtractingHandler
    simp only [hMode]
    by_cases hN : ToFind.Matchers.length = 0
    · simp [hN]
    rw [if_neg (by simp [hN])]
    obtain ⟨R, hL⟩ := MatchersLoop_isSome Z A _ _ ToFind.Matchers.length ToFind.Matchers {} hT
    rw [hL]
    cases R with
    | none => rfl
    | some S =>
      dsimp only
      rw [if_pos (by decide)]
      by_cases hS : S.SuccessfulMatches < ToFind.Matchers.length
      · rw [if_pos hS]
      · rw [if_neg hS]
        obtain ⟨o1', s1', hStep1, hMem1⟩ := MatchersLoop_all Z A _ _ _ S hL hS M1 hM1
        obtain ⟨o2', s2', hStep2, hMem2⟩ := MatchersLoop_all Z A _ _ _ S hL hS M2 hM2
        rw [h1] at hStep1
        rw [h2] at hStep2
        simp only [MatcherStep.Matched.injEq] at hStep1 hStep2
        rw [← hStep1.1] at hMem1
        rw [← hStep2.1] at hMem2
        rw [if_pos]
        rw [List.any_eq_true]
        by_cases hI : S.InstructionOffset = add64 o1 M1.Offset
        · exact ⟨_, hMem2, by simpa [hI] using hne⟩
        · exact ⟨_, hMem1, by simpa using hI⟩

/-- C17, at a target in mode `All` whose two `Pattern` matchers both match at
offset 0 of the bytes `BA 78 56 34 12 C3`: the handler returns the immediate
`0x12345678` of the instruction at offset 0. -/
theorem ValueExtractingHandler_all_witness :
    AllModeTarget.MatcherMode = MatcherMode.All ∧
    ValueExtractingHandler ScenarioStrings AllModeAnalyzer AllModeRegion AllModeTarget {}
        (fun StartOffset Size => AllModeAnalyzer.ExtractImmediate StartOffset Size) =
      some (some ⟨⟨0, 5⟩, some 0x12345678⟩, { Offset := 0, Size := 3 }) ∧
    ((∀ Found MatcherCoverage',
      ValueExtractingHandler ScenarioStrings AllModeAnalyzer AllModeRegion AllModeTarget {}
          (fun StartOffset Size => AllModeAnalyzer.ExtractImmediate StartOffset Size) =
        some (some Found, MatcherCoverage') →
      AllModeTarget.Matchers ≠ [] ∧ ∃ InstructionOffset,
        (∀ Matcher ∈ AllModeTarget.Matchers, ∃ o s,
          MatcherStepAt ScenarioStrings AllModeAnalyzer
              (add64 AllModeRegion.RegionRange.Offset
                (SetBoundaries AllModeRegion AllModeTarget).Offset)
              (SetBoundaries AllModeRegion AllModeTarget).Size Matcher =
              MatcherStep.Matched o s ∧
            add64 o Matcher.Offset = InstructionOffset) ∧
        AllModeAnalyzer.ExtractImmediate InstructionOffset
          (SetBoundaries AllModeRegion AllModeTarget).Size = some (some Found)) ∧
    (∀ M1 ∈ AllModeTarget.Matchers, ∀ M2 ∈ AllModeTarget.Matchers, ∀ o1 s1 o2 s2,
      MatcherStepAt ScenarioStrings AllModeAnalyzer
          (add64 AllModeRegion.RegionRange.Offset
            (SetBoundaries AllModeRegion AllModeTarget).Offset)
          (SetBoundaries AllModeRegion AllModeTarget).Size M1 = MatcherStep.Matched o1 s1 →
      MatcherStepAt ScenarioStrings AllModeAnalyzer
          (add64 AllModeRegion.RegionRange.Offset
            (SetBoundaries AllModeRegion AllModeTarget).Offset)
          (SetBoundaries AllModeRegion AllModeTarget).Size M2 = MatcherStep.Matched o2 s2 →
      add64 o1 M1.Offset ≠ add64 o2 M2.Offset →
      (∀ Matcher ∈ AllModeTarget.Matchers,
        MatcherStepAt ScenarioStrings AllModeAnalyzer
          (add64 AllModeRegion.RegionRange.Offset
            (SetBoundaries AllModeRegion AllModeTarget).Offset)
          (SetBoundaries AllModeRegion AllModeTarget).Size Matcher ≠ MatcherStep.Throw) →
      ValueExtractingHandler ScenarioStrings AllModeAnalyzer AllModeRegion AllModeTarget {}
          (fun StartOffset Size => AllModeAnalyzer.ExtractImmediate StartOffset Size) =
        some (none, {}))) :=
  ⟨rfl, by decide,
    ValueExtractingHandler_all ScenarioStrings AllModeAnalyzer AllModeRegion AllModeTarget {}
      (fun StartOffset Size => AllModeAnalyzer.ExtractImmediate StartOffset Size) rfl⟩

theorem JSON_UpdateSearchRange_off (F : OffsetFinder) (Range : TRange) (Region : TSearchRegion)
    (ToFind : TSearchFor) (h : F.ShouldSyncSearchConfig = false) :
    F.JSON_UpdateSearchRange Range Region ToFind = Except.ok F := by
  unfold OffsetFinder.JSON_UpdateSearchRange
  rw [if_pos (by simp [h])]

theorem JSON_SyncSearchRange_off (F : OffsetFinder) (Range : TRange) (Region : TSearchRegion)
    (ToFind : TSearchFor) (h : F.ShouldSyncSearchConfig = false) :
    F.JSON_SyncSearchRange Range Region ToFind = some F := by
  unfold OffsetFinder.JSON_SyncSearchRange
  rw [JSON_UpdateSearchRange_off F Range Region ToFind h]

theorem ValueHandler_KeepsConfig {α : Type} (Z : ZydisStrings)
    (Extractor : DumpAnalyzer → Nat → Nat → Option (Option (Result α)))
    (Wrap : α → FoundValue) : KeepsConfig (ValueHandler Z Extractor Wrap) := by
  intro F R T b F' hF h
  unfold ValueHandler at h
  cases hT : F.Target R T with
  | none => rw [hT] at h; cases h
  | some RT =>
    obtain ⟨Region, ToFind⟩ := RT
    rw [hT] at h
    dsimp only at h
    cases hV : ValueExtractingHandler Z F.Analyzer Region ToFind {} (Extractor F.Analyzer) with
    | none => rw [hV] at h; cases h
    | some Res =>
      obtain ⟨Extracted, MC⟩ := Res
      rw [hV] at h
      cases Extracted with
      | none =>
        simp only [Option.some.injEq, Prod.mk.injEq] at h
        rw [← h.2]
        exact ⟨hF, rfl⟩
      | some Extracted =>
        dsimp only at h
        cases hVal : Extracted.Value with
        | none => rw [hVal] at h; cases h
        | some Value =>
          rw [hVal] at h
          dsimp only at h
          rw [JSON_SyncSearchRange_off F _ _ _ hF] at h
          simp only [Option.some.injEq, Prod.mk.injEq] at h
          rw [← h.2]
          exact ⟨hF, rfl⟩

theorem ValueHandlers_KeepsConfig (Z : ZydisStrings) (T : SearchType) (Handler : SearchHandler)
    (h : ValueHandlers Z T = some Handler) : KeepsConfig Handler := by
  cases T <;> simp only [ValueHandlers, Option.some.injEq] at h
  all_goals first
    | (subst h; exact ValueHandler_KeepsConfig Z _ _)
    | cases h

theorem HandleFindsLoop_keeps (Handlers : SearchType → Option SearchHandler)
    (hH : ∀ T Handler, Handlers T = some Handler → KeepsConfig Handler) (RegionIndex : Nat)
    (Remaining FindIndex : Nat) (F F' : OffsetFinder) (hF : F.ShouldSyncSearchConfig = false)
    (h : HandleFindsLoop Handlers RegionIndex Remaining FindIndex F = some F') :
    F'.ShouldSyncSearchConfig = false ∧ F'.JSON_SearchRegions = F.JSON_SearchRegions := by
  induction Remaining generalizing FindIndex F with
  | zero =>
    simp only [HandleFindsLoop, Option.some.injEq] at h
    subst h
    exact ⟨hF, rfl⟩
  | succ Remaining ih =>
    rw [HandleFindsLoop] at h
    cases hT : F.Target RegionIndex FindIndex with
    | none => rw [hT] at h; cases h
    | some RT =>
      rw [hT] at h
      dsimp only at h
      cases hHd : Handlers RT.2.SearchType with
      | none => rw [hHd] at h; cases h
      | some Handler =>
        rw [hHd] at h
        dsimp only at h
        cases hR : Handler F RegionIndex FindIndex with
        | none => rw [hR] at h; cases h
        | some Res =>
          obtain ⟨b, F1⟩ := Res
          rw [hR] at h
          dsimp only at h
          obtain ⟨h1, h2⟩ := hH _ _ hHd F RegionIndex FindIndex b F1 hF hR
          obtain ⟨h3, h4⟩ := ih _ _ h1 h
          exact ⟨h3, h4.trans h2⟩

theorem HandleExpectedFinds_keeps (Handlers : SearchType → Option SearchHandler)
    (hH : ∀ T Handler, Handlers T = some Handler → KeepsConfig Handler) (RegionIndex : Nat)
    (F F' : OffsetFinder) (hF : F.ShouldSyncSearchConfig = false)
    (h : F.HandleExpectedFinds Handlers RegionIndex = some F') :
    F'.ShouldSyncSearchConfig = false ∧ F'.JSON_SearchRegions = F.JSON_SearchRegions := by
  unfold OffsetFinder.HandleExpectedFinds at h
  cases hR : F.SearchRegions[RegionIndex]? with
  | none => rw [hR] at h; cases h
  | some Region =>
    rw [hR] at h
    exact HandleFindsLoop_keeps Handlers hH RegionIndex _ _ F F' hF h

theorem SetBase_keeps (Z : ZydisStrings) (F : OffsetFinder) (RegionIndex : Nat) (b : Bool)
    (F' : OffsetFinder) (h : SetBase Z F RegionIndex = some (b, F')) :
    F'.ShouldSyncSearchConfig = F.ShouldSyncSearchConfig ∧
      F'.JSON_SearchRegions = F.JSON_SearchRegions ∧ F'.FoundList = F.FoundList := by
  unfold SetBase at h
  cases hR : F.SearchRegions[RegionIndex]? with
  | none => rw [hR] at h; cases h
  | some Region =>
    rw [hR] at h
    dsimp only at h
    cases hT : Region.RegionType with
    | Unknown =>
      rw [hT] at h
      simp only [Option.some.injEq, Prod.mk.injEq] at h
      rw [← h.2]
      exact ⟨rfl, rfl, rfl⟩
    | Function =>
      rw [hT] at h
      dsimp only at h
      cases hS : SetFunctionBase Z F.Analyzer F.InPeSections F.InFunctions Region with
      | none => rw [hS] at h; cases h
      | some Res =>
        rw [hS] at h
        simp only [Option.some.injEq, Prod.mk.injEq] at h
        rw [← h.2]
        exact ⟨rfl, rfl, rfl⟩
    | Section =>
      rw [hT] at h
      dsimp only at h
      cases hP : F.InPeSections with
      | none =>
        rw [hP] at h
        simp only [Option.some.injEq, Prod.mk.injEq] at h
        rw [← h.2]
        exact ⟨rfl, rfl, rfl⟩
      | some Sections_ =>
        rw [hP] at h
        dsimp only at h
        split_ifs at h with hID
        · cases hG : GetSection Sections_ ".text" with
          | none =>
            rw [hG] at h
            simp only [Option.some.injEq, Prod.mk.injEq] at h
            rw [← h.2]
            exact ⟨rfl, rfl, rfl⟩
          | some Section =>
            rw [hG] at h
            simp only [Option.some.injEq, Prod.mk.injEq] at h
            rw [← h.2]
            exact ⟨rfl, rfl, rfl⟩
        · simp only [Option.some.injEq, Prod.mk.injEq] at h
          rw [← h.2]
          exact ⟨rfl, rfl, rfl⟩

theorem FindLoop_keeps (Z : ZydisStrings) (Handlers : SearchType → Option SearchHandler)
    (hH : ∀ T Handler, Handlers T = some Handler → KeepsConfig Handler)
    (Remaining RegionIndex : Nat) (F F' : OffsetFinder)
    (hF : F.ShouldSyncSearchConfig = false)
    (h : FindLoop Handlers (RegionHandler Z) Remaining RegionIndex F = some F') :
    F'.ShouldSyncSearchConfig = false ∧ F'.JSON_SearchRegions = F.JSON_SearchRegions := by
  induction Remaining generalizing RegionIndex F with
  | zero =>
    simp only [FindLoop, Option.some.injEq] at h
    subst h
    exact ⟨hF, rfl⟩
  | succ Remaining ih =>
    rw [FindLoop] at h
    cases hR : F.SearchRegions[RegionIndex]? with
    | none => rw [hR] at h; cases h
    | some Region =>
      rw [hR] at h
      dsimp only at h
      split_ifs at h with hA
      · exact ih _ _ hF h
      · cases hB : RegionHandler Z F RegionIndex with
        | none => rw [hB] at h; cases h
        | some Res =>
          obtain ⟨b, F1⟩ := Res
          rw [hB] at h
          obtain ⟨h1, h2, _⟩ := SetBase_keeps Z F RegionIndex b F1 hB
          rw [hF] at h1
          cases b with
          | false =>
            dsimp only at h
            obtain ⟨h3, h4⟩ := ih _ _ h1 h
            exact ⟨h3, h4.trans h2⟩
          | true =>
            dsimp only at h
            cases hE : F1.HandleExpectedFinds Handlers RegionIndex with
            | none => rw [hE] at h; cases h
            | some F2 =>
              rw [hE] at h
              dsimp only at h
              obtain ⟨h5, h6⟩ := HandleExpectedFinds_keeps Handlers hH RegionIndex F1 F2 h1 hE
              obtain ⟨h3, h4⟩ := ih _ _ h5 h
              exact ⟨h3, h4.trans (h6.trans h2)⟩

/-- A pass of `Find` that starts with the synchronisation flag off leaves the
JSON configuration as it was, whatever flag it is called with: the flag is
assigned after the loop. -/
theorem Find_keeps (Z : ZydisStrings) (Handlers : SearchType → Option SearchHandler)
    (hH : ∀ T Handler, Handlers T = some Handler → KeepsConfig Handler)
    (F F' : OffsetFinder) (ShouldSyncSearchConfig : Bool)
    (hF : F.ShouldSyncSearchConfig = false)
    (h : F.Find Handlers (RegionHandler Z) ShouldSyncSearchConfig = some F') :
    F'.ShouldSyncSearchConfig = ShouldSyncSearchConfig ∧
      F'.JSON_SearchRegions = F.JSON_SearchRegions := by
  unfold OffsetFinder.Find at h
  cases hL : FindLoop Handlers (RegionHandler Z) F.SearchRegions.length 0 F with
  | none => rw [hL] at h; cases h
  | some F1 =>
    rw [hL] at h
    simp only [Option.some.injEq] at h
    subst h
    exact ⟨rfl, (FindLoop_keeps Z Handlers hH _ _ F F1 hF hL).2⟩

/-- C18 (code defect): in the synchronisation scenario (region base `0x3000`,
search window `0x3080 .. 0x30AF`) the pattern subsequence `48 89`, `C3` is
found at `0x3090` (2 bytes) and `0x30A5` (1 byte), a span of `0x16` bytes from
`0x3090`; `ImmediateHandler`, run with the synchronisation flag on, writes
`Offset = 0x90` and `Size = 2` into the search range of the target: the range
of the sub-pattern at `Matcher.Index` alone, not the span from the first
sub-pattern to the end of the last.  With the range written (`0x90`, 2) the
same target no longer matches. -/
theorem ImmediateHandler_subsequence_range :
    SyncAnalyzer.FindPatternSubsequence 0x3080 0x30 ["48 89".toList, "C3".toList] =
        some (some ⟨⟨0x3090, 0x16⟩, some [⟨0x3090, 2⟩, ⟨0x30A5, 1⟩]⟩) ∧
      (ImmediateHandler ScenarioStrings (SyncFinder true) 0 0).map
          (fun R => (R.1,
            R.2.JSON_SearchRegions.numberAt (SyncRangePath ++ [Sum.inl "Offset"]),
            R.2.JSON_SearchRegions.numberAt (SyncRangePath ++ [Sum.inl "Size"]),
            R.2.FoundList)) =
        some (true, some 0x90, some 2,
          [⟨SyncTarget { Offset := 0x80, Size := 0x30 }, FoundValue.U64 0x12345678⟩]) ∧
      (ImmediateHandler ScenarioStrings
          { SyncFinder true with SearchRegions := [SyncRegion { Offset := 0x90, Size := 2 }] }
          0 0).map (fun R => (R.1, R.2.FoundList)) = some (false, []) := by
  refine ⟨?_, ?_, ?_⟩
  · decide!
  · decide!
  · decide!

/-- C19 (code defect): `Find` called with `sync = true` on the finder of the
synchronisation scenario, whose flag is still off, handles the target (the
find is added; the coverage relative to the region base is `0x90`, size 2)
and leaves `SearchRange.Offset = 0x80` and `SearchRange.Size = 0x30` in the
JSON configuration: the flag `ShouldSyncSearchConfig` is assigned only after
the loop over the regions, so every write-back of the pass returns at once.
This holds for every finder whose flag is off and every set of handlers that
write through `JSON_SyncSearchRange` only. -/
theorem Find_sync_fresh :
    ((SyncFinder false).Find (ValueHandlers ScenarioStrings) (RegionHandler ScenarioStrings)
          true).map
        (fun F => (F.ShouldSyncSearchConfig,
          F.JSON_SearchRegions.numberAt (SyncRangePath ++ [Sum.inl "Offset"]),
          F.JSON_SearchRegions.numberAt (SyncRangePath ++ [Sum.inl "Size"]),
          F.FoundList)) =
      some (true, some 0x80, some 0x30,
        [⟨SyncTarget { Offset := 0x80, Size := 0x30 }, FoundValue.U64 0x12345678⟩]) ∧
    ∀ (Z : ZydisStrings) (Handlers : SearchType → Option SearchHandler)
      (F F' : OffsetFinder) (ShouldSyncSearchConfig : Bool),
      (∀ T Handler, Handlers T = some Handler → KeepsConfig Handler) →
      F.ShouldSyncSearchConfig = false →
      F.Find Handlers (RegionHandler Z) ShouldSyncSearchConfig = some F' →
      F'.JSON_SearchRegions = F.JSON_SearchRegions := by
  constructor
  · decide!
  · intro Z Handlers F F' S hH hF h
    exact (Find_keeps Z Handlers hH F F' S hF h).2

theorem FindMember_SetMember_self (Key : String) (V : JSON) (Ms : List (String × JSON)) :
    FindMember Key (SetMember Key V Ms) = some V := by
  induction Ms with
  | nil => simp [SetMember, FindMember]
  | cons M Ms ih =>
    obtain ⟨K, Old⟩ := M
    by_cases hK : K = Key
    · simp [SetMember, FindMember, hK]
    · simp [SetMember, FindMember, hK, ih]

theorem FindMember_SetMember_ne (Key K' : String) (V : JSON) (Ms : List (String × JSON))
    (h : K' ≠ Key) : FindMember K' (SetMember Key V Ms) = FindMember K' Ms := by
  induction Ms with
  | nil => simp [SetMember, FindMember, Ne.symm h]
  | cons M Ms ih =>
    obtain ⟨K, Old⟩ := M
    by_cases hK : K = Key
    · subst hK
      simp [SetMember, FindMember, Ne.symm h]
    · by_cases hK' : K = K'
      · subst hK'
        simp [SetMember, FindMember, hK]
      · simp [SetMember, FindMember, hK, hK', ih]

theorem filter_SetMember (p : String → Bool) (Key : String) (hp : p Key = false) (V : JSON)
    (Ms : List (String × JSON)) :
    (SetMember Key V Ms).filter (fun M => p M.1) = Ms.filter (fun M => p M.1) := by
  induction Ms with
  | nil => simp [SetMember, hp]
  | cons M Ms ih =>
    obtain ⟨K, Old⟩ := M
    by_cases hK : K = Key
    · subst hK
      simp [SetMember, hp]
    · simp only [SetMember, hK, if_false, List.filter_cons, ih]

theorem SetMember_SetMember (Key : String) (V1 V2 : JSON) (Ms : List (String × JSON)) :
    SetMember Key V2 (SetMember Key V1 Ms) = SetMember Key V2 Ms := by
  induction Ms with
  | nil => simp [SetMember]
  | cons M Ms ih =>
    obtain ⟨K, Old⟩ := M
    by_cases hK : K = Key
    · simp [SetMember, hK]
    · simp [SetMember, hK, ih]

theorem SetMember_of_find (Key : String) (V : JSON) (Ms : List (String × JSON))
    (h : FindMember Key Ms = some V) : SetMember Key V Ms = Ms := by
  induction Ms with
  | nil => simp [FindMember] at h
  | cons M Ms ih =>
    obtain ⟨K, Old⟩ := M
    by_cases hK : K = Key
    · simp only [FindMember, hK, if_true, Option.some.injEq] at h
      simp [SetMember, hK, h]
    · simp only [FindMember, hK, if_false] at h
      simp [SetMember, hK, ih h]

theorem keys_SetMember (Key : String) (V : JSON) (Ms : List (String × JSON))
    (h : (FindMember Key Ms).isSome = true) :
    (SetMember Key V Ms).map Prod.fst = Ms.map Prod.fst := by
  induction Ms with
  | nil => simp [FindMember] at h
  | cons M Ms ih =>
    obtain ⟨K, Old⟩ := M
    by_cases hK : K = Key
    · simp [SetMember, hK]
    · simp only [FindMember, hK, if_false] at h
      simp [SetMember, hK, ih h]

/-- What `auto& X = J[Key];` with an update of `X` amounts to. -/
theorem JSON.update_ok (J : JSON) (Key : String) (f : JSON → Except Thrown JSON) (J' : JSON)
    (h : J.update Key f = Except.ok J') :
    ∃ V, f ((J.find Key).getD JSON.null) = Except.ok V ∧
      J' = JSON.object (SetMember Key V J.members) := by
  unfold JSON.update at h
  cases J with
  | null =>
    dsimp only at h
    cases hf : f JSON.null with
    | error E => rw [hf] at h; cases h
    | ok V =>
      rw [hf] at h
      simp only [Except.ok.injEq] at h
      exact ⟨V, hf, h.symm⟩
  | object Ms =>
    dsimp only at h
    cases hf : f ((FindMember Key Ms).getD JSON.null) with
    | error E => rw [hf] at h; cases h
    | ok V =>
      rw [hf] at h
      simp only [Except.ok.injEq] at h
      exact ⟨V, hf, h.symm⟩
  | boolean b => cases h
  | number n => cases h
  | string s => cases h
  | array xs => cases h

theorem SameButMember_SetMember (J : JSON) (Key : String) (V : JSON) :
    SameButMember J (JSON.object (SetMember Key V J.members)) Key V := by
  refine ⟨FindMember_SetMember_self Key V _, ?_, ?_⟩
  · exact filter_SetMember (fun K => decide (K ≠ Key)) Key (by simp) V J.members
  · intro h
    exact keys_SetMember Key V J.members h

theorem at_getString_ok (Item : JSON) (Key ID : String) (Member : JSON)
    (h1 : Item.at Key = Except.ok Member) (h2 : Member.getString = Except.ok ID) :
    Item.find Key = some (JSON.string ID) ∧ Item = JSON.object Item.members := by
  cases Item with
  | object Ms =>
    simp only [JSON.at] at h1
    cases hF : FindMember Key Ms with
    | none => rw [hF] at h1; cases h1
    | some V =>
      rw [hF] at h1
      simp only [Except.ok.injEq] at h1
      subst h1
      cases V with
      | string s =>
        simp only [JSON.getString, Except.ok.injEq] at h2
        subst h2
        exact ⟨hF, rfl⟩
      | null => cases h2
      | boolean b => cases h2
      | number n => cases h2
      | array xs => cases h2
      | object ms => cases h2
  | null => cases h1
  | boolean b => cases h1
  | number n => cases h1
  | string s => cases h1
  | array xs => cases h1

/-- What a loop of `JSON_UpdateSearchRange` that comes to an end has done:
nothing, when no item agrees, or the body on the first item that agrees. -/
theorem UpdateFirstLoop_ok (Key ID : String) (Body : JSON → Except Thrown JSON)
    (Items Items' : List JSON) (h : UpdateFirstLoop Key ID Body Items = Except.ok Items') :
    Items' = Items ∨
      ∃ Index Item Item', FirstWith Key ID Items Index Item ∧
        Item = JSON.object Item.members ∧ Body Item = Except.ok Item' ∧
        Items' = Items.set Index Item' := by
  induction Items generalizing Items' with
  | nil =>
    simp only [UpdateFirstLoop, Except.ok.injEq] at h
    exact Or.inl h.symm
  | cons Item Rest ih =>
    rw [UpdateFirstLoop] at h
    cases hAt : Item.at Key with
    | error E => rw [hAt] at h; cases h
    | ok Member =>
      rw [hAt] at h
      dsimp only at h
      cases hS : Member.getString with
      | error E => rw [hS] at h; cases h
      | ok ItemID =>
        rw [hS] at h
        dsimp only at h
        obtain ⟨hFind, hObj⟩ := at_getString_ok Item Key ItemID Member hAt hS
        split_ifs at h with hID
        · cases hR : UpdateFirstLoop Key ID Body Rest with
          | error E => rw [hR] at h; cases h
          | ok Rest' =>
            rw [hR] at h
            simp only [Except.ok.injEq] at h
            subst h
            rcases ih Rest' hR with hEq | ⟨Index, X, X', ⟨hX, hXF, hBefore⟩, hXO, hB, hSet⟩
            · exact Or.inl (by rw [hEq])
            · refine Or.inr ⟨Index + 1, X, X', ⟨by simpa using hX, hXF, ?_⟩, hXO, hB, ?_⟩
              · intro J hJ Other hOther
                cases J with
                | zero =>
                  simp only [List.getElem?_cons_zero, Option.some.injEq] at hOther
                  subst hOther
                  exact ⟨ItemID, hFind, fun hh => hID hh.symm⟩
                | succ J =>
                  simp only [List.getElem?_cons_succ] at hOther
                  exact hBefore J (by omega) Other hOther
              · rw [hSet]
                rfl
        · cases hB : Body Item with
          | error E => rw [hB] at h; cases h
          | ok Item' =>
            rw [hB] at h
            simp only [Except.ok.injEq] at h
            subst h
            have hEq : ID = ItemID := by
              by_contra hne
              exact hID hne
            subst hEq
            refine Or.inr ⟨0, Item, Item', ⟨by simp, hFind, ?_⟩, hObj, hB, rfl⟩
            intro J hJ
            omega

theorem FindMember_filter (p : String → Bool) (Key : String) (hp : p Key = true)
    (Ms : List (String × JSON)) :
    FindMember Key (Ms.filter fun M => p M.1) = FindMember Key Ms := by
  induction Ms with
  | nil => rfl
  | cons M Ms ih =>
    obtain ⟨K, V⟩ := M
    by_cases hK : K = Key
    · subst hK
      simp [List.filter_cons, hp, FindMember]
    · by_cases hpK : p K = true
      · simp [List.filter_cons, hpK, FindMember, hK, ih]
      · simp [List.filter_cons, hpK, FindMember, hK, ih]

/-- The two assignments to `Find["SearchRange"]` give the member `SearchRange`
a value whose `Offset` and `Size` are the numbers written and whose other
members are those the search range had. -/
theorem WriteSearchRange_ok (Range : TRange) (Find Find' : JSON)
    (h : WriteSearchRange Range Find = Except.ok Find') :
    ∃ SearchRange', SameButMember Find Find' "SearchRange" SearchRange' ∧
      SearchRange'.find "Offset" = some (JSON.number Range.Offset) ∧
      SearchRange'.find "Size" = some (JSON.number Range.Size) ∧
      (SearchRange'.members.filter fun M => M.1 ≠ "Offset" ∧ M.1 ≠ "Size") =
        (((Find.find "SearchRange").getD JSON.null).members.filter
          fun M => M.1 ≠ "Offset" ∧ M.1 ≠ "Size") := by
  unfold WriteSearchRange at h
  cases h1 : Find.update "SearchRange"
      (fun SearchRange => SearchRange.update "Offset" fun _ =>
        Except.ok (JSON.number Range.Offset)) with
  | error E => rw [h1] at h; cases h
  | ok Find1 =>
    rw [h1] at h
    dsimp only at h
    obtain ⟨SR1, hSR1, hF1⟩ := JSON.update_ok _ _ _ _ h1
    obtain ⟨SR2, hSR2, hF2⟩ := JSON.update_ok _ _ _ _ h
    obtain ⟨V1, hV1, hSR1'⟩ := JSON.update_ok _ _ _ _ hSR1
    simp only [Except.ok.injEq] at hV1
    subst hV1
    have hFind1 : (Find1.find "SearchRange").getD JSON.null = SR1 := by
      rw [hF1]
      show (FindMember "SearchRange" (SetMember "SearchRange" SR1 Find.members)).getD _ = _
      rw [FindMember_SetMember_self]
      rfl
    rw [hFind1] at hSR2
    obtain ⟨V2, hV2, hSR2'⟩ := JSON.update_ok _ _ _ _ hSR2
    simp only [Except.ok.injEq] at hV2
    subst hV2
    have hMs1 : Find1.members = SetMember "SearchRange" SR1 Find.members := by rw [hF1]; rfl
    refine ⟨SR2, ?_, ?_, ?_, ?_⟩
    · rw [hF2, hMs1, SetMember_SetMember]
      exact SameButMember_SetMember Find "SearchRange" SR2
    · rw [hSR2']
      show FindMember "Offset" (SetMember "Size" _ SR1.members) = _
      rw [FindMember_SetMember_ne _ _ _ _ (by decide), hSR1']
      exact FindMember_SetMember_self _ _ _
    · rw [hSR2']
      exact FindMember_SetMember_self _ _ _
    · rw [hSR2']
      show (SetMember "Size" _ SR1.members).filter _ = _
      rw [filter_SetMember (fun K => decide (K ≠ "Offset" ∧ K ≠ "Size")) "Size" (by decide),
        hSR1']
      show (SetMember "Offset" _ _).filter _ = _
      rw [filter_SetMember (fun K => decide (K ≠ "Offset" ∧ K ≠ "Size")) "Offset" (by decide)]

theorem List.set_of_getElem? {α : Type} (L : List α) (I : Nat) (X : α) (h : L[I]? = some X) :
    L.set I X = L := by
  induction L generalizing I with
  | nil => rfl
  | cons Y L ih =>
    cases I with
    | zero =>
      simp only [List.getElem?_cons_zero, Option.some.injEq] at h
      subst h
      rfl
    | succ I =>
      simp only [List.getElem?_cons_succ] at h
      simp [List.set, ih I h]

theorem SyncFinder_written :
    (SyncFinder true).JSON_UpdateSearchRange { Offset := 0x90, Size := 2 }
        (SyncRegion { Offset := 0x80, Size := 0x30 })
        (SyncTarget { Offset := 0x80, Size := 0x30 }) =
      Except.ok { SyncFinder true with JSON_SearchRegions := SyncConfigWritten } := by
  rfl

/-- C20 (amended): for a configuration that is an array of regions each of
which has an array `SearchFor`, a write-back that returns leaves everything of
the finder but the JSON configuration as it was, and the configuration is
either unchanged or differs in one place: in the first region with the
`RegionID`, in the first target of its `SearchFor` with the `SearchID`, the
member `SearchRange` has `Offset` and `Size` set to the range written, and
every other member of the search range, in particular `OffsetVariation` and
`SizeVariation`, every other member of the target, every other target, every
other member of the region and every other region is the same. -/
theorem JSON_UpdateSearchRange_frame (F : OffsetFinder) (Range : TRange)
    (Region : TSearchRegion) (ToFind : TSearchFor) (F' : OffsetFinder) (Regions : List JSON)
    (hArray : F.JSON_SearchRegions = JSON.array Regions)
    (hSearchFor : ∀ RegionJson ∈ Regions,
      ∃ Targets, RegionJson.find "SearchFor" = some (JSON.array Targets))
    (h : F.JSON_UpdateSearchRange Range Region ToFind = Except.ok F') :
    F' = { F with JSON_SearchRegions := F'.JSON_SearchRegions } ∧
    (F'.JSON_SearchRegions = F.JSON_SearchRegions ∨
      ∃ RegionIndex RegionJson RegionJson' Targets FindIndex Find Find' SearchRange',
        FirstWith "RegionID" Region.RegionID Regions RegionIndex RegionJson ∧
        RegionJson.find "SearchFor" = some (JSON.array Targets) ∧
        FirstWith "SearchID" ToFind.SearchID Targets FindIndex Find ∧
        F'.JSON_SearchRegions = JSON.array (Regions.set RegionIndex RegionJson') ∧
        SameButMember RegionJson RegionJson' "SearchFor"
          (JSON.array (Targets.set FindIndex Find')) ∧
        SameButMember Find Find' "SearchRange" SearchRange' ∧
        SearchRange'.find "Offset" = some (JSON.number Range.Offset) ∧
        SearchRange'.find "Size" = some (JSON.number Range.Size) ∧
        (SearchRange'.members.filter fun M => M.1 ≠ "Offset" ∧ M.1 ≠ "Size") =
          (((Find.find "SearchRange").getD JSON.null).members.filter
            fun M => M.1 ≠ "Offset" ∧ M.1 ≠ "Size") ∧
        SearchRange'.find "OffsetVariation" =
          ((Find.find "SearchRange").getD JSON.null).find "OffsetVariation" ∧
        SearchRange'.find "SizeVariation" =
          ((Find.find "SearchRange").getD JSON.null).find "SizeVariation") := by
  unfold OffsetFinder.JSON_UpdateSearchRange at h
  by_cases hFlag : F.ShouldSyncSearchConfig = true
  swap
  · rw [if_pos hFlag] at h
    simp only [Except.ok.injEq] at h
    subst h
    exact ⟨rfl, Or.inl rfl⟩
  · rw [if_neg (not_not.2 hFlag), hArray] at h
    simp only [JSON.items] at h
    cases hL : UpdateFirstLoop "RegionID" Region.RegionID (UpdateRegionJson Range ToFind)
        Regions with
    | error E => rw [hL] at h; cases h
    | ok Items =>
      rw [hL] at h
      simp only [Except.ok.injEq, JSON.withItems] at h
      subst h
      refine ⟨rfl, ?_⟩
      dsimp only
      rw [hArray]
      rcases UpdateFirstLoop_ok _ _ _ _ _ hL with hEq | ⟨r, RJ, RJ', hFirst, hObj, hBody, hSet⟩
      · exact Or.inl (by rw [hEq])
      · have hMem : RJ ∈ Regions := List.mem_iff_getElem?.2 ⟨r, hFirst.1⟩
        obtain ⟨Targets, hT⟩ := hSearchFor RJ hMem
        unfold UpdateRegionJson at hBody
        obtain ⟨V, hV, hRJ'⟩ := JSON.update_ok _ _ _ _ hBody
        rw [hT] at hV
        simp only [Option.getD_some, JSON.items] at hV
        cases hL2 : UpdateFirstLoop "SearchID" ToFind.SearchID (WriteSearchRange Range)
            Targets with
        | error E => rw [hL2] at hV; cases hV
        | ok Items2 =>
          rw [hL2] at hV
          simp only [Except.ok.injEq, JSON.withItems] at hV
          subst hV
          rcases UpdateFirstLoop_ok _ _ _ _ _ hL2 with
            hEq2 | ⟨t, Find, Find', hFirst2, _, hBody2, hSet2⟩
          · left
            rw [hEq2] at hRJ'
            rw [SetMember_of_find _ _ _ hT, ← hObj] at hRJ'
            rw [hSet, hRJ', List.set_of_getElem? _ _ _ hFirst.1]
          · right
            obtain ⟨SR', hSame, hO, hS, hFilter⟩ := WriteSearchRange_ok Range Find Find' hBody2
            refine ⟨r, RJ, RJ', Targets, t, Find, Find', SR', hFirst, hT, hFirst2,
              by rw [hSet], ?_, hSame, hO, hS, hFilter, ?_, ?_⟩
            · rw [hRJ', hSet2]
              exact SameButMember_SetMember RJ "SearchFor" _
            · have := congrArg (FindMember "OffsetVariation") hFilter
              rw [FindMember_filter (fun K => decide (K ≠ "Offset" ∧ K ≠ "Size"))
                  "OffsetVariation" (by decide),
                FindMember_filter (fun K => decide (K ≠ "Offset" ∧ K ≠ "Size"))
                  "OffsetVariation" (by decide)] at this
              exact this
            · have := congrArg (FindMember "SizeVariation") hFilter
              rw [FindMember_filter (fun K => decide (K ≠ "Offset" ∧ K ≠ "Size"))
                  "SizeVariation" (by decide),
                FindMember_filter (fun K => decide (K ≠ "Offset" ∧ K ≠ "Size"))
                  "SizeVariation" (by decide)] at this
              exact this

/-- C20 (amended), at the synchronisation scenario: the range `0x90`, 2
written back for the target `Target` of the region `Section_Text`. -/
theorem JSON_UpdateSearchRange_frame_witness :
    (SyncFinder true).JSON_SearchRegions = JSON.array SyncConfigRegions ∧
    (∀ RegionJson ∈ SyncConfigRegions,
      ∃ Targets, RegionJson.find "SearchFor" = some (JSON.array Targets)) ∧
    (SyncFinder true).JSON_UpdateSearchRange { Offset := 0x90, Size := 2 }
        (SyncRegion { Offset := 0x80, Size := 0x30 })
        (SyncTarget { Offset := 0x80, Size := 0x30 }) =
      Except.ok { SyncFinder true with JSON_SearchRegions := SyncConfigWritten } ∧
    ({ SyncFinder true with JSON_SearchRegions := SyncConfigWritten } =
        { SyncFinder true with JSON_SearchRegions := SyncConfigWritten } ∧
      (SyncConfigWritten = (SyncFinder true).JSON_SearchRegions ∨
        ∃ RegionIndex RegionJson RegionJson' Targets FindIndex Find Find' SearchRange',
          FirstWith "RegionID" "Section_Text" SyncConfigRegions RegionIndex RegionJson ∧
          RegionJson.find "SearchFor" = some (JSON.array Targets) ∧
          FirstWith "SearchID" "Target" Targets FindIndex Find ∧
          SyncConfigWritten = JSON.array (SyncConfigRegions.set RegionIndex RegionJson') ∧
          SameButMember RegionJson RegionJson' "SearchFor"
            (JSON.array (Targets.set FindIndex Find')) ∧
          SameButMember Find Find' "SearchRange" SearchRange' ∧
          SearchRange'.find "Offset" = some (JSON.number 0x90) ∧
          SearchRange'.find "Size" = some (JSON.number 2) ∧
          (SearchRange'.members.filter fun M => M.1 ≠ "Offset" ∧ M.1 ≠ "Size") =
            (((Find.find "SearchRange").getD JSON.null).members.filter
              fun M => M.1 ≠ "Offset" ∧ M.1 ≠ "Size") ∧
          SearchRange'.find "OffsetVariation" =
            ((Find.find "SearchRange").getD JSON.null).find "OffsetVariation" ∧
          SearchRange'.find "SizeVariation" =
            ((Find.find "SearchRange").getD JSON.null).find "SizeVariation")) :=
  ⟨rfl,
    fun RegionJson hR => by
      simp only [SyncConfigRegions, SyncConfig, JSON.items, List.mem_singleton] at hR
      subst hR
      exact ⟨_, rfl⟩,
    SyncFinder_written,
    JSON_UpdateSearchRange_frame (SyncFinder true) { Offset := 0x90, Size := 2 }
      (SyncRegion { Offset := 0x80, Size := 0x30 }) (SyncTarget { Offset := 0x80, Size := 0x30 })
      { SyncFinder true with JSON_SearchRegions := SyncConfigWritten } SyncConfigRegions rfl
      (fun RegionJson hR => by
        simp only [SyncConfigRegions, SyncConfig, JSON.items, List.mem_singleton] at hR
        subst hR
        exact ⟨_, rfl⟩)
      SyncFinder_written⟩

/-! ### Text search -/

theorem isPrefixOf_iff (A B : List Char) : A.isPrefixOf B = true ↔ List.IsPrefix A B :=
  List.isPrefixOf_iff_prefix

theorem FindIn_eq_some (Needle : List Char) (Text : List Char) (K : Nat) :
    FindIn Needle Text = some K ↔
      K ≤ Text.length ∧ Needle.isPrefixOf (Text.drop K) = true ∧
        ∀ J, J < K → Needle.isPrefixOf (Text.drop J) = false := by
  induction Text generalizing K with
  | nil =>
    simp only [FindIn, List.length_nil, Nat.le_zero, List.drop_nil]
    constructor
    · intro h
      split_ifs at h with hN
      · simp only [Option.some.injEq] at h
        subst h
        subst hN
        exact ⟨rfl, by simp, by intro J hJ; omega⟩
    · rintro ⟨rfl, hP, _⟩
      have hN : Needle = [] := by
        cases Needle with
        | nil => rfl
        | cons c cs => simp [List.isPrefixOf] at hP
      rw [if_pos hN]
  | cons C Text ih =>
    rw [FindIn]
    by_cases hP : Needle.isPrefixOf (C :: Text) = true
    · rw [if_pos hP]
      constructor
      · intro h
        simp only [Option.some.injEq] at h
        subst h
        exact ⟨Nat.zero_le _, hP, by intro J hJ; omega⟩
      · rintro ⟨_, _, hB⟩
        cases K with
        | zero => rfl
        | succ K =>
          have := hB 0 (Nat.succ_pos _)
          rw [List.drop_zero, hP] at this
          cases this
    · rw [if_neg hP]
      constructor
      · intro h
        cases hF : FindIn Needle Text with
        | none => rw [hF] at h; cases h
        | some K' =>
          rw [hF] at h
          simp only [Option.map_some', Option.some.injEq] at h
          subst h
          obtain ⟨h1, h2, h3⟩ := (ih K').1 hF
          refine ⟨by simpa using h1, by simpa using h2, ?_⟩
          intro J hJ
          cases J with
          | zero =>
            rw [List.drop_zero]
            exact Bool.eq_false_iff.2 hP
          | succ J => simpa using h3 J (by omega)
      · rintro ⟨h1, h2, h3⟩
        cases K with
        | zero =>
          rw [List.drop_zero] at h2
          exact absurd h2 hP
        | succ K =>
          have := (ih K).2 ⟨by simpa using h1, by simpa using h2, fun J hJ => by
            simpa using h3 (J + 1) (by omega)⟩
          rw [this]
          rfl

theorem FindIn_eq_none (Needle : List Char) (Text : List Char) (h : FindIn Needle Text = none)
    (J : Nat) : Needle.isPrefixOf (Text.drop J) = false ∨ Text.length < J := by
  induction Text generalizing J with
  | nil =>
    simp only [FindIn] at h
    split_ifs at h with hN
    left
    cases Needle with
    | nil => exact absurd rfl hN
    | cons c cs => simp [List.isPrefixOf]
  | cons C Text ih =>
    rw [FindIn] at h
    split_ifs at h with hP
    cases hF : FindIn Needle Text with
    | some K => rw [hF] at h; cases h
    | none =>
      cases J with
      | zero =>
        left
        rw [List.drop_zero]
        exact Bool.eq_false_iff.2 hP
      | succ J =>
        rcases ih hF J with h1 | h1
        · left
          simpa using h1
        · right
          simpa using h1

theorem StringFind_eq_some (String Needle : List Char) (Pos P : Nat) :
    StringFind String Needle Pos = some P ↔
      Pos ≤ P ∧ P ≤ String.length ∧ Needle.isPrefixOf (String.drop P) = true ∧
        ∀ J, Pos ≤ J → J < P → Needle.isPrefixOf (String.drop J) = false := by
  unfold StringFind
  by_cases hPos : Pos > String.length
  · rw [if_pos hPos]
    constructor
    · intro h; cases h
    · rintro ⟨h1, h2, _⟩
      omega
  · rw [if_neg hPos]
    constructor
    · intro h
      cases hF : FindIn Needle (String.drop Pos) with
      | none => rw [hF] at h; cases h
      | some K =>
        rw [hF] at h
        simp only [Option.map_some', Option.some.injEq] at h
        subst h
        obtain ⟨h1, h2, h3⟩ := (FindIn_eq_some _ _ _).1 hF
        simp only [List.length_drop, List.drop_drop] at h1 h2 h3
        refine ⟨by omega, by omega, by rw [Nat.add_comm]; exact h2, ?_⟩
        intro J hJ1 hJ2
        have := h3 (J - Pos) (by omega)
        rwa [show Pos + (J - Pos) = J by omega] at this
    · rintro ⟨h1, h2, h3, h4⟩
      have : FindIn Needle (String.drop Pos) = some (P - Pos) := by
        rw [FindIn_eq_some]
        simp only [List.length_drop, List.drop_drop]
        refine ⟨by omega, by rwa [show Pos + (P - Pos) = P by omega], ?_⟩
        intro J hJ
        exact h4 (Pos + J) (by omega) (by omega)
      rw [this]
      simp only [Option.map_some', Option.some.injEq]
      omega

/-! ### Parentheses -/

theorem WalkParens_zero (Text : List Char) (Cur : Nat) : WalkParens Text Cur 0 = (Cur, 0) := by
  cases Text <;> simp [WalkParens]

theorem WalkParens_close (Text : List Char) (Cur Depth : Nat) (hD : 0 < Depth) :
    (∀ N, CloseLength Text Depth = some N → WalkParens Text Cur Depth = (Cur + N, 0)) ∧
      (CloseLength Text Depth = none → (WalkParens Text Cur Depth).2 ≠ 0) := by
  induction Text generalizing Cur Depth with
  | nil =>
    constructor
    · intro N h
      cases h
    · intro _
      simp only [WalkParens]
      omega
  | cons C Text ih =>
    rw [CloseLength, WalkParens, if_pos hD]
    by_cases hO : C = '('
    · simp only [hO, if_true]
      obtain ⟨ih1, ih2⟩ := ih (Cur + 1) (Depth + 1) (Nat.succ_pos _)
      constructor
      · intro N h
        cases hC : CloseLength Text (Depth + 1) with
        | none => rw [hC] at h; cases h
        | some N' =>
          rw [hC] at h
          simp only [Option.map_some', Option.some.injEq] at h
          subst h
          rw [ih1 N' hC]
          simp only [Prod.mk.injEq, and_true]
          omega
      · intro h
        cases hC : CloseLength Text (Depth + 1) with
        | none => exact ih2 hC
        | some N' => rw [hC] at h; cases h
    · simp only [hO, if_false]
      by_cases hC : C = ')'
      · simp only [hC, if_true]
        by_cases hD1 : Depth ≤ 1
        · have hD' : Depth = 1 := by omega
          subst hD'
          simp only [le_refl, if_true, Nat.sub_self, WalkParens_zero]
          constructor
          · intro N h
            simp only [Option.some.injEq] at h
            subst h
            rfl
          · intro h; cases h
        · rw [if_neg hD1]
          obtain ⟨ih1, ih2⟩ := ih (Cur + 1) (Depth - 1) (by omega)
          constructor
          · intro N h
            cases hCl : CloseLength Text (Depth - 1) with
            | none => rw [hCl] at h; cases h
            | some N' =>
              rw [hCl] at h
              simp only [Option.map_some', Option.some.injEq] at h
              subst h
              rw [ih1 N' hCl]
              simp only [Prod.mk.injEq, and_true]
              omega
          · intro h
            cases hCl : CloseLength Text (Depth - 1) with
            | none => exact ih2 hCl
            | some N' => rw [hCl] at h; cases h
      · simp only [hC, if_false]
        obtain ⟨ih1, ih2⟩ := ih (Cur + 1) Depth hD
        constructor
        · intro N h
          cases hCl : CloseLength Text Depth with
          | none => rw [hCl] at h; cases h
          | some N' =>
            rw [hCl] at h
            simp only [Option.map_some', Option.some.injEq] at h
            subst h
            rw [ih1 N' hCl]
            simp only [Prod.mk.injEq, and_true]
            omega
        · intro h
          cases hCl : CloseLength Text Depth with
          | none => exact ih2 hCl
          | some N' => rw [hCl] at h; cases h

theorem CloseLength_bounds (Text : List Char) (Depth N : Nat)
    (h : CloseLength Text Depth = some N) : 1 ≤ N ∧ N ≤ Text.length := by
  induction Text generalizing Depth N with
  | nil => cases h
  | cons C Text ih =>
    rw [CloseLength] at h
    split_ifs at h with h1 h2 h3
    · cases hC : CloseLength Text (Depth + 1) with
      | none => rw [hC] at h; cases h
      | some N' =>
        rw [hC] at h
        simp only [Option.map_some', Option.some.injEq] at h
        have := ih _ _ hC
        simp only [List.length_cons]
        omega
    · simp only [Option.some.injEq] at h
      simp only [List.length_cons]
      omega
    · cases hC : CloseLength Text (Depth - 1) with
      | none => rw [hC] at h; cases h
      | some N' =>
        rw [hC] at h
        simp only [Option.map_some', Option.some.injEq] at h
        have := ih _ _ hC
        simp only [List.length_cons]
        omega
    · cases hC : CloseLength Text Depth with
      | none => rw [hC] at h; cases h
      | some N' =>
        rw [hC] at h
        simp only [Option.map_some', Option.some.injEq] at h
        have := ih _ _ hC
        simp only [List.length_cons]
        omega

/-- The closing parenthesis found depends on the text up to it only. -/
theorem CloseLength_prefix (Text : List Char) (Depth N : Nat)
    (h : CloseLength Text Depth = some N) (Other : List Char)
    (hP : (Text.take N).isPrefixOf Other = true) : CloseLength Other Depth = some N := by
  induction Text generalizing Depth N Other with
  | nil => cases h
  | cons C Text ih =>
    have hN := (CloseLength_bounds _ _ _ h).1
    obtain ⟨N', rfl⟩ : ∃ N', N = N' + 1 := ⟨N - 1, by omega⟩
    cases Other with
    | nil => simp [List.isPrefixOf] at hP
    | cons C' Other =>
      simp only [List.take_succ_cons, List.isPrefixOf, Bool.and_eq_true, beq_iff_eq] at hP
      obtain ⟨rfl, hP⟩ := hP
      rw [CloseLength] at h ⊢
      split_ifs at h ⊢ with h1 h2 h3
      · cases hC : CloseLength Text (Depth + 1) with
        | none => rw [hC] at h; cases h
        | some M =>
          rw [hC] at h
          simp only [Option.map_some', Option.some.injEq, Nat.add_right_cancel_iff] at h
          subst h
          rw [ih _ _ hC Other hP]
          rfl
      · exact h
      · cases hC : CloseLength Text (Depth - 1) with
        | none => rw [hC] at h; cases h
        | some M =>
          rw [hC] at h
          simp only [Option.map_some', Option.some.injEq, Nat.add_right_cancel_iff] at h
          subst h
          rw [ih _ _ hC Other hP]
          rfl
      · cases hC : CloseLength Text Depth with
        | none => rw [hC] at h; cases h
        | some M =>
          rw [hC] at h
          simp only [Option.map_some', Option.some.injEq, Nat.add_right_cancel_iff] at h
          subst h
          rw [ih _ _ hC Other hP]
          rfl

theorem BalancedFrom_close (Text : List Char) (Depth K : Nat) (hK : 1 ≤ K) (hKD : K ≤ Depth)
    (h : BalancedFrom Text Depth = true) : ∃ N, CloseLength Text K = some N := by
  induction Text generalizing Depth K with
  | nil =>
    simp only [BalancedFrom, decide_eq_true_eq] at h
    omega
  | cons C Text ih =>
    rw [BalancedFrom] at h
    rw [CloseLength]
    split_ifs at h ⊢ with h1 h2 h3
    · obtain ⟨N, hN⟩ := ih (Depth + 1) (K + 1) (by omega) (by omega) h
      exact ⟨N + 1, by rw [hN]; rfl⟩
    · exact ⟨1, rfl⟩
    · simp only [Bool.and_eq_true, decide_eq_true_eq] at h
      obtain ⟨N, hN⟩ := ih (Depth - 1) (K - 1) (by omega) (by omega) h.2
      exact ⟨N + 1, by rw [hN]; rfl⟩
    · obtain ⟨N, hN⟩ := ih Depth K hK hKD h
      exact ⟨N + 1, by rw [hN]; rfl⟩

theorem BalancedFrom_drop (Text : List Char) (Depth : Nat) (h : BalancedFrom Text Depth = true)
    (K : Nat) : ∃ Depth', BalancedFrom (Text.drop K) Depth' = true := by
  induction K generalizing Text Depth with
  | zero => exact ⟨Depth, h⟩
  | succ K ih =>
    cases Text with
    | nil => exact ⟨Depth, h⟩
    | cons C Text =>
      rw [BalancedFrom] at h
      simp only [List.drop_succ_cons]
      split_ifs at h with h1 h2
      · exact ih _ _ h
      · simp only [Bool.and_eq_true, decide_eq_true_eq] at h
        exact ih _ _ h.2
      · exact ih _ _ h

/-- In a text with balanced parentheses every opening parenthesis closes. -/
theorem Balanced_close (Text : List Char) (h : Balanced Text) (K : Nat) (Rest : List Char)
    (hK : Text.drop K = '(' :: Rest) : ∃ N, CloseLength Rest 1 = some N := by
  obtain ⟨D, hD⟩ := BalancedFrom_drop Text 0 h K
  rw [hK, BalancedFrom, if_pos rfl] at hD
  exact BalancedFrom_close Rest (D + 1) 1 (le_refl _) (by omega) hD

/-! ### Rotate calls -/

theorem isPrefixOf_take (A B : List Char) (N : Nat) (hN : A.length ≤ N)
    (h : A.isPrefixOf B = true) : A.isPrefixOf (B.take N) = true := by
  rw [isPrefixOf_iff] at h ⊢
  obtain ⟨T, rfl⟩ := h
  rw [List.take_append_eq_append_take, List.take_of_length_le hN]
  exact List.prefix_append _ _

theorem isPrefixOf_trans (A B C : List Char) (h1 : A.isPrefixOf B = true)
    (h2 : B.isPrefixOf C = true) : A.isPrefixOf C = true := by
  rw [isPrefixOf_iff] at h1 h2 ⊢
  exact h1.trans h2

theorem drop_isPrefixOf (A B : List Char) (K : Nat) (h : A.isPrefixOf B = true) :
    (A.drop K).isPrefixOf (B.drop K) = true := by
  rw [isPrefixOf_iff] at h ⊢
  obtain ⟨T, rfl⟩ := h
  by_cases hK : K ≤ A.length
  · rw [List.drop_append_of_le_length hK]
    exact List.prefix_append _ _
  · rw [List.drop_eq_nil_of_le (by omega : A.length ≤ K)]
    exact List.nil_prefix

theorem CallLength_cases (Text : List Char) (N : Nat) (h : CallLength Text = some N) :
    ∃ Name M, (Name = ['_', 'r', 'o', 't', 'r', '('] ∨ Name = ['_', 'r', 'o', 't', 'l', '('] ∨
        Name = ['_', 'r', 'o', 't', 'r', '6', '4', '('] ∨
        Name = ['_', 'r', 'o', 't', 'l', '6', '4', '(']) ∧
      Name.isPrefixOf Text = true ∧ CloseLength (Text.drop Name.length) 1 = some M ∧
      N = M + Name.length := by
  unfold CallLength at h
  split_ifs at h with h1 h2
  · cases hC : CloseLength (Text.drop 6) 1 with
    | none => rw [hC] at h; cases h
    | some M =>
      rw [hC] at h
      simp only [Option.map_some', Option.some.injEq] at h
      rcases h1 with h1 | h1
      · exact ⟨_, M, Or.inl rfl, h1, hC, h.symm⟩
      · exact ⟨_, M, Or.inr (Or.inl rfl), h1, hC, h.symm⟩
  · cases hC : CloseLength (Text.drop 8) 1 with
    | none => rw [hC] at h; cases h
    | some M =>
      rw [hC] at h
      simp only [Option.map_some', Option.some.injEq] at h
      rcases h2 with h2 | h2
      · exact ⟨_, M, Or.inr (Or.inr (Or.inl rfl)), h2, hC, h.symm⟩
      · exact ⟨_, M, Or.inr (Or.inr (Or.inr rfl)), h2, hC, h.symm⟩

theorem CallLength_bounds (Text : List Char) (N : Nat) (h : CallLength Text = some N) :
    7 ≤ N ∧ N ≤ Text.length := by
  obtain ⟨Name, M, hName, hP, hC, rfl⟩ := CallLength_cases Text N h
  have hB := CloseLength_bounds _ _ _ hC
  simp only [List.length_drop] at hB
  have hLen : 6 ≤ Name.length := by
    rcases hName with rfl | rfl | rfl | rfl <;> simp
  omega

theorem CallLength_rot (Text : List Char) (N : Nat) (h : CallLength Text = some N) :
    ['_', 'r', 'o', 't'].isPrefixOf Text = true := by
  obtain ⟨Name, M, hName, hP, _, _⟩ := CallLength_cases Text N h
  refine isPrefixOf_trans _ Name _ ?_ hP
  rcases hName with rfl | rfl | rfl | rfl <;> decide

/-- Whether a text starts with a call, and with which, depends on the text of
the call only. -/
theorem CallLength_prefix (Text : List Char) (N : Nat) (h : CallLength Text = some N)
    (Other : List Char) (hP : (Text.take N).isPrefixOf Other = true) :
    CallLength Other = some N := by
  unfold CallLength at h ⊢
  have key : ∀ Name : List Char, Name.length ≤ N →
      (Name.isPrefixOf Text = true → Name.isPrefixOf Other = true) := by
    intro Name hLen hN
    exact isPrefixOf_trans _ _ _ (isPrefixOf_take _ _ N hLen hN) hP
  have close : ∀ K M, K ≤ N → CloseLength (Text.drop K) 1 = some M → N = M + K →
      CloseLength (Other.drop K) 1 = some M := by
    intro K M hK hC hN
    apply CloseLength_prefix _ _ _ hC
    have := drop_isPrefixOf _ _ K hP
    rw [List.drop_take] at this
    rwa [show N - K = M by omega] at this
  split_ifs at h with h1 h2
  · cases hC : CloseLength (Text.drop 6) 1 with
    | none => rw [hC] at h; cases h
    | some M =>
      rw [hC] at h
      simp only [Option.map_some', Option.some.injEq] at h
      have h1' : ['_', 'r', 'o', 't', 'r', '('].isPrefixOf Other = true ∨
          ['_', 'r', 'o', 't', 'l', '('].isPrefixOf Other = true := by
        rcases h1 with h1 | h1
        · exact Or.inl (key _ (by simp; omega) h1)
        · exact Or.inr (key _ (by simp; omega) h1)
      rw [if_pos h1', close 6 M (by omega) hC h.symm]
      simp [h]
  · cases hC : CloseLength (Text.drop 8) 1 with
    | none => rw [hC] at h; cases h
    | some M =>
      rw [hC] at h
      simp only [Option.map_some', Option.some.injEq] at h
      have h2' : ['_', 'r', 'o', 't', 'r', '6', '4', '('].isPrefixOf Other = true ∨
          ['_', 'r', 'o', 't', 'l', '6', '4', '('].isPrefixOf Other = true := by
        rcases h2 with h2 | h2
        · exact Or.inl (key _ (by simp; omega) h2)
        · exact Or.inr (key _ (by simp; omega) h2)
      have h1' : ¬ (['_', 'r', 'o', 't', 'r', '('].isPrefixOf Other = true ∨
          ['_', 'r', 'o', 't', 'l', '('].isPrefixOf Other = true) := by
        intro hh
        have h6 : ∀ A B : List Char, A.isPrefixOf Other = true → B.isPrefixOf Other = true →
            A.getD 5 ' ' = '(' → B.getD 5 ' ' = '6' → 6 ≤ A.length → 6 ≤ B.length → False := by
          intro A B hA hB hA5 hB5 hAl hBl
          rw [isPrefixOf_iff] at hA hB
          obtain ⟨TA, rfl⟩ := hA
          obtain ⟨TB, hTB⟩ := hB
          have e1 : (A ++ TA).getD 5 ' ' = A.getD 5 ' ' := by
            rw [List.getD_eq_getElem?_getD, List.getD_eq_getElem?_getD,
              List.getElem?_append_left (by omega)]
          have e2 : (B ++ TB).getD 5 ' ' = B.getD 5 ' ' := by
            rw [List.getD_eq_getElem?_getD, List.getD_eq_getElem?_getD,
              List.getElem?_append_left (by omega)]
          rw [hTB, e1, hA5] at e2
          rw [hB5] at e2
          exact absurd e2 (by decide)
        rcases hh with hh | hh <;> rcases h2' with h2' | h2'
        · exact h6 _ _ hh h2' rfl rfl (by simp) (by simp)
        · exact h6 _ _ hh h2' rfl rfl (by simp) (by simp)
        · exact h6 _ _ hh h2' rfl rfl (by simp) (by simp)
        · exact h6 _ _ hh h2' rfl rfl (by simp) (by simp)
      rw [if_neg h1', if_pos h2', close 8 M (by omega) hC h.symm]
      simp [h]

theorem TopLevelCallsFrom_skip (Text : List Char) (Skip : Nat) :
    TopLevelCallsFrom Text Skip = TopLevelCallsFrom (Text.drop Skip) 0 := by
  induction Text generalizing Skip with
  | nil => simp [TopLevelCallsFrom]
  | cons C Text ih =>
    cases Skip with
    | zero => rfl
    | succ Skip => rw [TopLevelCallsFrom, List.drop_succ_cons, ih]

theorem ReplaceCallsFrom_skip (Local : List Char → List Char) (Text : List Char) (Skip : Nat) :
    ReplaceCallsFrom Local Text Skip = ReplaceCallsFrom Local (Text.drop Skip) 0 := by
  induction Text generalizing Skip with
  | nil => simp [ReplaceCallsFrom]
  | cons C Text ih =>
    cases Skip with
    | zero => rfl
    | succ Skip => rw [ReplaceCallsFrom, List.drop_succ_cons, ih]

theorem CallLength_nil : CallLength [] = none := by
  decide

theorem TopLevelCallsFrom_some (Text : List Char) (N : Nat) (h : CallLength Text = some N) :
    TopLevelCallsFrom Text 0 = Text.take N :: TopLevelCallsFrom (Text.drop N) 0 := by
  cases Text with
  | nil => rw [CallLength_nil] at h; cases h
  | cons C Text =>
    have hN := (CallLength_bounds _ _ h).1
    rw [TopLevelCallsFrom, h]
    dsimp only
    rw [TopLevelCallsFrom_skip]
    obtain ⟨N', rfl⟩ : ∃ N', N = N' + 1 := ⟨N - 1, by omega⟩
    simp

theorem ReplaceCallsFrom_some (Local : List Char → List Char) (Text : List Char) (N : Nat)
    (h : CallLength Text = some N) :
    ReplaceCallsFrom Local Text 0 =
      Local (Text.take N) ++ ReplaceCallsFrom Local (Text.drop N) 0 := by
  cases Text with
  | nil => rw [CallLength_nil] at h; cases h
  | cons C Text =>
    have hN := (CallLength_bounds _ _ h).1
    rw [ReplaceCallsFrom, h]
    dsimp only
    rw [ReplaceCallsFrom_skip]
    obtain ⟨N', rfl⟩ : ∃ N', N = N' + 1 := ⟨N - 1, by omega⟩
    simp

/-- A stretch of text in which no call starts is passed unchanged. -/
theorem TopLevelCallsFrom_gap (Local : List Char → List Char) (Text : List Char) (K : Nat)
    (h : ∀ J, J < K → CallLength (Text.drop J) = none) :
    TopLevelCallsFrom Text 0 = TopLevelCallsFrom (Text.drop K) 0 ∧
      ReplaceCallsFrom Local Text 0 = Text.take K ++ ReplaceCallsFrom Local (Text.drop K) 0 := by
  induction K generalizing Text with
  | zero => simp
  | succ K ih =>
    cases Text with
    | nil => simp [TopLevelCallsFrom, ReplaceCallsFrom]
    | cons C Text =>
      have h0 := h 0 (Nat.succ_pos _)
      rw [List.drop_zero] at h0
      obtain ⟨ih1, ih2⟩ := ih Text (fun J hJ => by
        have := h (J + 1) (by omega)
        simpa using this)
      constructor
      · rw [TopLevelCallsFrom, h0]
        simpa using ih1
      · rw [ReplaceCallsFrom, h0]
        simp [ih2]

/-- A text holds no call at all, or a first one behind a stretch without. -/
theorem first_call (Text : List Char) :
    (∀ J, CallLength (Text.drop J) = none) ∨
      ∃ K N, (∀ J, J < K → CallLength (Text.drop J) = none) ∧
        CallLength (Text.drop K) = some N := by
  induction Text with
  | nil =>
    left
    intro J
    simp [CallLength_nil]
  | cons C Text ih =>
    cases hC : CallLength (C :: Text) with
    | some N =>
      right
      exact ⟨0, N, by intro J hJ; omega, hC⟩
    | none =>
      rcases ih with h | ⟨K, N, hK, hN⟩
      · left
        intro J
        cases J with
        | zero => exact hC
        | succ J => simpa using h J
      · right
        refine ⟨K + 1, N, ?_, by simpa using hN⟩
        intro J hJ
        cases J with
        | zero => exact hC
        | succ J => simpa using hK J (by omega)

theorem TopLevelCallsFrom_none (Local : List Char → List Char) (Text : List Char)
    (h : ∀ J, CallLength (Text.drop J) = none) :
    TopLevelCallsFrom Text 0 = [] ∧ ReplaceCallsFrom Local Text 0 = Text := by
  obtain ⟨h1, h2⟩ := TopLevelCallsFrom_gap Local Text Text.length (fun J _ => h J)
  rw [List.drop_length] at h1 h2
  rw [h1, h2]
  simp [TopLevelCallsFrom, ReplaceCallsFrom]

/-! ### The scan of `MakeFunctionBody` -/

theorem Raw_at (Raw S : List Char) (P : Nat) (hS : Raw.drop P = S) (hP : P ≤ Raw.length) :
    Raw.length = P + S.length ∧ (∀ K, Raw.getD (P + K) ' ' = S.getD K ' ') ∧
      ∀ K, Raw.drop (P + K) = S.drop K := by
  subst hS
  refine ⟨?_, ?_, ?_⟩
  · simp only [List.length_drop]
    omega
  · intro K
    rw [List.getD_eq_getElem?_getD, List.getD_eq_getElem?_getD, List.getElem?_drop]
  · intro K
    rw [List.drop_drop]

theorem rot_prefix (S : List Char) (h : ['_', 'r', 'o', 't'].isPrefixOf S = true) :
    ∃ R4, S = '_' :: 'r' :: 'o' :: 't' :: R4 := by
  rw [isPrefixOf_iff] at h
  obtain ⟨T, rfl⟩ := h
  exact ⟨T, rfl⟩

theorem rot_toList : "_rot".toList = ['_', 'r', 'o', 't'] := by
  decide

/-- One iteration of the scan, in terms of the call the text starts with at
the position found. -/
theorem ScanLoop_step (Raw : List Char) (hBal : Balanced Raw) (Fuel I P : Nat)
    (Occ Uniq : List (List Char)) (hI : I < Raw.length)
    (hF : StringFind Raw "_rot".toList I = some P) :
    ScanLoop Raw (Fuel + 1) I Occ Uniq =
      match CallLength (Raw.drop P) with
      | some N =>
        ScanLoop Raw Fuel (P + N) (Occ ++ [(Raw.drop P).take N])
          (if (Raw.drop P).take N ∈ Uniq then Uniq else Uniq ++ [(Raw.drop P).take N])
      | none =>
        if Raw.length ≤ P + 4 then (Occ, Uniq) else ScanLoop Raw Fuel (P + 1) Occ Uniq := by
  obtain ⟨_, hPlen, hPre, _⟩ := (StringFind_eq_some _ _ _ _).1 hF
  rw [rot_toList] at hPre
  obtain ⟨R4, hS⟩ := rot_prefix _ hPre
  obtain ⟨hLen, hGet, hDrop⟩ := Raw_at Raw _ P hS hPlen
  have hClose : ∀ K Rest, Raw.drop (P + K) = '(' :: Rest → ∃ N, CloseLength Rest 1 = some N :=
    fun K Rest h => Balanced_close Raw hBal (P + K) Rest h
  rw [ScanLoop, if_pos hI, hF]
  dsimp only
  rw [hS]
  cases R4 with
  | nil =>
    have hC : CallLength ['_', 'r', 'o', 't'] = none := by decide
    rw [hC]
    simp only [List.length_cons, List.length_nil] at hLen
    rw [if_pos (by omega)]
    dsimp only
    rw [if_pos (by omega)]
  | cons D R5 =>
    simp only [List.length_cons] at hLen
    rw [if_neg (by omega)]
    have hD4 : Raw.getD (P + 4) ' ' = D := by rw [hGet]; rfl
    rw [hD4]
    by_cases hD : D ≠ 'r' ∧ D ≠ 'l'
    · rw [if_pos hD]
      have hC : CallLength ('_' :: 'r' :: 'o' :: 't' :: D :: R5) = none := by
        simp [CallLength, List.isPrefixOf, Ne.symm hD.1, Ne.symm hD.2]
      rw [hC]
      dsimp only
      rw [if_neg (by omega)]
    · rw [if_neg hD]
      have hD' : D = 'r' ∨ D = 'l' := by
        by_contra hh
        push_neg at hh
        exact hD hh
      generalize hCur : (if P + 5 + 1 < Raw.length ∧ Raw.getD (P + 5) ' ' = '6' ∧
        Raw.getD (P + 5 + 1) ' ' = '4' then P + 5 + 2 else P + 5) = Cur
      have hGet5 : Raw.getD (P + 5) ' ' = R5.getD 0 ' ' := by rw [hGet]; rfl
      have hGet6 : Raw.getD (P + 5 + 1) ' ' = R5.getD 1 ' ' := by
        rw [Nat.add_assoc, hGet]; rfl
      rw [hGet5, hGet6] at hCur
      by_cases h64 : ∃ R7, R5 = '6' :: '4' :: R7
      · obtain ⟨R7, rfl⟩ := h64
        simp only [List.length_cons] at hLen
        rw [if_pos ⟨by omega, rfl, rfl⟩] at hCur
        subst hCur
        have hGet7 : Raw.getD (P + 5 + 2) ' ' = R7.getD 0 ' ' := by
          rw [Nat.add_assoc, hGet]; rfl
        rw [hGet7]
        cases R7 with
        | nil =>
          have hC : CallLength ('_' :: 'r' :: 'o' :: 't' :: D :: ['6', '4']) = none := by
            simp [CallLength, List.isPrefixOf]
          rw [hC]
          simp only [List.length_nil] at hLen
          dsimp only
          rw [if_pos (Or.inl (by omega)), if_neg (by omega)]
        | cons C7 R8 =>
          simp only [List.length_cons] at hLen
          by_cases h7 : C7 = '('
          · subst h7
            have hD8 : Raw.drop (P + 5 + 2 + 1) = R8 := by
              rw [show P + 5 + 2 + 1 = P + 8 by omega, hDrop]; rfl
            obtain ⟨N, hN⟩ := hClose 7 R8 (by rw [hDrop]; rfl)
            have hC : CallLength ('_' :: 'r' :: 'o' :: 't' :: D :: '6' :: '4' :: '(' :: R8) =
                some (N + 8) := by
              rcases hD' with rfl | rfl <;> simp [CallLength, List.isPrefixOf, hN]
            rw [hC, if_neg (by
              simp only [List.getD_cons_zero, ne_eq, not_true_eq_false, or_false, not_le]
              omega)]
            rw [hD8, (WalkParens_close R8 (P + 5 + 2 + 1) 1 (by omega)).1 N hN]
            dsimp only
            rw [if_neg (by simp)]
            rw [show P + 5 + 2 + 1 + N - P = N + 8 by omega,
              show P + 5 + 2 + 1 + N = P + (N + 8) by omega]
          · have hC : CallLength ('_' :: 'r' :: 'o' :: 't' :: D :: '6' :: '4' :: C7 :: R8) =
                none := by
              simp [CallLength, List.isPrefixOf, Ne.symm h7]
            rw [hC]
            dsimp only
            rw [if_pos (Or.inr (by simpa using h7)), if_neg (by omega)]
      · have hCur' : Cur = P + 5 := by
          rw [← hCur, if_neg]
          rintro ⟨h1, h2, h3⟩
          apply h64
          cases R5 with
          | nil => simp at h2
          | cons C5 R6 =>
            cases R6 with
            | nil => simp at h3
            | cons C6 R7 =>
              simp only [List.getD_cons_zero, List.getD_cons_succ] at h2 h3
              exact ⟨R7, by rw [h2, h3]⟩
        subst hCur'
        rw [hGet5]
        cases R5 with
        | nil =>
          simp only [List.length_nil] at hLen
          have hC : CallLength ['_', 'r', 'o', 't', D] = none := by
            simp [CallLength, List.isPrefixOf]
          rw [hC]
          dsimp only
          rw [if_pos (Or.inl (by omega)), if_neg (by omega)]
        | cons C5 R6 =>
          simp only [List.length_cons] at hLen
          by_cases h5 : C5 = '('
          · subst h5
            have hD6 : Raw.drop (P + 5 + 1) = R6 := by
              rw [show P + 5 + 1 = P + 6 by omega, hDrop]; rfl
            obtain ⟨N, hN⟩ := hClose 5 R6 (by rw [hDrop]; rfl)
            have hC : CallLength ('_' :: 'r' :: 'o' :: 't' :: D :: '(' :: R6) = some (N + 6) := by
              rcases hD' with rfl | rfl <;> simp [CallLength, List.isPrefixOf, hN]
            rw [hC, if_neg (by
              simp only [List.getD_cons_zero, ne_eq, not_true_eq_false, or_false, not_le]
              omega)]
            rw [hD6, (WalkParens_close R6 (P + 5 + 1) 1 (by omega)).1 N hN]
            dsimp only
            rw [if_neg (by simp)]
            rw [show P + 5 + 1 + N - P = N + 6 by omega,
              show P + 5 + 1 + N = P + (N + 6) by omega]
          · have hC : CallLength ('_' :: 'r' :: 'o' :: 't' :: D :: C5 :: R6) = none := by
              have h64' : ¬ ('6' = C5 ∧ List.IsPrefix ['4', '('] R6) := by
                rintro ⟨rfl, T, rfl⟩
                exact h64 ⟨_, rfl⟩
              simp only [CallLength, List.isPrefixOf, Bool.and_eq_true, beq_iff_eq,
                Ne.symm h5, and_false, or_self, if_false, isPrefixOf_iff, true_and]
              rw [if_neg (by simp), if_neg (by
                rintro (⟨_, h2, h3⟩ | ⟨_, h2, h3⟩) <;> exact h64' ⟨h2, h3⟩)]
            rw [hC]
            dsimp only
            rw [if_pos (Or.inr (by simpa using h5)), if_neg (by omega)]

theorem TopLevelCallsFrom_short (Text : List Char) (h : Text.length ≤ 6) :
    TopLevelCallsFrom Text 0 = [] := by
  refine (TopLevelCallsFrom_none id Text ?_).1
  intro J
  cases hC : CallLength (Text.drop J) with
  | none => rfl
  | some N =>
    have := CallLength_bounds _ _ hC
    simp only [List.length_drop] at this
    omega

/-- The scan collects the top-level calls of the text from `I` on, and their
first appearances. -/
theorem ScanLoop_calls (Raw : List Char) (hBal : Balanced Raw) (Fuel I : Nat)
    (Occ Uniq : List (List Char)) (hFuel : Raw.length - I < Fuel) :
    ScanLoop Raw Fuel I Occ Uniq =
      (Occ ++ TopLevelCallsFrom (Raw.drop I) 0,
        FirstAppearances (TopLevelCallsFrom (Raw.drop I) 0) Uniq) := by
  induction Fuel generalizing I Occ Uniq with
  | zero => omega
  | succ Fuel ih =>
    by_cases hI : I < Raw.length
    swap
    · rw [ScanLoop, if_neg hI, List.drop_eq_nil_of_le (by omega)]
      simp [TopLevelCallsFrom, FirstAppearances]
    cases hF : StringFind Raw "_rot".toList I with
    | none =>
      rw [ScanLoop, if_pos hI, hF]
      have hNone : ∀ J, CallLength ((Raw.drop I).drop J) = none := by
        intro J
        cases hC : CallLength ((Raw.drop I).drop J) with
        | none => rfl
        | some N =>
          exfalso
          have hRot := CallLength_rot _ _ hC
          have hLen := CallLength_bounds _ _ hC
          unfold StringFind at hF
          rw [if_neg (by omega)] at hF
          have hF' : FindIn "_rot".toList (Raw.drop I) = none := by
            cases hh : FindIn "_rot".toList (Raw.drop I) with
            | none => rfl
            | some K => rw [hh] at hF; cases hF
          rcases FindIn_eq_none _ _ hF' J with h1 | h1
          · rw [rot_toList, hRot] at h1
            cases h1
          · simp only [List.length_drop] at hLen h1
            omega
      rw [(TopLevelCallsFrom_none id _ hNone).1]
      simp [FirstAppearances]
    | some P =>
      obtain ⟨hIP, hPlen, hPre, hBefore⟩ := (StringFind_eq_some _ _ _ _).1 hF
      have hGap : ∀ J, J < P - I → CallLength ((Raw.drop I).drop J) = none := by
        intro J hJ
        cases hC : CallLength ((Raw.drop I).drop J) with
        | none => rfl
        | some N =>
          exfalso
          have hRot := CallLength_rot _ _ hC
          rw [List.drop_drop] at hRot
          have := hBefore (I + J) (by omega) (by omega)
          rw [rot_toList, hRot] at this
          cases this
      have hSkip := (TopLevelCallsFrom_gap id (Raw.drop I) (P - I) hGap).1
      rw [List.drop_drop, show I + (P - I) = P by omega] at hSkip
      rw [ScanLoop_step Raw hBal Fuel I P Occ Uniq hI hF, hSkip]
      cases hC : CallLength (Raw.drop P) with
      | some N =>
        have hN := CallLength_bounds _ _ hC
        dsimp only
        rw [ih (P + N) _ _ (by omega), TopLevelCallsFrom_some _ _ hC, List.drop_drop]
        simp [FirstAppearances]
      | none =>
        dsimp only
        by_cases hEnd : Raw.length ≤ P + 4
        · rw [if_pos hEnd, TopLevelCallsFrom_short _ (by simp only [List.length_drop]; omega)]
          simp [FirstAppearances]
        · rw [if_neg hEnd, ih (P + 1) _ _ (by omega)]
          have h1 := (TopLevelCallsFrom_gap id (Raw.drop P) 1 (fun J hJ => by
            have : J = 0 := by omega
            subst this
            simpa using hC)).1
          rw [List.drop_drop] at h1
          rw [h1]

theorem drop_append_length_add (Done T : List Char) (K : Nat) :
    (Done ++ T).drop (Done.length + K) = T.drop K := by
  rw [List.drop_append]

theorem take_append_length_add (Done T : List Char) (K : Nat) :
    (Done ++ T).take (Done.length + K) = Done ++ T.take K := by
  rw [List.take_append]

/-- The replacement loop, which searches the text of each occurrence in the
body as modified so far, replaces the top-level calls at their places. -/
theorem ReplaceLoop_calls (Uniq : List (List Char)) (Bound : Nat) (T Done : List Char)
    (hT : T.length ≤ Bound) :
    ReplaceLoop Uniq (TopLevelCallsFrom T 0) (Done ++ T) Done.length =
      Done ++ ReplaceCallsFrom (LocalOf Uniq) T 0 := by
  induction Bound generalizing T Done with
  | zero =>
    have : T = [] := List.length_eq_zero.1 (by omega)
    subst this
    simp [TopLevelCallsFrom, ReplaceLoop, ReplaceCallsFrom]
  | succ Bound ih =>
    rcases first_call T with hNone | ⟨K, N, hGap, hC⟩
    · obtain ⟨h1, h2⟩ := TopLevelCallsFrom_none (LocalOf Uniq) T hNone
      rw [h1, h2]
      rfl
    · obtain ⟨h1, h2⟩ := TopLevelCallsFrom_gap (LocalOf Uniq) T K hGap
      have hN := CallLength_bounds _ _ hC
      simp only [List.length_drop] at hN
      have hK : K + N ≤ T.length := by omega
      rw [h1, h2, TopLevelCallsFrom_some _ _ hC, ReplaceCallsFrom_some _ _ _ hC, List.drop_drop]
      have hFind : StringFind (Done ++ T) ((T.drop K).take N) Done.length =
          some (Done.length + K) := by
        rw [StringFind_eq_some]
        refine ⟨by omega, by simp only [List.length_append]; omega, ?_, ?_⟩
        · rw [drop_append_length_add, isPrefixOf_iff]
          exact List.take_prefix _ _
        · intro J hJ1 hJ2
          cases hP : ((T.drop K).take N).isPrefixOf ((Done ++ T).drop J) with
          | false => rfl
          | true =>
            exfalso
            obtain ⟨J', rfl⟩ : ∃ J', J = Done.length + J' := ⟨J - Done.length, by omega⟩
            rw [drop_append_length_add] at hP
            have := CallLength_prefix _ _ hC _ hP
            rw [hGap J' (by omega)] at this
            cases this
      rw [ReplaceLoop, hFind]
      dsimp only
      have hLenCall : ((T.drop K).take N).length = N := by
        rw [List.length_take, List.length_drop]
        omega
      rw [hLenCall, take_append_length_add, Nat.add_assoc, drop_append_length_add]
      have hBody : Done ++ T.take K ++
            (VarPrefix ++ Decimal (IndexOf ((T.drop K).take N) Uniq + 1)) ++ T.drop (K + N) =
          (Done ++ T.take K ++ LocalOf Uniq ((T.drop K).take N)) ++ T.drop (K + N) := rfl
      have hPos : Done.length + K +
            (VarPrefix ++ Decimal (IndexOf ((T.drop K).take N) Uniq + 1)).length =
          (Done ++ T.take K ++ LocalOf Uniq ((T.drop K).take N)).length := by
        simp only [List.length_append, List.length_take, LocalOf]
        omega
      rw [hBody, hPos, ih (T.drop (K + N)) _ (by simp only [List.length_drop]; omega)]
      simp [List.append_assoc]

/-! ### Strings without NUL -/

theorem CStr_of_not_mem (S : List Char) (h : NUL ∉ S) : CStr S = S := by
  unfold CStr
  rw [List.takeWhile_eq_self_iff]
  intro c hc
  simp only [ne_eq, decide_eq_true_eq]
  intro hEq
  exact h (hEq ▸ hc)

theorem digitChar_ne_NUL (D : Nat) (h : D < 10) : Nat.digitChar D ≠ NUL := by
  interval_cases D <;> decide

theorem toDigitsCore_ne_NUL (Fuel N : Nat) (Ds : List Char) (h : NUL ∉ Ds) :
    NUL ∉ Nat.toDigitsCore 10 Fuel N Ds := by
  induction Fuel generalizing N Ds with
  | zero => simpa [Nat.toDigitsCore] using h
  | succ Fuel ih =>
    rw [Nat.toDigitsCore]
    have hD : NUL ∉ Nat.digitChar (N % 10) :: Ds := by
      intro hh
      rcases List.mem_cons.1 hh with h1 | h1
      · exact digitChar_ne_NUL _ (Nat.mod_lt _ (by decide)) h1.symm
      · exact h h1
    split_ifs
    · exact hD
    · exact ih _ _ hD

theorem Decimal_ne_NUL (N : Nat) : NUL ∉ Decimal N := by
  unfold Decimal Nat.repr Nat.toDigits
  exact toDigitsCore_ne_NUL _ _ _ (by simp)

theorem not_mem_append {A B : List Char} (hA : NUL ∉ A) (hB : NUL ∉ B) : NUL ∉ A ++ B := by
  intro h
  rcases List.mem_append.1 h with h | h
  · exact hA h
  · exact hB h

theorem LocalOf_ne_NUL (Distinct : List (List Char)) (Call : List Char) :
    NUL ∉ LocalOf Distinct Call :=
  not_mem_append (show NUL ∉ VarPrefix by decide) (Decimal_ne_NUL _)

theorem TopLevelCallsFrom_mem (Text : List Char) (Skip : Nat) (Call : List Char)
    (h : Call ∈ TopLevelCallsFrom Text Skip) (c : Char) (hc : c ∈ Call) : c ∈ Text := by
  induction Text generalizing Skip with
  | nil => simp [TopLevelCallsFrom] at h
  | cons C Text ih =>
    cases Skip with
    | succ Skip =>
      rw [TopLevelCallsFrom] at h
      exact List.mem_cons_of_mem _ (ih _ h)
    | zero =>
      rw [TopLevelCallsFrom] at h
      cases hC : CallLength (C :: Text) with
      | none =>
        rw [hC] at h
        exact List.mem_cons_of_mem _ (ih _ h)
      | some N =>
        rw [hC] at h
        rcases List.mem_cons.1 h with h1 | h1
        · subst h1
          exact List.mem_of_mem_take hc
        · exact List.mem_cons_of_mem _ (ih _ h1)

theorem ReplaceCallsFrom_ne_NUL (Local : List Char → List Char) (hL : ∀ Call, NUL ∉ Local Call)
    (Text : List Char) (Skip : Nat) (h : NUL ∉ Text) : NUL ∉ ReplaceCallsFrom Local Text Skip := by
  induction Text generalizing Skip with
  | nil => simp [ReplaceCallsFrom]
  | cons C Text ih =>
    have hT : NUL ∉ Text := fun hh => h (List.mem_cons_of_mem _ hh)
    have hC : NUL ≠ C := fun hh => h (by rw [hh]; exact List.mem_cons_self _ _)
    cases Skip with
    | succ Skip =>
      rw [ReplaceCallsFrom]
      exact ih _ hT
    | zero =>
      rw [ReplaceCallsFrom]
      cases CallLength (C :: Text) with
      | none =>
        dsimp only
        intro hh
        rcases List.mem_cons.1 hh with h1 | h1
        · exact hC h1
        · exact ih _ hT h1
      | some N =>
        dsimp only
        exact not_mem_append (hL _) (ih _ hT)

/-! ### First appearances -/

theorem IndexOf_cons_self (X : List Char) (L : List (List Char)) : IndexOf X (X :: L) = 0 := by
  simp [IndexOf]

theorem IndexOf_cons_ne (X Y : List Char) (L : List (List Char)) (h : Y ≠ X) :
    IndexOf X (Y :: L) = IndexOf X L + 1 := by
  simp [IndexOf, h]

theorem IndexOf_append (X : List Char) (A B : List (List Char)) (h : X ∉ A) :
    IndexOf X (A ++ B) = A.length + IndexOf X B := by
  induction A with
  | nil => simp
  | cons Y A ih =>
    have hY : Y ≠ X := fun hh => h (by rw [hh]; exact List.mem_cons_self _ _)
    have hA : X ∉ A := fun hh => h (List.mem_cons_of_mem _ hh)
    rw [List.cons_append, IndexOf_cons_ne _ _ _ hY, ih hA, List.length_cons]
    omega

theorem FirstAppearances_spec (L Seen : List (List Char)) (hS : Seen.Nodup) :
    (FirstAppearances L Seen).Nodup ∧
      (∀ X, X ∈ FirstAppearances L Seen ↔ X ∈ Seen ∨ X ∈ L) ∧
      (∃ New, FirstAppearances L Seen = Seen ++ New) ∧
      ∀ X Y, X ∈ L → Y ∈ L → X ∉ Seen → Y ∉ Seen →
        (IndexOf X (FirstAppearances L Seen) < IndexOf Y (FirstAppearances L Seen) ↔
          IndexOf X L < IndexOf Y L) := by
  induction L generalizing Seen with
  | nil =>
    refine ⟨hS, by simp [FirstAppearances], ⟨[], by simp [FirstAppearances]⟩, ?_⟩
    intro X Y hX
    cases hX
  | cons Z L ih =>
    rw [FirstAppearances]
    by_cases hZ : Z ∈ Seen
    · rw [if_pos hZ]
      obtain ⟨h1, h2, h3, h4⟩ := ih Seen hS
      refine ⟨h1, ?_, h3, ?_⟩
      · intro X
        rw [h2, List.mem_cons]
        constructor
        · rintro (h | h)
          · exact Or.inl h
          · exact Or.inr (Or.inr h)
        · rintro (h | h | h)
          · exact Or.inl h
          · exact Or.inl (h ▸ hZ)
          · exact Or.inr h
      · intro X Y hX hY hXS hYS
        have hXZ : X ≠ Z := fun hh => hXS (hh ▸ hZ)
        have hYZ : Y ≠ Z := fun hh => hYS (hh ▸ hZ)
        have hX' : X ∈ L := (List.mem_cons.1 hX).resolve_left hXZ
        have hY' : Y ∈ L := (List.mem_cons.1 hY).resolve_left hYZ
        rw [h4 X Y hX' hY' hXS hYS, IndexOf_cons_ne _ _ _ (Ne.symm hXZ),
          IndexOf_cons_ne _ _ _ (Ne.symm hYZ)]
        omega
    · rw [if_neg hZ]
      have hS' : (Seen ++ [Z]).Nodup := by
        rw [List.nodup_append]
        refine ⟨hS, by simp, ?_⟩
        intro a ha hb
        simp only [List.mem_singleton] at hb
        subst hb
        exact hZ ha
      obtain ⟨h1, h2, ⟨New, h3⟩, h4⟩ := ih (Seen ++ [Z]) hS'
      refine ⟨h1, ?_, ⟨Z :: New, by rw [h3]; simp⟩, ?_⟩
      · intro X
        rw [h2, List.mem_append, List.mem_singleton, List.mem_cons]
        tauto
      · intro X Y hX hY hXS hYS
        have hIdxZ : IndexOf Z (FirstAppearances L (Seen ++ [Z])) = Seen.length := by
          rw [h3, List.append_assoc, IndexOf_append _ _ _ hZ, List.singleton_append,
            IndexOf_cons_self]
          rfl
        have hIdx : ∀ W, W ∉ Seen → W ≠ Z →
            Seen.length < IndexOf W (FirstAppearances L (Seen ++ [Z])) := by
          intro W hW hWZ
          rw [h3, List.append_assoc, IndexOf_append _ _ _ hW,
            List.singleton_append, IndexOf_cons_ne _ _ _ (Ne.symm hWZ)]
          omega
        by_cases hXZ : X = Z
        · by_cases hYZ : Y = Z
          · subst hXZ
            subst hYZ
            simp
          · subst hXZ
            rw [hIdxZ, IndexOf_cons_self, IndexOf_cons_ne _ _ _ (Ne.symm hYZ)]
            have := hIdx Y hYS hYZ
            omega
        · by_cases hYZ : Y = Z
          · subst hYZ
            rw [hIdxZ, IndexOf_cons_self, IndexOf_cons_ne _ _ _ (Ne.symm hXZ)]
            have := hIdx X hXS hXZ
            omega
          · have hX' : X ∈ L := (List.mem_cons.1 hX).resolve_left hXZ
            have hY' : Y ∈ L := (List.mem_cons.1 hY).resolve_left hYZ
            have hXS' : X ∉ Seen ++ [Z] := by
              simp only [List.mem_append, List.mem_singleton]
              tauto
            have hYS' : Y ∉ Seen ++ [Z] := by
              simp only [List.mem_append, List.mem_singleton]
              tauto
            rw [h4 X Y hX' hY' hXS' hYS', IndexOf_cons_ne _ _ _ (Ne.symm hXZ),
              IndexOf_cons_ne _ _ _ (Ne.symm hYZ)]
            omega

/-! ### Declarations -/

theorem DeclarationLoop_eq (RetWidth : List Char) (hW : NUL ∉ RetWidth)
    (Calls : List (List Char)) (hC : ∀ Call ∈ Calls, NUL ∉ Call) (I : Nat) :
    DeclarationLoop RetWidth Calls I = Declarations RetWidth Calls I ∧
      NUL ∉ Declarations RetWidth Calls I := by
  induction Calls generalizing I with
  | nil => simp [DeclarationLoop, Declarations]
  | cons Call Rest ih =>
    obtain ⟨ih1, ih2⟩ := ih (fun c hc => hC c (List.mem_cons_of_mem _ hc)) (I + 1)
    have hCall := hC Call (List.mem_cons_self _ _)
    constructor
    · rw [DeclarationLoop, Declarations, CStr_of_not_mem _ hW, CStr_of_not_mem _ hCall, ih1]
    · rw [Declarations]
      have h1 : NUL ∉ "  ".toList := by decide
      have h2 : NUL ∉ " ".toList := by decide
      have h3 : NUL ∉ VarPrefix := by decide
      have h4 : NUL ∉ " = ".toList := by decide
      have h5 : NUL ∉ ";\n".toList := by decide
      exact not_mem_append (not_mem_append (not_mem_append (not_mem_append (not_mem_append
        (not_mem_append (not_mem_append (not_mem_append h1 hW) h2) h3)
        (Decimal_ne_NUL _)) h4) hCall) h5) ih2

/-- `MakeFunctionBody` on a text with balanced parentheses: the text itself
when it holds no top-level call, the factored body otherwise. -/
theorem MakeFunctionBody_eq (RetWidth Raw : List Char) (hW : NUL ∉ RetWidth) (hR : NUL ∉ Raw)
    (hBal : Balanced Raw) :
    MakeFunctionBody RetWidth Raw =
      if TopLevelCalls Raw = [] then Raw else FactoredBody RetWidth Raw := by
  unfold MakeFunctionBody
  have hScan := ScanLoop_calls Raw hBal (Raw.length + 1) 0 [] [] (by omega)
  simp only [List.drop_zero, List.nil_append] at hScan
  rw [hScan]
  dsimp only
  by_cases hE : TopLevelCalls Raw = []
  · rw [if_pos hE]
    unfold TopLevelCalls at hE
    rw [if_pos hE]
  · rw [if_neg hE]
    have hE' : ¬ TopLevelCallsFrom Raw 0 = [] := hE
    rw [if_neg hE']
    have hCalls : ∀ Call ∈ FirstAppearances (TopLevelCallsFrom Raw 0) [], NUL ∉ Call := by
      intro Call hCall hN
      have := ((FirstAppearances_spec (TopLevelCallsFrom Raw 0) [] List.nodup_nil).2.1 Call).1
        hCall
      simp only [List.not_mem_nil, false_or] at this
      exact hR (TopLevelCallsFrom_mem Raw 0 Call this NUL hN)
    obtain ⟨hD1, hD2⟩ := DeclarationLoop_eq RetWidth hW _ hCalls 0
    have hRep := ReplaceLoop_calls (FirstAppearances (TopLevelCallsFrom Raw 0) []) Raw.length Raw
      [] (le_refl _)
    simp only [List.nil_append, List.length_nil] at hRep
    rw [hRep, hD1, CStr_of_not_mem _ hD2,
      CStr_of_not_mem _ (ReplaceCallsFrom_ne_NUL _ (LocalOf_ne_NUL _) Raw 0 hR)]
    rfl

theorem ReplaceCallsFrom_of_no_call (Local : List Char → List Char) (Text : List Char)
    (h : TopLevelCallsFrom Text 0 = []) : ReplaceCallsFrom Local Text 0 = Text := by
  rcases first_call Text with hNone | ⟨K, N, hGap, hC⟩
  · exact (TopLevelCallsFrom_none Local Text hNone).2
  · rw [(TopLevelCallsFrom_gap Local Text K hGap).1, TopLevelCallsFrom_some _ _ hC] at h
    cases h

/-- C25 (code defect): for the pseudocode `<ParamName> ^ 0x5`, which holds no
rotate call, `MakeFunctionBody` returns the text as it is, without a `return`
statement; so it does for every text with balanced parentheses and no
top-level call, while a text with a top-level call gives the declarations
followed by `  return <expr>;`. -/
theorem MakeFunctionBody_no_return :
    MakeFunctionBody "std::uint64_t".toList "<ParamName> ^ 0x5".toList =
        "<ParamName> ^ 0x5".toList ∧
      ∀ RetWidth Raw : List Char, NUL ∉ RetWidth → NUL ∉ Raw → Balanced Raw →
        (TopLevelCalls Raw = [] → MakeFunctionBody RetWidth Raw = Raw) ∧
        (TopLevelCalls Raw ≠ [] →
          MakeFunctionBody RetWidth Raw =
            Declarations RetWidth (DistinctCalls Raw) 0 ++ "  return ".toList ++
              ReplaceCallsFrom (LocalOf (DistinctCalls Raw)) Raw 0 ++ ";".toList) := by
  constructor
  · decide!
  · intro RetWidth Raw hW hR hBal
    constructor
    · intro h
      rw [MakeFunctionBody_eq RetWidth Raw hW hR hBal, if_pos h]
    · intro h
      rw [MakeFunctionBody_eq RetWidth Raw hW hR hBal, if_neg h]
      rfl

/-- C26: for a pseudocode with balanced parentheses (and no NUL character)
that holds a top-level rotate call, `MakeFunctionBody` returns one declaration
per distinct top-level call text, numbered `<V>1`, `<V>2`, ... in the order of
first appearance, followed by `  return <expr>;`, where `<expr>` is the
pseudocode with every top-level call replaced by the local of its text and
nothing else changed.  The distinct calls are without repetition, they are
the texts of the top-level calls, and one comes before the other exactly when
its first occurrence among the top-level calls does. -/
theorem MakeFunctionBody_factored (RetWidth Raw : List Char) (hW : NUL ∉ RetWidth)
    (hR : NUL ∉ Raw) (hBal : Balanced Raw) (hCall : TopLevelCalls Raw ≠ []) :
    MakeFunctionBody RetWidth Raw = FactoredBody RetWidth Raw ∧
      (DistinctCalls Raw).Nodup ∧
      (∀ Call, Call ∈ DistinctCalls Raw ↔ Call ∈ TopLevelCalls Raw) ∧
      ∀ A B, A ∈ TopLevelCalls Raw → B ∈ TopLevelCalls Raw →
        (IndexOf A (DistinctCalls Raw) < IndexOf B (DistinctCalls Raw) ↔
          IndexOf A (TopLevelCalls Raw) < IndexOf B (TopLevelCalls Raw)) := by
  obtain ⟨h1, h2, _, h4⟩ := FirstAppearances_spec (TopLevelCalls Raw) [] List.nodup_nil
  refine ⟨?_, h1, ?_, ?_⟩
  · rw [MakeFunctionBody_eq RetWidth Raw hW hR hBal, if_neg hCall]
  · intro Call
    rw [DistinctCalls, h2]
    simp
  · intro A B hA hB
    exact h4 A B hA hB (List.not_mem_nil _) (List.not_mem_nil _)

/-- C26, at `_rotr64(a, 1) ^ _rotl64(b, 2) ^ _rotr64(a, 1)`: two locals, the
first used twice. -/
theorem MakeFunctionBody_factored_witness :
    NUL ∉ "std::uint64_t".toList ∧ NUL ∉ RepeatedCallPseudocode ∧
    Balanced RepeatedCallPseudocode ∧ TopLevelCalls RepeatedCallPseudocode ≠ [] ∧
    FactoredBody "std::uint64_t".toList RepeatedCallPseudocode =
      ("  std::uint64_t <V>1 = _rotr64(a, 1);\n  std::uint64_t <V>2 = _rotl64(b, 2);\n" ++
        "  return <V>1 ^ <V>2 ^ <V>1;").toList ∧
    (MakeFunctionBody "std::uint64_t".toList RepeatedCallPseudocode =
        FactoredBody "std::uint64_t".toList RepeatedCallPseudocode ∧
      (DistinctCalls RepeatedCallPseudocode).Nodup ∧
      (∀ Call, Call ∈ DistinctCalls RepeatedCallPseudocode ↔
        Call ∈ TopLevelCalls RepeatedCallPseudocode) ∧
      ∀ A B, A ∈ TopLevelCalls RepeatedCallPseudocode →
        B ∈ TopLevelCalls RepeatedCallPseudocode →
        (IndexOf A (DistinctCalls RepeatedCallPseudocode) <
            IndexOf B (DistinctCalls RepeatedCallPseudocode) ↔
          IndexOf A (TopLevelCalls RepeatedCallPseudocode) <
            IndexOf B (TopLevelCalls RepeatedCallPseudocode))) :=
  ⟨by decide!, by decide!, by decide!, by decide!, by decide!,
    MakeFunctionBody_factored "std::uint64_t".toList RepeatedCallPseudocode (by decide!)
      (by decide!) (by decide!) (by decide!)⟩

/-- C27 (counterexample): in `(_rotr64(<ParamName> ^ 0x1111, 17) ^ 0x2222) >> 5`
a rotate call occurs exactly once, and the body `MakeFunctionBody` returns has
a declaration line for `<V>1` and `<V>1` in place of the call. -/
theorem MakeFunctionBody_single_call :
    TopLevelCalls SingleCallPseudocode = ["_rotr64(<ParamName> ^ 0x1111, 17)".toList] ∧
      MakeFunctionBody "std::uint64_t".toList SingleCallPseudocode =
        ("  std::uint64_t <V>1 = _rotr64(<ParamName> ^ 0x1111, 17);\n" ++
          "  return (<V>1 ^ 0x2222) >> 5;").toList := by
  constructor
  · decide!
  · decide!

/-- C27 (amended): for a pseudocode with balanced parentheses (and no NUL
character) in which exactly one top-level rotate call occurs, `MakeFunctionBody`
introduces the local `<V>1`: the result is the declaration of `<V>1` with the
text of the call, and the return statement of the pseudocode with `<V>1` in
the place of the call. -/
theorem MakeFunctionBody_single_call_local (RetWidth Raw Call : List Char)
    (hW : NUL ∉ RetWidth) (hR : NUL ∉ Raw) (hBal : Balanced Raw)
    (hCall : TopLevelCalls Raw = [Call]) :
    ∃ Before After, Raw = Before ++ Call ++ After ∧
      MakeFunctionBody RetWidth Raw =
        "  ".toList ++ RetWidth ++ " ".toList ++ VarPrefix ++ Decimal 1 ++ " = ".toList ++
          Call ++ ";\n".toList ++ "  return ".toList ++ Before ++ (VarPrefix ++ Decimal 1) ++
          After ++ ";".toList := by
  have hNe : TopLevelCalls Raw ≠ [] := by rw [hCall]; simp
  rw [MakeFunctionBody_eq RetWidth Raw hW hR hBal, if_neg hNe]
  unfold TopLevelCalls at hCall
  rcases first_call Raw with hNone | ⟨K, N, hGap, hC⟩
  · rw [(TopLevelCallsFrom_none id Raw hNone).1] at hCall
    cases hCall
  · have hG := TopLevelCallsFrom_gap (LocalOf [Call]) Raw K hGap
    rw [hG.1, TopLevelCallsFrom_some _ _ hC, List.drop_drop] at hCall
    simp only [List.cons.injEq] at hCall
    obtain ⟨hTake, hRest⟩ := hCall
    refine ⟨Raw.take K, Raw.drop (K + N), ?_, ?_⟩
    · rw [← hTake, List.append_assoc]
      conv_lhs => rw [← List.take_append_drop K Raw]
      congr 1
      conv_lhs => rw [← List.take_append_drop N (Raw.drop K)]
      rw [List.drop_drop]
    · have hD : DistinctCalls Raw = [Call] := by
        unfold DistinctCalls TopLevelCalls
        rw [hG.1, TopLevelCallsFrom_some _ _ hC, List.drop_drop, hTake, hRest]
        simp [FirstAppearances]
      unfold FactoredBody
      rw [hD, hG.2, ReplaceCallsFrom_some _ _ _ hC, List.drop_drop, hTake,
        ReplaceCallsFrom_of_no_call _ _ hRest]
      simp only [Declarations, LocalOf, IndexOf, if_true, List.append_assoc, List.append_nil,
        Nat.zero_add]

/-- C27 (amended), at the pseudocode of the decryptor scenario. -/
theorem MakeFunctionBody_single_call_local_witness :
    NUL ∉ "std::uint64_t".toList ∧ NUL ∉ SingleCallPseudocode ∧
    Balanced SingleCallPseudocode ∧
    TopLevelCalls SingleCallPseudocode = ["_rotr64(<ParamName> ^ 0x1111, 17)".toList] ∧
    ∃ Before After,
      SingleCallPseudocode =
        Before ++ "_rotr64(<ParamName> ^ 0x1111, 17)".toList ++ After ∧
      MakeFunctionBody "std::uint64_t".toList SingleCallPseudocode =
        "  ".toList ++ "std::uint64_t".toList ++ " ".toList ++ VarPrefix ++ Decimal 1 ++
          " = ".toList ++ "_rotr64(<ParamName> ^ 0x1111, 17)".toList ++ ";\n".toList ++
          "  return ".toList ++ Before ++ (VarPrefix ++ Decimal 1) ++ After ++ ";".toList :=
  ⟨by decide!, by decide!, by decide!, by decide!,
    MakeFunctionBody_single_call_local "std::uint64_t".toList SingleCallPseudocode
      "_rotr64(<ParamName> ^ 0x1111, 17)".toList (by decide!) (by decide!) (by decide!)
      (by decide!)⟩

theorem ParsePatternLoop_none (Token : List Char) (hBad : ParseToken Token = none) :
    ∀ (Rest : List (List Char)) (Pattern : List PatternElem), Token ∈ Rest →
      ParsePatternLoop Rest Pattern = none := by
  intro Rest
  induction Rest with
  | nil => intro Pattern h; cases h
  | cons T Rest ih =>
    intro Pattern h
    rw [ParsePatternLoop]
    cases hT : ParseToken T with
    | none => rfl
    | some Elem =>
      have hne : Token ≠ T := by
        rintro rfl
        rw [hBad] at hT
        cases hT
      rcases List.mem_cons.1 h with h | h
      · exact absurd h hne
      · exact ih _ h

/-- C30, counterexample: for the pattern text `48 ZZ C3` and the window of
the three bytes `48 00 C3` the range search does not return absent: the
conversion of `ZZ` raises an exception, which leaves the search. -/
theorem FindPatternInRange_malformed_raises :
    (ScenarioAnalyzer [0x48, 0x00, 0xC3]).FindPatternInRange 0 3 "48 ZZ C3".toList = none ∧
    (ScenarioAnalyzer [0x48, 0x00, 0xC3]).FindPatternInRange 0 3 "48 ZZ C3".toList ≠
      some none := by
  decide

/-- C30 (amended): for a pattern text with a token that is neither a wildcard
form (`?`, `??`) nor a two-character token of hex digits and `?`, and from
which `std::stoul` converts nothing, the range search
`FindPattern(start, size, text)` raises an exception for every window. -/
theorem FindPatternInRange_malformed_token (A : DumpAnalyzer) (StartOffset Size : Nat)
    (IdaPattern Token : List Char) (hMem : Token ∈ Tokens IdaPattern)
    (hWild : ¬ (Token = ['?'] ∨ Token = ['?', '?']))
    (hTwo : ¬ (Token.length = 2 ∧
      (isxdigit (Token.getD 0 ' ') = true ∨ Token.getD 0 ' ' = '?') ∧
      (isxdigit (Token.getD 1 ' ') = true ∨ Token.getD 1 ' ' = '?')))
    (hHex : stoul16 Token = none) :
    A.FindPatternInRange StartOffset Size IdaPattern = none := by
  have hBad : ParseToken Token = none := by
    rw [ParseToken, if_neg hWild, if_neg hTwo, hHex]
  have h : ParsePattern IdaPattern = none :=
    ParsePatternLoop_none Token hBad _ _ hMem
  simp [DumpAnalyzer.FindPatternInRange, h]

theorem FindPatternInRange_malformed_token_witness :
    "ZZ".toList ∈ Tokens "48 ZZ C3".toList ∧ stoul16 "ZZ".toList = none ∧
    (ScenarioAnalyzer [0x48, 0x00, 0xC3]).FindPatternInRange 0 3 "48 ZZ C3".toList = none :=
  ⟨by decide, by decide,
    FindPatternInRange_malformed_token _ 0 3 "48 ZZ C3".toList "ZZ".toList
      (by decide) (by decide) (by decide) (by decide)⟩

theorem ExtractLoop_eq_stream (D : ZydisDecoder) (Punned : ZydisDecodedOperand → ZydisRegister)
    (X32 : Bool) (StartOffset : Nat) (Buffer : List Nat) :
    ∀ (Fuel Offset : Nat) (S : ExtractState), 0 < Fuel → Buffer.length + 1 ≤ Fuel + Offset →
      (∀ x ∈ ForwardDecodeLoop D AllOperands Buffer Fuel Offset, 1 ≤ x.Instruction.length) →
      ExtractLoop D Punned X32 StartOffset Buffer Fuel Offset S =
        ExtractStream Punned X32 StartOffset
          (ForwardDecodeLoop D AllOperands Buffer Fuel Offset) S := by
  intro Fuel
  induction Fuel with
  | zero => intro _ _ h; omega
  | succ Fuel ih =>
    intro Offset S _ hFuel hLen
    rw [ExtractLoop]
    by_cases hOff : Offset < Buffer.length
    · rw [if_pos hOff]
      cases hI : D.DecodeInstruction (Buffer.drop Offset) with
      | none =>
        rw [ForwardDecodeLoop_fail D _ Buffer Fuel Offset hOff hI] at hLen ⊢
        exact ih _ S (by omega) (by omega) hLen
      | some Instruction =>
        rw [ForwardDecodeLoop_ok D _ Buffer Fuel Offset hOff Instruction hI] at hLen ⊢
        have hOne : 1 ≤ Instruction.length := hLen _ (List.mem_cons_self _ _)
        have hRest := fun x hx => hLen x (List.mem_cons_of_mem _ hx)
        have hNext := fun S => ih (Offset + Instruction.length) S (by omega) (by omega) hRest
        simp only [ExtractStream, AllOperands]
        cases hO : D.DecodeOperands (Buffer.drop Offset) Instruction Instruction.operand_count with
        | none => exact hNext S
        | some Operands =>
          simp only
          cases hS : ExtractStep Punned X32 (add64 StartOffset Offset) Instruction Operands S with
          | none => rfl
          | some S1 => exact hNext S1
    · rw [if_neg hOff]
      have h : ForwardDecodeLoop D AllOperands Buffer (Fuel + 1) Offset = [] := by
        simp [ForwardDecodeLoop, hOff]
      rw [h]
      rfl

theorem ExtractTslDecryptors_eq_stream (A : DumpAnalyzer)
    (Punned : ZydisDecodedOperand → ZydisRegister) (X32 : Bool) (ChainID StartOffset Size : Nat)
    (Buffer : List Nat) (hRead : A.Read StartOffset Size = some Buffer) (hBuffer : Buffer ≠ [])
    (hLen : ∀ x ∈ ForwardDecode A.Decoder AllOperands Buffer, 1 ≤ x.Instruction.length) :
    A.ExtractTslDecryptors Punned X32 ChainID StartOffset Size =
      match ExtractStream Punned X32 StartOffset (ForwardDecode A.Decoder AllOperands Buffer)
          { ChainID := ChainID } with
      | none => none
      | some S =>
        match FinishDecryptors S.CompletedChains with
        | none => none
        | some Out => some (Out, S.ChainID) := by
  rw [DumpAnalyzer.ExtractTslDecryptors, hRead]
  simp only [if_neg hBuffer]
  rw [ExtractLoop_eq_stream _ _ _ _ _ _ _ _ (by omega) (by omega) hLen]
  rfl

theorem ExtractStream_chain (Punned : ZydisDecodedOperand → ZydisRegister)
    (ChainID StartOffset imm2 Rotate imm3 Shift : Nat)
    (hPunned : Punned (ZydisDecodedOperand.IMMEDIATE true imm3 32) ≠ ZydisRegister.RAX)
    (h2 : imm2 ≠ 0) (h2lt : imm2 < 2 ^ 64) (h3 : imm3 ≠ 0) (h3lt : imm3 < 2 ^ 64)
    (hRotate : Rotate % 256 ≠ 0) (hShift : Shift % 256 ≠ 0) :
    ∃ S : ExtractState,
      ExtractStream Punned false StartOffset (ChainStream imm2 Rotate imm3 Shift)
        { ChainID := ChainID } = some S ∧
      S.ChainID = (ChainID + 1) % 256 ∧
      ∃ Chain : DecryptionChain, S.CompletedChains = [Chain] ∧
        Chain.Ranges = [⟨add64 StartOffset 0, 6⟩, ⟨add64 StartOffset 6, 4⟩,
          ⟨add64 StartOffset 10, 6⟩, ⟨add64 StartOffset 16, 3⟩, ⟨add64 StartOffset 19, 4⟩] ∧
        ∃ Code, Chain.Extracted =
          ⟨false, imm2, imm3, true, Rotate % 256, true, Shift % 256, Code⟩ := by
  have e2 : imm2 % 18446744073709551616 = imm2 := Nat.mod_eq_of_lt h2lt
  have e3 : imm3 % 18446744073709551616 = imm3 := Nat.mod_eq_of_lt h3lt
  have eR : Rotate % 18446744073709551616 % 256 = Rotate % 256 :=
    Nat.mod_mod_of_dvd _ (by decide)
  have eS : Shift % 18446744073709551616 % 256 = Shift % 256 :=
    Nat.mod_mod_of_dvd _ (by decide)
  have hPunned' : ¬ ZydisRegister.RAX = Punned (ZydisDecodedOperand.IMMEDIATE true imm3 32) :=
    fun h => hPunned h.symm
  have hR : 0 < Rotate % 256 := Nat.pos_of_ne_zero hRotate
  have hS : 0 < Shift % 256 := Nat.pos_of_ne_zero hShift
  simp [ChainStream, ExtractStream, ExtractStep, ExtractBranches, XorNew, XorChained,
    RotateChained, ShiftChained, ExtractState.Complete, ExtractState.CreateChain,
    ExtractState.BelongsToChain, ExtractState.ChainAt, ExtractState.SetChain,
    ExtractState.CopyRanges, DecryptionChain.ReadyToComplete, DecryptionChain.GetPseudocode,
    DecryptionChain.SetPseudocode, DecryptionChain.PushRange, DecryptionChain.SetX32,
    DecryptionChain.SetXor1, DecryptionChain.SetXor2, DecryptionChain.SetXor3,
    DecryptionChain.SetRotate, DecryptionChain.SetShift,
    InstructionChecklist.IsAllExtracted, InstructionChecklist.IsXorExtracted,
    RegisterTracker.ResolveOperand, ZydisDecodedOperand.RegValue,
    ZydisDecodedOperand.OfRegisterType, ZydisDecodedOperand.OfImmediateType,
    MapFind, MapSet, XorBits, e2, e3, eR, eS, h2, h3, hPunned', hRotate, hShift, hR, hS]

theorem FinishDecryptors_value (CompletedChains : List DecryptionChain)
    (R : Result (List TslDecryption))
    (h : FinishDecryptors CompletedChains = some (some R)) :
    R.Value = some ((SortByID CompletedChains).map (·.Extracted)) := by
  unfold FinishDecryptors at h
  split at h
  · simp only at h
    split at h
    · simp only [Option.some.injEq] at h
      rw [← h]
    · cases h
  · cases h

theorem FinishDecryptors_some (CompletedChains : List DecryptionChain)
    (hRanges : ∃ Chain ∈ CompletedChains, Chain.Ranges ≠ []) :
    ∃ Range, FinishDecryptors CompletedChains =
      some (some ⟨Range, some ((SortByID CompletedChains).map (·.Extracted))⟩) := by
  obtain ⟨Chain, hMem, hNe⟩ := hRanges
  have hLen : CompletedChains.length > 0 := List.length_pos_of_mem hMem
  have hSorted : Chain ∈ SortByID CompletedChains :=
    (List.mem_insertionSort _).2 hMem
  obtain ⟨Range, hRange⟩ := List.exists_mem_of_ne_nil _ hNe
  have hIn : Range ∈ SortByOffset ((SortByID CompletedChains).map (·.Ranges)).flatten :=
    (List.mem_insertionSort _).2
      (List.mem_flatten.2 ⟨Chain.Ranges, List.mem_map.2 ⟨Chain, hSorted, rfl⟩, hRange⟩)
  have hNil : SortByOffset ((SortByID CompletedChains).map (·.Ranges)).flatten ≠ [] :=
    List.ne_nil_of_mem hIn
  obtain ⟨First, hFirst⟩ : ∃ First,
      (SortByOffset ((SortByID CompletedChains).map (·.Ranges)).flatten).head? = some First :=
    ⟨_, List.head?_eq_head hNil⟩
  obtain ⟨Last, hLast⟩ : ∃ Last,
      (SortByOffset ((SortByID CompletedChains).map (·.Ranges)).flatten).getLast? = some Last :=
    ⟨_, List.getLast?_eq_getLast _ hNil⟩
  refine ⟨⟨First.Offset, sub64 (add64 Last.Offset Last.Size) First.Offset⟩, ?_⟩
  unfold FinishDecryptors
  rw [if_pos hLen]
  simp only [hFirst, hLast]

theorem ForwardDecode_nil (D : ZydisDecoder) (Requested : ZydisDecodedInstruction → Nat) :
    ForwardDecode D Requested [] = [] := by
  simp [ForwardDecode, ForwardDecodeLoop]

/-- C22, counterexample: over the bytes of scenario S6 (`mov rax, imm1;
xor rax, imm2; ror rax, 0x11; xor rax, imm3; shr rax, 0x05`) the 64-bit
extractor returns absent: no chain is completed. -/
theorem ExtractTslDecryptors_scenario_S6 :
    (TslAnalyzer ScenarioS6).ExtractTslDecryptors TslPunned false 0 0 30 = some (none, 1) := by
  decide

/-- C22 (amended): when the window decodes to the instruction sequence
`xor rax, imm2; ror rax, 0x11; xor rax, imm3; xor rax, rbx; shr rax, 0x05`
(imm2, imm3 non-zero), the 64-bit extractor returns exactly one record, with
xor1 = imm2, xor2 = imm3, is_rotate_right = true, rotate = 0x11,
is_shift_right = true and shift = 0x05. -/
theorem ExtractTslDecryptors_single_chain (A : DumpAnalyzer)
    (Punned : ZydisDecodedOperand → ZydisRegister)
    (ChainID StartOffset Size imm2 imm3 : Nat) (Buffer : List Nat)
    (hRead : A.Read StartOffset Size = some Buffer)
    (hStream : ForwardDecode A.Decoder AllOperands Buffer = ChainStream imm2 0x11 imm3 0x05)
    (hPunned : Punned (ZydisDecodedOperand.IMMEDIATE true imm3 32) ≠ ZydisRegister.RAX)
    (h2 : imm2 ≠ 0) (h2lt : imm2 < 2 ^ 64) (h3 : imm3 ≠ 0) (h3lt : imm3 < 2 ^ 64) :
    ∃ Range Code, A.ExtractTslDecryptors Punned false ChainID StartOffset Size =
      some (some ⟨Range, some [⟨false, imm2, imm3, true, 0x11, true, 0x05, Code⟩]⟩,
        (ChainID + 1) % 256) := by
  have hBuffer : Buffer ≠ [] := by
    rintro rfl
    rw [ForwardDecode_nil] at hStream
    cases hStream
  have hLen : ∀ x ∈ ForwardDecode A.Decoder AllOperands Buffer, 1 ≤ x.Instruction.length := by
    rw [hStream]
    simp [ChainStream]
  obtain ⟨S, hS, hID, Chain, hCompleted, hRanges, Code, hExtracted⟩ :=
    ExtractStream_chain Punned ChainID StartOffset imm2 0x11 imm3 0x05 hPunned h2 h2lt h3 h3lt
      (by decide) (by decide)
  obtain ⟨Range, hFinish⟩ := FinishDecryptors_some S.CompletedChains
    ⟨Chain, by rw [hCompleted]; exact List.mem_singleton_self _, by rw [hRanges]; simp⟩
  refine ⟨Range, Code, ?_⟩
  rw [ExtractTslDecryptors_eq_stream A Punned false ChainID StartOffset Size Buffer hRead hBuffer
    hLen, hStream, hS]
  simp only [hFinish, hID]
  rw [hCompleted]
  simp [SortByID, hExtracted]

theorem ExtractTslDecryptors_single_chain_witness :
    ∃ Range Code,
      (TslAnalyzer (ChainBytes 0x11 0x11 0x11 0x11 0x11 0x22 0x22 0x22 0x22 0x05)).ExtractTslDecryptors
        TslPunned false 0 0 23 =
      some (some ⟨Range, some [⟨false, 0x11111111, 0x22222222, true, 0x11, true, 0x05, Code⟩]⟩,
        1) :=
  ExtractTslDecryptors_single_chain
    (TslAnalyzer (ChainBytes 0x11 0x11 0x11 0x11 0x11 0x22 0x22 0x22 0x22 0x05)) TslPunned 0 0 23
    0x11111111 0x22222222 (ChainBytes 0x11 0x11 0x11 0x11 0x11 0x22 0x22 0x22 0x22 0x05)
    (by decide) (by decide) (by decide) (by decide) (by decide) (by decide) (by decide)

theorem Bounded_default (ID : Nat) : ({ ID := ID } : DecryptionChain).Bounded := by
  constructor
  · show 0 ≤ 255
    omega
  · show 0 ≤ 255
    omega

theorem Bounded_SetPseudocode (Chain : DecryptionChain) (R : ZydisRegister) (Code : List Char)
    (h : Chain.Bounded) : (Chain.SetPseudocode R Code).Bounded := h

theorem Bounded_PushRange (Chain : DecryptionChain) (Range : InstructionRange)
    (h : Chain.Bounded) : (Chain.PushRange Range).Bounded := h

theorem Bounded_SetX32 (Chain : DecryptionChain) (X32 : Bool)
    (h : Chain.Bounded) : (Chain.SetX32 X32).Bounded := h

theorem Bounded_SetXor1 (Chain : DecryptionChain) (Op1 : Nat)
    (h : Chain.Bounded) : (Chain.SetXor1 Op1).Bounded := h

theorem Bounded_SetXor2 (Chain : DecryptionChain) (Op1 : Nat)
    (h : Chain.Bounded) : (Chain.SetXor2 Op1).Bounded := h

theorem Bounded_SetXor3 (Chain : DecryptionChain)
    (h : Chain.Bounded) : Chain.SetXor3.Bounded := h

theorem Bounded_CheckRotate (Chain : DecryptionChain)
    (h : Chain.Bounded) : Chain.CheckRotate.Bounded := h

theorem Bounded_CheckShift (Chain : DecryptionChain)
    (h : Chain.Bounded) : Chain.CheckShift.Bounded := h

theorem Bounded_SetRotate (Chain : DecryptionChain) (Right : Bool) (Op1 : Nat)
    (h : Chain.Bounded) : (Chain.SetRotate Right Op1).Bounded := by
  refine ⟨?_, h.2⟩
  show Op1 % 256 ≤ 255
  omega

theorem Bounded_SetShift (Chain : DecryptionChain) (Right : Bool) (Op1 : Nat)
    (h : Chain.Bounded) : (Chain.SetShift Right Op1).Bounded := by
  refine ⟨h.1, ?_⟩
  show Op1 % 256 ≤ 255
  omega

theorem ExtractState.Inv.chainAt {S : ExtractState} (h : S.Inv) (ChainIndex : Nat) :
    (S.ChainAt ChainIndex).Bounded := by
  unfold ExtractState.ChainAt
  rw [List.getD_eq_getElem?_getD]
  cases hC : S.Chains[ChainIndex]? with
  | none => exact Bounded_default 0
  | some Chain => exact h.1 _ (List.mem_iff_getElem?.2 ⟨ChainIndex, hC⟩)

theorem ExtractState.Inv.setChain {S : ExtractState} (h : S.Inv) (ChainIndex : Nat)
    (Chain : DecryptionChain) (hChain : Chain.Bounded) : (S.SetChain ChainIndex Chain).Inv := by
  refine ⟨?_, h.2⟩
  intro C hC
  rcases List.mem_or_eq_of_mem_set hC with hC | rfl
  · exact h.1 _ hC
  · exact hChain

theorem ExtractState.Inv.createChain {S : ExtractState} (h : S.Inv) (R : ZydisRegister) :
    (S.CreateChain R).1.Inv := by
  refine ⟨?_, h.2⟩
  intro C hC
  rcases List.mem_append.1 hC with hC | hC
  · exact h.1 _ hC
  · rw [List.mem_singleton.1 hC]
    exact Bounded_default _

theorem ExtractState.Inv.copyRanges {S S1 : ExtractState} (h : S.Inv) (Src : Option Nat)
    (Dst : Nat) (hCopy : S.CopyRanges Src Dst = some S1) : S1.Inv := by
  unfold ExtractState.CopyRanges at hCopy
  cases Src with
  | none =>
    simp only [Option.some.injEq] at hCopy
    exact hCopy ▸ h
  | some SrcChainIndex =>
    simp only at hCopy
    split at hCopy
    · cases hCopy
    · simp only [Option.some.injEq] at hCopy
      rw [← hCopy]
      exact h.setChain _ _ (h.chainAt Dst)

theorem ExtractState.Inv.tracker {S : ExtractState} (h : S.Inv) (T : RegisterTracker) :
    ({ S with Tracker := T } : ExtractState).Inv := h

theorem ExtractState.Inv.addToChain {S : ExtractState} (h : S.Inv) (R : ZydisRegister)
    (ChainIndex : Nat) : (S.AddToChain R ChainIndex).Inv := h

theorem MovImmediate_inv (X32 : Bool) (S : ExtractState) (DstRegister : ZydisRegister)
    (DstChained : Option Nat) (Operand1 : ZydisDecodedOperand) (Range : InstructionRange)
    (hS : S.Inv) : (MovImmediate X32 S DstRegister DstChained Operand1 Range).Inv := by
  unfold MovImmediate
  cases DstChained with
  | none =>
    exact ((hS.createChain DstRegister).setChain _ _
      (Bounded_PushRange _ _ ((hS.createChain DstRegister).chainAt _))).tracker _
  | some ChainIndex => exact hS.tracker _

theorem MovRegister_inv (S : ExtractState) (DstRegister SrcRegister : ZydisRegister)
    (SrcChained : Option Nat) (hS : S.Inv) :
    (MovRegister S DstRegister SrcRegister SrcChained).Inv := by
  unfold MovRegister
  have hT := hS.tracker (S.Tracker.Propagate DstRegister SrcRegister)
  cases SrcChained with
  | none => exact hT
  | some ChainIndex =>
    simp only
    split
    · exact (hT.addToChain _ _).setChain _ _ (Bounded_SetPseudocode _ _ _ (hT.chainAt _))
    · exact hT.addToChain _ _

theorem XorNew_inv (X32 : Bool) (S : ExtractState) (DstRegister SrcRegister : ZydisRegister)
    (SrcChained : Option Nat) (Operand1 : ZydisDecodedOperand) (Range : InstructionRange)
    (Out : ExtractState × Bool) (hS : S.Inv)
    (h : XorNew X32 S DstRegister SrcRegister SrcChained Operand1 Range = some Out) :
    Out.1.Inv := by
  have hC := hS.createChain DstRegister
  have hChain := Bounded_SetX32 _ X32 (hC.chainAt (S.CreateChain DstRegister).2)
  unfold XorNew at h
  simp only at h
  split at h
  · split at h
    · cases h
    · rename_i S1 hCopy
      simp only [Option.some.injEq] at h
      rw [← h]
      refine ExtractState.Inv.copyRanges (hC.setChain _ _ ?_) _ _ hCopy
      exact Bounded_PushRange _ _ (Bounded_SetXor1 _ _ (Bounded_SetPseudocode _ _ _ hChain))
  · split at h <;>
    · simp only [Option.some.injEq] at h
      rw [← h]
      exact hC.setChain _ _ (Bounded_SetPseudocode _ _ _ hChain)

theorem XorChained_inv (X32 : Bool) (S : ExtractState) (ChainIndex : Nat)
    (DstRegister SrcRegister : ZydisRegister) (SrcChained : Option Nat)
    (Operand1 : ZydisDecodedOperand) (Range : InstructionRange)
    (Out : ExtractState × Bool) (hS : S.Inv)
    (h : XorChained X32 S ChainIndex DstRegister SrcRegister SrcChained Operand1 Range =
      some Out) :
    Out.1.Inv := by
  have hChain := hS.chainAt ChainIndex
  unfold XorChained at h
  simp only at h
  split at h
  · simp only [Option.some.injEq] at h
    rw [← h]
    exact hS
  · split at h
    · simp only [Option.some.injEq] at h
      rw [← h]
      exact hS
    · split at h
      · split at h
        · cases h
        · rename_i S1 hCopy
          simp only [Option.some.injEq] at h
          rw [← h]
          have hS1 : S1.Inv := by
            refine ExtractState.Inv.copyRanges (hS.setChain _ _ ?_) _ _ hCopy
            split
            · exact Bounded_SetXor2 _ _ (Bounded_SetPseudocode _ _ _ hChain)
            · exact Bounded_SetXor1 _ _ (Bounded_SetPseudocode _ _ _ hChain)
          exact hS1.setChain _ _ (Bounded_PushRange _ _ (hS1.chainAt _))
      · simp only [Option.some.injEq] at h
        rw [← h]
        refine hS.setChain _ _ (Bounded_PushRange _ _ (Bounded_SetXor3 _ ?_))
        split <;> exact Bounded_SetPseudocode _ _ _ hChain

theorem RotateNew_inv (X32 Right : Bool) (S : ExtractState)
    (DstRegister SrcRegister : ZydisRegister) (Operand1 : ZydisDecodedOperand)
    (Range : InstructionRange) (Out : ExtractState × Bool) (hS : S.Inv)
    (h : RotateNew X32 Right S DstRegister SrcRegister Operand1 Range = some Out) :
    Out.1.Inv := by
  have hC := hS.createChain DstRegister
  have hChain := Bounded_SetX32 _ X32 (hC.chainAt (S.CreateChain DstRegister).2)
  unfold RotateNew at h
  simp only at h
  split at h
  · simp only [Option.some.injEq] at h
    rw [← h]
    exact hC.setChain _ _
      (Bounded_PushRange _ _ (Bounded_SetPseudocode _ _ _ (Bounded_SetRotate _ _ _ hChain)))
  · split at h <;>
    · simp only [Option.some.injEq] at h
      rw [← h]
      exact hC.setChain _ _ (Bounded_SetPseudocode _ _ _ hChain)

theorem RotateChained_inv (X32 Right : Bool) (S : ExtractState) (ChainIndex : Nat)
    (DstRegister SrcRegister : ZydisRegister) (Operand1 : ZydisDecodedOperand)
    (Range : InstructionRange) (Out : ExtractState × Bool) (hS : S.Inv)
    (h : RotateChained X32 Right S ChainIndex DstRegister SrcRegister Operand1 Range =
      some Out) :
    Out.1.Inv := by
  have hChain := hS.chainAt ChainIndex
  unfold RotateChained at h
  simp only at h
  split at h
  · simp only [Option.some.injEq] at h
    rw [← h]
    exact hS
  · split at h
    · simp only [Option.some.injEq] at h
      rw [← h]
      exact hS
    · split at h
      · simp only [Option.some.injEq] at h
        rw [← h]
        exact hS.setChain _ _
          (Bounded_PushRange _ _ (Bounded_SetPseudocode _ _ _ (Bounded_SetRotate _ _ _ hChain)))
      · simp only [Option.some.injEq] at h
        rw [← h]
        refine hS.setChain _ _ (Bounded_CheckRotate _ ?_)
        split <;> exact Bounded_SetPseudocode _ _ _ hChain

theorem ShiftNew_inv (X32 Right : Bool) (S : ExtractState)
    (DstRegister SrcRegister : ZydisRegister) (Operand1 : ZydisDecodedOperand)
    (Range : InstructionRange) (Out : ExtractState × Bool) (hS : S.Inv)
    (h : ShiftNew X32 Right S DstRegister SrcRegister Operand1 Range = some Out) :
    Out.1.Inv := by
  have hC := hS.createChain DstRegister
  have hChain := Bounded_SetX32 _ X32 (hC.chainAt (S.CreateChain DstRegister).2)
  unfold ShiftNew at h
  simp only at h
  split at h
  · simp only [Option.some.injEq] at h
    rw [← h]
    exact hC.setChain _ _
      (Bounded_PushRange _ _ (Bounded_SetPseudocode _ _ _ (Bounded_SetShift _ _ _ hChain)))
  · split at h <;>
    · simp only [Option.some.injEq] at h
      rw [← h]
      exact hC.setChain _ _ (Bounded_SetPseudocode _ _ _ hChain)

theorem ShiftChained_inv (X32 Right : Bool) (S : ExtractState) (ChainIndex : Nat)
    (DstRegister SrcRegister : ZydisRegister) (Operand1 : ZydisDecodedOperand)
    (Range : InstructionRange) (Out : ExtractState × Bool) (hS : S.Inv)
    (h : ShiftChained X32 Right S ChainIndex DstRegister SrcRegister Operand1 Range =
      some Out) :
    Out.1.Inv := by
  have hChain := hS.chainAt ChainIndex
  unfold ShiftChained at h
  simp only at h
  split at h
  · simp only [Option.some.injEq] at h
    rw [← h]
    exact hS
  · split at h
    · simp only [Option.some.injEq] at h
      rw [← h]
      exact hS
    · split at h
      · simp only [Option.some.injEq] at h
        rw [← h]
        exact hS.setChain _ _
          (Bounded_PushRange _ _ (Bounded_SetPseudocode _ _ _ (Bounded_SetShift _ _ _ hChain)))
      · simp only [Option.some.injEq] at h
        rw [← h]
        refine hS.setChain _ _ (Bounded_CheckShift _ ?_)
        split <;> exact Bounded_SetPseudocode _ _ _ hChain

theorem ReadyToComplete_spec (Chain : DecryptionChain) (h : Chain.ReadyToComplete = true) :
    Chain.Extracted.Xor1 ≠ 0 ∧ Chain.Extracted.Xor2 ≠ 0 ∧ 1 ≤ Chain.Extracted.Rotate ∧
      1 ≤ Chain.Extracted.Shift := by
  unfold DecryptionChain.ReadyToComplete at h
  simp only [Bool.and_eq_true, decide_eq_true_eq] at h
  obtain ⟨⟨⟨⟨_, h1⟩, h2⟩, h3⟩, h4⟩ := h
  exact ⟨h1, h2, h3, h4⟩

theorem Complete_inv (X32 : Bool) (S : ExtractState) (DstChained : Option Nat)
    (DstRegister : ZydisRegister) (hS : S.Inv) : (S.Complete X32 DstChained DstRegister).Inv := by
  unfold ExtractState.Complete
  cases DstChained with
  | none => exact hS
  | some ChainIndex =>
    simp only
    split
    · rename_i hReady
      obtain ⟨h1, h2, h3, h4⟩ := ReadyToComplete_spec _ hReady
      have hB := hS.chainAt ChainIndex
      constructor
      · intro C hC
        rcases List.mem_or_eq_of_mem_set hC with hC | rfl
        · exact hS.1 _ hC
        · split <;> exact hB
      · intro C hC
        rcases List.mem_append.1 hC with hC | hC
        · exact hS.2 _ hC
        · rw [List.mem_singleton.1 hC]
          split <;> exact ⟨h1, h2, h3, hB.1, h4, hB.2⟩
    · exact hS

theorem ExtractBranches_inv (X32 : Bool) (Mnemonic : ZydisMnemonic)
    (Operand0 Operand1 : ZydisDecodedOperand) (DstRegister SrcRegister : ZydisRegister)
    (DstChained SrcChained : Option Nat) (Range : InstructionRange) (S : ExtractState)
    (Out : ExtractState × Bool) (hS : S.Inv)
    (h : ExtractBranches X32 Mnemonic Operand0 Operand1 DstRegister SrcRegister DstChained
      SrcChained Range S = some Out) : Out.1.Inv := by
  unfold ExtractBranches at h
  split_ifs at h
  · simp only [Option.some.injEq] at h
    rw [← h]
    exact MovImmediate_inv _ _ _ _ _ _ hS
  · simp only [Option.some.injEq] at h
    rw [← h]
    exact MovRegister_inv _ _ _ _ hS
  · cases DstChained with
    | none => exact XorNew_inv _ _ _ _ _ _ _ _ hS h
    | some ChainIndex => exact XorChained_inv _ _ _ _ _ _ _ _ _ hS h
  · cases DstChained with
    | none => exact RotateNew_inv _ _ _ _ _ _ _ _ hS h
    | some ChainIndex => exact RotateChained_inv _ _ _ _ _ _ _ _ _ hS h
  · cases DstChained with
    | none => exact ShiftNew_inv _ _ _ _ _ _ _ _ hS h
    | some ChainIndex => exact ShiftChained_inv _ _ _ _ _ _ _ _ _ hS h
  · simp only [Option.some.injEq] at h
    rw [← h]
    exact hS

theorem ExtractStep_inv (Punned : ZydisDecodedOperand → ZydisRegister) (X32 : Bool)
    (InstructionOffset : Nat) (Instruction : ZydisDecodedInstruction)
    (Operands : List ZydisDecodedOperand) (S S1 : ExtractState) (hS : S.Inv)
    (h : ExtractStep Punned X32 InstructionOffset Instruction Operands S = some S1) :
    S1.Inv := by
  unfold ExtractStep at h
  split_ifs at h
  · simp only [Option.some.injEq] at h
    exact h ▸ hS
  · simp only at h
    split at h
    · cases h
    · rename_i S2 hB
      simp only [Option.some.injEq] at h
      rw [← h]
      exact ExtractBranches_inv _ _ _ _ _ _ _ _ _ _ _ hS hB
    · rename_i S2 hB
      simp only [Option.some.injEq] at h
      rw [← h]
      exact Complete_inv _ _ _ _ (ExtractBranches_inv _ _ _ _ _ _ _ _ _ _ _ hS hB)

theorem ExtractLoop_inv (D : ZydisDecoder) (Punned : ZydisDecodedOperand → ZydisRegister)
    (X32 : Bool) (StartOffset : Nat) (Buffer : List Nat) :
    ∀ (Fuel Offset : Nat) (S S1 : ExtractState), S.Inv →
      ExtractLoop D Punned X32 StartOffset Buffer Fuel Offset S = some S1 → S1.Inv := by
  intro Fuel
  induction Fuel with
  | zero =>
    intro Offset S S1 _ h
    cases h
  | succ Fuel ih =>
    intro Offset S S1 hS h
    rw [ExtractLoop] at h
    split_ifs at h
    · split at h
      · exact ih _ _ _ hS h
      · split at h
        · exact ih _ _ _ hS h
        · split at h
          · cases h
          · rename_i S2 hStep
            exact ih _ _ _ (ExtractStep_inv _ _ _ _ _ _ _ hS hStep) h
    · simp only [Option.some.injEq] at h
      exact h ▸ hS

theorem Inv_initial (ChainID : Nat) : ({ ChainID := ChainID } : ExtractState).Inv := by
  constructor <;> intro C hC <;> cases hC

/-- C23, counterexample: over the bytes of `xor rax, 0x11111111;
ror rax, 0x80; xor rax, 0x22222222; xor rax, rbx; shr rax, 0x05` the 64-bit
extractor returns one record, whose rotate count is 128. -/
theorem ExtractTslDecryptors_rotate_128 :
    ((TslAnalyzer WideRotateBytes).ExtractTslDecryptors TslPunned false 0 0 23).map
      (fun Out => Out.1.map fun R => R.Value.map (List.map fun D => D.Rotate)) =
    some (some (some [128])) ∧ ¬ (128 ≤ 63) := by
  decide

/-- C23 (amended): every record returned by `ExtractTslDecryptors`, by the
32-bit and by the 64-bit extractor, satisfies xor1 != 0, xor2 != 0,
1 <= rotate <= 255 and 1 <= shift <= 255. -/
theorem ExtractTslDecryptors_in_range (A : DumpAnalyzer)
    (Punned : ZydisDecodedOperand → ZydisRegister) (X32 : Bool)
    (ChainID StartOffset Size ChainID1 : Nat) (R : Result (List TslDecryption))
    (Decryptors : List TslDecryption)
    (h : A.ExtractTslDecryptors Punned X32 ChainID StartOffset Size = some (some R, ChainID1))
    (hValue : R.Value = some Decryptors) :
    ∀ D ∈ Decryptors, D.Xor1 ≠ 0 ∧ D.Xor2 ≠ 0 ∧ 1 ≤ D.Rotate ∧ D.Rotate ≤ 255 ∧
      1 ≤ D.Shift ∧ D.Shift ≤ 255 := by
  unfold DumpAnalyzer.ExtractTslDecryptors at h
  split at h
  · cases h
  · split_ifs at h
    · cases h
    · split at h
      · cases h
      · rename_i S hLoop
        split at h
        · cases h
        · rename_i Out hFinish
          simp only [Option.some.injEq, Prod.mk.injEq] at h
          rw [h.1] at hFinish
          have hInv := ExtractLoop_inv _ _ _ _ _ _ _ _ _ (Inv_initial ChainID) hLoop
          have hV := FinishDecryptors_value _ _ hFinish
          rw [hValue, Option.some.injEq] at hV
          intro D hD
          rw [hV] at hD
          obtain ⟨Chain, hChain, rfl⟩ := List.mem_map.1 hD
          exact hInv.2 _ ((List.mem_insertionSort _).1 hChain)

theorem ExtractTslDecryptors_in_range_witness :
    WideRotateRecord.Xor1 ≠ 0 ∧ WideRotateRecord.Xor2 ≠ 0 ∧ 1 ≤ WideRotateRecord.Rotate ∧
      WideRotateRecord.Rotate ≤ 255 ∧ 1 ≤ WideRotateRecord.Shift ∧
      WideRotateRecord.Shift ≤ 255 :=
  ExtractTslDecryptors_in_range (TslAnalyzer WideRotateBytes) TslPunned false 0 0 23 1
    ⟨⟨0, 23⟩, some [WideRotateRecord]⟩ [WideRotateRecord] (by decide!) rfl
    WideRotateRecord (List.mem_singleton_self _)

/-- C24: the records are ordered by the chain identifiers, which are taken
from a counter of type `std::uint8_t` that is kept across calls.  After 255
calls that each create one chain the counter is 255; in the next call, over
the bytes of two chains, the chain created first gets the identifier 255 and
the chain created second the identifier 0, and the record of the second chain
comes first.  In a first call (counter 0) over the same bytes the records are
in the order of creation. -/
theorem ExtractTslDecryptors_order_after_wrap :
    CounterAfterCalls (TslAnalyzer TwoChainBytes) TslPunned false 0 23 255 0 = some 255 ∧
    FirstConstants ((TslAnalyzer TwoChainBytes).ExtractTslDecryptors TslPunned false 0 0 48) =
      some (some (some [0x11111111, 0x33333333])) ∧
    FirstConstants ((TslAnalyzer TwoChainBytes).ExtractTslDecryptors TslPunned false 255 0 48) =
      some (some (some [0x33333333, 0x11111111])) := by
  refine ⟨?_, ?_, ?_⟩
  · decide!
  · decide!
  · decide!

theorem AddGroupedFinds_eq (Decryptors : List TslDecryption) :
    ∀ (Finds : List TSearchFor) (F : OffsetFinder),
      (∀ Find ∈ Finds, ∃ Group Index, Find.Group = some Group ∧ Group.Index = some Index ∧
        Index < Decryptors.length) →
      AddGroupedFinds Decryptors Finds F =
        some { F with FoundList := F.FoundList ++ Finds.map (PairWithChain Decryptors) } := by
  intro Finds
  induction Finds with
  | nil =>
    intro F _
    simp [AddGroupedFinds]
  | cons Find Rest ih =>
    intro F h
    obtain ⟨Group, Index, hG, hI, hLt⟩ := h Find (List.mem_cons_self _ _)
    have hD : Decryptors[Index]? = some (Decryptors.getD Index {}) := by
      rw [List.getD_eq_getElem?_getD, List.getElem?_eq_getElem hLt]
      rfl
    have hPair : PairWithChain Decryptors Find =
        ⟨Find, FoundValue.Decryption (Decryptors.getD Index {})⟩ := by
      simp [PairWithChain, GroupIndex, hG, hI]
    rw [AddGroupedFinds, hG]
    simp only [hI, hD]
    rw [ih _ (fun x hx => h x (List.mem_cons_of_mem _ hx))]
    simp [OffsetFinder.AddFind, hPair]

theorem IsGroupMember_handled (GroupID : String) (Type' : SearchType) (Find : TSearchFor) :
    IsGroupMember GroupID Type' { Find with Handled := true } =
      IsGroupMember GroupID Type' Find := rfl

theorem MarkGroup_handled (GroupID : String) (Type' : SearchType)
    (Regions : List TSearchRegion) :
    ∀ Find ∈ AllTargets (MarkGroup GroupID Type' Regions),
      IsGroupMember GroupID Type' Find = true → Find.Handled = true := by
  intro Find hFind hMember
  simp only [AllTargets, MarkGroup, List.map_map, List.mem_flatten, List.mem_map,
    Function.comp_apply] at hFind
  obtain ⟨Finds, ⟨Region, _, rfl⟩, hIn⟩ := hFind
  simp only [List.mem_map] at hIn
  obtain ⟨Old, _, rfl⟩ := hIn
  by_cases hOld : IsGroupMember GroupID Type' Old = true
  · rw [if_pos hOld]
  · rw [if_neg hOld] at hMember
    exact absurd hMember hOld

/-- C28, counterexample: the 64-bit handler does not look at the group.  For
two 64-bit decryptor targets of one group and a window from which the
extractor returns two chains, the handler returns true after adding a single
finding, the target it was called for with the first chain, and no target is
marked as handled. -/
theorem TslDecryptorHandler64_ignores_group :
    (GroupedFinds "Decryptors" SearchType.TslDecryptor64 GroupFinder64.SearchRegions).length = 2 ∧
    FirstConstants (GroupFinder64.Analyzer.ExtractTslDecryptors TslPunned false 0 0 48) =
      some (some (some [0x11111111, 0x33333333])) ∧
    (TslDecryptorHandler64 TslPunned GroupFinder64 0 0).map
      (fun Out => (Out.1, Out.2.FoundList.map (fun Found => (Found.Match.SearchID, Found.Value.Xor1)),
        (AllTargets Out.2.SearchRegions).map (·.Handled))) =
      some (true, [("First", some 0x11111111)], [false, false]) := by
  refine ⟨?_, ?_, ?_⟩
  · decide
  · decide!
  · decide!

/-- C28 (amended): for a target of `TslDecryptorHandler32` that is not yet
handled and carries a group id, let the members be the targets of all regions
with this group id and the same search type, each with a group index below the
number of chains.  When the extractor returns as many chains as there are
members, the handler returns true, appends exactly one finding per member, in
the order of the members, pairing the member with the chain at the member's
own group index, and afterwards every member has handled = true; when the
chain count differs the handler returns false and adds no finding. -/
theorem TslDecryptorHandler32_group (Punned : ZydisDecodedOperand → ZydisRegister)
    (F : OffsetFinder) (RegionIndex FindIndex : Nat) (Region : TSearchRegion)
    (ToFind : TSearchFor) (Group : TGroup) (Extracted : Result (List TslDecryption))
    (Decryptors : List TslDecryption) (ChainID : Nat)
    (hTarget : F.Target RegionIndex FindIndex = some (Region, ToFind))
    (hHandled : ToFind.Handled = false) (hGroup : ToFind.Group = some Group)
    (hExtract : F.Analyzer.ExtractTslDecryptors Punned true F.ChainID32
      (add64 Region.RegionRange.Offset (SetBoundaries Region ToFind).Offset)
      (SetBoundaries Region ToFind).Size = some (some Extracted, ChainID))
    (hValue : Extracted.Value = some Decryptors)
    (hIndex : ∀ Find ∈ GroupedFinds Group.ID ToFind.SearchType F.SearchRegions,
      (Find.Group.bind fun G => G.Index) ≠ none ∧ GroupIndex Find < Decryptors.length) :
    (Decryptors.length = (GroupedFinds Group.ID ToFind.SearchType F.SearchRegions).length →
      ∃ F1, TslDecryptorHandler32 Punned F RegionIndex FindIndex = some (true, F1) ∧
        F1.FoundList = F.FoundList ++
          (GroupedFinds Group.ID ToFind.SearchType F.SearchRegions).map
            (PairWithChain Decryptors) ∧
        ∀ Find ∈ AllTargets F1.SearchRegions,
          IsGroupMember Group.ID ToFind.SearchType Find = true → Find.Handled = true) ∧
    (Decryptors.length ≠ (GroupedFinds Group.ID ToFind.SearchType F.SearchRegions).length →
      ∃ F1, TslDecryptorHandler32 Punned F RegionIndex FindIndex = some (false, F1) ∧
        F1.FoundList = F.FoundList) := by
  have hIndex' : ∀ Find ∈ GroupedFinds Group.ID ToFind.SearchType F.SearchRegions,
      ∃ G Index, Find.Group = some G ∧ G.Index = some Index ∧ Index < Decryptors.length := by
    intro Find hFind
    obtain ⟨hSome, hLt⟩ := hIndex Find hFind
    cases hG : Find.Group with
    | none => simp [hG] at hSome
    | some G =>
      cases hI : G.Index with
      | none => simp [hG, hI] at hSome
      | some Index =>
        refine ⟨G, Index, rfl, hI, ?_⟩
        simpa [GroupIndex, hG, hI] using hLt
  have hUnfold : ∀ F2 : OffsetFinder,
      F2 = { F with ChainID32 := ChainID,
                    SearchRegions := MarkGroup Group.ID ToFind.SearchType F.SearchRegions } →
      TslDecryptorHandler32 Punned F RegionIndex FindIndex =
      (if Decryptors.length < (GroupedFinds Group.ID ToFind.SearchType F.SearchRegions).length
        then some (false, F2)
      else if Decryptors.length >
          (GroupedFinds Group.ID ToFind.SearchType F.SearchRegions).length
        then some (false, F2)
      else
        match AddGroupedFinds Decryptors
            (GroupedFinds Group.ID ToFind.SearchType F.SearchRegions) F2 with
        | none => none
        | some F => some (true, F)) := by
    intro F2 hF2
    subst hF2
    simp only [TslDecryptorHandler32, hTarget, hHandled, hExtract, hValue, hGroup]
    rfl
  have hUnfold := hUnfold _ rfl
  constructor
  · intro hLen
    rw [hUnfold, if_neg (by omega), if_neg (by omega), AddGroupedFinds_eq _ _ _ hIndex']
    exact ⟨_, rfl, rfl, MarkGroup_handled _ _ _⟩
  · intro hLen
    rw [hUnfold]
    by_cases hLt : Decryptors.length <
        (GroupedFinds Group.ID ToFind.SearchType F.SearchRegions).length
    · rw [if_pos hLt]
      exact ⟨_, rfl, rfl⟩
    · rw [if_neg hLt, if_pos (by omega)]
      exact ⟨_, rfl, rfl⟩

theorem TslDecryptorHandler32_group_witness :
    ∃ F1, TslDecryptorHandler32 TslPunned GroupFinder32 0 0 = some (true, F1) ∧
      F1.FoundList = GroupFinder32.FoundList ++
        (GroupedFinds "Decryptors" SearchType.TslDecryptor32 GroupFinder32.SearchRegions).map
          (PairWithChain TwoChainRecords32) ∧
      ∀ Find ∈ AllTargets F1.SearchRegions,
        IsGroupMember "Decryptors" SearchType.TslDecryptor32 Find = true →
          Find.Handled = true :=
  (TslDecryptorHandler32_group TslPunned GroupFinder32 0 0
    { RegionID := "Decrypt", RegionRange := { Offset := 0, Size := 38 },
      SearchFor := [GroupTarget "First" SearchType.TslDecryptor32 1,
                    GroupTarget "Second" SearchType.TslDecryptor32 0] }
    (GroupTarget "First" SearchType.TslDecryptor32 1) ⟨"Decryptors", some 1⟩
    ⟨⟨0, 38⟩, some TwoChainRecords32⟩ TwoChainRecords32 2 rfl rfl rfl (by decide!) rfl
    (by decide)).1 (by decide)

theorem ParseLoop_skip {α : Type} (Parse : JSON → Except Fault (Option α)) (Bad : JSON)
    (hBad : Parse Bad = Except.ok none) (Post : List JSON) :
    ∀ Pre : List JSON,
      ParseLoop Parse (Pre ++ Bad :: Post) = ParseLoop Parse (Pre ++ Post) := by
  intro Pre
  induction Pre with
  | nil =>
    simp only [List.nil_append]
    rw [ParseLoop, hBad]
    cases ParseLoop Parse Post <;> rfl
  | cons Item Pre ih =>
    simp only [List.cons_append]
    rw [ParseLoop, ParseLoop, ih]

theorem ParseRegions_skip (Bad : JSON) (hBad : ParseRegion Bad = Except.ok none)
    (Post : List JSON) :
    ∀ Pre : List JSON, ParseRegions (Pre ++ Bad :: Post) = ParseRegions (Pre ++ Post) := by
  intro Pre
  induction Pre with
  | nil =>
    simp only [List.nil_append]
    rw [ParseRegions, hBad]
  | cons Item Pre ih =>
    simp only [List.cons_append]
    rw [ParseRegions, ParseRegions, ih]

theorem ParseRegion_unknown_type (Region : JSON) (h : UnknownRegionType Region) :
    ParseRegion Region = Except.ok none := by
  obtain ⟨ID, Type', hID, hType, hNone⟩ := h
  simp only [ParseRegion, hID, hType, hNone]

theorem ParseRegion_unknown_access (Region : JSON) (h : UnknownAccessType Region) :
    ParseRegion Region = Except.ok none := by
  obtain ⟨ID, Type', CppType, Access, hID, hType, hSome, hPresent, hAccess, hNone⟩ := h
  simp only [ParseRegion, hID, hType, hSome, ParseAccessType, hPresent, hAccess, hNone,
    if_true]

theorem ParseTarget_unknown_type (SearchTarget : JSON) (h : UnknownSearchType SearchTarget) :
    ParseTarget SearchTarget = Except.ok none := by
  obtain ⟨ID, Type', hID, hType, hNone⟩ := h
  simp only [ParseTarget, hID, hType, hNone]

theorem ParseTarget_unknown_mode (SearchTarget : JSON) (h : UnknownMatcherMode SearchTarget) :
    ParseTarget SearchTarget = Except.ok none := by
  obtain ⟨ID, Type', CppType, Group, SearchRange, Mode, hID, hType, hSome, hGroup, hRange,
    hPresent, hMode, hNone⟩ := h
  simp only [ParseTarget, hID, hType, hSome, hGroup, hRange, ParseMatcherMode, hPresent, hMode,
    hNone, if_true]

theorem ParseAnchor_unknown_type (Anchor : JSON) (h : UnknownAnchorType Anchor) :
    ParseAnchor Anchor = Except.ok none := by
  obtain ⟨Type', hType, hNone⟩ := h
  simp only [ParseAnchor, hType, hNone]

theorem ParseMatcher_unknown_type (Matcher : JSON) (h : UnknownMatcherType Matcher) :
    ParseMatcher Matcher = Except.ok none := by
  obtain ⟨Type', hType, hNone⟩ := h
  simp only [ParseMatcher, hType, hNone]

/-- C29, counterexample: a region entry with a wrongly typed field ends the
construction of the regions, and `Find` returns without a search.  With the
entry in front of the well-formed region of the synchronisation scenario no
region is built and nothing is found, and with the entry behind it the region
is built and not searched; the configuration without the entry gives the
find.  A region entry without `RegionType` raises an exception that leaves
`Find`. -/
theorem FindFile_wrong_type_aborts :
    (FreshFinder.FindFile (some SyncConfig) (DefaultHandlers ScenarioStrings TslPunned 1)
        (RegionHandler ScenarioStrings) true).map (fun F => (F.SearchRegions.length, FoundValues F)) =
      some (1, [FoundValue.U64 0x12345678]) ∧
    (FreshFinder.FindFile (some (JSON.array (WrongTypeRegion :: SyncConfig.items)))
        (DefaultHandlers ScenarioStrings TslPunned 1)
        (RegionHandler ScenarioStrings) true).map (fun F => (F.SearchRegions.length, FoundValues F)) =
      some (0, []) ∧
    (FreshFinder.FindFile (some (JSON.array (SyncConfig.items ++ [WrongTypeRegion])))
        (DefaultHandlers ScenarioStrings TslPunned 1)
        (RegionHandler ScenarioStrings) true).map (fun F => (F.SearchRegions.length, FoundValues F)) =
      some (1, []) ∧
    (FreshFinder.FindFile (some (JSON.array (MissingTypeRegion :: SyncConfig.items)))
        (DefaultHandlers ScenarioStrings TslPunned 1)
        (RegionHandler ScenarioStrings) true).map (fun F => (F.SearchRegions.length, FoundValues F)) =
      none := by
  refine ⟨?_, ?_, ?_, ?_⟩
  · decide!
  · decide!
  · decide!
  · decide!

/-- C29 (amended): an entry with an unknown enum string is passed over, and
only that entry.  The regions built from a configuration with a region entry
of unknown `RegionType` or `AccessType` are those built from the configuration
without the entry; the same holds for the targets of a region and a target
entry of unknown `SearchType` or `MatcherMode`, for the anchors and an anchor
entry of unknown `Type`, and for the matchers and a matcher entry of unknown
`Type`.  When the construction ends without a fault, `Find` runs the search
over all regions built.  A wrongly typed field ends the construction with a
`type_error`, which `Find` catches: it returns without a search. -/
theorem FindFile_skips_unknown_enum :
    (∀ Bad : JSON, UnknownRegionType Bad ∨ UnknownAccessType Bad → ∀ Pre Post : List JSON,
      ParseRegions (Pre ++ Bad :: Post) = ParseRegions (Pre ++ Post)) ∧
    (∀ Bad : JSON, UnknownSearchType Bad ∨ UnknownMatcherMode Bad → ∀ Pre Post : List JSON,
      ParseLoop ParseTarget (Pre ++ Bad :: Post) = ParseLoop ParseTarget (Pre ++ Post)) ∧
    (∀ Bad : JSON, UnknownAnchorType Bad → ∀ Pre Post : List JSON,
      ParseLoop ParseAnchor (Pre ++ Bad :: Post) = ParseLoop ParseAnchor (Pre ++ Post)) ∧
    (∀ Bad : JSON, UnknownMatcherType Bad → ∀ Pre Post : List JSON,
      ParseLoop ParseMatcher (Pre ++ Bad :: Post) = ParseLoop ParseMatcher (Pre ++ Post)) ∧
    (∀ (F : OffsetFinder) (Config : JSON) (Regions : List TSearchRegion)
      (Handlers : SearchType → Option SearchHandler)
      (RegionHandler : OffsetFinder → Nat → Option (Bool × OffsetFinder)) (Sync : Bool),
      ParseRegions Config.items = (Regions, none) →
      F.FindFile (some Config) Handlers RegionHandler Sync =
        OffsetFinder.Find
          { F with JSON_SearchRegions := Config, SearchRegions := F.SearchRegions ++ Regions }
          Handlers RegionHandler Sync) ∧
    (∀ (F : OffsetFinder) (Config : JSON) (Regions : List TSearchRegion)
      (Handlers : SearchType → Option SearchHandler)
      (RegionHandler : OffsetFinder → Nat → Option (Bool × OffsetFinder)) (Sync : Bool),
      ParseRegions Config.items = (Regions, some Fault.type_error) →
      F.FindFile (some Config) Handlers RegionHandler Sync =
        some { F with JSON_SearchRegions := Config,
                      SearchRegions := F.SearchRegions ++ Regions }) ∧
    UnknownRegionType UnknownTypeRegion ∧
    (FreshFinder.FindFile (some (JSON.array (UnknownTypeRegion :: SyncConfig.items)))
        (DefaultHandlers ScenarioStrings TslPunned 1)
        (RegionHandler ScenarioStrings) true).map (fun F => (F.SearchRegions.length, FoundValues F)) =
      some (1, [FoundValue.U64 0x12345678]) := by
  refine ⟨?_, ?_, ?_, ?_, ?_, ?_, ?_, ?_⟩
  · intro Bad h Pre Post
    refine ParseRegions_skip Bad ?_ Post Pre
    rcases h with h | h
    · exact ParseRegion_unknown_type Bad h
    · exact ParseRegion_unknown_access Bad h
  · intro Bad h Pre Post
    refine ParseLoop_skip ParseTarget Bad ?_ Post Pre
    rcases h with h | h
    · exact ParseTarget_unknown_type Bad h
    · exact ParseTarget_unknown_mode Bad h
  · intro Bad h Pre Post
    exact ParseLoop_skip ParseAnchor Bad (ParseAnchor_unknown_type Bad h) Post Pre
  · intro Bad h Pre Post
    exact ParseLoop_skip ParseMatcher Bad (ParseMatcher_unknown_type Bad h) Post Pre
  · intro F Config Regions Handlers RegionHandler Sync h
    simp only [OffsetFinder.FindFile, h]
  · intro F Config Regions Handlers RegionHandler Sync h
    simp only [OffsetFinder.FindFile, h]
  · exact ⟨"Broken", "Segment", rfl, rfl, rfl⟩
  · decide!

theorem AddGroupedFinds_keeps (Decryptors : List TslDecryption) :
    ∀ (Finds : List TSearchFor) (F F1 : OffsetFinder),
      AddGroupedFinds Decryptors Finds F = some F1 →
      F1.ShouldSyncSearchConfig = F.ShouldSyncSearchConfig ∧
        F1.JSON_SearchRegions = F.JSON_SearchRegions := by
  intro Finds
  induction Finds with
  | nil =>
    intro F F1 h
    simp only [AddGroupedFinds, Option.some.injEq] at h
    subst h
    exact ⟨rfl, rfl⟩
  | cons Find Rest ih =>
    intro F F1 h
    rw [AddGroupedFinds] at h
    split at h
    · cases h
    · split at h
      · cases h
      · split at h
        · cases h
        · exact ih (F.AddFind _) F1 h

theorem SetHandled_keeps (F : OffsetFinder) (RegionIndex FindIndex : Nat) :
    (F.SetHandled RegionIndex FindIndex).ShouldSyncSearchConfig = F.ShouldSyncSearchConfig ∧
      (F.SetHandled RegionIndex FindIndex).JSON_SearchRegions = F.JSON_SearchRegions := by
  unfold OffsetFinder.SetHandled
  split <;> exact ⟨rfl, rfl⟩

theorem TslDecryptorHandler32_KeepsConfig (Punned : ZydisDecodedOperand → ZydisRegister) :
    KeepsConfig (TslDecryptorHandler32 Punned) := by
  intro F R T b F1 hF h
  unfold TslDecryptorHandler32 at h
  split at h
  · cases h
  · rename_i Region ToFind hT
    split_ifs at h
    · simp only [Option.some.injEq, Prod.mk.injEq] at h
      rw [← h.2]
      exact ⟨hF, rfl⟩
    · simp only at h
      split at h
      · cases h
      · rename_i DecryptorsOpt ChainID hE
        split at h
        · simp only [Option.some.injEq, Prod.mk.injEq] at h
          rw [← h.2]
          exact ⟨hF, rfl⟩
        · split at h
          · cases h
          · split at h
            · split_ifs at h
              · simp only [Option.some.injEq, Prod.mk.injEq] at h
                rw [← h.2]
                exact ⟨hF, rfl⟩
              · simp only [Option.some.injEq, Prod.mk.injEq] at h
                rw [← h.2]
                exact ⟨hF, rfl⟩
              · split at h
                · cases h
                · rename_i F2 hA
                  simp only [Option.some.injEq, Prod.mk.injEq] at h
                  rw [← h.2]
                  obtain ⟨h1, h2⟩ := AddGroupedFinds_keeps _ _ _ _ hA
                  exact ⟨h1.trans hF, h2⟩
            · split at h
              · cases h
              · rw [JSON_SyncSearchRange_off { F with ChainID32 := ChainID } _ _ _ hF] at h
                simp only [Option.some.injEq, Prod.mk.injEq] at h
                rw [← h.2]
                obtain ⟨h1, h2⟩ := SetHandled_keeps
                  (OffsetFinder.AddFind { F with ChainID32 := ChainID }
                    ⟨ToFind, FoundValue.Decryption _⟩) R T
                exact ⟨h1.trans hF, h2⟩

theorem TslDecryptorHandler64_KeepsConfig (Punned : ZydisDecodedOperand → ZydisRegister) :
    KeepsConfig (TslDecryptorHandler64 Punned) := by
  intro F R T b F1 hF h
  unfold TslDecryptorHandler64 at h
  split at h
  · cases h
  · simp only at h
    split at h
    · cases h
    · rename_i DecryptorsOpt ChainID hE
      split at h
      · simp only [Option.some.injEq, Prod.mk.injEq] at h
        rw [← h.2]
        exact ⟨hF, rfl⟩
      · split at h
        · cases h
        · split at h
          · cases h
          · rw [JSON_SyncSearchRange_off { F with ChainID64 := ChainID } _ _ _ hF] at h
            simp only [Option.some.injEq, Prod.mk.injEq] at h
            rw [← h.2]
            exact ⟨hF, rfl⟩

theorem XReferenceLoop_keeps (Handlers : SearchType → Option SearchHandler)
    (hH : ∀ T Handler, Handlers T = some Handler → KeepsConfig Handler) (NextID : String)
    (Value : Nat) :
    ∀ (Remaining Index : Nat) (F F1 : OffsetFinder) (b : Bool),
      F.ShouldSyncSearchConfig = false →
      XReferenceLoop Handlers NextID Value Remaining Index F = some (b, F1) →
      F1.ShouldSyncSearchConfig = false ∧ F1.JSON_SearchRegions = F.JSON_SearchRegions := by
  intro Remaining
  induction Remaining with
  | zero =>
    intro Index F F1 b hF h
    simp only [XReferenceLoop, Option.some.injEq, Prod.mk.injEq] at h
    rw [← h.2]
    exact ⟨hF, rfl⟩
  | succ Remaining ih =>
    intro Index F F1 b hF h
    rw [XReferenceLoop] at h
    split at h
    · cases h
    · split_ifs at h
      · exact ih _ _ _ _ hF h
      · simp only at h
        split at h
        · cases h
        · rename_i F2 hE
          simp only [Option.some.injEq, Prod.mk.injEq] at h
          rw [← h.2]
          have hK := fun hh => HandleExpectedFinds_keeps Handlers hH _ _ F2 hh hE
          exact hK hF
      · exact ih _ _ _ _ hF h

theorem XReferenceHandler_KeepsConfig (Z : ZydisStrings)
    (Handlers : SearchType → Option SearchHandler)
    (hH : ∀ T Handler, Handlers T = some Handler → KeepsConfig Handler) :
    KeepsConfig (XReferenceHandler Z Handlers) := by
  intro F R T b F1 hF h
  unfold XReferenceHandler at h
  split at h
  · cases h
  · split at h
    · cases h
    · simp only [Option.some.injEq, Prod.mk.injEq] at h
      rw [← h.2]
      exact ⟨hF, rfl⟩
    · split at h
      · split at h
        · cases h
        · rename_i Handled F2 hL
          obtain ⟨h1, h2⟩ := XReferenceLoop_keeps Handlers hH _ _ _ _ _ _ _ hF hL
          simp only at h
          split at h
          · cases h
          · simp only [JSON_SyncSearchRange_off F2 _ _ _ h1, Option.some.injEq,
              Prod.mk.injEq] at h
            rw [← h.2]
            exact ⟨h1, h2⟩
      · cases h

theorem DefaultHandlers_KeepsConfig (Z : ZydisStrings)
    (Punned : ZydisDecodedOperand → ZydisRegister) :
    ∀ (Depth : Nat) (T : SearchType) (Handler : SearchHandler),
      DefaultHandlers Z Punned Depth T = some Handler → KeepsConfig Handler := by
  intro Depth
  induction Depth with
  | zero =>
    intro T Handler h
    cases T <;> simp only [DefaultHandlers, Option.some.injEq] at h
    · cases h
    · subst h; exact ValueHandler_KeepsConfig Z _ _
    · subst h; exact ValueHandler_KeepsConfig Z _ _
    · subst h; exact ValueHandler_KeepsConfig Z _ _
    · subst h
      intro F R T b F1 _ h
      cases h
    · subst h; exact TslDecryptorHandler32_KeepsConfig Punned
    · subst h; exact TslDecryptorHandler64_KeepsConfig Punned
  | succ Depth ih =>
    intro T Handler h
    cases T <;> simp only [DefaultHandlers, Option.some.injEq] at h
    · cases h
    · subst h; exact ValueHandler_KeepsConfig Z _ _
    · subst h; exact ValueHandler_KeepsConfig Z _ _
    · subst h; exact ValueHandler_KeepsConfig Z _ _
    · subst h; exact XReferenceHandler_KeepsConfig Z _ ih
    · subst h; exact TslDecryptorHandler32_KeepsConfig Punned
    · subst h; exact TslDecryptorHandler64_KeepsConfig Punned

theorem FindFile_keeps (Z : ZydisStrings) (Handlers : SearchType → Option SearchHandler)
    (hH : ∀ T Handler, Handlers T = some Handler → KeepsConfig Handler)
    (F F1 : OffsetFinder) (Config : JSON) (Sync : Bool)
    (hF : F.ShouldSyncSearchConfig = false)
    (h : F.FindFile (some Config) Handlers (RegionHandler Z) Sync = some F1) :
    F1.JSON_SearchRegions = Config := by
  unfold OffsetFinder.FindFile at h
  simp only at h
  split at h
  · have hK := fun hh => Find_keeps Z Handlers hH _ _ Sync hh h
    exact (hK hF).2
  · simp only [Option.some.injEq] at h
    rw [← h]
  · cases h

/-- C31 (code defect): `_Read` never looks at the state of the stream, so a
read that fails gives the zero-filled buffer of the requested size, not an
empty one.  In sparse mode `Read(10, 4)` on a file of three bytes returns four
zero bytes; in both modes a read at or beyond the end of the file returns
`Size` zero bytes.  Only a failed translation gives the empty slice. -/
theorem Read_past_end_not_empty :
    (ScenarioAnalyzer [0x90, 0x90, 0xC3]).Read 10 4 = some [0, 0, 0, 0] ∧
    (∀ (A : DumpAnalyzer) (Offset Size : Nat), A.AnalysisMode = Mode.Sparse →
      A.InFile.length ≤ Offset → Size ≤ VectorMaxSize →
      A.Read Offset Size = some (List.replicate Size 0)) ∧
    (∀ (A : DumpAnalyzer) (Offset Size FileOffset : Nat), A.AnalysisMode = Mode.Regions →
      TranslateVirtualOffsetToFileOffset A.InMetadata A.InMemoryRegions Offset = some FileOffset →
      A.InFile.length ≤ FileOffset → Size ≤ VectorMaxSize →
      A.Read Offset Size = some (List.replicate Size 0)) ∧
    (∀ (A : DumpAnalyzer) (Offset Size : Nat), A.AnalysisMode = Mode.Regions →
      TranslateVirtualOffsetToFileOffset A.InMetadata A.InMemoryRegions Offset = none →
      A.Read Offset Size = some []) := by
  have hread : ∀ (A : DumpAnalyzer) (fo Size : Nat), A.InFile.length ≤ fo →
      Size ≤ VectorMaxSize → A._Read fo Size = some (List.replicate Size 0) := by
    intro A fo Size hlen hS
    unfold DumpAnalyzer._Read
    rw [if_neg (by omega)]
    congr 1
    rw [List.eq_replicate_iff]
    refine ⟨by simp, ?_⟩
    intro b hb
    rw [List.mem_map] at hb
    obtain ⟨I, _, rfl⟩ := hb
    rw [List.getD_eq_getElem?_getD, List.getElem?_eq_none (by omega)]
    rfl
  refine ⟨by decide, ?_, ?_, ?_⟩
  · intro A Offset Size hM hlen hS
    unfold DumpAnalyzer.Read
    rw [hM]
    exact hread A Offset Size hlen hS
  · intro A Offset Size FileOffset hM hT hlen hS
    unfold DumpAnalyzer.Read
    rw [hM]
    simp only [hT]
    exact hread A FileOffset Size hlen hS
  · intro A Offset Size hM hT
    unfold DumpAnalyzer.Read
    rw [hM]
    simp only [hT]

/-- C38 (code defect): `FindPattern` widens its window to the length of the
pattern, so a match can end beyond `StartOffset + Size`; the next size
`Size - (NextOffset - StartOffset)` then wraps around.  Over the bytes
`90 90 C3`, window `(0, 1)`, the pattern `90 90` matches at 0 with size 2, the
next size is `1 - 2 = 2^64 - 1`, and the search for `C3` asks for a buffer of
that size, which raises.  With the window `(0, 3)` the same patterns are
found. -/
theorem FindPatternSubsequence_size_wraps :
    (ScenarioAnalyzer [0x90, 0x90, 0xC3]).FindPatternInRange 0 1 "90 90".toList =
      some (some ⟨⟨0, 2⟩, none⟩) ∧
    sub64 1 (sub64 (add64 0 2) 0) = 2 ^ 64 - 1 ∧
    add64 0 2 + sub64 1 (sub64 (add64 0 2) 0) ≠ 0 + 1 ∧
    (ScenarioAnalyzer [0x90, 0x90, 0xC3]).FindPatternSubsequence 0 1
      ["90 90".toList, "C3".toList] = none ∧
    (ScenarioAnalyzer [0x90, 0x90, 0xC3]).FindPatternSubsequence 0 3
      ["90 90".toList, "C3".toList] = some (some ⟨⟨0, 3⟩, some [⟨0, 2⟩, ⟨2, 1⟩]⟩) := by
  refine ⟨by decide, by decide, by decide, by decide, by decide⟩

/-- C40 (code defect): `ParseInstruction` does not return for every text.
For `mov rax, , rbx` the second operand text is empty after trimming and the
loop reads `T.front()` of the empty text (and `std::stoull` of the empty text
raises); for `mov rax, foo` the text `foo` goes to `std::stoull`, which raises
`std::invalid_argument`.  In general an operand text that is empty after
trimming, or that is not `?`, not bracketed, not a register name and not a
number, makes the operand loop fail whatever the other operands are. -/
theorem ParseInstruction_not_total :
    ParseInstruction ScenarioStrings "mov rax, , rbx".toList = none ∧
    ParseInstruction ScenarioStrings "mov rax, foo".toList = none ∧
    (∀ (Z : ZydisStrings) (Raw : List Char) (Rest : List (List Char))
      (Operands : List (Option MatchOperand)),
      Trim Raw = [] → ParseOperandsLoop Z (Raw :: Rest) Operands = none) ∧
    (∀ (Z : ZydisStrings) (Raw : List Char) (Rest : List (List Char))
      (Operands : List (Option MatchOperand)),
      Trim Raw ≠ ['?'] → ¬ ((Trim Raw).head? = some '[' ∧ (Trim Raw).getLast? = some ']') →
      IsRegister Z (Trim Raw) = false → stoull (Trim Raw) = none →
      ParseOperandsLoop Z (Raw :: Rest) Operands = none) := by
  refine ⟨by decide, by decide, ?_, ?_⟩
  · intro Z Raw Rest Operands hT
    unfold ParseOperandsLoop
    simp [hT]
  · intro Z Raw Rest Operands h1 h2 h3 h4
    unfold ParseOperandsLoop
    simp only [h1, if_false, h2, h3, h4]
    by_cases hE : Trim Raw = []
    · simp [hE]
    · simp [hE]

/-- C34 (counterexample): a constant xor on a chain whose two xor constants
are set is not skipped while the register xor is outstanding.  Over
`xor rax, 0x11111111; xor rax, 0x22222222; xor rax, 0x33333333; ror rax, 0x11;
xor rax, rbx; shr rax, 5` the record has the second constant `0x33333333` and
a function text with three constants; without the third xor the second
constant is `0x22222222`. -/
theorem ExtractTslDecryptors_third_xor :
    XorConstants ((TslAnalyzer ThreeXorBytes).ExtractTslDecryptors TslPunned false 0 0 29) =
      some (some (some [(0x11111111, 0x33333333,
        "std::uint64_t <FunctioName>(std::uint64_t <ParamName>)\n\x7b\n  std::uint64_t <V>1 = _rotr64(<ParamName> ^ 0x11111111 ^ 0x22222222 ^ 0x33333333, 17);\n  return (<V>1 ^ <ParamName> >> 5);\n\x7d")])) ∧
    XorConstants ((TslAnalyzer TwoXorBytes).ExtractTslDecryptors TslPunned false 0 0 23) =
      some (some (some [(0x11111111, 0x22222222,
        "std::uint64_t <FunctioName>(std::uint64_t <ParamName>)\n\x7b\n  std::uint64_t <V>1 = _rotr64(<ParamName> ^ 0x11111111 ^ 0x22222222, 17);\n  return (<V>1 ^ <ParamName> >> 5);\n\x7d")])) := by
  refine ⟨?_, ?_⟩
  · decide!
  · decide!

/-- C34 (amended): an instruction of the wanted width whose destination
register is in a chain leaves the whole state of the extractor unchanged when
it is a xor and the chain has recorded its three xor operations (both
constants and the register xor), when it is a rotate and the chain has
recorded a rotate, or when it is a shift and the chain has recorded a
shift. -/
theorem ExtractStep_recorded_skip (Punned : ZydisDecodedOperand → ZydisRegister) (X32 : Bool)
    (InstructionOffset : Nat) (Instruction : ZydisDecodedInstruction)
    (Operands : List ZydisDecodedOperand) (S : ExtractState) (ChainIndex : Nat)
    (hWidth : Instruction.operand_width = XorBits X32)
    (hCount : 2 ≤ Instruction.operand_count)
    (hDst : S.BelongsToChain ((Operands.getD 0 ZydisDecodedOperand.UNUSED).RegValue Punned) =
      some ChainIndex)
    (hRecorded :
      (Instruction.mnemonic = ZydisMnemonic.XOR ∧
        (S.ChainAt ChainIndex).Checklist.IsXorExtracted = true) ∨
      ((Instruction.mnemonic = ZydisMnemonic.ROR ∨ Instruction.mnemonic = ZydisMnemonic.ROL) ∧
        (S.ChainAt ChainIndex).Checklist.Rotate = true) ∨
      ((Instruction.mnemonic = ZydisMnemonic.SHL ∨ Instruction.mnemonic = ZydisMnemonic.SHR) ∧
        (S.ChainAt ChainIndex).Checklist.Shift = true)) :
    ExtractStep Punned X32 InstructionOffset Instruction Operands S = some S := by
  unfold ExtractStep
  rw [if_neg (by omega)]
  simp only [hDst]
  rcases hRecorded with ⟨hM, hX⟩ | ⟨hM, hR⟩ | ⟨hM, hSh⟩
  · simp [ExtractBranches, hM, XorChained, hX]
  · rcases hM with hM | hM <;> simp [ExtractBranches, hM, RotateChained, hR]
  · rcases hM with hM | hM <;> simp [ExtractBranches, hM, ShiftChained, hSh]

/-- C34 (amended), at `ror rax, 7` on a state whose chain on `rax` has
recorded a rotate by 17. -/
theorem ExtractStep_recorded_skip_witness :
    ExtractStep TslPunned false 4 ⟨ZydisMnemonic.ROR, 4, 3, 2, 64⟩
      [ZydisDecodedOperand.REGISTER ZydisRegister.RAX, ZydisDecodedOperand.IMMEDIATE false 7 8,
        ZydisDecodedOperand.REGISTER RFLAGS] RotatedState = some RotatedState :=
  ExtractStep_recorded_skip TslPunned false 4 ⟨ZydisMnemonic.ROR, 4, 3, 2, 64⟩
    [ZydisDecodedOperand.REGISTER ZydisRegister.RAX, ZydisDecodedOperand.IMMEDIATE false 7 8,
      ZydisDecodedOperand.REGISTER RFLAGS] RotatedState 0 (by decide) (by decide) (by decide)
    (Or.inr (Or.inl ⟨Or.inl rfl, by decide⟩))

theorem GreedyMatch_earliestInOrder
    (Step : ZydisDecodedOperand → Option MatchOperand → OperandStep)
    (S : List DecodedAt) (P : List MatchInstruction) (g : List DecodedAt)
    (h : GreedyMatch Step S P = some g) : EarliestInOrder Step S P g := by
  induction S generalizing P g with
  | nil =>
    cases P with
    | nil =>
      simp only [GreedyMatch, Option.some.injEq] at h
      simp [EarliestInOrder, h]
    | cons t ts => simp [GreedyMatch] at h
  | cons x S ih =>
    cases P with
    | nil =>
      simp only [GreedyMatch, Option.some.injEq] at h
      simp [EarliestInOrder, h]
    | cons t ts =>
      simp only [GreedyMatch] at h
      by_cases hm : x.Matches Step t = true
      · simp only [hm, if_true] at h
        cases hg : GreedyMatch Step S ts with
        | none => simp [hg] at h
        | some g2 =>
          simp only [hg, Option.map_some', Option.some.injEq] at h
          subst h
          exact ⟨[], x, S, g2, rfl, by simp, hm, rfl, ih ts g2 hg⟩
      · simp only [hm, if_false] at h
        obtain ⟨Pre, y, Post, g2, hS, hPre, hy, hg, hrest⟩ := ih (t :: ts) g h
        refine ⟨x :: Pre, y, Post, g2, by simp [hS], ?_, hy, hg, hrest⟩
        intro z hz
        rcases List.mem_cons.1 hz with rfl | hz
        · simpa using hm
        · exact hPre z hz

/-- C36: for a non-empty template list `FindInstructionSubsequence` succeeds
exactly when the templates can be matched, in declared order, to a sublist
(not necessarily contiguous) of the forward decode of the window; and a
successful result lists, template by template, the range of the earliest
decoded instruction behind the previous match that matches the template, its
coverage running from the first match to the end of the last. -/
theorem FindInstructionSubsequence_earliest (A : DumpAnalyzer) (Start Size : Nat)
    (Pattern : List MatchInstruction) (hP : Pattern ≠ []) :
    SubsequenceMatching A Start Size Pattern := by
  have hpos : 0 < Pattern.length := List.length_pos.2 hP
  have hkey : ∀ out, A.FindInstructionSubsequence Start Size Pattern = some (some out) →
      ∃ Buffer x g, A.Read Start Size = some Buffer ∧
        GreedyMatch SubsequenceOperandStep (ForwardDecode A.Decoder VisibleOperands Buffer)
          Pattern = some (x :: g) ∧
        out = ⟨Coverage ((x :: g).map (DecodedAt.Range Start)),
          some ((x :: g).map (DecodedAt.Range Start))⟩ := by
    intro out h
    unfold DumpAnalyzer.FindInstructionSubsequence at h
    simp only [hP, if_false] at h
    cases hR : A.Read Start Size with
    | none => rw [hR] at h; simp at h
    | some Buffer =>
      rw [hR] at h
      simp only at h
      by_cases hB : Buffer = []
      · simp [hB] at h
      · simp only [hB, if_false] at h
        obtain ⟨x, g, hg, hout⟩ :=
          (FindInstructionSubsequenceLoop_some A.Decoder Start Buffer Pattern _ 0 0 []
            0 out hpos).1 h
        simp only [List.drop_zero] at hg
        refine ⟨Buffer, x, g, rfl, hg, ?_⟩
        rw [hout]
        simp [Coverage, DecodedAt.Range]
  refine ⟨⟨?_, ?_⟩, ?_⟩
  · rintro ⟨out, h⟩
    obtain ⟨Buffer, x, g, hR, hg, _⟩ := hkey out h
    obtain ⟨hsub, hM⟩ := GreedyMatch_sound _ _ _ _ hg
    exact ⟨Buffer, x :: g, hR, hsub, hM⟩
  · rintro ⟨Buffer, asg, hR, hsub, hM⟩
    obtain ⟨g, hg, hrel⟩ := GreedyMatch_earliest SubsequenceOperandStep _ Pattern asg
      hsub hM (ForwardDecodeLoop_pairwise _ _ _ _ _)
    have hlen : g.length = Pattern.length := (GreedyMatch_sound _ _ _ _ hg).2.length_eq
    cases g with
    | nil => simp at hlen; omega
    | cons x g =>
      have hB : Buffer ≠ [] := by
        intro hB
        subst hB
        have hsub2 := (GreedyMatch_sound _ _ _ _ hg).1
        rw [ForwardDecode_nil] at hsub2
        cases hsub2
      refine ⟨⟨CoverageFrom (add64 Start x.Offset) ((x :: g).map (DecodedAt.Range Start)),
        some ([] ++ (x :: g).map (DecodedAt.Range Start))⟩, ?_⟩
      unfold DumpAnalyzer.FindInstructionSubsequence
      simp only [hP, if_false, hR, hB]
      rw [FindInstructionSubsequenceLoop_some A.Decoder Start Buffer Pattern _ 0 0 [] 0 _ hpos]
      refine ⟨x, g, ?_, by simp⟩
      simpa using hg
  · intro out h
    obtain ⟨Buffer, x, g, hR, hg, hout⟩ := hkey out h
    refine ⟨Buffer, x :: g, hR, GreedyMatch_earliestInOrder _ _ _ _ hg, ?_, ?_⟩
    · rw [hout]
    · rw [hout]

/-- C36, at the window `nop; nop; ret` and the templates `nop`, `ret`. -/
theorem FindInstructionSubsequence_earliest_witness :
    ExampleSubsequencePattern ≠ [] ∧
    (ScenarioAnalyzer [0x90, 0x90, 0xC3]).FindInstructionSubsequence 0 3
        ExampleSubsequencePattern = some (some ⟨⟨0, 3⟩, some [⟨0, 1⟩, ⟨2, 1⟩]⟩) ∧
    SubsequenceMatching (ScenarioAnalyzer [0x90, 0x90, 0xC3]) 0 3 ExampleSubsequencePattern :=
  ⟨by decide, by decide,
    FindInstructionSubsequence_earliest (ScenarioAnalyzer [0x90, 0x90, 0xC3]) 0 3
      ExampleSubsequencePattern (by decide)⟩

theorem Size64_sum_split (pre : List Region) (r : Region) (post : List Region) :
    ((pre ++ r :: post).map Region.Size64).sum =
      (pre.map Region.Size64).sum + r.Size64 + (post.map Region.Size64).sum := by
  simp [List.map_append, List.sum_append, Nat.add_assoc]

theorem Translate_covered_value (md : Metadata) (regions : List Region) (v o : Nat)
    (hSize : ∀ r ∈ regions, (r.Size64 : Int) = (r.AddressEnd : Int) - r.AddressBegin + 1)
    (hSum : md.DumpSectionOffset + (regions.map Region.Size64).sum < U64)
    (hBase : md.BaseAddress + v < U64)
    (h : TranslateVirtualOffsetToFileOffset md regions v = some o) :
    ∃ pre r post, regions = pre ++ r :: post ∧
      (∀ p ∈ pre, ¬ p.Covers (md.BaseAddress + v)) ∧ r.Covers (md.BaseAddress + v) ∧
      (md.BaseAddress + v - r.AddressBegin) < r.Size64 ∧
      o = md.DumpSectionOffset + (pre.map Region.Size64).sum +
        (md.BaseAddress + v - r.AddressBegin) := by
  have hVA : add64 md.BaseAddress v = md.BaseAddress + v := by
    unfold add64
    exact Nat.mod_eq_of_lt hBase
  unfold TranslateVirtualOffsetToFileOffset at h
  rw [TranslateLoop_some _ (add64_lt _ _)] at h
  obtain ⟨pre, r, post, hsplit, hpre, hr, hout⟩ := h
  rw [hVA] at hpre hr hout
  have hrS := hSize r (by rw [hsplit]; simp)
  have hlt : md.BaseAddress + v - r.AddressBegin < r.Size64 := by
    unfold Region.Covers at hr
    omega
  refine ⟨pre, r, post, hsplit, hpre, hr, hlt, ?_⟩
  rw [hout]
  apply Nat.mod_eq_of_lt
  rw [hsplit, Size64_sum_split] at hSum
  omega

theorem Translate_increasing_aux (md : Metadata) (regions : List Region) (v1 v2 o1 o2 : Nat)
    (hOrd : List.Pairwise (fun R S => R.AddressBegin ≤ S.AddressBegin) regions)
    (hSize : ∀ r ∈ regions, (r.Size64 : Int) = (r.AddressEnd : Int) - r.AddressBegin + 1)
    (hSum : md.DumpSectionOffset + (regions.map Region.Size64).sum < U64)
    (hBase : md.BaseAddress + v2 < U64)
    (hlt : v1 < v2)
    (h1 : TranslateVirtualOffsetToFileOffset md regions v1 = some o1)
    (h2 : TranslateVirtualOffsetToFileOffset md regions v2 = some o2) : o1 < o2 := by
  obtain ⟨pre1, r1, post1, hs1, hp1, hr1, hl1, ho1⟩ :=
    Translate_covered_value md regions v1 o1 hSize hSum (by omega) h1
  obtain ⟨pre2, r2, post2, hs2, hp2, hr2, hl2, ho2⟩ :=
    Translate_covered_value md regions v2 o2 hSize hSum hBase h2
  have happ : pre1 ++ r1 :: post1 = pre2 ++ r2 :: post2 := by rw [← hs1, ← hs2]
  unfold Region.Covers at hr1 hr2
  rcases List.append_eq_append_iff.1 happ with ⟨a, ha1, ha2⟩ | ⟨c, hc1, hc2⟩
  · -- pre2 = pre1 ++ a, r1 :: post1 = a ++ r2 :: post2
    cases a with
    | nil =>
      simp only [List.nil_append, List.cons.injEq, List.append_nil] at ha1 ha2
      obtain ⟨rfl, _⟩ := ha2
      subst ha1
      omega
    | cons x a =>
      simp only [List.cons_append, List.cons.injEq] at ha2
      obtain ⟨rfl, _⟩ := ha2
      subst ha1
      rw [ho1, ho2]
      simp only [List.map_append, List.sum_append, List.map_cons, List.sum_cons]
      omega
  · -- pre1 = pre2 ++ c, r2 :: post2 = c ++ r1 :: post1
    cases c with
    | nil =>
      simp only [List.nil_append, List.cons.injEq, List.append_nil] at hc1 hc2
      obtain ⟨rfl, _⟩ := hc2
      subst hc1
      omega
    | cons x c =>
      simp only [List.cons_append, List.cons.injEq] at hc2
      obtain ⟨rfl, hpost⟩ := hc2
      subst hc1
      exfalso
      have hnc := hp1 r2 (by simp)
      have hle : r2.AddressBegin ≤ r1.AddressBegin := by
        rw [hs2, hpost] at hOrd
        have := (List.pairwise_append.1 hOrd).2.1
        have := (List.pairwise_cons.1 this).1
        exact this r1 (by simp)
      unfold Region.Covers at hnc
      omega

/-- C37: for regions listed in ascending order of their begin addresses and
pairwise without a common address, when no sum of the translation leaves the
64-bit range (the size `end - begin + 1` of every region is the exact integer,
the file cursor with all sizes added and `base_address + v` stay below
`2^64`), the translation is strictly increasing: for `v1 < v2` that both
translate the first result is below the second, and two different virtual
offsets never translate to the same file offset. -/
theorem Translate_strictly_increasing (md : Metadata) (regions : List Region)
    (v1 v2 o1 o2 : Nat)
    (hOrd : List.Pairwise (fun R S => R.AddressBegin ≤ S.AddressBegin) regions)
    (hDisjoint : List.Pairwise (fun R S => ∀ a, ¬ (R.Covers a ∧ S.Covers a)) regions)
    (hSize : ∀ r ∈ regions, (r.Size64 : Int) = (r.AddressEnd : Int) - r.AddressBegin + 1)
    (hSum : md.DumpSectionOffset + (regions.map Region.Size64).sum < U64)
    (hBase1 : md.BaseAddress + v1 < U64) (hBase2 : md.BaseAddress + v2 < U64)
    (h1 : TranslateVirtualOffsetToFileOffset md regions v1 = some o1)
    (h2 : TranslateVirtualOffsetToFileOffset md regions v2 = some o2) :
    (v1 < v2 → o1 < o2) ∧ (v1 ≠ v2 → o1 ≠ o2) := by
  have _ := hDisjoint
  refine ⟨fun hlt => Translate_increasing_aux md regions v1 v2 o1 o2 hOrd hSize hSum hBase2 hlt
    h1 h2, ?_⟩
  intro hne
  rcases Nat.lt_or_gt_of_ne hne with hlt | hgt
  · have := Translate_increasing_aux md regions v1 v2 o1 o2 hOrd hSize hSum hBase2 hlt h1 h2
    omega
  · have := Translate_increasing_aux md regions v2 v1 o2 o1 hOrd hSize hSum hBase1 hgt h2 h1
    omega

/-- C37, at two regions `0x1000 .. 0x1FFF` and `0x3000 .. 0x3FFF` of a dump
whose region data starts at `0x100`: the last address of the first region
translates to `0x10FF`, the first address of the second to `0x1100`. -/
theorem Translate_strictly_increasing_witness :
    TranslateVirtualOffsetToFileOffset TwoRegionsMetadata TwoRegions 0x1FFF = some 0x10FF ∧
    TranslateVirtualOffsetToFileOffset TwoRegionsMetadata TwoRegions 0x3000 = some 0x1100 ∧
    ((0x1FFF < 0x3000 → 0x10FF < 0x1100) ∧ (0x1FFF ≠ 0x3000 → 0x10FF ≠ 0x1100)) :=
  ⟨by decide, by decide,
    Translate_strictly_increasing TwoRegionsMetadata TwoRegions 0x1FFF 0x3000 0x10FF 0x1100
      (by decide) (by simp [TwoRegions, Region.Covers]; omega)
      (by decide) (by decide) (by decide) (by decide) (by decide) (by decide)⟩

theorem StringRefOffsetsLoop_short (A : DumpAnalyzer) (InPeSections : Option (List PeSection))
    (Anchor : TAnchor) (Rest : List TAnchor) (StringMatches : Result (List Nat))
    (hType : Anchor.Type' = AnchorType.String)
    (hFind : A.FindString InPeSections StringType.UTF16_LE Anchor.String
      (add64 Anchor.Index 1) = some (some StringMatches))
    (hShort : (StringMatches.Value.getD []).length ≤ Anchor.Index) :
    StringRefOffsetsLoop A InPeSections (Anchor :: Rest) = none := by
  unfold StringRefOffsetsLoop
  simp only [hType, if_true, hFind]
  rw [List.getElem?_eq_none hShort]

/-- C32 (code defect): `SetFunctionBase` asks `FindString` for at most
`Index + 1` occurrences and reads element `Index` of what it gets without
looking at the number of occurrences found.  Over a `.rdata` that holds `Hi`
once, an anchor with index 1 gets a list of one occurrence and the read of
element 1 goes past its end (the model has no value for the call).  In
general the first `String` anchor whose search returns no more than `Index`
occurrences makes `SetFunctionBase` read past the list; only a search without
any occurrence makes it return absent. -/
theorem SetFunctionBase_index_past_occurrences :
    OneOccurrenceDump.FindString OneOccurrenceSections StringType.UTF16_LE "Hi".toList 2 =
      some (some ⟨⟨0, 0⟩, some [0]⟩) ∧
    SetFunctionBase ScenarioStrings OneOccurrenceDump OneOccurrenceSections [0, 4]
      (OccurrenceRegion 1) = none ∧
    (∀ (Z : ZydisStrings) (A : DumpAnalyzer) (InPeSections : Option (List PeSection))
      (FunctionBases : List Nat) (Function : TSearchRegion) (Anchor : TAnchor)
      (Rest : List TAnchor) (StringMatches : Result (List Nat)),
      Function.Anchors = Anchor :: Rest →
      add64 Function.RegionRange.Size Function.RegionRange.SizeVariation ≠ 0 →
      Anchor.Type' = AnchorType.String →
      A.FindString InPeSections StringType.UTF16_LE Anchor.String (add64 Anchor.Index 1) =
        some (some StringMatches) →
      (StringMatches.Value.getD []).length ≤ Anchor.Index →
      SetFunctionBase Z A InPeSections FunctionBases Function = none) ∧
    (∀ (Z : ZydisStrings) (A : DumpAnalyzer) (InPeSections : Option (List PeSection))
      (FunctionBases : List Nat) (Function : TSearchRegion) (Anchor : TAnchor)
      (Rest : List TAnchor),
      Function.Anchors = Anchor :: Rest →
      Anchor.Type' = AnchorType.String →
      A.FindString InPeSections StringType.UTF16_LE Anchor.String (add64 Anchor.Index 1) =
        some none →
      SetFunctionBase Z A InPeSections FunctionBases Function = some (none, Function)) := by
  refine ⟨by decide, by decide, ?_, ?_⟩
  · intro Z A InPeSections FunctionBases Function Anchor Rest StringMatches hA hSize hType hFind
      hShort
    unfold SetFunctionBase
    rw [if_neg (by rw [hA]; simp)]
    simp only [hSize, if_false, hA,
      StringRefOffsetsLoop_short A InPeSections Anchor Rest StringMatches hType hFind hShort]
  · intro Z A InPeSections FunctionBases Function Anchor Rest hA hType hFind
    unfold SetFunctionBase
    rw [if_neg (by rw [hA]; simp)]
    by_cases hSize : add64 Function.RegionRange.Size Function.RegionRange.SizeVariation = 0
    · simp [hSize]
    · simp only [hSize, if_false, hA]
      have : StringRefOffsetsLoop A InPeSections (Anchor :: Rest) = some none := by
        unfold StringRefOffsetsLoop
        simp only [hType, if_true, hFind]
      rw [this]

theorem StringRefOffsetsLoop_no_sections (A : DumpAnalyzer) (Anchors : List TAnchor) :
    StringRefOffsetsLoop A none Anchors ≠ none := by
  induction Anchors with
  | nil => simp [StringRefOffsetsLoop]
  | cons Anchor Rest ih =>
    unfold StringRefOffsetsLoop
    by_cases hType : Anchor.Type' = AnchorType.String
    · simp [hType, DumpAnalyzer.FindString]
    · simp only [hType, if_false]
      cases h : StringRefOffsetsLoop A none Rest with
      | none => exact absurd h ih
      | some R =>
        cases R with
        | none => simp
        | some Refs => simp

theorem SetFunctionBase_no_pe (Z : ZydisStrings) (A : DumpAnalyzer) (Function : TSearchRegion) :
    SetFunctionBase Z A none [] Function = some (none, Function) := by
  unfold SetFunctionBase
  by_cases hA : Function.Anchors = []
  · simp [hA]
  · simp only [hA, if_false]
    by_cases hSize : add64 Function.RegionRange.Size Function.RegionRange.SizeVariation = 0
    · simp [hSize]
    · simp only [hSize, if_false]
      cases h : StringRefOffsetsLoop A none Function.Anchors with
      | none => exact absurd h (StringRefOffsetsLoop_no_sections A _)
      | some R =>
        cases R with
        | none => rfl
        | some Refs => simp [CandidatesLoop]

theorem List_set_same {α : Type} (l : List α) (i : Nat) (a : α) (h : l[i]? = some a) :
    l.set i a = l := by
  induction l generalizing i with
  | nil => rfl
  | cons x l ih =>
    cases i with
    | zero =>
      simp only [List.getElem?_cons_zero, Option.some.injEq] at h
      simp [h]
    | succ i =>
      simp only [List.getElem?_cons_succ] at h
      simp [ih i h]

theorem SetBase_no_pe (Z : ZydisStrings) (F : OffsetFinder) (RegionIndex : Nat)
    (Region : TSearchRegion) (hPE : F.InPeSections = none) (hFn : F.InFunctions = [])
    (hR : F.SearchRegions[RegionIndex]? = some Region)
    (hT : Region.RegionType ≠ RegionType.Unknown) :
    SetBase Z F RegionIndex = some (false, F) := by
  unfold SetBase
  simp only [hR]
  cases hType : Region.RegionType with
  | Unknown => exact absurd hType hT
  | Section => simp [hPE]
  | Function =>
    simp only [hPE, hFn, SetFunctionBase_no_pe, Option.isSome_none]
    rw [List_set_same _ _ _ hR]
    cases F
    simp_all

theorem FindLoop_rejected (Handlers : SearchType → Option SearchHandler)
    (Handler : OffsetFinder → Nat → Option (Bool × OffsetFinder)) (F : OffsetFinder)
    (hRej : ∀ (RegionIndex : Nat) (Region : TSearchRegion),
      F.SearchRegions[RegionIndex]? = some Region → Handler F RegionIndex = some (false, F))
    (Remaining RegionIndex : Nat) (hLen : RegionIndex + Remaining ≤ F.SearchRegions.length) :
    FindLoop Handlers Handler Remaining RegionIndex F = some F := by
  induction Remaining generalizing RegionIndex with
  | zero => rfl
  | succ n ih =>
    unfold FindLoop
    have hlt : RegionIndex < F.SearchRegions.length := by omega
    rw [List.getElem?_eq_getElem hlt]
    simp only
    by_cases hAcc : F.SearchRegions[RegionIndex].AccessType ≠ AccessType.Normal
    · rw [if_pos hAcc]
      exact ih (RegionIndex + 1) (by omega)
    · rw [if_neg hAcc, hRej RegionIndex _ (List.getElem?_eq_getElem hlt)]
      exact ih (RegionIndex + 1) (by omega)

theorem RegionTypes_known (Type' : String) (CppType : RegionType)
    (h : RegionTypes Type' = some CppType) : CppType ≠ RegionType.Unknown := by
  unfold RegionTypes at h
  split at h
  · cases h; decide
  · cases h; decide
  · cases h

theorem ParseRegion_type (Region : JSON) (CppRegion : TSearchRegion)
    (h : ParseRegion Region = Except.ok (some CppRegion)) :
    CppRegion.RegionType ≠ RegionType.Unknown := by
  unfold ParseRegion at h
  repeat' split at h
  all_goals first
    | (cases h; exact RegionTypes_known _ _ (by assumption))
    | cases h

theorem ParseRegions_types (Regions : List JSON) :
    ∀ R ∈ (ParseRegions Regions).1, R.RegionType ≠ RegionType.Unknown := by
  induction Regions with
  | nil => simp [ParseRegions]
  | cons Region Rest ih =>
    unfold ParseRegions
    cases h : ParseRegion Region with
    | error E => simp
    | ok O =>
      cases O with
      | none => simpa using ih
      | some CppRegion =>
        simp only [List.mem_cons]
        intro R hR
        rcases hR with rfl | hR
        · exact ParseRegion_type Region _ h
        · exact ih R hR

/-- C33: for a finder whose PE analysis failed (no PE section list, empty
function set) and whose regions all come from configurations (region type
`Section` or `Function`), the default region handler returns `false` for
every region of every configuration and leaves the finder unchanged; `Find`
on a configuration that is read to its end returns with the regions of the
configuration appended and nothing else changed, whatever the search handlers
are, and however `Find` returns the list of finds is the one before the
call. -/
theorem FindFile_without_pe (Z : ZydisStrings) (F : OffsetFinder) (Config : JSON)
    (Handlers : SearchType → Option SearchHandler) (ShouldSyncSearchConfig : Bool)
    (hPE : F.InPeSections = none) (hFn : F.InFunctions = [])
    (hTypes : ∀ R ∈ F.SearchRegions, R.RegionType ≠ RegionType.Unknown) :
    NothingProcessed Z F Config Handlers ShouldSyncSearchConfig := by
  have hRej : ∀ (RegionIndex : Nat) (Region : TSearchRegion),
      (F.SearchRegions ++ (ParseRegions Config.items).1)[RegionIndex]? = some Region →
      RegionHandler Z
        { F with JSON_SearchRegions := Config,
                 SearchRegions := F.SearchRegions ++ (ParseRegions Config.items).1 }
        RegionIndex =
        some (false,
          { F with JSON_SearchRegions := Config,
                   SearchRegions := F.SearchRegions ++ (ParseRegions Config.items).1 }) := by
    intro RegionIndex Region hR
    unfold RegionHandler
    refine SetBase_no_pe Z _ RegionIndex Region hPE hFn hR ?_
    have hmem : Region ∈ F.SearchRegions ++ (ParseRegions Config.items).1 :=
      List.mem_iff_getElem?.2 ⟨RegionIndex, hR⟩
    rcases List.mem_append.1 hmem with h | h
    · exact hTypes Region h
    · exact ParseRegions_types _ Region h
  have hFind : (ParseRegions Config.items).2 = none →
      F.FindFile (some Config) Handlers (RegionHandler Z) ShouldSyncSearchConfig =
        some { F with JSON_SearchRegions := Config,
                      SearchRegions := F.SearchRegions ++ (ParseRegions Config.items).1,
                      ShouldSyncSearchConfig := ShouldSyncSearchConfig } := by
    intro hNone
    unfold OffsetFinder.FindFile
    cases hP : ParseRegions Config.items with
    | mk Regions Fault =>
      rw [hP] at hNone hRej
      simp only at hNone hRej
      subst hNone
      simp only [hP]
      unfold OffsetFinder.Find
      rw [FindLoop_rejected Handlers (RegionHandler Z) _ hRej _ 0 (by simp)]
  refine ⟨hRej, hFind, ?_⟩
  intro F2 h
  cases hP : (ParseRegions Config.items).2 with
  | none =>
    rw [hFind hP] at h
    cases h
    rfl
  | some E =>
    unfold OffsetFinder.FindFile at h
    cases hQ : ParseRegions Config.items with
    | mk Regions Fault =>
      rw [hQ] at hP
      simp only at hP
      subst hP
      simp only [hQ] at h
      cases E with
      | type_error =>
        simp only [Option.some.injEq] at h
        subst h
        rfl
      | out_of_range => simp at h
      | undefined => simp at h

/-- C33, at the configuration of the synchronisation scenario (one region of
type `Section` with one target) and a finder without PE sections. -/
theorem FindFile_without_pe_witness :
    NothingProcessed ScenarioStrings FailedFinder SyncConfig
      (DefaultHandlers ScenarioStrings TslPunned 1) true :=
  FindFile_without_pe ScenarioStrings FailedFinder SyncConfig
    (DefaultHandlers ScenarioStrings TslPunned 1) true rfl rfl (by simp [FailedFinder])

theorem NextOffset_gt (D : ZydisDecoder) (hD : D.LengthsPositive) (Buffer : List Nat)
    (Offset : Nat) : Offset < NextOffset D Buffer Offset := by
  unfold NextOffset
  cases hI : D.DecodeInstruction (Buffer.drop Offset) with
  | none => simp
  | some I =>
    have := hD _ _ hI
    simp only
    omega

theorem DecodeScanLoop_advances {α : Type} (D : ZydisDecoder) (Buffer : List Nat)
    (Pick : Nat → ZydisDecodedInstruction → List ZydisDecodedOperand → Option α) :
    Advances D Buffer (fun Fuel Offset (_ : Unit) => DecodeScanLoop D Buffer Pick Fuel Offset) := by
  intro Offset _
  by_cases hlt : Offset < Buffer.length
  · cases hI : D.DecodeInstruction (Buffer.drop Offset) with
    | none =>
      refine Or.inr ⟨hlt, (), fun Fuel => ?_⟩
      simp [DecodeScanLoop, hlt, hI, NextOffset]
    | some I =>
      cases hO : D.DecodeOperands (Buffer.drop Offset) I I.operand_count with
      | none =>
        refine Or.inr ⟨hlt, (), fun Fuel => ?_⟩
        simp [DecodeScanLoop, hlt, hI, hO, NextOffset]
      | some ops =>
        cases hP : Pick Offset I ops with
        | none =>
          refine Or.inr ⟨hlt, (), fun Fuel => ?_⟩
          simp [DecodeScanLoop, hlt, hI, hO, hP, NextOffset]
        | some out =>
          refine Or.inl ⟨some (some out), fun Fuel => ?_⟩
          simp [DecodeScanLoop, hlt, hI, hO, hP]
  · refine Or.inl ⟨some none, fun Fuel => ?_⟩
    simp [DecodeScanLoop, hlt]

theorem FindInstructionSequenceLoop_advances (D : ZydisDecoder) (StartOffset : Nat)
    (Buffer : List Nat) (Pattern : List MatchInstruction) :
    Advances D Buffer (fun Fuel Offset (S : Nat × List MatchRange × Nat) =>
      FindInstructionSequenceLoop D StartOffset Buffer Pattern Fuel Offset S.1 S.2.1 S.2.2) := by
  rintro Offset ⟨PatternIndex, MatchOffsets, OutRangeOffset⟩
  by_cases hlt : Offset < Buffer.length
  · cases hI : D.DecodeInstruction (Buffer.drop Offset) with
    | none =>
      refine Or.inr ⟨hlt, (0, [], OutRangeOffset), fun Fuel => ?_⟩
      simp [FindInstructionSequenceLoop, hlt, hI, NextOffset]
    | some I =>
      cases hO : D.DecodeOperands (Buffer.drop Offset) I I.operand_count_visible with
      | none =>
        refine Or.inr ⟨hlt, (0, [], OutRangeOffset), fun Fuel => ?_⟩
        simp [FindInstructionSequenceLoop, hlt, hI, hO, NextOffset]
      | some ops =>
        cases hP : Pattern[PatternIndex]? with
        | none =>
          refine Or.inl ⟨none, fun Fuel => ?_⟩
          simp [FindInstructionSequenceLoop, hlt, hI, hO, hP]
        | some MI =>
          by_cases hM : InstructionMatches SequenceOperandStep I ops MI = true
          · by_cases hEnd : PatternIndex + 1 = Pattern.length
            · refine Or.inl ?_
              simp only [FindInstructionSequenceLoop, hlt, if_true, hI, hO, hP, hM, hEnd]
              exact ⟨_, fun _ => rfl⟩
            · refine Or.inr ⟨hlt, (PatternIndex + 1,
                MatchOffsets ++ [⟨add64 StartOffset Offset, I.length⟩],
                if PatternIndex + 1 = 1 then add64 StartOffset Offset else OutRangeOffset),
                fun Fuel => ?_⟩
              simp only [FindInstructionSequenceLoop, hlt, if_true, hI, hO, hP, hM, hEnd,
                if_false, NextOffset]
          · refine Or.inr ⟨hlt, (0, [], OutRangeOffset), fun Fuel => ?_⟩
            simp [FindInstructionSequenceLoop, hlt, hI, hO, hP, hM, NextOffset]
  · refine Or.inl ⟨some none, fun Fuel => ?_⟩
    simp [FindInstructionSequenceLoop, hlt]

theorem FindInstructionSubsequenceLoop_advances (D : ZydisDecoder) (StartOffset : Nat)
    (Buffer : List Nat) (Pattern : List MatchInstruction) :
    Advances D Buffer (fun Fuel Offset (S : Nat × List MatchRange × Nat) =>
      FindInstructionSubsequenceLoop D StartOffset Buffer Pattern Fuel Offset S.1 S.2.1
        S.2.2) := by
  rintro Offset ⟨PatternIndex, MatchOffsets, OutRangeOffset⟩
  by_cases hlt : Offset < Buffer.length
  · cases hI : D.DecodeInstruction (Buffer.drop Offset) with
    | none =>
      refine Or.inr ⟨hlt, (PatternIndex, MatchOffsets, OutRangeOffset), fun Fuel => ?_⟩
      simp [FindInstructionSubsequenceLoop, hlt, hI, NextOffset]
    | some I =>
      cases hO : D.DecodeOperands (Buffer.drop Offset) I I.operand_count_visible with
      | none =>
        refine Or.inr ⟨hlt, (PatternIndex, MatchOffsets, OutRangeOffset), fun Fuel => ?_⟩
        simp [FindInstructionSubsequenceLoop, hlt, hI, hO, NextOffset]
      | some ops =>
        cases hP : Pattern[PatternIndex]? with
        | none =>
          refine Or.inl ⟨none, fun Fuel => ?_⟩
          simp [FindInstructionSubsequenceLoop, hlt, hI, hO, hP]
        | some MI =>
          by_cases hM : InstructionMatches SubsequenceOperandStep I ops MI = true
          · by_cases hEnd : PatternIndex + 1 = Pattern.length
            · refine Or.inl ?_
              simp only [FindInstructionSubsequenceLoop, hlt, if_true, hI, hO, hP, hM, hEnd]
              exact ⟨_, fun _ => rfl⟩
            · refine Or.inr ⟨hlt, (PatternIndex + 1,
                MatchOffsets ++ [⟨add64 StartOffset Offset, I.length⟩],
                if PatternIndex + 1 = 1 then add64 StartOffset Offset else OutRangeOffset),
                fun Fuel => ?_⟩
              simp only [FindInstructionSubsequenceLoop, hlt, if_true, hI, hO, hP, hM, hEnd,
                if_false, NextOffset]
          · refine Or.inr ⟨hlt, (PatternIndex, MatchOffsets, OutRangeOffset), fun Fuel => ?_⟩
            simp [FindInstructionSubsequenceLoop, hlt, hI, hO, hP, hM, NextOffset]
  · refine Or.inl ⟨some none, fun Fuel => ?_⟩
    simp [FindInstructionSubsequenceLoop, hlt]

theorem ExtractLoop_advances (D : ZydisDecoder) (Punned : ZydisDecodedOperand → ZydisRegister)
    (X32 : Bool) (StartOffset : Nat) (Buffer : List Nat) :
    Advances D Buffer (fun Fuel Offset S =>
      ExtractLoop D Punned X32 StartOffset Buffer Fuel Offset S) := by
  intro Offset S
  by_cases hlt : Offset < Buffer.length
  · cases hI : D.DecodeInstruction (Buffer.drop Offset) with
    | none =>
      refine Or.inr ⟨hlt, S, fun Fuel => ?_⟩
      simp [ExtractLoop, hlt, hI, NextOffset]
    | some I =>
      cases hO : D.DecodeOperands (Buffer.drop Offset) I I.operand_count with
      | none =>
        refine Or.inr ⟨hlt, S, fun Fuel => ?_⟩
        simp [ExtractLoop, hlt, hI, hO, NextOffset]
      | some ops =>
        cases hS : ExtractStep Punned X32 (add64 StartOffset Offset) I ops S with
        | none =>
          refine Or.inl ⟨none, fun Fuel => ?_⟩
          simp [ExtractLoop, hlt, hI, hO, hS]
        | some S2 =>
          refine Or.inr ⟨hlt, S2, fun Fuel => ?_⟩
          simp [ExtractLoop, hlt, hI, hO, hS, NextOffset]
  · refine Or.inl ⟨some S, fun Fuel => ?_⟩
    simp [ExtractLoop, hlt]

theorem ExtractFunctionsLoop_advances (D : ZydisDecoder)
    (TextSectionOffset TextSectionEnd : Nat) (Buffer : List Nat) (BytesRead : Nat)
    (hB : BytesRead ≤ Buffer.length) :
    Advances D (Buffer.take BytesRead) (fun Fuel Offset InFunctionOffsets =>
      ExtractFunctionsLoop D TextSectionOffset TextSectionEnd Buffer BytesRead Fuel Offset
        InFunctionOffsets) := by
  intro Offset Fns
  have hlen : (Buffer.take BytesRead).length = BytesRead := by
    rw [List.length_take]
    omega
  by_cases hlt : Offset < BytesRead
  · have hview : (Buffer.take BytesRead).drop Offset =
        (Buffer.drop Offset).take (BytesRead - Offset) := List.drop_take _ _ _
    cases hI : D.DecodeInstruction ((Buffer.drop Offset).take (BytesRead - Offset)) with
    | none =>
      refine Or.inr ⟨by omega, Fns, fun Fuel => ?_⟩
      simp [ExtractFunctionsLoop, hlt, hI, NextOffset, hview]
    | some I =>
      refine Or.inr ⟨by omega, ?_⟩
      simp only [ExtractFunctionsLoop, hlt, if_true, hI, NextOffset, hview]
      exact ⟨_, fun _ => rfl⟩
  · refine Or.inl ⟨some Fns, fun Fuel => ?_⟩
    simp [ExtractFunctionsLoop, hlt]

theorem FindInstructionSequenceLoop_terminates (D : ZydisDecoder) (hD : D.LengthsPositive)
    (StartOffset : Nat) (Buffer : List Nat) (Pattern : List MatchInstruction)
    (Fuel Offset PatternIndex : Nat) (MatchOffsets : List MatchRange) (OutRangeOffset : Nat)
    (hpos : 0 < Fuel) (hfuel : Buffer.length + 1 ≤ Fuel + Offset)
    (hPI : PatternIndex < Pattern.length) :
    FindInstructionSequenceLoop D StartOffset Buffer Pattern Fuel Offset PatternIndex
      MatchOffsets OutRangeOffset ≠ none := by
  induction Fuel generalizing Offset PatternIndex MatchOffsets OutRangeOffset with
  | zero => omega
  | succ Fuel ih =>
    have h0 : 0 < Pattern.length := by omega
    simp only [FindInstructionSequenceLoop]
    by_cases hlt : Offset < Buffer.length
    · simp only [hlt, if_true]
      cases hI : D.DecodeInstruction (Buffer.drop Offset) with
      | none =>
        simp only
        exact ih (Offset + 1) 0 [] OutRangeOffset (by omega) (by omega) h0
      | some I =>
        have hlen := hD _ _ hI
        simp only
        cases hO : D.DecodeOperands (Buffer.drop Offset) I I.operand_count_visible with
        | none =>
          simp only
          exact ih (Offset + I.length) 0 [] OutRangeOffset (by omega) (by omega) h0
        | some ops =>
          simp only
          rw [List.getElem?_eq_getElem hPI]
          simp only
          split
          · split
            · simp
            · rename_i hEnd
              exact ih (Offset + I.length) (PatternIndex + 1) _ _ (by omega) (by omega)
                (by omega)
          · exact ih (Offset + I.length) 0 [] OutRangeOffset (by omega) (by omega) h0
    · simp [hlt]

theorem FindInstructionSubsequenceLoop_terminates (D : ZydisDecoder) (hD : D.LengthsPositive)
    (StartOffset : Nat) (Buffer : List Nat) (Pattern : List MatchInstruction)
    (Fuel Offset PatternIndex : Nat) (MatchOffsets : List MatchRange) (OutRangeOffset : Nat)
    (hpos : 0 < Fuel) (hfuel : Buffer.length + 1 ≤ Fuel + Offset)
    (hPI : PatternIndex < Pattern.length) :
    FindInstructionSubsequenceLoop D StartOffset Buffer Pattern Fuel Offset PatternIndex
      MatchOffsets OutRangeOffset ≠ none := by
  induction Fuel generalizing Offset PatternIndex MatchOffsets OutRangeOffset with
  | zero => omega
  | succ Fuel ih =>
    simp only [FindInstructionSubsequenceLoop]
    by_cases hlt : Offset < Buffer.length
    · simp only [hlt, if_true]
      cases hI : D.DecodeInstruction (Buffer.drop Offset) with
      | none =>
        simp only
        exact ih (Offset + 1) PatternIndex _ _ (by omega) (by omega) hPI
      | some I =>
        have hlen := hD _ _ hI
        simp only
        cases hO : D.DecodeOperands (Buffer.drop Offset) I I.operand_count_visible with
        | none =>
          simp only
          exact ih (Offset + I.length) PatternIndex _ _ (by omega) (by omega) hPI
        | some ops =>
          simp only
          rw [List.getElem?_eq_getElem hPI]
          simp only
          split
          · split
            · simp
            · rename_i hEnd
              exact ih (Offset + I.length) (PatternIndex + 1) _ _ (by omega) (by omega)
                (by omega)
          · exact ih (Offset + I.length) PatternIndex _ _ (by omega) (by omega) hPI
    · simp [hlt]

theorem ExtractLoopEnd_finishes (D : ZydisDecoder) (hD : D.LengthsPositive)
    (Punned : ZydisDecodedOperand → ZydisRegister) (X32 : Bool) (StartOffset : Nat)
    (Buffer : List Nat) (Fuel Offset : Nat) (S : ExtractState)
    (hpos : 0 < Fuel) (hfuel : Buffer.length + 1 ≤ Fuel + Offset) :
    ExtractLoopEnd D Punned X32 StartOffset Buffer Fuel Offset S ≠ ScanEnd.Unfinished := by
  induction Fuel generalizing Offset S with
  | zero => omega
  | succ Fuel ih =>
    simp only [ExtractLoopEnd]
    by_cases hlt : Offset < Buffer.length
    · simp only [hlt, if_true]
      cases hI : D.DecodeInstruction (Buffer.drop Offset) with
      | none =>
        simp only
        exact ih (Offset + 1) S (by omega) (by omega)
      | some I =>
        have hlen := hD _ _ hI
        simp only
        cases hO : D.DecodeOperands (Buffer.drop Offset) I I.operand_count with
        | none =>
          simp only
          exact ih (Offset + I.length) S (by omega) (by omega)
        | some ops =>
          simp only
          cases hS : ExtractStep Punned X32 (add64 StartOffset Offset) I ops S with
          | none => simp
          | some S2 =>
            simp only
            exact ih (Offset + I.length) S2 (by omega) (by omega)
    · simp [hlt]

theorem ExtractLoopEnd_toOption (D : ZydisDecoder)
    (Punned : ZydisDecodedOperand → ZydisRegister) (X32 : Bool) (StartOffset : Nat)
    (Buffer : List Nat) (Fuel Offset : Nat) (S : ExtractState) :
    (ExtractLoopEnd D Punned X32 StartOffset Buffer Fuel Offset S).toOption =
      ExtractLoop D Punned X32 StartOffset Buffer Fuel Offset S := by
  induction Fuel generalizing Offset S with
  | zero => rfl
  | succ Fuel ih =>
    simp only [ExtractLoopEnd, ExtractLoop]
    by_cases hlt : Offset < Buffer.length
    · simp only [hlt, if_true]
      cases hI : D.DecodeInstruction (Buffer.drop Offset) with
      | none => exact ih _ _
      | some I =>
        simp only
        cases hO : D.DecodeOperands (Buffer.drop Offset) I I.operand_count with
        | none => exact ih _ _
        | some ops =>
          simp only
          cases hS : ExtractStep Punned X32 (add64 StartOffset Offset) I ops S with
          | none => rfl
          | some S2 => exact ih _ _
    · simp [hlt, ScanEnd.toOption]

theorem ExtractFunctionsLoop_terminates (D : ZydisDecoder) (hD : D.LengthsPositive)
    (TextSectionOffset TextSectionEnd : Nat) (Buffer : List Nat) (BytesRead : Nat)
    (Fuel Offset : Nat) (InFunctionOffsets : List Nat)
    (hpos : 0 < Fuel) (hfuel : BytesRead + 1 ≤ Fuel + Offset) :
    ExtractFunctionsLoop D TextSectionOffset TextSectionEnd Buffer BytesRead Fuel Offset
      InFunctionOffsets ≠ none := by
  induction Fuel generalizing Offset InFunctionOffsets with
  | zero => omega
  | succ Fuel ih =>
    simp only [ExtractFunctionsLoop]
    by_cases hlt : Offset < BytesRead
    · simp only [hlt, if_true]
      cases hI : D.DecodeInstruction ((Buffer.drop Offset).take (BytesRead - Offset)) with
      | none =>
        simp only
        exact ih (Offset + 1) _ (by omega) (by omega)
      | some I =>
        have hlen := hD _ _ hI
        simp only
        exact ih (Offset + I.length) _ (by omega) (by omega)
    · simp [hlt]

theorem ScenarioDecoder_LengthsPositive : ScenarioDecoder.LengthsPositive := by
  intro Bytes I h
  simp only [ScenarioDecoder] at h
  unfold ScenarioDecodeInstruction at h
  split at h <;> first
    | (simp only [Option.some.injEq] at h
       subst h
       decide)
    | cases h

/-- C39: when every decoded instruction is at least one byte long, every
decode-scan loop ends on every buffer.  The scan offset grows in every
iteration, by one when the bytes do not decode and by the length of the
instruction otherwise; every iteration of every loop (the loop shared by
`ResolveRipRelativeOffset`, `FindRipRelativeReference`, `ExtractDisplacement`
and `ExtractImmediate`, the loops of `FindInstructionSequence`,
`FindInstructionSubsequence`, `ExtractTslDecryptors` and
`ExtractAndSaveFunctions`) leaves the loop or goes on at that next offset; and
`Buffer.size() + 1` iterations are enough for every loop to come to its
end. -/
theorem DecodeScans_terminate (D : ZydisDecoder) (hD : D.LengthsPositive) :
    DecodeScansTerminate D := by
  refine ⟨?_, ⟨?_, ?_, ?_, ?_, ?_⟩, ⟨?_, ?_, ?_, ?_, ?_⟩⟩
  · intro Buffer Offset
    refine ⟨NextOffset_gt D hD Buffer Offset, ?_, ?_⟩
    · intro h
      simp [NextOffset, h]
    · intro I h
      simp [NextOffset, h]
  · intro α Buffer Pick
    exact DecodeScanLoop_advances D Buffer Pick
  · exact FindInstructionSequenceLoop_advances D
  · exact FindInstructionSubsequenceLoop_advances D
  · exact ExtractLoop_advances D
  · exact ExtractFunctionsLoop_advances D
  · intro α Buffer Pick Fuel Offset hpos hfuel
    exact DecodeScanLoop_terminates D hD Buffer Pick Fuel Offset hpos hfuel
  · exact FindInstructionSequenceLoop_terminates D hD
  · exact FindInstructionSubsequenceLoop_terminates D hD
  · intro Punned X32 StartOffset Buffer Fuel Offset S hpos hfuel
    exact ⟨ExtractLoopEnd_finishes D hD Punned X32 StartOffset Buffer Fuel Offset S hpos hfuel,
      ExtractLoopEnd_toOption D Punned X32 StartOffset Buffer Fuel Offset S⟩
  · exact ExtractFunctionsLoop_terminates D hD

/-- C39, at the scenario decoder, whose instructions are one to seven bytes
long. -/
theorem DecodeScans_terminate_witness :
    ScenarioDecoder.LengthsPositive ∧ DecodeScansTerminate ScenarioDecoder :=
  ⟨ScenarioDecoder_LengthsPositive,
    DecodeScans_terminate ScenarioDecoder ScenarioDecoder_LengthsPositive⟩

theorem Shape_set (Regions : List TSearchRegion) (i : Nat) (R R2 : TSearchRegion)
    (h : Regions[i]? = some R) (hS : R2.Shape = R.Shape) :
    (Regions.set i R2).map TSearchRegion.Shape = Regions.map TSearchRegion.Shape := by
  rw [List.map_set, hS]
  exact List_set_same _ _ _ (by simp [h])

theorem Shape_of_range (R : TSearchRegion) (Range : TRange) :
    ({ R with RegionRange := Range } : TSearchRegion).Shape = R.Shape := rfl

theorem Shape_at (F : OffsetFinder) (i : Nat) (R : TSearchRegion)
    (h : F.SearchRegions[i]? = some R) : F.Shape[i]? = some R.Shape := by
  simp [OffsetFinder.Shape, h]

theorem Target_region (F : OffsetFinder) (i j : Nat) (R : TSearchRegion) (T : TSearchFor)
    (h : F.Target i j = some (R, T)) : F.SearchRegions[i]? = some R ∧ R.SearchFor[j]? = some T := by
  unfold OffsetFinder.Target at h
  cases hR : F.SearchRegions[i]? with
  | none => simp [hR] at h
  | some R2 =>
    simp only [hR] at h
    cases hT : R2.SearchFor[j]? with
    | none => simp [hT] at h
    | some T2 =>
      simp only [hT, Option.some.injEq, Prod.mk.injEq] at h
      obtain ⟨rfl, rfl⟩ := h
      exact ⟨rfl, hT⟩

theorem JSON_SyncSearchRange_regions (F F2 : OffsetFinder) (Range : TRange)
    (R : TSearchRegion) (T : TSearchFor) (h : F.JSON_SyncSearchRange Range R T = some F2) :
    F2.SearchRegions = F.SearchRegions := by
  unfold OffsetFinder.JSON_SyncSearchRange OffsetFinder.JSON_UpdateSearchRange at h
  split at h
  · cases h
  · rename_i F3 hU
    simp only [Option.some.injEq] at h
    subst h
    split at hU
    · simp only [Except.ok.injEq] at hU
      subst hU
      rfl
    · split at hU
      · cases hU
      · simp only [Except.ok.injEq] at hU
        subst hU
        rfl

theorem ValueHandler_KeepsShape {α : Type} (Z : ZydisStrings)
    (Extractor : DumpAnalyzer → Nat → Nat → Option (Option (Result α)))
    (Wrap : α → FoundValue) : KeepsShape (ValueHandler Z Extractor Wrap) := by
  intro F i j b F2 h
  unfold ValueHandler at h
  simp only at h
  split at h
  · cases h
  · split at h
    · cases h
    · simp only [Option.some.injEq, Prod.mk.injEq] at h
      rw [← h.2]
    · split at h
      · cases h
      · split at h
        · cases h
        · rename_i F3 hJ
          simp only [Option.some.injEq, Prod.mk.injEq] at h
          rw [← h.2]
          unfold OffsetFinder.Shape OffsetFinder.AddFind
          simp only
          rw [JSON_SyncSearchRange_regions _ _ _ _ _ hJ]

theorem Link_handled (T : TSearchFor) :
    ({ T with Handled := true } : TSearchFor).Link = T.Link := rfl

theorem MarkGroup_shape (GroupID : String) (Type' : SearchType) (Regions : List TSearchRegion) :
    (MarkGroup GroupID Type' Regions).map TSearchRegion.Shape =
      Regions.map TSearchRegion.Shape := by
  unfold MarkGroup
  rw [List.map_map]
  apply List.map_congr_left
  intro R _
  simp only [Function.comp, TSearchRegion.Shape, List.map_map, Prod.mk.injEq, true_and]
  apply List.map_congr_left
  intro T _
  simp only [Function.comp]
  split <;> rfl

theorem AddGroupedFinds_regions (Decryptors : List TslDecryption) :
    ∀ (Finds : List TSearchFor) (F F1 : OffsetFinder),
      AddGroupedFinds Decryptors Finds F = some F1 → F1.SearchRegions = F.SearchRegions := by
  intro Finds
  induction Finds with
  | nil =>
    intro F F1 h
    simp only [AddGroupedFinds, Option.some.injEq] at h
    subst h
    rfl
  | cons Find Rest ih =>
    intro F F1 h
    rw [AddGroupedFinds] at h
    split at h
    · cases h
    · split at h
      · cases h
      · split at h
        · cases h
        · exact ih (F.AddFind _) F1 h

theorem SetHandled_shape (F : OffsetFinder) (i j : Nat) :
    (F.SetHandled i j).Shape = F.Shape := by
  unfold OffsetFinder.SetHandled
  cases hT : F.Target i j with
  | none => rfl
  | some P =>
    obtain ⟨R, T⟩ := P
    obtain ⟨hR, hF⟩ := Target_region F i j R T hT
    simp only [OffsetFinder.Shape]
    refine Shape_set _ i R _ hR ?_
    simp only [TSearchRegion.Shape, Prod.mk.injEq, true_and]
    rw [List.map_set, Link_handled]
    exact List_set_same _ _ _ (by simp [hF])

theorem TslDecryptorHandler32_KeepsShape (Punned : ZydisDecodedOperand → ZydisRegister) :
    KeepsShape (TslDecryptorHandler32 Punned) := by
  intro F R T b F1 h
  unfold TslDecryptorHandler32 at h
  split at h
  · cases h
  · rename_i Region ToFind hT
    split_ifs at h
    · simp only [Option.some.injEq, Prod.mk.injEq] at h
      rw [← h.2]
    · simp only at h
      split at h
      · cases h
      · rename_i DecryptorsOpt ChainID hE
        split at h
        · simp only [Option.some.injEq, Prod.mk.injEq] at h
          rw [← h.2]
          rfl
        · split at h
          · cases h
          · split at h
            · split_ifs at h
              · simp only [Option.some.injEq, Prod.mk.injEq] at h
                rw [← h.2]
                exact MarkGroup_shape _ _ _
              · simp only [Option.some.injEq, Prod.mk.injEq] at h
                rw [← h.2]
                exact MarkGroup_shape _ _ _
              · split at h
                · cases h
                · rename_i F2 hA
                  simp only [Option.some.injEq, Prod.mk.injEq] at h
                  rw [← h.2]
                  unfold OffsetFinder.Shape
                  rw [AddGroupedFinds_regions _ _ _ _ hA]
                  exact MarkGroup_shape _ _ _
            · split at h
              · cases h
              · split at h
                · cases h
                · rename_i F2 hJ
                  simp only [Option.some.injEq, Prod.mk.injEq] at h
                  rw [← h.2, SetHandled_shape]
                  unfold OffsetFinder.Shape OffsetFinder.AddFind
                  simp only
                  rw [JSON_SyncSearchRange_regions _ _ _ _ _ hJ]

theorem TslDecryptorHandler64_KeepsShape (Punned : ZydisDecodedOperand → ZydisRegister) :
    KeepsShape (TslDecryptorHandler64 Punned) := by
  intro F R T b F1 h
  unfold TslDecryptorHandler64 at h
  split at h
  · cases h
  · simp only at h
    split at h
    · cases h
    · rename_i DecryptorsOpt ChainID hE
      split at h
      · simp only [Option.some.injEq, Prod.mk.injEq] at h
        rw [← h.2]
        rfl
      · split at h
        · cases h
        · split at h
          · cases h
          · split at h
            · cases h
            · rename_i F2 hJ
              simp only [Option.some.injEq, Prod.mk.injEq] at h
              rw [← h.2]
              unfold OffsetFinder.Shape OffsetFinder.AddFind
              simp only
              rw [JSON_SyncSearchRange_regions _ _ _ _ _ hJ]

theorem SetFunctionBase_shape (Z : ZydisStrings) (A : DumpAnalyzer)
    (InPeSections : Option (List PeSection)) (FunctionBases : List Nat)
    (Function Function2 : TSearchRegion) (Found : Option Nat)
    (h : SetFunctionBase Z A InPeSections FunctionBases Function = some (Found, Function2)) :
    Function2.Shape = Function.Shape := by
  unfold SetFunctionBase at h
  by_cases hA : Function.Anchors = []
  · simp only [hA, if_true, Option.some.injEq, Prod.mk.injEq] at h
    rw [← h.2]
  · simp only [hA, if_false] at h
    by_cases hSize : add64 Function.RegionRange.Size Function.RegionRange.SizeVariation = 0
    · simp only [hSize, if_true, Option.some.injEq, Prod.mk.injEq] at h
      rw [← h.2]
    · simp only [hSize, if_false] at h
      split at h
      · cases h
      · simp only [Option.some.injEq, Prod.mk.injEq] at h
        rw [← h.2]
      · split at h
        · cases h
        · simp only [Option.some.injEq, Prod.mk.injEq] at h
          rw [← h.2]
        · split_ifs at h
          · simp only [Option.some.injEq, Prod.mk.injEq] at h
            rw [← h.2]
            rfl
          · simp only [Option.some.injEq, Prod.mk.injEq] at h
            rw [← h.2]

theorem SetBase_shape (Z : ZydisStrings) (F F2 : OffsetFinder) (i : Nat) (b : Bool)
    (h : SetBase Z F i = some (b, F2)) : F2.Shape = F.Shape := by
  unfold SetBase at h
  cases hR : F.SearchRegions[i]? with
  | none => simp [hR] at h
  | some R =>
    simp only [hR] at h
    split at h
    · split at h
      · cases h
      · rename_i Found R2 hS
        simp only [Option.some.injEq, Prod.mk.injEq] at h
        rw [← h.2]
        exact Shape_set _ i R R2 hR (SetFunctionBase_shape _ _ _ _ _ _ _ hS)
    · split at h
      · simp only [Option.some.injEq, Prod.mk.injEq] at h
        rw [← h.2]
      · split_ifs at h
        · split at h
          · simp only [Option.some.injEq, Prod.mk.injEq] at h
            rw [← h.2]
          · simp only [Option.some.injEq, Prod.mk.injEq] at h
            rw [← h.2]
            exact Shape_set _ i R _ hR rfl
        · simp only [Option.some.injEq, Prod.mk.injEq] at h
          rw [← h.2]
    · simp only [Option.some.injEq, Prod.mk.injEq] at h
      rw [← h.2]

theorem HandleFindsLoop_congr (Hs1 Hs2 : SearchType → Option SearchHandler)
    (Sh : List RegionShape) (i : Nat)
    (hH : ∀ (F : OffsetFinder) (j : Nat) (R : TSearchRegion) (T : TSearchFor), F.Shape = Sh →
      F.Target i j = some (R, T) →
      (Hs1 T.SearchType = none ∧ Hs2 T.SearchType = none) ∨
      ∃ h1 h2, Hs1 T.SearchType = some h1 ∧ Hs2 T.SearchType = some h2 ∧
        h1 F i j = h2 F i j ∧ ∀ b F2, h1 F i j = some (b, F2) → F2.Shape = Sh) :
    ∀ (n j : Nat) (F : OffsetFinder), F.Shape = Sh →
      HandleFindsLoop Hs1 i n j F = HandleFindsLoop Hs2 i n j F ∧
      ∀ F2, HandleFindsLoop Hs1 i n j F = some F2 → F2.Shape = Sh := by
  intro n
  induction n with
  | zero =>
    intro j F hF
    refine ⟨rfl, ?_⟩
    intro F2 h
    simp only [HandleFindsLoop, Option.some.injEq] at h
    rw [← h]
    exact hF
  | succ n ih =>
    intro j F hF
    simp only [HandleFindsLoop]
    cases hT : F.Target i j with
    | none => simp
    | some P =>
      obtain ⟨R, T⟩ := P
      simp only
      rcases hH F j R T hF hT with ⟨e1, e2⟩ | ⟨h1, h2, e1, e2, heq, hsh⟩
      · simp [e1, e2]
      · simp only [e1, e2]
        rw [← heq]
        cases hr : h1 F i j with
        | none => simp
        | some Q =>
          obtain ⟨b, F3⟩ := Q
          simp only
          exact ih (j + 1) F3 (hsh b F3 hr)

theorem HandleExpectedFinds_congr (Hs1 Hs2 : SearchType → Option SearchHandler)
    (Sh : List RegionShape) (k : Nat) (F : OffsetFinder) (hF : F.Shape = Sh)
    (hH : ∀ (n j : Nat) (F : OffsetFinder), F.Shape = Sh →
      HandleFindsLoop Hs1 k n j F = HandleFindsLoop Hs2 k n j F ∧
      ∀ F2, HandleFindsLoop Hs1 k n j F = some F2 → F2.Shape = Sh) :
    F.HandleExpectedFinds Hs1 k = F.HandleExpectedFinds Hs2 k ∧
    ∀ F2, F.HandleExpectedFinds Hs1 k = some F2 → F2.Shape = Sh := by
  unfold OffsetFinder.HandleExpectedFinds
  cases hR : F.SearchRegions[k]? with
  | none => simp
  | some R => exact hH R.SearchFor.length 0 F hF

theorem XReferenceLoop_congr (Hs1 Hs2 : SearchType → Option SearchHandler)
    (Sh : List RegionShape) (NextID : String) (Value : Nat)
    (hH : ∀ (k : Nat) (E : RegionShape), Sh[k]? = some E → E.1 = NextID →
      ∀ (n j : Nat) (F : OffsetFinder), F.Shape = Sh →
        HandleFindsLoop Hs1 k n j F = HandleFindsLoop Hs2 k n j F ∧
        ∀ F2, HandleFindsLoop Hs1 k n j F = some F2 → F2.Shape = Sh) :
    ∀ (n idx : Nat) (F : OffsetFinder), F.Shape = Sh →
      XReferenceLoop Hs1 NextID Value n idx F = XReferenceLoop Hs2 NextID Value n idx F ∧
      ∀ b F2, XReferenceLoop Hs1 NextID Value n idx F = some (b, F2) → F2.Shape = Sh := by
  intro n
  induction n with
  | zero =>
    intro idx F hF
    refine ⟨rfl, ?_⟩
    intro b F2 h
    simp only [XReferenceLoop, Option.some.injEq, Prod.mk.injEq] at h
    rw [← h.2]
    exact hF
  | succ n ih =>
    intro idx F hF
    simp only [XReferenceLoop]
    cases hR : F.SearchRegions[idx]? with
    | none => simp
    | some SR =>
      simp only
      by_cases hID : SR.RegionID = NextID
      · rw [if_pos hID, if_pos hID]
        by_cases hAcc : SR.AccessType ≠ AccessType.XReference
        · rw [if_pos hAcc, if_pos hAcc]
          exact ih (idx + 1) F hF
        · rw [if_neg hAcc, if_neg hAcc]
          have hlt : idx < F.SearchRegions.length := by
            rcases Nat.lt_or_ge idx F.SearchRegions.length with h | h
            · exact h
            · rw [List.getElem?_eq_none h] at hR
              cases hR
          have hShape2 : ∀ (F2 : OffsetFinder) (SR2 : TSearchRegion), SR2.Shape = SR.Shape →
              F2.SearchRegions = F.SearchRegions.set idx SR2 → F2.Shape = Sh := by
            intro F2 SR2 hS hE
            unfold OffsetFinder.Shape
            rw [hE, Shape_set _ idx SR SR2 hR hS]
            exact hF
          have hE := hH idx SR.Shape (by rw [← hF]; exact Shape_at F idx SR hR)
            (by simpa [TSearchRegion.Shape] using hID)
          obtain ⟨heq, hsh⟩ := HandleExpectedFinds_congr Hs1 Hs2 Sh idx
            { F with
              SearchRegions :=
                F.SearchRegions.set idx
                  { SR with RegionRange := { SR.RegionRange with Offset := Value } } }
            (hShape2 _ { SR with RegionRange := { SR.RegionRange with Offset := Value } } rfl rfl)
            hE
          rw [← heq]
          refine ⟨rfl, ?_⟩
          intro b F2 h
          split at h
          · cases h
          · rename_i F3 h3
            simp only [Option.some.injEq, Prod.mk.injEq] at h
            rw [← h.2]
            exact hsh F3 h3
      · rw [if_neg hID, if_neg hID]
        exact ih (idx + 1) F hF

theorem XReferenceHandler_congr (Z : ZydisStrings)
    (Hs1 Hs2 : SearchType → Option SearchHandler) (Sh : List RegionShape)
    (F : OffsetFinder) (i j : Nat) (R : TSearchRegion) (T : TSearchFor)
    (hF : F.Shape = Sh) (hT : F.Target i j = some (R, T))
    (hH : ∀ N, T.NextRegion = some N →
      ∀ (k : Nat) (E : RegionShape), Sh[k]? = some E → E.1 = N.ID →
      ∀ (n j : Nat) (F : OffsetFinder), F.Shape = Sh →
        HandleFindsLoop Hs1 k n j F = HandleFindsLoop Hs2 k n j F ∧
        ∀ F2, HandleFindsLoop Hs1 k n j F = some F2 → F2.Shape = Sh) :
    XReferenceHandler Z Hs1 F i j = XReferenceHandler Z Hs2 F i j ∧
    ∀ b F2, XReferenceHandler Z Hs1 F i j = some (b, F2) → F2.Shape = Sh := by
  unfold XReferenceHandler
  simp only [hT]
  cases hV : ValueExtractingHandler Z F.Analyzer R T {}
      (fun StartOffset Size => F.Analyzer.ResolveRipRelativeOffset StartOffset Size none) with
  | none => simp
  | some P =>
    obtain ⟨Ex, Cov⟩ := P
    cases Ex with
    | none =>
      simp only [true_and]
      intro b F2 h
      simp only [Option.some.injEq, Prod.mk.injEq] at h
      rw [← h.2]
      exact hF
    | some Extracted =>
      simp only
      cases hVal : Extracted.Value with
      | none => simp
      | some Value =>
        cases hN : T.NextRegion with
        | none => simp
        | some N =>
          simp only
          obtain ⟨heq, hsh⟩ := XReferenceLoop_congr Hs1 Hs2 Sh N.ID Value (hH N hN)
            F.SearchRegions.length 0 F hF
          rw [← heq]
          refine ⟨rfl, ?_⟩
          intro b F2 h
          split at h
          · cases h
          · rename_i Handled F3 h3
            have hS3 := hsh Handled F3 h3
            split at h
            · cases h
            · split at h
              · cases h
              · rename_i F4 hJ
                simp only [Option.some.injEq, Prod.mk.injEq] at h
                rw [← h.2]
                unfold OffsetFinder.Shape
                rw [JSON_SyncSearchRange_regions _ _ _ _ _ hJ]
                exact hS3

theorem Nested_congr (Z : ZydisStrings) (Punned : ZydisDecodedOperand → ZydisRegister)
    (Stub1 Stub2 : SearchHandler) (Rank : String → Nat) (Sh : List RegionShape)
    (hA : AcyclicShape Rank Sh) :
    ∀ (d k : Nat) (E : RegionShape), Sh[k]? = some E → Rank E.1 < d →
      ∀ (n j : Nat) (F : OffsetFinder), F.Shape = Sh →
        HandleFindsLoop (DefaultHandlersWith Stub1 Z Punned d) k n j F =
          HandleFindsLoop (DefaultHandlersWith Stub2 Z Punned d) k n j F ∧
        ∀ F2, HandleFindsLoop (DefaultHandlersWith Stub1 Z Punned d) k n j F = some F2 →
          F2.Shape = Sh := by
  intro d
  induction d with
  | zero =>
    intro k E _ h
    omega
  | succ d ih =>
    intro k E hE hRank
    apply HandleFindsLoop_congr
    intro F j R T hF hT
    obtain ⟨hR, hTj⟩ := Target_region F k j R T hT
    have hES : E = R.Shape := by
      have h1 := Shape_at F k R hR
      rw [hF, hE] at h1
      exact Option.some.inj h1
    cases hTy : T.SearchType with
    | Unknown =>
      left
      exact ⟨rfl, rfl⟩
    | Immediate =>
      right
      refine ⟨ImmediateHandler Z, ImmediateHandler Z, rfl, rfl, rfl, ?_⟩
      intro b F2 h
      rw [← hF]
      exact ValueHandler_KeepsShape Z _ _ F k j b F2 h
    | Displacement =>
      right
      refine ⟨DisplacementHandler Z, DisplacementHandler Z, rfl, rfl, rfl, ?_⟩
      intro b F2 h
      rw [← hF]
      exact ValueHandler_KeepsShape Z _ _ F k j b F2 h
    | Reference =>
      right
      refine ⟨ReferenceHandler Z, ReferenceHandler Z, rfl, rfl, rfl, ?_⟩
      intro b F2 h
      rw [← hF]
      exact ValueHandler_KeepsShape Z _ _ F k j b F2 h
    | TslDecryptor32 =>
      right
      refine ⟨TslDecryptorHandler32 Punned, TslDecryptorHandler32 Punned, rfl, rfl, rfl, ?_⟩
      intro b F2 h
      rw [← hF]
      exact TslDecryptorHandler32_KeepsShape Punned F k j b F2 h
    | TslDecryptor64 =>
      right
      refine ⟨TslDecryptorHandler64 Punned, TslDecryptorHandler64 Punned, rfl, rfl, rfl, ?_⟩
      intro b F2 h
      rw [← hF]
      exact TslDecryptorHandler64_KeepsShape Punned F k j b F2 h
    | XReference =>
      right
      refine ⟨XReferenceHandler Z (DefaultHandlersWith Stub1 Z Punned d),
        XReferenceHandler Z (DefaultHandlersWith Stub2 Z Punned d), rfl, rfl, ?_⟩
      refine XReferenceHandler_congr Z _ _ Sh F k j R T hF hT ?_
      intro N hN k2 E2 hE2 hID
      refine ih k2 E2 hE2 ?_
      have hmem : E ∈ Sh := List.mem_iff_getElem?.2 ⟨k, hE⟩
      have hL : T.Link ∈ E.2.2 := by
        rw [hES]
        exact List.mem_map.2 ⟨T, List.mem_iff_getElem?.2 ⟨j, hTj⟩, rfl⟩
      have h3 := hA E hmem T.Link hL hTy N hN
      rw [hID]
      omega

theorem FindLoop_congr (Z : ZydisStrings) (Hs1 Hs2 : SearchType → Option SearchHandler)
    (Sh : List RegionShape)
    (hH : ∀ (k : Nat) (E : RegionShape), Sh[k]? = some E →
      ∀ (n j : Nat) (F : OffsetFinder), F.Shape = Sh →
        HandleFindsLoop Hs1 k n j F = HandleFindsLoop Hs2 k n j F ∧
        ∀ F2, HandleFindsLoop Hs1 k n j F = some F2 → F2.Shape = Sh) :
    ∀ (n i : Nat) (F : OffsetFinder), F.Shape = Sh →
      FindLoop Hs1 (RegionHandler Z) n i F = FindLoop Hs2 (RegionHandler Z) n i F := by
  intro n
  induction n with
  | zero =>
    intro i F _
    rfl
  | succ n ih =>
    intro i F hF
    simp only [FindLoop]
    cases hR : F.SearchRegions[i]? with
    | none => rfl
    | some R =>
      simp only
      by_cases hAcc : R.AccessType ≠ AccessType.Normal
      · rw [if_pos hAcc, if_pos hAcc]
        exact ih (i + 1) F hF
      · rw [if_neg hAcc, if_neg hAcc]
        cases hRH : RegionHandler Z F i with
        | none => rfl
        | some P =>
          obtain ⟨b, F2⟩ := P
          have hF2 : F2.Shape = Sh := by
            rw [← hF]
            exact SetBase_shape Z F F2 i b hRH
          cases b with
          | false => exact ih (i + 1) F2 hF2
          | true =>
            simp only
            have hlt : i < F.SearchRegions.length := by
              rcases Nat.lt_or_ge i F.SearchRegions.length with h | h
              · exact h
              · rw [List.getElem?_eq_none h] at hR
                cases hR
            have hE : Sh[i]? = some R.Shape := by
              rw [← hF]
              exact Shape_at F i R hR
            obtain ⟨heq, hsh⟩ := HandleExpectedFinds_congr Hs1 Hs2 Sh i F2 hF2
              (hH i R.Shape hE)
            rw [← heq]
            cases h3 : F2.HandleExpectedFinds Hs1 i with
            | none => rfl
            | some F3 => exact ih (i + 1) F3 (hsh F3 h3)

theorem Acyclic_shape (Rank : String → Nat) (F : OffsetFinder)
    (h : Acyclic Rank F.SearchRegions) : AcyclicShape Rank F.Shape := by
  intro E hE L hL hTy N hN
  obtain ⟨R, hR, rfl⟩ := List.mem_map.1 hE
  obtain ⟨T, hT, rfl⟩ := List.mem_map.1 hL
  exact h R hR T hT hTy N hN

theorem DefaultHandlers_eq_with (Z : ZydisStrings)
    (Punned : ZydisDecodedOperand → ZydisRegister) (Extra : Nat) :
    ∀ Depth, DefaultHandlers Z Punned (Extra + Depth) =
      DefaultHandlersWith (NestedXReferenceHandler Z Punned Extra) Z Punned Depth := by
  intro Depth
  induction Depth with
  | zero =>
    funext Type'
    cases Type' <;> cases Extra <;> rfl
  | succ Depth ih =>
    funext Type'
    cases Type' with
    | XReference =>
      show some (XReferenceHandler Z (DefaultHandlers Z Punned (Extra + Depth))) = _
      rw [ih]
      rfl
    | Unknown => rfl
    | Immediate => rfl
    | Displacement => rfl
    | Reference => rfl
    | TslDecryptor32 => rfl
    | TslDecryptor64 => rfl

theorem Find_congr_stub (Z : ZydisStrings) (Punned : ZydisDecodedOperand → ZydisRegister)
    (F : OffsetFinder) (Rank : String → Nat) (Depth : Nat) (ShouldSyncSearchConfig : Bool)
    (hAcyclic : Acyclic Rank F.SearchRegions)
    (hDepth : ∀ Region ∈ F.SearchRegions, Rank Region.RegionID < Depth)
    (Stub1 Stub2 : SearchHandler) :
    F.Find (DefaultHandlersWith Stub1 Z Punned Depth) (RegionHandler Z) ShouldSyncSearchConfig =
      F.Find (DefaultHandlersWith Stub2 Z Punned Depth) (RegionHandler Z)
        ShouldSyncSearchConfig := by
  unfold OffsetFinder.Find
  rw [FindLoop_congr Z _ (DefaultHandlersWith Stub2 Z Punned Depth) F.Shape ?_ _ 0 F rfl]
  intro k E hE
  refine Nested_congr Z Punned Stub1 Stub2 Rank F.Shape (Acyclic_shape Rank F hAcyclic) Depth k E
    hE ?_
  obtain ⟨R, hR, rfl⟩ := List.mem_map.1 (List.mem_iff_getElem?.2 ⟨k, hE⟩)
  exact hDepth R hR

theorem DefaultHandlers_XReference (Z : ZydisStrings)
    (Punned : ZydisDecodedOperand → ZydisRegister) (Depth : Nat) :
    DefaultHandlers Z Punned Depth SearchType.XReference =
      some (NestedXReferenceHandler Z Punned Depth) := by
  cases Depth <;> rfl

theorem CycleFinder_step (Handlers : SearchType → Option SearchHandler) (Nested : SearchHandler)
    (hH : Handlers SearchType.XReference = some Nested)
    (hN : Nested CycleFinder 1 0 = none) (i : Nat) (hi : i = 0 ∨ i = 1) :
    XReferenceHandler ScenarioStrings Handlers CycleFinder i 0 = none := by
  have hFinds : CycleFinder.HandleExpectedFinds Handlers 1 = none := by
    unfold OffsetFinder.HandleExpectedFinds
    have e1 : CycleFinder.SearchRegions[1]? = some CycleLoop := rfl
    rw [e1]
    have eL : CycleLoop.SearchFor.length = 1 := rfl
    simp only [eL, HandleFindsLoop]
    have eT : CycleFinder.Target 1 0 = some (CycleLoop, CycleTarget "Again") := rfl
    rw [eT]
    have eS : (CycleTarget "Again").SearchType = SearchType.XReference := rfl
    simp only [eS, hH, hN]
  have hLoop : XReferenceLoop Handlers "Loop" 0 CycleFinder.SearchRegions.length 0 CycleFinder =
      none := by
    have eLen : CycleFinder.SearchRegions.length = 2 := rfl
    rw [eLen]
    unfold XReferenceLoop
    have e0 : CycleFinder.SearchRegions[0]? = some CycleStart := rfl
    rw [e0]
    simp only
    rw [if_neg (by decide)]
    unfold XReferenceLoop
    have e1 : CycleFinder.SearchRegions[0 + 1]? = some CycleLoop := rfl
    rw [e1]
    simp only
    rw [if_pos (by decide), if_neg (by decide)]
    have eF : ({ CycleFinder with
        SearchRegions :=
          CycleFinder.SearchRegions.set (0 + 1)
            { CycleLoop with RegionRange := { CycleLoop.RegionRange with Offset := 0 } } } :
        OffsetFinder) = CycleFinder := rfl
    rw [eF]
    have e01 : (0 + 1 : Nat) = 1 := rfl
    rw [e01, hFinds]
  unfold XReferenceHandler
  rcases hi with rfl | rfl
  · have eT : CycleFinder.Target 0 0 = some (CycleStart, CycleTarget "ToLoop") := rfl
    have eV : ValueExtractingHandler ScenarioStrings CycleFinder.Analyzer CycleStart
        (CycleTarget "ToLoop") {}
        (fun StartOffset Size =>
          CycleFinder.Analyzer.ResolveRipRelativeOffset StartOffset Size none) =
        some (some ⟨⟨0, 7⟩, some 0⟩, {}) := by decide
    rw [eT]
    simp only [eV]
    have eN : (CycleTarget "ToLoop").NextRegion = some ⟨"Loop"⟩ := rfl
    simp only [eN, hLoop]
  · have eT : CycleFinder.Target 1 0 = some (CycleLoop, CycleTarget "Again") := rfl
    have eV : ValueExtractingHandler ScenarioStrings CycleFinder.Analyzer CycleLoop
        (CycleTarget "Again") {}
        (fun StartOffset Size =>
          CycleFinder.Analyzer.ResolveRipRelativeOffset StartOffset Size none) =
        some (some ⟨⟨0, 7⟩, some 0⟩, {}) := by decide
    rw [eT]
    simp only [eV]
    have eN : (CycleTarget "Again").NextRegion = some ⟨"Loop"⟩ := rfl
    simp only [eN, hLoop]

theorem CycleFinder_nested (Depth : Nat) :
    NestedXReferenceHandler ScenarioStrings TslPunned Depth CycleFinder 1 0 = none ∧
    NestedXReferenceHandler ScenarioStrings TslPunned Depth CycleFinder 0 0 = none := by
  induction Depth with
  | zero => exact ⟨rfl, rfl⟩
  | succ Depth ih =>
    have hH := DefaultHandlers_XReference ScenarioStrings TslPunned Depth
    exact ⟨CycleFinder_step _ _ hH ih.1 1 (Or.inr rfl), CycleFinder_step _ _ hH ih.1 0 (Or.inl rfl)⟩

/-- C35 (counterexample): nothing keeps the handlers from entering a region
that is being processed.  In the cycle scenario the region `Start` has a
target of search type `XReference` that names the region `Loop`, and the
target of `Loop` names `Loop` again; the dump holds `mov rax, [rip-7]`, whose
reference resolves to its own offset, so every resolution succeeds with the
same base.  `Find` gives no value whatever bound is put on the nesting of the
handlers: the nesting does not end. -/
theorem Find_cycle_never_returns :
    NeverReturns (fun Depth =>
      CycleFinder.Find (DefaultHandlers ScenarioStrings TslPunned Depth)
        (RegionHandler ScenarioStrings) false) := by
  intro Depth
  show CycleFinder.Find (DefaultHandlers ScenarioStrings TslPunned Depth)
    (RegionHandler ScenarioStrings) false = none
  unfold OffsetFinder.Find
  have eLen : CycleFinder.SearchRegions.length = 2 := rfl
  rw [eLen]
  unfold FindLoop
  have e0 : CycleFinder.SearchRegions[0]? = some CycleStart := rfl
  rw [e0]
  simp only
  rw [if_neg (by decide)]
  have eR : RegionHandler ScenarioStrings CycleFinder 0 = some (true, CycleFinder) := rfl
  rw [eR]
  simp only
  have hFinds : CycleFinder.HandleExpectedFinds
      (DefaultHandlers ScenarioStrings TslPunned Depth) 0 = none := by
    unfold OffsetFinder.HandleExpectedFinds
    rw [e0]
    have eL : CycleStart.SearchFor.length = 1 := rfl
    simp only [eL, HandleFindsLoop]
    have eT : CycleFinder.Target 0 0 = some (CycleStart, CycleTarget "ToLoop") := rfl
    rw [eT]
    have eS : (CycleTarget "ToLoop").SearchType = SearchType.XReference := rfl
    simp only [eS, DefaultHandlers_XReference, (CycleFinder_nested Depth).2]
  rw [hFinds]

/-- C35 (amended): when the cross-references of the regions form no cycle
(every target of search type `XReference` names a region of a smaller rank
than its own region) and the bound on the nesting of the handlers exceeds
every rank, `Find` does not come down to nesting depth 0: its result does not
depend on what the X-reference handler does there, and a larger bound gives
the same result. -/
theorem Find_acyclic_bounded (Z : ZydisStrings) (Punned : ZydisDecodedOperand → ZydisRegister)
    (F : OffsetFinder) (Rank : String → Nat) (Depth : Nat) (ShouldSyncSearchConfig : Bool)
    (hAcyclic : Acyclic Rank F.SearchRegions)
    (hDepth : ∀ Region ∈ F.SearchRegions, Rank Region.RegionID < Depth) :
    (∀ Stub : SearchHandler,
      F.Find (DefaultHandlersWith Stub Z Punned Depth) (RegionHandler Z)
          ShouldSyncSearchConfig =
        F.Find (DefaultHandlers Z Punned Depth) (RegionHandler Z) ShouldSyncSearchConfig) ∧
    (∀ Extra : Nat,
      F.Find (DefaultHandlers Z Punned (Extra + Depth)) (RegionHandler Z)
          ShouldSyncSearchConfig =
        F.Find (DefaultHandlers Z Punned Depth) (RegionHandler Z) ShouldSyncSearchConfig) := by
  have h0 : DefaultHandlers Z Punned Depth =
      DefaultHandlersWith (NestedXReferenceHandler Z Punned 0) Z Punned Depth := by
    have := DefaultHandlers_eq_with Z Punned 0 Depth
    rwa [Nat.zero_add] at this
  constructor
  · intro Stub
    rw [h0]
    exact Find_congr_stub Z Punned F Rank Depth ShouldSyncSearchConfig hAcyclic hDepth _ _
  · intro Extra
    rw [DefaultHandlers_eq_with Z Punned Extra Depth, h0]
    exact Find_congr_stub Z Punned F Rank Depth ShouldSyncSearchConfig hAcyclic hDepth _ _

/-- C35 (amended), at the scenario without cycle: the target of `Start` names
`Loop`, whose target is an immediate; with the ranks 1 and 0 and the bound 2
`Find` returns, with the regions as they were and no find. -/
theorem Find_acyclic_bounded_witness :
    (ChainFinder.Find (DefaultHandlers ScenarioStrings TslPunned 2)
      (RegionHandler ScenarioStrings) false).map (fun F => (F.SearchRegions, F.FoundList)) =
        some (ChainRegions, []) ∧
    ((∀ Stub : SearchHandler,
      ChainFinder.Find (DefaultHandlersWith Stub ScenarioStrings TslPunned 2)
          (RegionHandler ScenarioStrings) false =
        ChainFinder.Find (DefaultHandlers ScenarioStrings TslPunned 2)
          (RegionHandler ScenarioStrings) false) ∧
    (∀ Extra : Nat,
      ChainFinder.Find (DefaultHandlers ScenarioStrings TslPunned (Extra + 2))
          (RegionHandler ScenarioStrings) false =
        ChainFinder.Find (DefaultHandlers ScenarioStrings TslPunned 2)
          (RegionHandler ScenarioStrings) false)) :=
  ⟨by decide,
    Find_acyclic_bounded ScenarioStrings TslPunned ChainFinder ChainRank 2 false
      (by simp [Acyclic, ChainFinder, ChainRegions, CycleStart, CycleTarget, ChainRank])
      (by decide)⟩

set_option maxRecDepth 100000 in
/-- C20 (counterexample): the write-back can change a value that is neither
`Offset` nor `Size`.  In `ShadowedConfig` the first entry has the `RegionID`
of the region of the synchronisation scenario, a `RegionType` that names no
region type, and no member `SearchFor`; `Find` passes it over and builds the
regions of the scenario.  The write-back for the target of the region stops at
this first entry with the `RegionID`, and `RegionJson["SearchFor"]` adds a
null member `SearchFor` to it; the search range of the target stays as it
was.  The same happens in a run of `Find(FilePath, true)` with the
synchronisation flag on. -/
theorem JSON_UpdateSearchRange_adds_member :
    ParseRegions ShadowedConfig.items = ParseRegions SyncConfig.items ∧
    ({ SyncFinder true with JSON_SearchRegions := ShadowedConfig } :
        OffsetFinder).JSON_UpdateSearchRange { Offset := 0x90, Size := 2 }
        (SyncRegion { Offset := 0x80, Size := 0x30 })
        (SyncTarget { Offset := 0x80, Size := 0x30 }) =
      Except.ok { SyncFinder true with JSON_SearchRegions := ShadowedConfigWritten } ∧
    FlaggedFinder.FindFile (some ShadowedConfig) (DefaultHandlers ScenarioStrings TslPunned 1)
        (RegionHandler ScenarioStrings) true =
      some { ResyncResult with JSON_SearchRegions := ShadowedConfigWritten } ∧
    ShadowedConfig.get? [Sum.inr 0, Sum.inl "SearchFor"] = none ∧
    ShadowedConfigWritten.get? [Sum.inr 0, Sum.inl "SearchFor"] = some JSON.null ∧
    ShadowedConfigWritten.numberAt
        [Sum.inr 1, Sum.inl "SearchFor", Sum.inr 0, Sum.inl "SearchRange", Sum.inl "Offset"] =
      some 0x80 := by
  refine ⟨by decide, by rfl, by rfl, by rfl, by rfl, by rfl⟩

set_option maxRecDepth 100000 in
/-- C21 (code defect): a run of `Find` that updates the configuration loses
its find in the run on the updated configuration.  On a finder whose
synchronisation flag is on (the state after a call of `Find(Regions, true)`),
`Find(FilePath, true)` over the synchronisation scenario adds the find
`0x12345678` and writes the range `0x90`, 2 into the configuration, which
`SyncSearchConfig()` then writes to the file; a run over the same dump on the
configuration re-parsed from that file, from a fresh finder or from the same
state, finds nothing, because the range written holds the first sub-pattern
only.  From a finder whose flag is off, as `HandleFind` makes it, the pass
writes nothing, so the file `SyncSearchConfig()` writes is the configuration
parsed. -/
theorem Find_resync_loses_find :
    FreshFinder.Find (DefaultHandlers ScenarioStrings TslPunned 1)
        (RegionHandler ScenarioStrings) true = some FlaggedFinder ∧
    FlaggedFinder.FindFile (some SyncConfig) (DefaultHandlers ScenarioStrings TslPunned 1)
        (RegionHandler ScenarioStrings) true = some ResyncWritten ∧
    FoundValues ResyncWritten = [FoundValue.U64 0x12345678] ∧
    ResyncWritten.SyncSearchConfig SyncConfig = SyncConfigWritten ∧
    (FreshFinder.FindFile (some (ResyncWritten.SyncSearchConfig SyncConfig))
        (DefaultHandlers ScenarioStrings TslPunned 1)
        (RegionHandler ScenarioStrings) true).map FoundValues = some [] ∧
    (FlaggedFinder.FindFile (some (ResyncWritten.SyncSearchConfig SyncConfig))
        (DefaultHandlers ScenarioStrings TslPunned 1)
        (RegionHandler ScenarioStrings) true).map FoundValues = some [] ∧
    (∀ (Z : ZydisStrings) (Punned : ZydisDecodedOperand → ZydisRegister) (Depth : Nat)
      (F F1 : OffsetFinder) (Config : JSON),
      F.ShouldSyncSearchConfig = false →
      F.FindFile (some Config) (DefaultHandlers Z Punned Depth) (RegionHandler Z) true =
        some F1 →
      F1.SyncSearchConfig Config = Config) := by
  refine ⟨by rfl, by rfl, by rfl, by rfl, by rfl, by rfl, ?_⟩
  intro Z Punned Depth F F1 Config hF hRun
  have hKeep : F1.JSON_SearchRegions = Config :=
    FindFile_keeps Z _ (DefaultHandlers_KeepsConfig Z Punned Depth) F F1 Config true hF hRun
  unfold OffsetFinder.SyncSearchConfig
  split_ifs
  · exact hKeep
  · rfl

end COF
